import Mathlib

/-!
# Podcast playlist scripts: reference extraction, GUID resolution, RSS rendering

A shallow embedding of the scripts under `scripts/`:

* the DOM view the scripts use (`getElementsByTagName`, `getAttribute`,
  `parentNode`, `textContent`),
* the remote-item extractors of `create-lightning-style-playlist.js`,
  `create-minimal-remote-items.js` and `parse-itdv-music-feed.js`,
* the resolvers of `resolve-itdv-tracks.mjs` and `resolve-remote-feeds.js`,
  with the network as an explicit oracle and the request log as state,
* `escapeXML` and the minimal RSS renderers.

JavaScript strings are modelled by `String`; `null`/`undefined` by `none`.
-/

namespace Playlist

/-! ## DOM -/

/-- A parsed XML node: an element with its tag name, attributes and children,
or a text node. -/
inductive XmlNode where
  | element (tagName : String) (attributes : List (String × String))
      (childNodes : List XmlNode)
  | text (data : String)

/-- A parsed XML document: the node that owns the top-level nodes. It has no
tag name and no parent. -/
structure Document where
  childNodes : List XmlNode

namespace XmlNode

/-- The `tagName` property; `none` for a node that is not an element. -/
def tagName : XmlNode → Option String
  | element t _ _ => some t
  | text _ => none

/-- The `getAttribute(name)` call: the value of the first attribute of that
name, `none` (null, as the DOM standard has it) when the element has no such
attribute. -/
def getAttribute (n : XmlNode) (name : String) : Option String :=
  match n with
  | element _ attrs _ => (attrs.find? (fun a => a.1 == name)).map (fun a => a.2)
  | text _ => none

end XmlNode

mutual
/-- Every element of the subtree rooted at a node, the node itself included,
in document order (pre-order), each paired with its chain of element
ancestors, the parent first. -/
def XmlNode.walk (ancestors : List XmlNode) : XmlNode → List (XmlNode × List XmlNode)
  | .text _ => []
  | .element t a cs =>
      (.element t a cs, ancestors) :: walkList (.element t a cs :: ancestors) cs
/-- The elements of a list of sibling subtrees, in document order. -/
def walkList (ancestors : List XmlNode) : List XmlNode → List (XmlNode × List XmlNode)
  | [] => []
  | c :: cs => c.walk ancestors ++ walkList ancestors cs
end

mutual
/-- The `textContent` property: the text of all text descendants, concatenated
in document order. -/
def XmlNode.textContent : XmlNode → String
  | .text d => d
  | .element _ _ cs => textContentList cs
/-- The concatenated text of a list of sibling subtrees. -/
def textContentList : List XmlNode → String
  | [] => ""
  | c :: cs => c.textContent ++ textContentList cs
end

/-- Whether an element carries the given tag name. -/
def hasTag (tag : String) (n : XmlNode) : Bool :=
  n.tagName == some tag

/-- The call `document.getElementsByTagName(tag)` with the ancestor chain of
each hit: every element of the document with that tag, in document order. -/
def Document.elementsByTagName (doc : Document) (tag : String) :
    List (XmlNode × List XmlNode) :=
  (walkList [] doc.childNodes).filter (fun p => hasTag tag p.1)

/-- The call `document.getElementsByTagName(tag)`. -/
def Document.getElementsByTagName (doc : Document) (tag : String) : List XmlNode :=
  (doc.elementsByTagName tag).map (fun p => p.1)

/-- The call `element.getElementsByTagName(tag)`: the descendants of the
element with that tag, the element itself excluded, in document order. -/
def XmlNode.getElementsByTagName (n : XmlNode) (tag : String) : List XmlNode :=
  match n with
  | .element _ _ cs => ((walkList [n] cs).filter (fun p => hasTag tag p.1)).map (fun p => p.1)
  | .text _ => []

/-! ## Reference extraction -/

/-- The loop
`while (currentNode && currentNode.tagName !== 'item' && currentNode.tagName !== 'podcast:podroll') currentNode = currentNode.parentNode`
started at the parent of a remote item: the argument is the chain of element
ancestors, parent first. The document node above the root has no tag name and
no parent, so the walk ends with `none` (null) when the chain is exhausted. -/
def ancestorWalk : List XmlNode → Option XmlNode
  | [] => none
  | n :: rest =>
      if n.tagName ≠ some "item" ∧ n.tagName ≠ some "podcast:podroll" then ancestorWalk rest
      else some n

/-- A track reference as pushed by `create-minimal-remote-items.js`. -/
structure RemoteItemReference where
  feedGuid : Option String
  itemGuid : Option String
deriving DecidableEq, Repr

/-- The reference read off a remote item element. -/
def referenceOf (remoteItem : XmlNode) : RemoteItemReference :=
  { feedGuid := remoteItem.getAttribute "feedGuid"
    itemGuid := remoteItem.getAttribute "itemGuid" }

/-- The loop of `createMinimalRemoteItems` (create-minimal-remote-items.js,
lines 23-42) over the remote items found, pushing onto `musicTracks`. -/
def minimalLoop : List (XmlNode × List XmlNode) → List RemoteItemReference →
    List RemoteItemReference
  | [], musicTracks => musicTracks
  | (remoteItem, ancestors) :: rest, musicTracks =>
      let feedGuid := remoteItem.getAttribute "feedGuid"
      let itemGuid := remoteItem.getAttribute "itemGuid"
      match ancestorWalk ancestors with
      | some currentNode =>
          if currentNode.tagName = some "podcast:podroll" then minimalLoop rest musicTracks
          else minimalLoop rest (musicTracks ++ [{ feedGuid := feedGuid, itemGuid := itemGuid }])
      | none => minimalLoop rest (musicTracks ++ [{ feedGuid := feedGuid, itemGuid := itemGuid }])

/-- The extraction of `createMinimalRemoteItems` from a parsed feed. -/
def extractMinimalRemoteItems (xmlDoc : Document) : List RemoteItemReference :=
  minimalLoop (xmlDoc.elementsByTagName "podcast:remoteItem") []

/-- A track entry as pushed by `create-lightning-style-playlist.js`. -/
structure MusicTrack where
  trackNumber : Nat
  feedGuid : Option String
  itemGuid : Option String
  feedUrl : Option String
  episodeTitle : String
  episodePubDate : String
  episodeLink : String
  type : String
  isPodrollItem : Bool
deriving DecidableEq, Repr

/-- JavaScript truthiness of a string-or-null value. -/
def truthy (s : Option String) : Bool :=
  match s with
  | some v => v != ""
  | none => false

/-- The text of the first descendant with the given tag, if there is one
(`node.getElementsByTagName(tag)[0]` followed by `.textContent`). -/
def firstText (node : XmlNode) (tag : String) : Option String :=
  ((node.getElementsByTagName tag).head?).map XmlNode.textContent

/-- The loop of `createLightningStylePlaylist`
(create-lightning-style-playlist.js, lines 40-86). `now` stands for
`new Date().toUTCString()`, `originalLink` for the channel link. -/
def lightningLoop (now originalLink : String) :
    List (XmlNode × List XmlNode) → Nat → List MusicTrack → List MusicTrack
  | [], _, musicTracks => musicTracks
  | (remoteItem, ancestors) :: rest, trackNumber, musicTracks =>
      let feedGuid := remoteItem.getAttribute "feedGuid"
      let itemGuid := remoteItem.getAttribute "itemGuid"
      let feedUrl := remoteItem.getAttribute "feedUrl"
      let mk (episodeTitle episodePubDate episodeLink : String) : MusicTrack :=
        { trackNumber := trackNumber
          feedGuid := feedGuid
          itemGuid := itemGuid
          feedUrl := feedUrl
          episodeTitle := episodeTitle
          episodePubDate := episodePubDate
          episodeLink := episodeLink
          type := if truthy itemGuid then "specific_episode" else "feed_reference"
          isPodrollItem := false }
      match ancestorWalk ancestors with
      | some currentNode =>
          if currentNode.tagName = some "podcast:podroll" then
            lightningLoop now originalLink rest trackNumber musicTracks
          else if currentNode.tagName = some "item" then
            let episodeTitle := (firstText currentNode "title").getD "Unknown Episode"
            let episodePubDate := (firstText currentNode "pubDate").getD now
            let episodeLink := (firstText currentNode "link").getD originalLink
            lightningLoop now originalLink rest (trackNumber + 1)
              (musicTracks ++ [mk episodeTitle episodePubDate episodeLink])
          else
            lightningLoop now originalLink rest (trackNumber + 1)
              (musicTracks ++ [mk "Unknown Episode" now originalLink])
      | none =>
          lightningLoop now originalLink rest (trackNumber + 1)
            (musicTracks ++ [mk "Unknown Episode" now originalLink])

/-- The extraction of `createLightningStylePlaylist` from a parsed feed. -/
def extractLightningTracks (now originalLink : String) (xmlDoc : Document) : List MusicTrack :=
  lightningLoop now originalLink (xmlDoc.elementsByTagName "podcast:remoteItem") 1 []

/-- The reference carried by a track entry. -/
def MusicTrack.reference (t : MusicTrack) : RemoteItemReference :=
  { feedGuid := t.feedGuid, itemGuid := t.itemGuid }

/-- The nearest enclosing `item` or `podcast:podroll` ancestor of an element,
given its ancestor chain (parent first). -/
def nearestScope (ancestors : List XmlNode) : Option XmlNode :=
  ancestors.find? (fun n => hasTag "item" n || hasTag "podcast:podroll" n)

/-- The element's nearest `item` / `podcast:podroll` ancestor is an `item`. -/
def episodeScoped (p : XmlNode × List XmlNode) : Bool :=
  match nearestScope p.2 with
  | some n => hasTag "item" n
  | none => false

/-- The element's nearest `item` / `podcast:podroll` ancestor is a
`podcast:podroll`. -/
def podrollScoped (p : XmlNode × List XmlNode) : Bool :=
  match nearestScope p.2 with
  | some n => hasTag "podcast:podroll" n
  | none => false

/-! ## XML escaping and the minimal RSS renderers -/

/-- The call `text.replace(/c/g, r)` for a pattern that is one literal
character: every occurrence of `c` is replaced by `r`, left to right. -/
def replaceAll (c : Char) (r : List Char) : List Char → List Char
  | [] => []
  | x :: xs => if x = c then r ++ replaceAll c r xs else x :: replaceAll c r xs

/-- The double quote character. -/
def dquote : Char := Char.ofNat 34

/-- The single quote character. -/
def squote : Char := Char.ofNat 39

/-- The chain of five `replace` calls of `escapeXML`, on the characters of the
text, in the order the source applies them. -/
def escapeXMLChars (text : List Char) : List Char :=
  replaceAll squote "&#39;".data
    (replaceAll dquote "&quot;".data
      (replaceAll '>' "&gt;".data
        (replaceAll '<' "&lt;".data
          (replaceAll '&' "&amp;".data text))))

/-- The function `escapeXML` of create-lightning-style-playlist.js (lines
174-182) and create-rss-from-playlist.js (lines 234-242): the empty string
for a falsy argument, the five replacements otherwise. -/
def escapeXML (text : Option String) : String :=
  match text with
  | none => ""
  | some s => if s = "" then "" else String.mk (escapeXMLChars s.data)

/-- One of the five entity bodies at the head of the text: the character it
stands for and the text after it. -/
def decodeEntity : List Char → Option (Char × List Char)
  | 'a' :: 'm' :: 'p' :: ';' :: r => some ('&', r)
  | 'l' :: 't' :: ';' :: r => some ('<', r)
  | 'g' :: 't' :: ';' :: r => some ('>', r)
  | 'q' :: 'u' :: 'o' :: 't' :: ';' :: r => some (dquote, r)
  | '#' :: '3' :: '9' :: ';' :: r => some (squote, r)
  | _ => none

/-- Decoding of the five entities `&amp;`, `&lt;`, `&gt;`, `&quot;`, `&#39;`,
left to right, as an XML parser reads character data; any other character is
copied. Each step consumes at least one character, so a budget of as many
steps as the text has characters is never exhausted. -/
def unescapeSteps : Nat → List Char → List Char
  | 0, _ => []
  | _ + 1, [] => []
  | n + 1, c :: rest =>
      if c = '&' then
        match decodeEntity rest with
        | some (d, r) => d :: unescapeSteps n r
        | none => '&' :: unescapeSteps n rest
      else c :: unescapeSteps n rest

/-- Decoding of the five entities in a list of characters. -/
def unescapeXMLChars (text : List Char) : List Char :=
  unescapeSteps text.length text

/-- Decoding of the five entities in a string. -/
def unescapeXML (s : String) : String :=
  String.mk (unescapeXMLChars s.data)

/-- What follows the `&` in each of the five entities. -/
def entityBodies : List (List Char) :=
  ["amp;".data, "lt;".data, "gt;".data, "quot;".data, "#39;".data]

/-- Every `&` of the text is followed by the body of one of the five
entities. -/
def AmpersandsBeginEntities (out : List Char) : Prop :=
  ∀ pre post, out = pre ++ '&' :: post → ∃ e ∈ entityBodies, e <+: post

/-- The text written for one character by the five replacements together. -/
def escapeChar (c : Char) : List Char :=
  if c = '&' then "&amp;".data
  else if c = '<' then "&lt;".data
  else if c = '>' then "&gt;".data
  else if c = dquote then "&quot;".data
  else if c = squote then "&#39;".data
  else [c]

/-- Template-literal interpolation `${v}` of a string-or-null value. -/
def interpolate (v : Option String) : String :=
  match v with
  | some s => s
  | none => "null"

/-- The opening of the document written by `generateMinimalRSS` of
create-minimal-remote-items.js (lines 65-80): the initial value of `xml`.
`now` stands for `new Date().toUTCString()`. -/
def minimalRSSHeader (now : String) : String :=
  "<?xml version=\"1.0\" encoding=\"UTF-8\"?>\n" ++
  "<rss version=\"2.0\" xmlns:podcast=\"https://github.com/Podcastindex-org/podcast-namespace/blob/main/docs/1.0.md\">\n" ++
  "  <channel>\n" ++
  "    <title>Doerfel-Verse Music Collection</title>\n" ++
  "    <description>Every music reference from Into The Doerfel-Verse podcast</description>\n" ++
  "    <link>https://www.doerfelverse.com/</link>\n" ++
  "    <language>en</language>\n" ++
  "    <pubDate>" ++ now ++ "</pubDate>\n" ++
  "    <lastBuildDate>" ++ now ++ "</lastBuildDate>\n" ++
  "    <image>\n" ++
  "      <url>https://www.doerfelverse.com/art/itdvchadf.png</url>\n" ++
  "      <title>Doerfel-Verse Music Collection</title>\n" ++
  "      <link>https://www.doerfelverse.com/</link>\n" ++
  "    </image>\n" ++
  "    <podcast:medium>musicL</podcast:medium>\n" ++
  "    <podcast:guid>doerfel-verse-music-collection</podcast:guid>"

/-- The text appended for one track by the `forEach` of `generateMinimalRSS`
of create-minimal-remote-items.js (lines 83-86). -/
def minimalRSSItem (track : RemoteItemReference) : String :=
  "\n    <item>\n      <podcast:remoteItem feedGuid=\"" ++ interpolate track.feedGuid ++
    "\" itemGuid=\"" ++ interpolate track.itemGuid ++ "\"/>\n    </item>"

/-- The function `generateMinimalRSS` of create-minimal-remote-items.js
(lines 62-94). -/
def generateMinimalRSS (now : String) (tracks : List RemoteItemReference) : String :=
  let xml := minimalRSSHeader now
  let xml := tracks.foldl (fun xml track => xml ++ minimalRSSItem track) xml
  xml ++ "\n  </channel>\n</rss>"

/-- The `channelInfo` object passed to `generateMinimalRSS` of
create-generic-minimal-playlist.js. -/
structure ChannelInfo where
  title : String
  description : String
  link : String
  language : String
  imageUrl : String
  imageTitle : String
  guid : String

/-- The opening of the document written by `generateMinimalRSS` of
create-generic-minimal-playlist.js (lines 287-304): the initial value of
`xml`. `now` stands for `new Date().toUTCString()`. -/
def genericRSSHeader (now : String) (channelInfo : ChannelInfo) : String :=
  "<?xml version=\"1.0\" encoding=\"UTF-8\"?>\n" ++
  "<rss version=\"2.0\">\n" ++
  "<channel>\n" ++
  "<title>" ++ channelInfo.title ++ "</title>\n" ++
  "<description>\n" ++
  channelInfo.description ++ "\n" ++
  "</description>\n" ++
  "<link>" ++ channelInfo.link ++ "</link>\n" ++
  "<language>" ++ channelInfo.language ++ "</language>\n" ++
  "<pubDate>" ++ now ++ "</pubDate>\n" ++
  "<lastBuildDate>" ++ now ++ "</lastBuildDate>\n" ++
  "<image>\n" ++
  "<url>\n" ++
  channelInfo.imageUrl ++ "\n" ++
  "</url>\n" ++
  "</image>\n" ++
  "<podcast:medium>musicL</podcast:medium>\n" ++
  "<podcast:guid>" ++ channelInfo.guid ++ "</podcast:guid>"

/-- The text appended for one track by the `forEach` of `generateMinimalRSS`
of create-generic-minimal-playlist.js (lines 307-310). -/
def genericRSSItem (track : RemoteItemReference) : String :=
  "\n<item>\n<podcast:remoteItem feedGuid=\"" ++ interpolate track.feedGuid ++
    "\" itemGuid=\"" ++ interpolate track.itemGuid ++ "\"/>\n</item>"

/-- The function `generateMinimalRSS` of create-generic-minimal-playlist.js
(lines 284-318). -/
def generateGenericMinimalRSS (now : String) (tracks : List RemoteItemReference)
    (channelInfo : ChannelInfo) : String :=
  let xml := genericRSSHeader now channelInfo
  let xml := tracks.foldl (fun xml track => xml ++ genericRSSItem track) xml
  xml ++ "\n</channel>\n</rss>"

/-- A reference whose GUIDs hold a double quote and an ampersand, as read
from `feedGuid="a&quot;b" itemGuid="x&amp;y"` in a feed. -/
def quotedReference : RemoteItemReference :=
  { feedGuid := some "a\"b", itemGuid := some "x&y" }

/-- Channel metadata whose title holds an ampersand. -/
def ampersandChannel : ChannelInfo :=
  { title := "Rock & Roll", description := "a < b", link := "http://x/?a=1&b=2",
    language := "en", imageUrl := "", imageTitle := "Rock & Roll", guid := "g" }

/-! ## JavaScript string helpers -/

/-- The characters removed by `String.prototype.trim`: white space and line
terminators. -/
def isJsWhitespace (c : Char) : Bool :=
  let n := c.toNat
  n == 9 || n == 10 || n == 11 || n == 12 || n == 13 || n == 32 || n == 160 || n == 5760
    || (8192 ≤ n && n ≤ 8202) || n == 8232 || n == 8233 || n == 8239 || n == 8287
    || n == 12288 || n == 65279

/-- The method `trim` on the characters of a string. -/
def jsTrimChars (l : List Char) : List Char :=
  ((l.dropWhile isJsWhitespace).reverse.dropWhile isJsWhitespace).reverse

/-- The method `String.prototype.trim`. -/
def jsTrim (s : String) : String :=
  String.mk (jsTrimChars s.data)

/-- The operator `x || null` on a string-or-null value. -/
def orNull (x : Option String) : Option String :=
  if truthy x then x else none

/-- The operator `a || b` on string-or-null values. -/
def orElseFalsy (a b : Option String) : Option String :=
  if truthy a then a else b

/-- Whether `pattern`, given in lower case, stands at the head of the text,
ASCII letters compared without regard to case (the `i` flag). -/
def isPrefixIgnoreCase (pattern : List Char) (text : List Char) : Bool :=
  pattern.isPrefixOf ((text.take pattern.length).map Char.toLower)

/-- The test `/^https?:\/\//i.test(itemGuid)`. -/
def isHttpUrl (s : String) : Bool :=
  isPrefixIgnoreCase "http://".data s.data || isPrefixIgnoreCase "https://".data s.data

/-- The rest of the pattern `/<title[^>]*>([^<]+)<\/title>/i` after `<title`
has matched: skip to the first `>`, capture the longest non-empty run without
`<`, and require `</title>` right after it. -/
def titleAfterOpen (l : List Char) : Option (List Char) :=
  match l.dropWhile (fun c => c != '>') with
  | [] => none
  | _ :: afterGt =>
      let captured := afterGt.takeWhile (fun c => c != '<')
      let rest := afterGt.dropWhile (fun c => c != '<')
      if captured ≠ [] ∧ isPrefixIgnoreCase "</title>".data rest then some captured else none

/-- The call `html.match(/<title[^>]*>([^<]+)<\/title>/i)`: the capture group
of the leftmost match. -/
def matchTitle : List Char → Option (List Char)
  | [] => none
  | c :: rest =>
      if isPrefixIgnoreCase "<title".data (c :: rest) then
        match titleAfterOpen ((c :: rest).drop 6) with
        | some captured => some captured
        | none => matchTitle rest
      else matchTitle rest

/-! ## The network as an oracle -/

/-- An external request, as recorded in the request log. -/
inductive Request where
  | podcastsByGuid (guid : String)
  | episodesByGuid (guid : String)
  | episodesByFeedId (id : Int)
  | page (url : String)
  | rss (url : String)
deriving DecidableEq, Repr

/-- What a `fetch` gives: a rejection (also when reading or decoding the body
rejects), a response whose `ok` is false, or a response with its body. -/
inductive Reply (α : Type) where
  | threw
  | notOk
  | ok (body : α)

/-- The `feed` object of a `podcasts/byguid` response. -/
structure FeedData where
  id : Option Int
  title : Option String
  url : Option String
  link : Option String

/-- One entry of the `items` array of an `episodes/*` response. -/
structure EpisodeData where
  guid : Option String
  title : Option String
  enclosureUrl : Option String
deriving DecidableEq, Repr

/-- The environment of a run of resolve-itdv-tracks.mjs: the credentials and
the answers of the outside world. Each answer may depend on the requests
issued so far (the log, oldest first).
* `podcastsByGuid`: the body is `data.feed`, `none` when `data` or
  `data.feed` is falsy;
* `episodesByGuid`, `episodesByFeedId`: the body is `data.items` when it is
  an array, `none` otherwise;
* `page`: the body is the text of the page;
* `rss`: the body is the parsed feed. -/
structure World where
  apiKey : String
  apiSecret : String
  podcastsByGuid : List Request → String → Reply (Option FeedData)
  episodesByGuid : List Request → String → Reply (Option (List EpisodeData))
  episodesByFeedId : List Request → Int → Reply (Option (List EpisodeData))
  page : List Request → String → Reply String
  rss : List Request → String → Reply Document

/-- The function `buildPiHeaders` as far as its caller looks at it: whether
headers are returned (`false` stands for `null`). -/
def hasPiHeaders (w : World) : Bool :=
  !(w.apiKey == "" || w.apiSecret == "")

/-- The function `piGet` of resolve-itdv-tracks.mjs (lines 35-45): `null`
without a request when there are no headers; otherwise the request is issued
and logged. A rejected `fetch` or `res.json()` is not caught here: the error
carries the log at that point. -/
def piGet {α : Type} (w : World) (log : List Request) (req : Request) (reply : Reply α) :
    Except (List Request) (Option α × List Request) :=
  if hasPiHeaders w then
    match reply with
    | .threw => .error (log ++ [req])
    | .notOk => .ok (none, log ++ [req])
    | .ok body => .ok (some body, log ++ [req])
  else .ok (none, log)

/-- The function `fetchPageTitle` of resolve-itdv-tracks.mjs (lines 47-58). -/
def fetchPageTitle (w : World) (log : List Request) (url : String) :
    Option String × List Request :=
  match w.page log url with
  | .threw => (none, log ++ [Request.page url])
  | .notOk => (none, log ++ [Request.page url])
  | .ok html =>
      match matchTitle html.data with
      | some captured => (some (String.mk (jsTrimChars captured)), log ++ [Request.page url])
      | none => (none, log ++ [Request.page url])

/-! ## resolve-itdv-tracks.mjs -/

/-- A JavaScript `Map` as the scripts use it (`has`, `get`, `set` only): the
entries, the latest `set` first, so that a later `set` of a key shadows an
earlier one as `Map.set` overwrites it. -/
abbrev JsMap (κ ν : Type) := List (κ × ν)

/-- The method `Map.prototype.has`. -/
def JsMap.has {κ ν : Type} [DecidableEq κ] (m : JsMap κ ν) (k : κ) : Bool :=
  m.any (fun p => decide (p.1 = k))

/-- The method `Map.prototype.get`; `none` stands for `undefined`. -/
def JsMap.get {κ ν : Type} [DecidableEq κ] (m : JsMap κ ν) (k : κ) : Option ν :=
  (m.find? (fun p => decide (p.1 = k))).map (fun p => p.2)

/-- The method `Map.prototype.set`. -/
def JsMap.set {κ ν : Type} (m : JsMap κ ν) (k : κ) (v : ν) : JsMap κ ν :=
  (k, v) :: m

/-- A value of `feedCache`. -/
structure FeedInfo where
  id : Option Int
  title : Option String
  url : Option String
deriving DecidableEq, Repr

/-- A value of `episodeCache` and of the `byGuid` table of `rssCache`. -/
structure EpisodeInfo where
  title : Option String
  enclosureUrl : Option String
deriving DecidableEq, Repr

/-- One entry of `remoteItems` in the summary file. -/
structure SummaryRemoteItem where
  feedGuid : Option String
  itemGuid : Option String
  feedUrl : Option String
deriving DecidableEq, Repr

/-- The `enclosure` object of an episode of the summary file. -/
structure EnclosureSummary where
  url : Option String
  type : Option String
  length : Option String
deriving DecidableEq, Repr

/-- One entry of `episodes` in the summary file. `remoteItems` is `none` when
the key is missing from the file. -/
structure SummaryEpisode where
  title : Option String
  pubDate : Option String
  guid : Option String
  link : Option String
  description : Option String
  duration : Option String
  enclosure : Option EnclosureSummary
  remoteItems : Option (List SummaryRemoteItem)
deriving DecidableEq, Repr

/-- The `image` object of the channel summary. -/
structure ImageSummary where
  url : Option String
  title : Option String
deriving DecidableEq, Repr

/-- The `channel` object of the summary file. -/
structure ChannelSummary where
  title : Option String
  description : Option String
  link : Option String
  language : Option String
  lastBuildDate : Option String
  generator : Option String
  image : Option ImageSummary
deriving DecidableEq, Repr

/-- The summary written by parse-itdv-music-feed.js and read by
resolve-itdv-tracks.mjs. -/
structure Summary where
  channel : ChannelSummary
  episodes : List SummaryEpisode
deriving DecidableEq, Repr

/-- One entry of `results`. -/
structure ResolvedTrack where
  feedGuid : String
  itemGuid : String
  feedTitle : Option String
  feedUrl : Option String
  episodeTitle : Option String
  episodeEnclosureUrl : Option String
deriving DecidableEq, Repr

/-- The variables of `main` that live across iterations, and the request
log (oldest request first). -/
structure ResolverState where
  feedCache : JsMap String FeedInfo
  episodeCache : JsMap String EpisodeInfo
  episodesByFeedIdCache : JsMap Int (JsMap String EpisodeData)
  rssCache : JsMap String (JsMap String EpisodeInfo)
  log : List Request
  results : List ResolvedTrack

/-- The state at the start of `main`. -/
def ResolverState.init : ResolverState :=
  { feedCache := [], episodeCache := [], episodesByFeedIdCache := [], rssCache := [],
    log := [], results := [] }

/-- The `info` object built from a `podcasts/byguid` answer (lines 88-92). -/
def feedInfoOf (data : Option (Option FeedData)) : FeedInfo :=
  match data with
  | some (some feed) =>
      { id := feed.id, title := orNull feed.title, url := orNull (orElseFalsy feed.url feed.link) }
  | _ => { id := none, title := none, url := none }

/-- Lines 86-94: fill `feedCache` for `feedGuid` when it has no entry. -/
def ensureFeed (w : World) (s : ResolverState) (feedGuid : String) :
    Except (List Request) ResolverState :=
  if s.feedCache.has feedGuid then .ok s
  else
    match piGet w s.log (Request.podcastsByGuid feedGuid) (w.podcastsByGuid s.log feedGuid) with
    | .error log => .error log
    | .ok (data, log) =>
        .ok { s with feedCache := s.feedCache.set feedGuid (feedInfoOf data), log := log }

/-- Lines 103-117: fill `episodeCache` for `itemGuid` when it has no entry. -/
def ensureEpisode (w : World) (s : ResolverState) (itemGuid : String) :
    Except (List Request) ResolverState :=
  if s.episodeCache.has itemGuid then .ok s
  else
    match piGet w s.log (Request.episodesByGuid itemGuid) (w.episodesByGuid s.log itemGuid) with
    | .error log => .error log
    | .ok (some (some (item :: _)), log) =>
        let info : EpisodeInfo :=
          { title := orNull item.title, enclosureUrl := orNull item.enclosureUrl }
        .ok { s with episodeCache := s.episodeCache.set itemGuid info, log := log }
    | .ok (_, log) =>
        if isHttpUrl itemGuid then
          let t := fetchPageTitle w log itemGuid
          let info : EpisodeInfo := { title := t.1, enclosureUrl := none }
          .ok { s with episodeCache := s.episodeCache.set itemGuid info, log := t.2 }
        else
          let info : EpisodeInfo := { title := none, enclosureUrl := none }
          .ok { s with episodeCache := s.episodeCache.set itemGuid info, log := log }

/-- Line 140: `guidEl?.textContent?.trim()` for an `item` of the feed. -/
def rssGuidOf (it : XmlNode) : Option String :=
  ((it.getElementsByTagName "guid").head?).map (fun guidEl => jsTrim guidEl.textContent)

/-- Lines 141-142: the table entry built for an `item` of the feed. -/
def rssInfoOf (it : XmlNode) : EpisodeInfo :=
  { title := orNull (((it.getElementsByTagName "title").head?).map
      (fun titleEl => jsTrim titleEl.textContent))
    enclosureUrl := orNull (((it.getElementsByTagName "enclosure").head?).bind
      (fun enclosureEl => enclosureEl.getAttribute "url")) }

/-- Lines 135-146: the `byGuid` table of a parsed feed, built item by item. -/
def rssTableLoop : List XmlNode → JsMap String EpisodeInfo → JsMap String EpisodeInfo
  | [], byGuid => byGuid
  | it :: rest, byGuid =>
      match rssGuidOf it with
      | some g =>
          if g ≠ "" then rssTableLoop rest (byGuid.set g (rssInfoOf it))
          else rssTableLoop rest byGuid
      | none => rssTableLoop rest byGuid

/-- The `byGuid` table of a parsed feed. -/
def rssTable (doc : Document) : JsMap String EpisodeInfo :=
  rssTableLoop (doc.getElementsByTagName "item") []

/-- Lines 126-154: fill `rssCache` for `feedUrl` when it has no entry. A
rejected fetch and a response that is not OK both leave an empty table. -/
def ensureRss (w : World) (s : ResolverState) (feedUrl : String) : ResolverState :=
  if s.rssCache.has feedUrl then s
  else
    match w.rss s.log feedUrl with
    | .ok doc =>
        { s with rssCache := s.rssCache.set feedUrl (rssTable doc),
                 log := s.log ++ [Request.rss feedUrl] }
    | _ =>
        { s with rssCache := s.rssCache.set feedUrl [],
                 log := s.log ++ [Request.rss feedUrl] }

/-- Lines 172-177: the `guid -> episode` table of an episode listing. -/
def listingLoop : List EpisodeData → JsMap String EpisodeData → JsMap String EpisodeData
  | [], map => map
  | item :: rest, map =>
      let epGuid := jsTrim (item.guid.getD "")
      if epGuid ≠ "" then listingLoop rest (map.set epGuid item) else listingLoop rest map

/-- The table built from a `episodes/byfeedid` answer (lines 169-178). -/
def listingOf (data : Option (Option (List EpisodeData))) : JsMap String EpisodeData :=
  match data with
  | some (some items) => listingLoop items []
  | _ => []

/-- Lines 168-180: fill `episodesByFeedIdCache` for `feedId` when it has no
entry. -/
def ensureListing (w : World) (s : ResolverState) (feedId : Int) :
    Except (List Request) ResolverState :=
  if s.episodesByFeedIdCache.has feedId then .ok s
  else
    match piGet w s.log (Request.episodesByFeedId feedId) (w.episodesByFeedId s.log feedId) with
    | .error log => .error log
    | .ok (data, log) =>
        .ok { s with episodesByFeedIdCache := s.episodesByFeedIdCache.set feedId (listingOf data),
                     log := log }

/-- The values of `episodeTitle` and `episodeEnclosureUrl` in the body of the
loop. -/
structure Fields where
  episodeTitle : Option String
  episodeEnclosureUrl : Option String

/-- Lines 157-160 and 183-186: fill the fields that are still falsy. -/
def fillMissing (f : Fields) (title enclosureUrl : Option String) : Fields :=
  { episodeTitle := if truthy f.episodeTitle then f.episodeTitle else title
    episodeEnclosureUrl :=
      if truthy f.episodeEnclosureUrl then f.episodeEnclosureUrl else enclosureUrl }

/-- The test `!episodeTitle || !episodeEnclosureUrl`. -/
def Fields.incomplete (f : Fields) : Bool :=
  !truthy f.episodeTitle || !truthy f.episodeEnclosureUrl

/-- Lines 124-161: the feed RSS strategy. -/
def rssStrategy (w : World) (s : ResolverState) (feedUrl : Option String) (itemGuid : String)
    (f : Fields) : ResolverState × Fields :=
  match feedUrl with
  | some url =>
      if f.incomplete && url != "" && itemGuid != "" then
        let s := ensureRss w s url
        let cache := (s.rssCache.get url).getD []
        match (cache.get itemGuid).orElse (fun _ => cache.get (jsTrim itemGuid)) with
        | some matched => (s, fillMissing f matched.title matched.enclosureUrl)
        | none => (s, f)
      else (s, f)
  | none => (s, f)

/-- Lines 164-188: the episode listing strategy. -/
def listingStrategy (w : World) (s : ResolverState) (feedGuid itemGuid : String) (f : Fields) :
    Except (List Request) (ResolverState × Fields) :=
  if f.incomplete && feedGuid != "" && itemGuid != "" then
    match (s.feedCache.get feedGuid).bind (fun fc => fc.id) with
    | some feedId =>
        if feedId ≠ 0 then
          match ensureListing w s feedId with
          | .error log => .error log
          | .ok s =>
              let byGuid := (s.episodesByFeedIdCache.get feedId).getD []
              match byGuid.get (jsTrim itemGuid) with
              | some ep => .ok (s, fillMissing f (orNull ep.title) (orNull ep.enclosureUrl))
              | none => .ok (s, f)
        else .ok (s, f)
    | none => .ok (s, f)
  else .ok (s, f)

/-- Lines 85-99: the feed lookup, skipped for an empty `feedGuid`. -/
def feedStep (w : World) (s : ResolverState) (feedGuid : String) :
    Except (List Request) ResolverState :=
  if feedGuid ≠ "" then ensureFeed w s feedGuid else .ok s

/-- The entry `fc` read at line 95; `none` when `feedGuid` is empty. -/
def cachedFeed (s : ResolverState) (feedGuid : String) : Option FeedInfo :=
  if feedGuid ≠ "" then s.feedCache.get feedGuid else none

/-- Lines 102-121: the direct episode lookup, skipped for an empty
`itemGuid`. -/
def episodeStep (w : World) (s : ResolverState) (itemGuid : String) :
    Except (List Request) ResolverState :=
  if itemGuid ≠ "" then ensureEpisode w s itemGuid else .ok s

/-- The fields read from the entry `ec` at lines 118-120; both null when
`itemGuid` is empty. -/
def cachedFields (s : ResolverState) (itemGuid : String) : Fields :=
  let ec := if itemGuid ≠ "" then s.episodeCache.get itemGuid else none
  { episodeTitle := ec.bind (fun ec => ec.title)
    episodeEnclosureUrl := ec.bind (fun ec => ec.enclosureUrl) }

/-- The body of the inner loop of `main` (lines 76-197) for one remote
item. -/
def resolveItem (w : World) (s : ResolverState) (ri : SummaryRemoteItem) :
    Except (List Request) ResolverState :=
  let feedGuid := (orNull ri.feedGuid).getD ""
  let itemGuid := (orNull ri.itemGuid).getD ""
  match feedStep w s feedGuid with
  | .error log => .error log
  | .ok s1 =>
      let fc := cachedFeed s1 feedGuid
      let feedTitle := fc.bind (fun fc => fc.title)
      let feedUrl := fc.bind (fun fc => fc.url)
      match episodeStep w s1 itemGuid with
      | .error log => .error log
      | .ok s2 =>
          let r := rssStrategy w s2 feedUrl itemGuid (cachedFields s2 itemGuid)
          match listingStrategy w r.1 feedGuid itemGuid r.2 with
          | .error log => .error log
          | .ok (s3, f) =>
              .ok { s3 with results := s3.results ++ [{
                      feedGuid := feedGuid
                      itemGuid := itemGuid
                      feedTitle := feedTitle
                      feedUrl := feedUrl
                      episodeTitle := f.episodeTitle
                      episodeEnclosureUrl := f.episodeEnclosureUrl }] }

/-- The two nested loops of `main` (lines 74-199), over the remote items in
the order the loops visit them. -/
def resolveAll (w : World) : List SummaryRemoteItem → ResolverState →
    Except (List Request) ResolverState
  | [], s => .ok s
  | ri :: rest, s =>
      match resolveItem w s ri with
      | .error log => .error log
      | .ok s => resolveAll w rest s

/-- The remote items of a summary in the order `main` visits them:
`for (const ep of summary.episodes) for (const ri of ep.remoteItems || [])`. -/
def Summary.remoteItems (summary : Summary) : List SummaryRemoteItem :=
  summary.episodes.flatMap (fun ep => ep.remoteItems.getD [])

/-- What a run of `main` leaves behind: the requests it issued, and the
`results` written to the output files, `none` when `main` rejected before
writing. -/
structure Run where
  log : List Request
  results : Option (List ResolvedTrack)

/-- The function `main` of resolve-itdv-tracks.mjs on a summary already read
from disk. -/
def main (w : World) (summary : Summary) : Run :=
  match resolveAll w summary.remoteItems ResolverState.init with
  | .error log => { log := log, results := none }
  | .ok s => { log := s.log, results := some s.results }

/-! ## parse-itdv-music-feed.js -/

/-- The remote item entry built at lines 95-99. -/
def summaryRemoteItemOf (ri : XmlNode) : SummaryRemoteItem :=
  { feedGuid := orNull (ri.getAttribute "feedGuid")
    itemGuid := orNull (ri.getAttribute "itemGuid")
    feedUrl := orNull (ri.getAttribute "feedUrl") }

/-- The episode entry built at lines 74-102 for one `item` element. -/
def summaryEpisodeOf (item : XmlNode) : SummaryEpisode :=
  let enclosure := (item.getElementsByTagName "enclosure").head?
  let remoteItems := item.getElementsByTagName "podcast:remoteItem"
  { title := firstText item "title"
    pubDate := firstText item "pubDate"
    guid := firstText item "guid"
    link := firstText item "link"
    description := firstText item "description"
    duration := firstText item "itunes:duration"
    enclosure := enclosure.map (fun e =>
      { url := e.getAttribute "url", type := e.getAttribute "type",
        length := e.getAttribute "length" })
    remoteItems := some (remoteItems.map summaryRemoteItemOf) }

/-- The function `parseFeed` of parse-itdv-music-feed.js (lines 37-106) on
the parsed document: an error when the parser reported one or when there is
no `channel` element, the summary otherwise. -/
def parseFeed (xmlDoc : Document) : Except String Summary :=
  if (xmlDoc.getElementsByTagName "parsererror").length > 0 then
    .error "XML parsing failed"
  else
    match (xmlDoc.getElementsByTagName "channel").head? with
    | none => .error "No <channel> element found"
    | some channel =>
        let image := (channel.getElementsByTagName "image").head?
        let channelSummary : ChannelSummary :=
          { title := firstText channel "title"
            description := firstText channel "description"
            link := firstText channel "link"
            language := firstText channel "language"
            lastBuildDate := firstText channel "lastBuildDate"
            generator := firstText channel "generator"
            image := image.map (fun i =>
              { url := firstText i "url", title := firstText i "title" }) }
        let items := channel.getElementsByTagName "item"
        .ok { channel := channelSummary, episodes := items.map summaryEpisodeOf }

/-! ## resolve-remote-feeds.js -/

/-- An external request of resolve-remote-feeds.js. A `guid` of `none` is a
null argument, which `piGet` leaves out of the query. -/
inductive RemoteRequest where
  | podcastsByGuid (guid : Option String)
  | episodesByGuid (guid : Option String)
  | episodesByFeedId (id : Int)
deriving DecidableEq, Repr

/-- The `feed` object of a `podcasts/byguid` response. -/
structure RemoteFeed where
  id : Option Int
  title : Option String
  url : Option String
  author : Option String
deriving DecidableEq, Repr

/-- An episode object of an `episodes/*` response. -/
structure RemoteEpisode where
  id : Option Int
  guid : Option String
  title : Option String
  author : Option String
deriving DecidableEq, Repr

/-- The environment of a run of resolve-remote-feeds.js. The bodies are
`data.feed`, `data.episode` and `data.items`, `none` when falsy. -/
structure RemoteWorld where
  apiKey : String
  apiSecret : String
  podcastsByGuid : List RemoteRequest → Option String → Reply (Option RemoteFeed)
  episodesByGuid : List RemoteRequest → Option String → Reply (Option RemoteEpisode)
  episodesByFeedId : List RemoteRequest → Int → Reply (Option (List RemoteEpisode))

/-- An entry of the seed file and of the output of resolve-remote-feeds.js. -/
structure FeedEntry where
  feedGuid : Option String
  itemGuid : Option String
  title : Option String
  artist : Option String
  feedUrl : Option String
  feedTitle : Option String
  episodeId : Option Int
  feedId : Option Int
  episodeTitle : Option String
  episodeEnclosureUrl : Option String
deriving DecidableEq, Repr

/-- The function `piGet` of resolve-remote-feeds.js (lines 41-63): `null`
without a request when there are no headers; a rejected fetch and a response
that is not OK are caught and give `null`. -/
def remotePiGet {α : Type} (w : RemoteWorld) (log : List RemoteRequest) (req : RemoteRequest)
    (reply : Reply (Option α)) : Option α × List RemoteRequest :=
  if w.apiKey == "" || w.apiSecret == "" then (none, log)
  else
    match reply with
    | .ok (some body) => (some body, log ++ [req])
    | _ => (none, log ++ [req])

/-- The search of lines 98-104: the first listed episode whose `guid` is the
item GUID. (An episode `id` is a number and is never strictly equal to a
GUID string. A `guid` or `id` of `none` is a property the episode does not
have, so its value is undefined, which is not strictly equal to a null item
GUID either.) -/
def findEpisode (items : List RemoteEpisode) (itemGuid : Option String) : Option RemoteEpisode :=
  items.find? (fun episode =>
    match episode.guid, itemGuid with
    | some g, some i => g == i
    | _, _ => false)

/-- The function `resolveRemoteFeed` of resolve-remote-feeds.js (lines
65-133). -/
def resolveRemoteFeed (w : RemoteWorld) (log : List RemoteRequest)
    (feedGuid itemGuid : Option String) : FeedEntry × List RemoteRequest :=
  let unresolved (feedUrl feedTitle : Option String) : FeedEntry :=
    { feedGuid := feedGuid, itemGuid := itemGuid, title := none, artist := none,
      feedUrl := feedUrl, feedTitle := feedTitle, episodeId := none, feedId := none,
      episodeTitle := none, episodeEnclosureUrl := none }
  match remotePiGet w log (RemoteRequest.podcastsByGuid feedGuid)
      (w.podcastsByGuid log feedGuid) with
  | (none, log) => (unresolved none none, log)
  | (some feedInfo, log) =>
      let (episodeInfo, log) :=
        match remotePiGet w log (RemoteRequest.episodesByGuid itemGuid)
            (w.episodesByGuid log itemGuid) with
        | (some episode, log) => (some episode, log)
        | (none, log) =>
            match feedInfo.id with
            | some id =>
                if id ≠ 0 then
                  match remotePiGet w log (RemoteRequest.episodesByFeedId id)
                      (w.episodesByFeedId log id) with
                  | (some items, log) => (findEpisode items itemGuid, log)
                  | (none, log) => (none, log)
                else (none, log)
            | none => (none, log)
      match episodeInfo with
      | none => (unresolved (orNull feedInfo.url) (orNull feedInfo.title), log)
      | some episodeInfo =>
          ({ feedGuid := feedGuid, itemGuid := itemGuid, title := episodeInfo.title,
             artist := orElseFalsy episodeInfo.author feedInfo.author,
             feedUrl := feedInfo.url, feedTitle := feedInfo.title,
             episodeId := episodeInfo.id, feedId := feedInfo.id,
             episodeTitle := none, episodeEnclosureUrl := none }, log)

/-- The key `feedGuid-itemGuid` of line 153. -/
def entryKey (item : FeedEntry) : String :=
  interpolate item.feedGuid ++ "-" ++ interpolate item.itemGuid

/-- The test of line 157: the entry has no usable title. -/
def needsResolving (item : FeedEntry) : Bool :=
  !truthy item.title || item.title == some "(unresolved)"

/-- The loop of `main` of resolve-remote-feeds.js (lines 152-167), carrying
`processed`, `results` and the request log. -/
def remoteLoop (w : RemoteWorld) : List FeedEntry → List String → List FeedEntry →
    List RemoteRequest → List FeedEntry × List RemoteRequest
  | [], _, results, log => (results, log)
  | item :: rest, processed, results, log =>
      let key := entryKey item
      if processed.contains key then remoteLoop w rest processed results log
      else if needsResolving item then
        let (resolved, log) := resolveRemoteFeed w log item.feedGuid item.itemGuid
        remoteLoop w rest (key :: processed) (results ++ [resolved]) log
      else remoteLoop w rest (key :: processed) (results ++ [item]) log

/-- The function `main` of resolve-remote-feeds.js on the seed entries read
from disk: the results written and the requests issued. -/
def remoteMain (w : RemoteWorld) (existingData : List FeedEntry) :
    List FeedEntry × List RemoteRequest :=
  remoteLoop w existingData [] [] []

/-! ## Example inputs -/

/-- The example feed: episode A holds a remote item `f1` / `i1`; episode B
holds a remote item `f2` without item GUID and a podroll with a remote item
`f3`. -/
def exampleFeed : Document :=
  { childNodes := [
      .element "rss" [] [
        .element "channel" [] [
          .element "title" [] [.text "Show"],
          .element "item" [] [
            .element "title" [] [.text "A"],
            .element "podcast:remoteItem" [("feedGuid", "f1"), ("itemGuid", "i1")] []],
          .element "item" [] [
            .element "title" [] [.text "B"],
            .element "podcast:remoteItem" [("feedGuid", "f2")] [],
            .element "podcast:podroll" [] [
              .element "podcast:remoteItem" [("feedGuid", "f3")] []]]]]] }

/-- An index service for the example: `i1` resolves to the title "Song A",
the feeds `f1` and `f2` are found, no feed has a listed episode, and every
page and RSS fetch is answered with a status that is not OK. -/
def exampleWorld : World :=
  { apiKey := "key"
    apiSecret := "secret"
    podcastsByGuid := fun _ guid =>
      if guid = "f1" then
        .ok (some { id := some 1, title := some "Feed 1", url := none, link := none })
      else if guid = "f2" then
        .ok (some { id := some 2, title := some "Feed 2", url := none, link := none })
      else .ok none
    episodesByGuid := fun _ guid =>
      if guid = "i1" then
        .ok (some [{ guid := some "i1", title := some "Song A", enclosureUrl := none }])
      else .ok (some [])
    episodesByFeedId := fun _ _ => .ok (some [])
    page := fun _ _ => .notOk
    rss := fun _ _ => .notOk }

/-! ## Properties of runs -/

/-- No index request of the run rejects: the `fetch` of `piGet` and the
decoding of its body always return. -/
def World.NoThrow (w : World) : Prop :=
  (∀ log guid, w.podcastsByGuid log guid ≠ Reply.threw)
  ∧ (∀ log guid, w.episodesByGuid log guid ≠ Reply.threw)
  ∧ (∀ log id, w.episodesByFeedId log id ≠ Reply.threw)

/-- Each request of the four cached kinds has been issued at most once, and
only for keys that now have a cache entry. -/
def Counted (s : ResolverState) : Prop :=
  (∀ g, s.log.count (Request.podcastsByGuid g) ≤ if s.feedCache.has g then 1 else 0)
  ∧ (∀ g, s.log.count (Request.episodesByGuid g) ≤ if s.episodeCache.has g then 1 else 0)
  ∧ (∀ u, s.log.count (Request.rss u) ≤ if s.rssCache.has u then 1 else 0)
  ∧ (∀ i, s.log.count (Request.episodesByFeedId i)
      ≤ if s.episodesByFeedIdCache.has i then 1 else 0)

/-- A summary of two episodes that name the same references: `f1` / `i1`
twice and `f9` / `i9`, unknown to the example index, twice. -/
def repeatedSummary : Summary :=
  let refs : List SummaryRemoteItem :=
    [{ feedGuid := some "f1", itemGuid := some "i1", feedUrl := none },
     { feedGuid := some "f9", itemGuid := some "i9", feedUrl := none }]
  let episode : SummaryEpisode :=
    { title := some "E", pubDate := none, guid := none, link := none, description := none,
      duration := none, enclosure := none, remoteItems := some refs }
  { channel := { title := none, description := none, link := none, language := none,
                 lastBuildDate := none, generator := none, image := none }
    episodes := [episode, episode] }

/-- What `piGet` returns for a reply when it does not reject: `null` without
headers, for a rejected fetch and for a response that is not OK. -/
def replyData {α : Type} (w : World) (reply : Reply α) : Option α :=
  if hasPiHeaders w then
    match reply with
    | .ok body => some body
    | _ => none
  else none

/-- The entry stored in `episodeCache` (lines 104-116), from the answer of
`episodes/byguid`, the URL test on the item GUID and the page title. -/
def episodeInfoFrom (data : Option (Option (List EpisodeData))) (isUrl : Bool)
    (pageTitle : Option String) : EpisodeInfo :=
  match data with
  | some (some (item :: _)) =>
      { title := orNull item.title, enclosureUrl := orNull item.enclosureUrl }
  | _ => if isUrl then { title := pageTitle, enclosureUrl := none }
         else { title := none, enclosureUrl := none }

/-- The table stored in `rssCache` for an answer to the RSS fetch. -/
def rssTableOf (reply : Reply Document) : JsMap String EpisodeInfo :=
  match reply with
  | .ok doc => rssTable doc
  | _ => []

/-- Every cache entry is what the script computes from an answer the outside
world gives for the entry's key. -/
def Provenance (w : World) (s : ResolverState) : Prop :=
  (∀ g v, s.feedCache.get g = some v →
      ∃ log, v = feedInfoOf (replyData w (w.podcastsByGuid log g)))
  ∧ (∀ g v, s.episodeCache.get g = some v →
      ∃ log logp, v = episodeInfoFrom (replyData w (w.episodesByGuid log g)) (isHttpUrl g)
        (fetchPageTitle w logp g).1)
  ∧ (∀ u t, s.rssCache.get u = some t → ∃ log, t = rssTableOf (w.rss log u))
  ∧ (∀ i t, s.episodesByFeedIdCache.get i = some t →
      ∃ log, t = listingOf (replyData w (w.episodesByFeedId log i)))

/-- The fields after the feed RSS strategy (lines 124-161), given the table
cached for the feed URL. -/
def rssFill (feedUrl : Option String) (itemGuid : String) (f : Fields)
    (table : JsMap String EpisodeInfo) : Fields :=
  match feedUrl with
  | some url =>
      if f.incomplete && url != "" && itemGuid != "" then
        match (table.get itemGuid).orElse (fun _ => table.get (jsTrim itemGuid)) with
        | some matched => fillMissing f matched.title matched.enclosureUrl
        | none => f
      else f
  | none => f

/-- The fields after the episode listing strategy (lines 164-188), given the
table cached for the feed id. -/
def listingFill (feedId : Option Int) (feedGuid itemGuid : String) (f : Fields)
    (table : JsMap String EpisodeData) : Fields :=
  if f.incomplete && feedGuid != "" && itemGuid != "" then
    match feedId with
    | some feedId =>
        if feedId ≠ 0 then
          match table.get (jsTrim itemGuid) with
          | some ep => fillMissing f (orNull ep.title) (orNull ep.enclosureUrl)
          | none => f
        else f
    | none => f
  else f

/-- The result pushed for a reference, given the cache entries the loop body
reads: the feed entry, the episode entry, the RSS table of the feed URL and
the listing of the feed id. -/
def resolveWith (feedGuid itemGuid : String) (fc : Option FeedInfo) (ec : Option EpisodeInfo)
    (rssT : JsMap String EpisodeInfo) (listT : JsMap String EpisodeData) : ResolvedTrack :=
  let f0 : Fields :=
    { episodeTitle := ec.bind (fun ec => ec.title)
      episodeEnclosureUrl := ec.bind (fun ec => ec.enclosureUrl) }
  let f1 := rssFill (fc.bind (fun fc => fc.url)) itemGuid f0 rssT
  let f2 := listingFill (fc.bind (fun fc => fc.id)) feedGuid itemGuid f1 listT
  { feedGuid := feedGuid
    itemGuid := itemGuid
    feedTitle := fc.bind (fun fc => fc.title)
    feedUrl := fc.bind (fun fc => fc.url)
    episodeTitle := f2.episodeTitle
    episodeEnclosureUrl := f2.episodeEnclosureUrl }

/-- The cache entries read for a reference are answers of the outside world
for its keys: the feed entry for `feedGuid`, the episode entry for
`itemGuid`, the RSS table for the feed URL of the feed entry and the listing
for its feed id. -/
def Sourced (w : World) (feedGuid itemGuid : String) (fc : Option FeedInfo)
    (ec : Option EpisodeInfo) (rssT : JsMap String EpisodeInfo)
    (listT : JsMap String EpisodeData) : Prop :=
  ((feedGuid = "" ∧ fc = none)
    ∨ (feedGuid ≠ "" ∧ ∃ log,
        fc = some (feedInfoOf (replyData w (w.podcastsByGuid log feedGuid)))))
  ∧ ((itemGuid = "" ∧ ec = none)
    ∨ (itemGuid ≠ "" ∧ ∃ log logp,
        ec = some (episodeInfoFrom (replyData w (w.episodesByGuid log itemGuid))
          (isHttpUrl itemGuid) (fetchPageTitle w logp itemGuid).1)))
  ∧ (∀ u, (fc.bind fun fc => fc.url) = some u → ∃ log, rssT = rssTableOf (w.rss log u))
  ∧ (∀ i, (fc.bind fun fc => fc.id) = some i →
      ∃ log, listT = listingOf (replyData w (w.episodesByFeedId log i)))

/-- The result pushed for a summary entry is computed from answers of the
outside world for the keys of the entry. -/
def ResultOf (w : World) (ri : SummaryRemoteItem) (r : ResolvedTrack) : Prop :=
  ∃ fc ec rssT listT,
    r = resolveWith ((orNull ri.feedGuid).getD "") ((orNull ri.itemGuid).getD "") fc ec rssT listT
    ∧ Sourced w ((orNull ri.feedGuid).getD "") ((orNull ri.itemGuid).getD "") fc ec rssT listT

/-- Every strategy yields nothing for an item GUID: the direct lookup finds
no episode, the page of a URL-shaped GUID gives no title, no feed RSS has an
item with that GUID and no episode listing lists it. -/
def YieldsNothing (w : World) (itemGuid : String) : Prop :=
  (∀ log item rest, replyData w (w.episodesByGuid log itemGuid) ≠ some (some (item :: rest)))
  ∧ (isHttpUrl itemGuid = true → ∀ log, (fetchPageTitle w log itemGuid).1 = none)
  ∧ (∀ log u, (rssTableOf (w.rss log u)).get itemGuid = none
      ∧ (rssTableOf (w.rss log u)).get (jsTrim itemGuid) = none)
  ∧ (∀ log i, (listingOf (replyData w (w.episodesByFeedId log i))).get (jsTrim itemGuid) = none)

/-- The case of the feed RSS strategy for a reference: the feed lookup
yields the feed URL, the direct episode lookup finds no episode, the page
fallback supplies no title, and the RSS at the feed URL has an item whose
trimmed `guid` is the item GUID, every such item having the trimmed,
non-empty title `title`. -/
def RssFallbackCase (w : World) (feedGuid itemGuid feedUrl title : String) : Prop :=
  feedGuid ≠ "" ∧ itemGuid ≠ ""
  ∧ (∀ log, (feedInfoOf (replyData w (w.podcastsByGuid log feedGuid))).url = some feedUrl)
  ∧ (∀ log item rest, replyData w (w.episodesByGuid log itemGuid) ≠ some (some (item :: rest)))
  ∧ (isHttpUrl itemGuid = true → ∀ log, truthy (fetchPageTitle w log itemGuid).1 = false)
  ∧ (∀ log, ∃ doc, w.rss log feedUrl = Reply.ok doc
      ∧ (∃ it ∈ doc.getElementsByTagName "item", rssGuidOf it = some itemGuid)
      ∧ (∀ it ∈ doc.getElementsByTagName "item", rssGuidOf it = some itemGuid →
          (rssInfoOf it).title = some title))

/-- An `item` element with the given `guid` and the title "Song R". -/
def songItem (guid : String) : XmlNode :=
  .element "item" [] [
    .element "title" [] [.text " Song R "],
    .element "guid" [] [.text guid]]

/-- A feed with one item: the given `guid` and the title "Song R". -/
def songFeed (guid : String) : Document :=
  { childNodes := [
      .element "rss" [] [
        .element "channel" [] [
          .element "title" [] [.text "Artist feed"],
          songItem guid]]] }

/-- An index service that knows every feed, with the RSS at
`http://feed.example/rss`, and no episode; that RSS holds one item whose
`guid` is `guid`; every page has the title "Page". -/
def fallbackWorld (guid : String) : World :=
  { apiKey := "key"
    apiSecret := "secret"
    podcastsByGuid := fun _ _ =>
      .ok (some { id := some 7, title := some "Artist feed",
                  url := some "http://feed.example/rss", link := none })
    episodesByGuid := fun _ _ => .ok (some [])
    episodesByFeedId := fun _ _ => .ok (some [])
    page := fun _ _ => .ok "<html><head><title>Page</title></head></html>"
    rss := fun _ _ => .ok (songFeed guid) }

/-- A summary with the single reference `feedGuid` / `itemGuid`. -/
def singleSummary (feedGuid itemGuid : Option String) : Summary :=
  { channel := { title := none, description := none, link := none, language := none,
                 lastBuildDate := none, generator := none, image := none }
    episodes := [{ title := some "E", pubDate := none, guid := none, link := none,
                   description := none, duration := none, enclosure := none,
                   remoteItems := some [{ feedGuid := feedGuid, itemGuid := itemGuid,
                                          feedUrl := none }] }] }

/-- An index service whose `podcasts/byguid` request rejects (a network
failure); everything else answers as in the example. -/
def throwingWorld : World :=
  { exampleWorld with podcastsByGuid := fun _ _ => .threw }

/-- The world of the feed RSS example without an API key. -/
def noKeyWorld : World :=
  { fallbackWorld "http://x.example/a" with apiKey := "" }

/-- Every request of the log is the fetch of a page at an http(s) URL. -/
def PageOnly (log : List Request) : Prop :=
  ∀ req ∈ log, ∃ url, req = Request.page url ∧ isHttpUrl url = true

/-- An index service for resolve-remote-feeds.js that reports every feed as
not found. -/
def notFoundWorld : RemoteWorld :=
  { apiKey := "key"
    apiSecret := "secret"
    podcastsByGuid := fun _ _ => .ok none
    episodesByGuid := fun _ _ => .ok none
    episodesByFeedId := fun _ _ => .ok none }

/-- An unresolved seed entry, as written by resolve-itdv-tracks.mjs. -/
def seedEntry (feedGuid itemGuid : String) : FeedEntry :=
  { feedGuid := some feedGuid, itemGuid := some itemGuid, title := none, artist := none,
    feedUrl := none, feedTitle := none, episodeId := none, feedId := none,
    episodeTitle := none, episodeEnclosureUrl := none }

/-- The distinct reference keys of the unresolved seed entries that name the
feed GUID `g`. -/
def unresolvedKeys (g : Option String) (seed : List FeedEntry) : List String :=
  ((seed.filter (fun item => decide (item.feedGuid = g) && needsResolving item)).map
    entryKey).dedup

/-- The reference keys, not yet in `processed`, of the unresolved entries of
`seed` that name the feed GUID `g`. -/
def pendingKeys (g : Option String) (processed : List String) (seed : List FeedEntry) :
    List String :=
  (seed.filter (fun item =>
    decide (item.feedGuid = g) && needsResolving item && !processed.contains (entryKey item))).map
    entryKey


/-! ## create-lightning-style-playlist.js: the tracks of a feed -/

/-- Line 28: `channel.getElementsByTagName('link')[0]?.textContent ||
'https://www.doerfelverse.com/'`. -/
def lightningOriginalLink (channel : XmlNode) : String :=
  match firstText channel "link" with
  | some t => if t ≠ "" then t else "https://www.doerfelverse.com/"
  | none => "https://www.doerfelverse.com/"

/-- Lines 25-86 of `createLightningStylePlaylist` on the parsed feed: the
tracks extracted, with the channel link as default episode link; `none` when
the feed has no `channel` element (reading its metadata throws). -/
def createLightningStyleTracks (now : String) (xmlDoc : Document) : Option (List MusicTrack) :=
  match (xmlDoc.getElementsByTagName "channel").head? with
  | none => none
  | some channel => some (extractLightningTracks now (lightningOriginalLink channel) xmlDoc)

/-- A feed whose channel holds a remote item outside every `item` and
`podcast:podroll`, before an episode with a remote item of its own. -/
def looseFeed : Document :=
  { childNodes := [
      .element "rss" [] [
        .element "channel" [] [
          .element "link" [] [.text "https://show.example/"],
          .element "podcast:remoteItem" [("feedGuid", "f0"), ("itemGuid", "i0")] [],
          .element "item" [] [
            .element "title" [] [.text "A"],
            .element "podcast:remoteItem" [("feedGuid", "f1"), ("itemGuid", "i1")] []]]]] }


/-- The world of the feed RSS example with an index that knows the episode:
the direct lookup returns the title "Direct" and an enclosure URL, while the
feed RSS holds the title "Song R" for the same guid. -/
def directWorld : World :=
  { fallbackWorld "i1" with
    episodesByGuid := fun _ _ =>
      .ok (some [{ guid := some "i1", title := some "Direct",
                   enclosureUrl := some "http://cdn.example/a.mp3" }]) }


/-- An index service for resolve-remote-feeds.js that knows every feed (id
7) and no episode. -/
def foundWorld : RemoteWorld :=
  { apiKey := "key"
    apiSecret := "secret"
    podcastsByGuid := fun _ _ =>
      .ok (some { id := some 7, title := some "Artist feed",
                  url := some "http://feed.example/rss", author := some "Artist" })
    episodesByGuid := fun _ _ => .ok none
    episodesByFeedId := fun _ _ => .ok (some []) }


/-! ## The request headers of the index service -/

/-- The headers object returned by `buildPiHeaders`. -/
structure PiHeaders where
  xAuthDate : String
  xAuthKey : String
  authorization : String
  userAgent : String
  accept : String
deriving DecidableEq, Repr

/-- The function `buildPiHeaders` of resolve-itdv-tracks.mjs (lines 20-33)
and of resolve-remote-feeds.js (lines 23-39), which differ in the
`User-Agent` text only. `sha1Hex` stands for the hex SHA-1 digest of the
`crypto` library, `nowMs` for `Date.now()`, `apiKey` and `apiSecret` for the
two environment variables (the empty string when unset). The timestamp is
`Math.floor(Date.now() / 1000)`; `apiKey + apiSecret + ts` appends its decimal
text. -/
def buildPiHeaders (sha1Hex : String → String) (userAgent : String) (apiKey apiSecret : String)
    (nowMs : Int) : Option PiHeaders :=
  if apiKey = "" ∨ apiSecret = "" then none
  else
    let ts := Int.fdiv nowMs 1000
    let authHash := sha1Hex (apiKey ++ apiSecret ++ toString ts)
    some { xAuthDate := toString ts
           xAuthKey := apiKey
           authorization := authHash
           userAgent := userAgent
           accept := "application/json" }


/-! ## create-ultra-simple-playlist.js and create-fuckit-compatible-playlist.js -/

/-- A track entry as pushed by `createUltraSimplePlaylist` and by
`createFuckitCompatiblePlaylist` (lines 39-44 of each). -/
structure SimpleTrack where
  trackNumber : Nat
  feedGuid : Option String
  itemGuid : Option String
  guid : String
deriving DecidableEq, Repr

/-- The loop of `createUltraSimplePlaylist` (create-ultra-simple-playlist.js,
lines 24-45) and, line for line the same, of `createFuckitCompatiblePlaylist`
(create-fuckit-compatible-playlist.js, lines 24-45). -/
def simpleLoop : List (XmlNode × List XmlNode) → Nat → List SimpleTrack → List SimpleTrack
  | [], _, musicTracks => musicTracks
  | (remoteItem, ancestors) :: rest, trackNumber, musicTracks =>
      let feedGuid := remoteItem.getAttribute "feedGuid"
      let itemGuid := remoteItem.getAttribute "itemGuid"
      let track : SimpleTrack :=
        { trackNumber := trackNumber
          feedGuid := feedGuid
          itemGuid := itemGuid
          guid := interpolate feedGuid ++ "-" ++ interpolate itemGuid }
      match ancestorWalk ancestors with
      | some currentNode =>
          if currentNode.tagName = some "podcast:podroll" then
            simpleLoop rest trackNumber musicTracks
          else simpleLoop rest (trackNumber + 1) (musicTracks ++ [track])
      | none => simpleLoop rest (trackNumber + 1) (musicTracks ++ [track])

/-- The extraction of `createUltraSimplePlaylist` and of
`createFuckitCompatiblePlaylist` from a parsed feed. -/
def extractSimpleTracks (xmlDoc : Document) : List SimpleTrack :=
  simpleLoop (xmlDoc.elementsByTagName "podcast:remoteItem") 1 []

/-- The opening of the document written by `generateUltraSimpleRSS` (lines
68-81). `now` stands for `new Date().toUTCString()`. -/
def ultraSimpleRSSHeader (now : String) : String :=
  "<?xml version=\"1.0\" encoding=\"UTF-8\"?>\n" ++
  "<rss version=\"2.0\" xmlns:podcast=\"https://github.com/Podcastindex-org/podcast-namespace/blob/main/docs/1.0.md\">\n" ++
  "  <channel>\n" ++
  "    <title>Doerfel-Verse Music Collection</title>\n" ++
  "    <description>Music references from Into The Doerfel-Verse podcast</description>\n" ++
  "    <link>https://www.doerfelverse.com/</link>\n" ++
  "    <language>en</language>\n" ++
  "    <pubDate>" ++ now ++ "</pubDate>\n" ++
  "    <podcast:medium>musicL</podcast:medium>\n" ++
  "    <image>\n" ++
  "      <url>https://www.doerfelverse.com/art/itdvchadf.png</url>\n" ++
  "      <title>Doerfel-Verse Music</title>\n" ++
  "      <link>https://www.doerfelverse.com/</link>\n" ++
  "    </image>"

/-- The text appended for one track by `generateUltraSimpleRSS` (lines
84-90). -/
def ultraSimpleRSSItem (track : SimpleTrack) : String :=
  "\n    <item>\n" ++
  "      <description>Music reference from Doerfel-Verse podcast collection</description>\n" ++
  "      <link>https://www.doerfelverse.com/</link>\n" ++
  "      <guid isPermaLink=\"false\">" ++ track.guid ++ "</guid>\n" ++
  "      <podcast:remoteItem feedGuid=\"" ++ interpolate track.feedGuid ++
    "\" itemGuid=\"" ++ interpolate track.itemGuid ++ "\"/>\n" ++
  "    </item>"

/-- The function `generateUltraSimpleRSS` of create-ultra-simple-playlist.js
(lines 65-98). -/
def generateUltraSimpleRSS (now : String) (tracks : List SimpleTrack) : String :=
  let xml := ultraSimpleRSSHeader now
  let xml := tracks.foldl (fun xml track => xml ++ ultraSimpleRSSItem track) xml
  xml ++ "\n  </channel>\n</rss>"

/-- The opening of the document written by `generateFuckitCompatibleRSS`
(lines 68-83). -/
def fuckitRSSHeader (now : String) : String :=
  "<?xml version=\"1.0\" encoding=\"UTF-8\"?>\n" ++
  "<rss version=\"2.0\" xmlns:podcast=\"https://github.com/Podcastindex-org/podcast-namespace/blob/main/docs/1.0.md\" xmlns:itunes=\"http://www.itunes.com/dtds/podcast-1.0.dtd\">\n" ++
  "<channel>\n" ++
  "<author>ChadF</author>\n" ++
  "<title>Doerfel-Verse Music Collection</title>\n" ++
  "<description>Every music track played on Into The Doerfel-Verse podcast</description>\n" ++
  "<link>https://www.doerfelverse.com/</link>\n" ++
  "<language>en</language>\n" ++
  "<pubDate>" ++ now ++ "</pubDate>\n" ++
  "<lastBuildDate>" ++ now ++ "</lastBuildDate>\n" ++
  "<image>\n" ++
  "<url>https://www.doerfelverse.com/art/itdvchadf.png</url>\n" ++
  "</image>\n" ++
  "<podcast:guid>576fbe93-879e-4039-8e84-b300936c53bd</podcast:guid>\n" ++
  "<podcast:medium>musicL</podcast:medium>\n" ++
  "<itunes:image href=\"https://www.doerfelverse.com/art/itdvchadf.png\" />"

/-- The text appended for one track by `generateFuckitCompatibleRSS` (lines
86-93). -/
def fuckitRSSItem (now : String) (track : SimpleTrack) : String :=
  "\n<item>\n" ++
  "<guid>" ++ track.guid ++ "</guid>\n" ++
  "<title>Music Track " ++ toString track.trackNumber ++ "</title>\n" ++
  "<description>Music reference from Doerfel-Verse podcast</description>\n" ++
  "<pubDate>" ++ now ++ "</pubDate>\n" ++
  "<podcast:remoteItem feedGuid=\"" ++ interpolate track.feedGuid ++
    "\" itemGuid=\"" ++ interpolate track.itemGuid ++ "\"/>\n" ++
  "</item>"

/-- The function `generateFuckitCompatibleRSS` of
create-fuckit-compatible-playlist.js (lines 65-101). -/
def generateFuckitCompatibleRSS (now : String) (tracks : List SimpleTrack) : String :=
  let xml := fuckitRSSHeader now
  let xml := tracks.foldl (fun xml track => xml ++ fuckitRSSItem now track) xml
  xml ++ "\n</channel>\n</rss>"

/-- The track extracted from a remote item `feedGuid="f2"` without an
`itemGuid` attribute, as the second track of a feed. -/
def feedOnlyTrack : SimpleTrack :=
  { trackNumber := 2, feedGuid := some "f2", itemGuid := none, guid := "f2-null" }


/-! ## The CSV files -/

/-- The method `Array.prototype.join` on an array of strings. -/
def joinWith (sep : String) : List String → String
  | [] => ""
  | [x] => x
  | x :: y :: rest => x ++ sep ++ joinWith sep (y :: rest)

/-- The expression `x || ''` on a string-or-null value. -/
def orEmpty (x : Option String) : String :=
  match x with
  | some s => if s ≠ "" then s else ""
  | none => ""

/-- The test `/[",\n]/.test(s)` of resolve-itdv-tracks.mjs (line 210). -/
def needsQuoting (s : List Char) : Bool :=
  s.any (fun c => c == dquote || c == ',' || c == '\n')

/-- The inner `map` callback of resolve-itdv-tracks.mjs (lines 208-211) on a
string value: `'"' + s.replace(/"/g, '""') + '"'` when the test matches, `s`
otherwise. -/
def csvField (v : String) : String :=
  let s := v
  if needsQuoting s.data then
    String.mk ([dquote] ++ replaceAll dquote [dquote, dquote] s.data ++ [dquote])
  else s

/-- The array of six values built for a result by resolve-itdv-tracks.mjs
(line 207). -/
def csvValues (r : ResolvedTrack) : List String :=
  [r.feedGuid, r.itemGuid, orEmpty r.feedTitle, orEmpty r.episodeTitle, orEmpty r.feedUrl,
    orEmpty r.episodeEnclosureUrl]

/-- The row written for a result by resolve-itdv-tracks.mjs (lines
207-211). -/
def csvRow (r : ResolvedTrack) : String :=
  joinWith "," ((csvValues r).map csvField)

/-- The constant `csvHeader` of resolve-itdv-tracks.mjs (line 206). -/
def csvHeader : String :=
  "feedGuid,itemGuid,feedTitle,episodeTitle,feedUrl,episodeEnclosureUrl"

/-- The text written to `itdv-music-feed-resolved.csv` by `main` of
resolve-itdv-tracks.mjs (line 212). -/
def csvText (results : List ResolvedTrack) : String :=
  joinWith "\n" (csvHeader :: results.map csvRow)

/-- The expression `x || ''` on a number-or-null value inside a template
literal. -/
def idOrEmpty (x : Option Int) : String :=
  match x with
  | some n => if n ≠ 0 then toString n else ""
  | none => ""

/-- The constant `csvHeader` of resolve-remote-feeds.js (line 175) and of
resolve-missing-feed.js (line 189). -/
def remoteCsvHeader : String :=
  "feedGuid,itemGuid,title,artist,feedUrl,feedTitle,episodeId,feedId\n"

/-- The eight texts interpolated into a row by resolve-remote-feeds.js (line
177). -/
def remoteCsvValues (item : FeedEntry) : List String :=
  [interpolate item.feedGuid, interpolate item.itemGuid, orEmpty item.title, orEmpty item.artist,
    orEmpty item.feedUrl, orEmpty item.feedTitle, idOrEmpty item.episodeId,
    idOrEmpty item.feedId]

/-- The row written for an entry by resolve-remote-feeds.js (line 177) and
by resolve-missing-feed.js (line 191): every value between double quotes, as
it is. -/
def remoteCsvRow (item : FeedEntry) : String :=
  "\"" ++ interpolate item.feedGuid ++ "\",\"" ++ interpolate item.itemGuid ++ "\",\"" ++
    orEmpty item.title ++ "\",\"" ++ orEmpty item.artist ++ "\",\"" ++ orEmpty item.feedUrl ++
    "\",\"" ++ orEmpty item.feedTitle ++ "\",\"" ++ idOrEmpty item.episodeId ++ "\",\"" ++
    idOrEmpty item.feedId ++ "\""

/-- The text written to `itdv-music-feed-fully-resolved.csv` (lines
175-179 of resolve-remote-feeds.js, lines 189-193 of
resolve-missing-feed.js). -/
def remoteCsvText (results : List FeedEntry) : String :=
  remoteCsvHeader ++ joinWith "\n" (results.map remoteCsvRow)

/-! ### Reading a CSV text

The reader follows RFC 4180 with a line feed between records: a field is
either a run of characters without comma, double quote and line feed, or a
double-quoted run in which a double quote is written twice. -/

/-- Where the reader stands inside a record. -/
inductive CsvMode where
  | fieldStart
  | unquoted
  | quoted
  | quoteSeen
  | malformed
deriving DecidableEq, Repr

/-- The reader: the field being read, the fields of the record being read,
and the records read. -/
structure CsvState where
  mode : CsvMode
  field : List Char
  row : List String
  rows : List (List String)
deriving DecidableEq, Repr

/-- Close the field being read. -/
def CsvState.endField (s : CsvState) : CsvState :=
  { mode := .fieldStart, field := [], row := s.row ++ [String.mk s.field], rows := s.rows }

/-- Close the field and the record being read. -/
def CsvState.endRecord (s : CsvState) : CsvState :=
  { mode := .fieldStart, field := [], row := [],
    rows := s.rows ++ [s.row ++ [String.mk s.field]] }

/-- One character of the text. -/
def csvStep (s : CsvState) (c : Char) : CsvState :=
  match s.mode with
  | .fieldStart =>
      if c = dquote then { s with mode := .quoted }
      else if c = ',' then s.endField
      else if c = '\n' then s.endRecord
      else { s with mode := .unquoted, field := [c] }
  | .unquoted =>
      if c = dquote then { s with mode := .malformed }
      else if c = ',' then s.endField
      else if c = '\n' then s.endRecord
      else { s with field := s.field ++ [c] }
  | .quoted =>
      if c = dquote then { s with mode := .quoteSeen }
      else { s with field := s.field ++ [c] }
  | .quoteSeen =>
      if c = dquote then { s with mode := .quoted, field := s.field ++ [dquote] }
      else if c = ',' then s.endField
      else if c = '\n' then s.endRecord
      else { s with mode := .malformed }
  | .malformed => s

/-- The reader before the first character. -/
def CsvState.start : CsvState :=
  { mode := .fieldStart, field := [], row := [], rows := [] }

/-- The records at the end of the text: none when a quoted field is left
open or a double quote stands where the format has none; a line feed at the
very end closes the last record and opens no further one. -/
def CsvState.finish (s : CsvState) : Option (List (List String)) :=
  match s.mode with
  | .malformed => none
  | .quoted => none
  | .fieldStart => if s.row = [] then some s.rows else some s.endRecord.rows
  | .unquoted => some s.endRecord.rows
  | .quoteSeen => some s.endRecord.rows

/-- The records of a CSV text. -/
def parseCSV (text : String) : Option (List (List String)) :=
  (text.data.foldl csvStep CsvState.start).finish

/-- The six column names of `csvHeader`. -/
def csvHeaderFields : List String :=
  ["feedGuid", "itemGuid", "feedTitle", "episodeTitle", "feedUrl", "episodeEnclosureUrl"]

/-- The eight column names of `remoteCsvHeader`. -/
def remoteCsvHeaderFields : List String :=
  ["feedGuid", "itemGuid", "title", "artist", "feedUrl", "feedTitle", "episodeId", "feedId"]

/-- A resolved entry whose title holds double quotes. -/
def quotedTitleEntry : FeedEntry :=
  { seedEntry "f" "i" with title := some "Say \"Hi\"" }

/-- A resolved entry whose title holds a double quote, a comma and a double
quote. -/
def splitTitleEntry : FeedEntry :=
  { seedEntry "f" "i" with title := some "x\",\"y" }

/-- A result whose episode title holds double quotes, a comma and a line
feed. -/
def awkwardResult : ResolvedTrack :=
  { feedGuid := "f", itemGuid := "i", feedTitle := some "Rock, Roll", feedUrl := none,
    episodeTitle := some "Say \"Hi\"\nagain", episodeEnclosureUrl := some "" }

/-- Whether a comma, a line feed or the end of the text may stand here. -/
def CsvState.canClose (s : CsvState) : Bool :=
  s.mode == .fieldStart || s.mode == .unquoted || s.mode == .quoteSeen

/-- The text of a record whose values are written with `csvField`. -/
def csvRecord (values : List String) : String :=
  joinWith "," (values.map csvField)

/-- A value between double quotes, as it is: the way the row template of
resolve-remote-feeds.js writes each value. -/
def quoteAsIs (v : String) : String :=
  "\"" ++ v ++ "\""

/-! ## create-music-playlist.js: the M3U text -/

/-- An entry of `episodeData.remoteItems` as pushed by `createMusicPlaylist`
(create-music-playlist.js, lines 62-67). -/
structure PlaylistItem where
  feedGuid : Option String
  itemGuid : Option String
  feedUrl : Option String
  type : String
deriving DecidableEq, Repr

/-- An entry of `playlist.episodes` (lines 49-55). A field read with
`?.textContent` from an element that is not there is `undefined`, here
`none`. -/
structure PlaylistEpisode where
  episodeTitle : Option String
  published : Option String
  guid : Option String
  description : Option String
  remoteItems : List PlaylistItem
deriving DecidableEq, Repr

/-- The object `playlist` of `createMusicPlaylist` (lines 30-36). -/
structure MusicPlaylist where
  title : String
  description : String
  source : String
  created : String
  episodes : List PlaylistEpisode
deriving DecidableEq, Repr

/-- A value that is a string or `undefined`, inside a template literal. -/
def interpolateUndefined (v : Option String) : String :=
  match v with
  | some s => s
  | none => "undefined"

/-- The function `createM3UPlaylist` of create-music-playlist.js (lines
150-169). -/
def createM3UPlaylist (playlist : MusicPlaylist) : String :=
  let m3u := "#EXTM3U\n"
  let m3u := m3u ++ ("# " ++ playlist.title ++ "\n")
  let m3u := m3u ++ ("# " ++ playlist.description ++ "\n")
  let m3u := m3u ++ ("# Created: " ++ playlist.created ++ "\n\n")
  playlist.episodes.foldl (fun m3u episode =>
    let m3u := m3u ++ ("# " ++ interpolateUndefined episode.episodeTitle ++ "\n")
    let m3u := episode.remoteItems.foldl (fun m3u item =>
      if truthy item.feedUrl then m3u ++ (interpolate item.feedUrl ++ "\n")
      else m3u ++ ("# Feed: " ++ interpolate item.feedGuid ++ ", Item: " ++
        interpolate item.itemGuid ++ "\n")) m3u
    m3u ++ "\n") m3u

/-- The lines of a text: the runs between line feeds. -/
def splitLines : List Char → List (List Char)
  | [] => [[]]
  | c :: cs =>
      if c = '\n' then [] :: splitLines cs
      else
        match splitLines cs with
        | [] => [[c]]
        | line :: lines => (c :: line) :: lines

/-- The lines of a text, as strings. -/
def linesOf (text : String) : List String :=
  (splitLines text.data).map String.mk

/-- A line that is neither empty nor a comment. -/
def isEntryLine (line : String) : Bool :=
  line != "" && line.data.head? != some '#'

/-- A string without line feed. -/
def noNewline (s : String) : Bool :=
  !s.data.contains '\n'

/-- A string-or-null value that holds no line feed. -/
def noNewlineOpt (s : Option String) : Bool :=
  match s with
  | some v => noNewline v
  | none => true

/-- A string-or-null value that does not start with `#`. -/
def notComment (s : Option String) : Bool :=
  match s with
  | some v => v.data.head? != some '#'
  | none => true

/-- The line written for a remote item by `createM3UPlaylist` (lines
160-164), without its line feed. -/
def m3uItemLine (item : PlaylistItem) : String :=
  if truthy item.feedUrl then interpolate item.feedUrl
  else "# Feed: " ++ interpolate item.feedGuid ++ ", Item: " ++ interpolate item.itemGuid

/-- The lines written for an episode by `createM3UPlaylist` (lines
158-166). -/
def m3uEpisodeLines (episode : PlaylistEpisode) : List String :=
  ("# " ++ interpolateUndefined episode.episodeTitle) :: episode.remoteItems.map m3uItemLine
    ++ [""]

/-- The lines written by `createM3UPlaylist`. -/
def m3uLines (playlist : MusicPlaylist) : List String :=
  ["#EXTM3U", "# " ++ playlist.title, "# " ++ playlist.description,
    "# Created: " ++ playlist.created, ""] ++ playlist.episodes.flatMap m3uEpisodeLines

/-- A playlist of two episodes: the first with a remote item that has a feed
URL and one that has none, the second without title and with one remote item
that has a feed URL. -/
def examplePlaylist : MusicPlaylist :=
  { title := "Doerfel-Verse Music Playlist"
    description := "Music playlist"
    source := "https://www.doerfelverse.com/feeds/intothedoerfelverse.xml"
    created := "2025-01-01T00:00:00.000Z"
    episodes := [
      { episodeTitle := some "Episode 1", published := none, guid := none, description := none
        remoteItems := [
          { feedGuid := some "f1", itemGuid := some "i1", feedUrl := some "http://a.example/rss",
            type := "specific_episode" },
          { feedGuid := some "f2", itemGuid := none, feedUrl := none, type := "entire_feed" }] },
      { episodeTitle := none, published := none, guid := none, description := none
        remoteItems := [
          { feedGuid := some "f3", itemGuid := some "i3", feedUrl := some "http://b.example/rss",
            type := "specific_episode" }] }] }

/-- The feed URL of a remote item when it is a non-empty string. -/
def PlaylistItem.url (item : PlaylistItem) : Option String :=
  if truthy item.feedUrl then item.feedUrl else none

/-! ## The renderers that test the item GUID -/

/-- The `podcast:remoteItem` element written for a track by
`generateLightningStyleRSS` (create-lightning-style-playlist.js, line
163). -/
def lightningRemoteItem (track : MusicTrack) : String :=
  "<podcast:remoteItem feedGuid=\"" ++ escapeXML track.feedGuid ++ "\"" ++
    (if truthy track.itemGuid then " itemGuid=\"" ++ escapeXML track.itemGuid ++ "\"" else "") ++
    (if truthy track.feedUrl then " feedUrl=\"" ++ escapeXML track.feedUrl ++ "\"" else "") ++
    "/>"

/-- The part of the item template of `generateLightningStyleRSS` before the
`podcast:remoteItem` element (lines 152-162, with `trackTitle` and
`trackDescription` of lines 149-150). -/
def lightningRSSItemOpening (track : MusicTrack) : String :=
  let trackTitle := "Track " ++ toString track.trackNumber ++ ": Music Reference (Episode: " ++
    track.episodeTitle ++ ")"
  let trackDescription := "Music track referenced in episode \"" ++ track.episodeTitle ++
    "\". Feed GUID: " ++ interpolate track.feedGuid ++ ", Item GUID: " ++
    interpolate track.itemGuid
  "\n    <item>\n" ++
  "      <title>" ++ escapeXML (some trackTitle) ++ "</title>\n" ++
  "      <description>" ++ escapeXML (some trackDescription) ++ "</description>\n" ++
  "      <link>" ++ escapeXML (some track.episodeLink) ++ "</link>\n" ++
  "      <guid isPermaLink=\"false\">" ++ interpolate track.feedGuid ++ "-" ++
    (if truthy track.itemGuid then interpolate track.itemGuid else "feed") ++ "-" ++
    toString track.trackNumber ++ "</guid>\n" ++
  "      <pubDate>" ++ track.episodePubDate ++ "</pubDate>\n" ++
  "      <itunes:duration>00:00:00</itunes:duration>\n" ++
  "      <itunes:episodeType>full</itunes:episodeType>\n" ++
  "      "

/-- The text appended for one track by `generateLightningStyleRSS` (lines
152-164). -/
def lightningRSSItem (track : MusicTrack) : String :=
  lightningRSSItemOpening track ++ lightningRemoteItem track ++ "\n    </item>"

/-- The opening of the document written by `generateLightningStyleRSS`
(lines 117-146). `now` stands for `new Date().toUTCString()`, `nowMs` for
`Date.now()` inside `generateGuid`. The source does not use its parameter
`description`. -/
def lightningRSSHeader (now : String) (nowMs : Int) (title _description link : String)
    (image : Option XmlNode) (language : String) : String :=
  let imageUrl := match image with
    | some node => orEmpty (firstText node "url")
    | none => ""
  let imageTitle := match image with
    | some node =>
        match firstText node "title" with
        | some t => if t ≠ "" then t else title
        | none => title
    | none => title
  let xml := "<?xml version=\"1.0\" encoding=\"UTF-8\"?>\n" ++
    "<rss version=\"2.0\" xmlns:itunes=\"http://www.itunes.com/dtds/podcast-1.0.dtd\" xmlns:podcast=\"https://github.com/Podcastindex-org/podcast-namespace/blob/main/docs/1.0.md\">\n" ++
    "  <channel>\n" ++
    "    <title>" ++ escapeXML (some title) ++ " Music Playlist</title>\n" ++
    "    <description>Every song played on " ++ escapeXML (some title) ++
      " from episodes with music references</description>\n" ++
    "    <link>" ++ escapeXML (some link) ++ "</link>\n" ++
    "    <language>" ++ language ++ "</language>\n" ++
    "    <pubDate>" ++ now ++ "</pubDate>\n" ++
    "    <lastBuildDate>" ++ now ++ "</lastBuildDate>\n" ++
    "    <itunes:author>" ++ escapeXML (some title) ++ "</itunes:author>\n" ++
    "    <itunes:category text=\"Music\"/>\n" ++
    "    <itunes:explicit>false</itunes:explicit>\n" ++
    "    <itunes:type>episodic</itunes:type>\n" ++
    "    <podcast:medium>musicL</podcast:medium>\n" ++
    "    <podcast:guid>" ++ ("doerfel-verse-music-playlist-" ++ toString nowMs) ++
      "</podcast:guid>"
  let xml :=
    if imageUrl ≠ "" then
      xml ++ ("\n    <image>\n" ++
        "      <url>" ++ escapeXML (some imageUrl) ++ "</url>\n" ++
        "      <title>" ++ escapeXML (some imageTitle) ++ "</title>\n" ++
        "      <link>" ++ escapeXML (some link) ++ "</link>\n" ++
        "    </image>")
    else xml
  xml ++ ("\n    <itunes:image href=\"" ++ escapeXML (some imageUrl) ++ "\"/>")

/-- The function `generateLightningStyleRSS` of
create-lightning-style-playlist.js (lines 115-172). -/
def generateLightningStyleRSS (now : String) (nowMs : Int) (title description link : String)
    (image : Option XmlNode) (language : String) (musicTracks : List MusicTrack) : String :=
  let xml := lightningRSSHeader now nowMs title description link image language
  let xml := musicTracks.foldl (fun xml track => xml ++ lightningRSSItem track) xml
  xml ++ "\n  </channel>\n</rss>"

/-- The `enclosure` object of an episode of create-rss-from-playlist.js
(lines 64-68). -/
structure RssEnclosure where
  url : Option String
  type : Option String
  length : Option String
deriving DecidableEq, Repr

/-- The object `episodeData` of create-rss-from-playlist.js (lines 59-70). -/
structure RssEpisode where
  title : String
  pubDate : Option String
  guid : String
  description : String
  link : Option String
  duration : Option String
  enclosure : Option RssEnclosure
  remoteItems : List PlaylistItem
deriving DecidableEq, Repr

/-- The object `rssFeed` of create-rss-from-playlist.js (lines 33-41). -/
structure RssFeed where
  title : String
  description : String
  link : String
  language : String
  lastBuildDate : String
  generator : String
  episodes : List RssEpisode
deriving DecidableEq, Repr

/-- The `podcast:remoteItem` element written for a remote item by
`generateRSSXML` (create-rss-from-playlist.js, lines 205-213, without the
indentation before it and the line feed after it). -/
def rssRemoteItem (remoteItem : PlaylistItem) : String :=
  let xml := "<podcast:remoteItem"
  let xml := xml ++ (" feedGuid=\"" ++ escapeXML remoteItem.feedGuid ++ "\"")
  let xml :=
    if truthy remoteItem.itemGuid then
      xml ++ (" itemGuid=\"" ++ escapeXML remoteItem.itemGuid ++ "\"")
    else xml
  let xml :=
    if truthy remoteItem.feedUrl then
      xml ++ (" feedUrl=\"" ++ escapeXML remoteItem.feedUrl ++ "\"")
    else xml
  xml ++ " />"

/-- The part of an item of `generateRSSXML` before its remote items (lines
193-202). -/
def rssEpisodeOpening (episode : RssEpisode) : String :=
  let xml := "  <item>\n"
  let xml := xml ++ ("    <title>" ++ escapeXML (some episode.title) ++ "</title>\n")
  let xml := xml ++ ("    <description>" ++ escapeXML (some episode.description) ++
    "</description>\n")
  let xml := xml ++ ("    <pubDate>" ++ escapeXML episode.pubDate ++ "</pubDate>\n")
  let xml := xml ++ ("    <guid>" ++ escapeXML (some episode.guid) ++ "</guid>\n")
  let xml :=
    if truthy episode.link then xml ++ ("    <link>" ++ escapeXML episode.link ++ "</link>\n")
    else xml
  if truthy episode.duration then
    xml ++ ("    <itunes:duration>" ++ escapeXML episode.duration ++ "</itunes:duration>\n")
  else xml

/-- The text appended for the enclosure of an episode by `generateRSSXML`
(lines 216-223): nothing without an enclosure that has a URL. -/
def rssEnclosureXml (enclosure : Option RssEnclosure) : String :=
  match enclosure with
  | some enclosure =>
      if truthy enclosure.url then
        let xml := "    <enclosure"
        let xml := xml ++ (" url=\"" ++ escapeXML enclosure.url ++ "\"")
        let xml :=
          if truthy enclosure.type then xml ++ (" type=\"" ++ escapeXML enclosure.type ++ "\"")
          else xml
        let xml :=
          if truthy enclosure.length then
            xml ++ (" length=\"" ++ escapeXML enclosure.length ++ "\"")
          else xml
        xml ++ " />\n"
      else ""
  | none => ""

/-- The text appended for one episode by `generateRSSXML` (lines
192-225). -/
def rssEpisodeXml (episode : RssEpisode) : String :=
  let xml := rssEpisodeOpening episode
  let xml := episode.remoteItems.foldl (fun xml remoteItem =>
    xml ++ ("    " ++ rssRemoteItem remoteItem ++ "\n")) xml
  let xml := xml ++ rssEnclosureXml episode.enclosure
  xml ++ "  </item>\n"

/-- The opening of the document written by `generateRSSXML` (lines
160-188). -/
def rssXmlHeader (rssFeed : RssFeed) (originalImage : Option XmlNode) : String :=
  let xml := "<?xml version=\"1.0\" encoding=\"UTF-8\"?>\n"
  let xml := xml ++ "<rss version=\"2.0\" xmlns:itunes=\"http://www.itunes.com/dtds/podcast-1.0.dtd\" xmlns:podcast=\"https://github.com/Podcastindex-org/podcast-namespace/blob/main/docs/1.0.md\">\n"
  let xml := xml ++ "<channel>\n"
  let xml := xml ++ ("  <title>" ++ escapeXML (some rssFeed.title) ++ "</title>\n")
  let xml := xml ++ ("  <description>" ++ escapeXML (some rssFeed.description) ++
    "</description>\n")
  let xml := xml ++ ("  <link>" ++ escapeXML (some rssFeed.link) ++ "</link>\n")
  let xml := xml ++ ("  <language>" ++ escapeXML (some rssFeed.language) ++ "</language>\n")
  let xml := xml ++ ("  <lastBuildDate>" ++ escapeXML (some rssFeed.lastBuildDate) ++
    "</lastBuildDate>\n")
  let xml := xml ++ ("  <generator>" ++ escapeXML (some rssFeed.generator) ++ "</generator>\n")
  let xml := xml ++ "  <podcast:medium>music</podcast:medium>\n"
  match originalImage with
  | some image =>
      let imageUrl := firstText image "url"
      let imageTitle := firstText image "title"
      if truthy imageUrl then
        let xml := xml ++ "  <image>\n"
        let xml := xml ++ ("    <url>" ++ escapeXML imageUrl ++ "</url>\n")
        let xml :=
          if truthy imageTitle then
            xml ++ ("    <title>" ++ escapeXML imageTitle ++ "</title>\n")
          else xml
        xml ++ "  </image>\n"
      else xml
  | none => xml

/-- The function `generateRSSXML` of create-rss-from-playlist.js (lines
159-232). -/
def generateRSSXML (rssFeed : RssFeed) (originalImage : Option XmlNode) : String :=
  let xml := rssXmlHeader rssFeed originalImage
  let xml := rssFeed.episodes.foldl (fun xml episode => xml ++ rssEpisodeXml episode) xml
  let xml := xml ++ "</channel>\n"
  xml ++ "</rss>"

/-! ### Reading an empty-element tag

The reader follows the XML grammar for an empty-element tag whose attribute
values stand between double quotes: `<`, a name, attributes `name="value"`
each after white space, optional white space, `/>`. A value holds no `<` and
its entity references are replaced. -/

/-- White space of XML. -/
def isXmlSpace (c : Char) : Bool :=
  c == ' ' || c == '\t' || c == '\n' || c == '\r'

/-- The characters of a name, ASCII only. -/
def isNameChar (c : Char) : Bool :=
  c.isAlphanum || c == ':' || c == '_' || c == '-' || c == '.'

/-- The attributes of a tag, from the text after its name up to the closing
`/>`; `steps` bounds the number of attributes read. -/
def readAttributes : Nat → List Char → Option (List (String × String))
  | 0, _ => none
  | steps + 1, cs =>
      let rest := cs.dropWhile isXmlSpace
      if rest = ['/', '>'] then some []
      else if rest.length = cs.length then none
      else
        let name := rest.takeWhile isNameChar
        if name = [] then none
        else
          match rest.dropWhile isNameChar with
          | e :: q :: afterQuote =>
              if e = '=' ∧ q = dquote then
                let value := afterQuote.takeWhile (fun c => c != dquote)
                if value.contains '<' then none
                else
                  match afterQuote.dropWhile (fun c => c != dquote) with
                  | _ :: afterValue =>
                      (readAttributes steps afterValue).map
                        (fun attrs => (String.mk name, String.mk (unescapeXMLChars value)) :: attrs)
                  | [] => none
              else none
          | _ => none

/-- The element written as an empty-element tag. -/
def readEmptyElement (text : String) : Option XmlNode :=
  match text.data with
  | c :: afterOpen =>
      if c = '<' then
        let name := afterOpen.takeWhile isNameChar
        if name = [] then none
        else
          (readAttributes afterOpen.length (afterOpen.dropWhile isNameChar)).map
            (fun attrs => XmlNode.element (String.mk name) attrs [])
      else none
  | [] => none

/-- A track that names the feed `f<2>` as a whole, without item GUID, and
carries a feed URL with an ampersand. -/
def feedOnlyMusicTrack : MusicTrack :=
  { trackNumber := 2, feedGuid := some "f<2>", itemGuid := none,
    feedUrl := some "http://x.example/rss?a=1&b=2", episodeTitle := "B",
    episodePubDate := "now", episodeLink := "https://show.example/", type := "entire_feed",
    isPodrollItem := false }

/-- A remote item that names the feed `f<2>` as a whole, with an empty item
GUID. -/
def feedOnlyItem : PlaylistItem :=
  { feedGuid := some "f<2>", itemGuid := some "", feedUrl := none, type := "entire_feed" }

/-- The `feedUrl` attribute of an element read back: there when the value
written was a non-empty string. -/
def feedUrlAttribute (feedUrl : Option String) : List (String × String) :=
  match feedUrl with
  | some url => if url ≠ "" then [("feedUrl", url)] else []
  | none => []

/-- A feed with one episode that holds the given nodes. -/
def itemDocument (nodes : List XmlNode) : Document :=
  { childNodes := [.element "rss" [] [.element "channel" [] [.element "item" [] nodes]]] }

/-- A feed of `generateRSSXML` with one episode that holds `feedOnlyItem`. -/
def feedOnlyRssFeed : RssFeed :=
  { title := "T", description := "D", link := "https://show.example/", language := "en",
    lastBuildDate := "now", generator := "G",
    episodes := [
      { title := "B (Music Playlist)", pubDate := none, guid := "g-music-playlist",
        description := "d", link := none, duration := none, enclosure := none,
        remoteItems := [feedOnlyItem] }] }

/-! ## resolve-remote-feeds.js: the loop of `main`, one entry at a time -/

/-- The variables of the loop of `main` of resolve-remote-feeds.js:
`processed`, `results` and the request log. -/
structure RemoteState where
  processed : List String
  results : List FeedEntry
  log : List RemoteRequest

/-- One iteration of the loop of `main` of resolve-remote-feeds.js (lines
152-167). -/
def remoteStep (w : RemoteWorld) (s : RemoteState) (item : FeedEntry) : RemoteState :=
  let key := entryKey item
  if s.processed.contains key then s
  else if needsResolving item then
    let (resolved, log) := resolveRemoteFeed w s.log item.feedGuid item.itemGuid
    { processed := key :: s.processed, results := s.results ++ [resolved], log := log }
  else { processed := key :: s.processed, results := s.results ++ [item], log := s.log }

/-- A seed entry with a title. -/
def titledEntry (feedGuid itemGuid title : String) : FeedEntry :=
  { seedEntry feedGuid itemGuid with title := some title }

/-- Two resolved seed entries with different references whose texts
`feedGuid-itemGuid` are the same. -/
def collidingSeed : List FeedEntry :=
  [titledEntry "a-b" "c" "One", titledEntry "a" "b-c" "Two"]

/-! ## resolve-missing-feed.js -/

/-- An entry of `resolvedTracks` of resolve-missing-feed.js (lines
120-142). -/
structure MissingTrack where
  feedGuid : String
  itemGuid : String
  title : Option String
  artist : Option String
  feedUrl : Option String
  feedTitle : Option String
  episodeId : Option Int
  feedId : Int
deriving DecidableEq, Repr

/-- The constant `missingItemGuids` of resolve-missing-feed.js (lines
101-105). -/
def missingItemGuids : List String :=
  ["7c823adf-1e53-4df1-98c0-979da81ec916", "822d7113-eab2-4857-82d2-cc0c1a52ce2b",
    "24d8aa8b-317c-4f03-86d2-65c454370fb8"]

/-- The search of lines 113-115:
`ep.guid === itemGuid || ep.id === itemGuid || ep.id?.toString() === itemGuid`.
An episode `id` is a number and is never strictly equal to a string. -/
def findMissingEpisode (items : List RemoteEpisode) (itemGuid : String) : Option RemoteEpisode :=
  items.find? (fun ep =>
    ep.guid == some itemGuid ||
      (match ep.id with
       | some id => toString id == itemGuid
       | none => false))

/-- The entry pushed onto `resolvedTracks` for one looked-up item GUID (lines
117-143). -/
def missingTrackOf (feed : RemoteFeed) (items : List RemoteEpisode) (itemGuid : String) :
    MissingTrack :=
  match findMissingEpisode items itemGuid with
  | some episode =>
      { feedGuid := "5a95f9d8-35e3-51f5-a269-ba1df36b4bd8", itemGuid := itemGuid,
        title := episode.title, artist := orElseFalsy feed.author feed.title,
        feedUrl := feed.url, feedTitle := feed.title, episodeId := episode.id,
        feedId := 7365153 }
  | none =>
      { feedGuid := "5a95f9d8-35e3-51f5-a269-ba1df36b4bd8", itemGuid := itemGuid,
        title := none, artist := none, feedUrl := feed.url, feedTitle := feed.title,
        episodeId := none, feedId := 7365153 }

/-- The list `resolvedTracks` after the loop of lines 109-144. -/
def lookupMissing (feed : RemoteFeed) (items : List RemoteEpisode) : List MissingTrack :=
  missingItemGuids.map (missingTrackOf feed items)

/-- The operator `a || b` on number-or-null values. -/
def orElseFalsyInt (a b : Option Int) : Option Int :=
  match a with
  | some n => if n ≠ 0 then a else b
  | none => b

/-- The callback of `existingData.map` (lines 168-181). -/
def mergeEntry (resolvedTracks : List MissingTrack) (item : FeedEntry) : FeedEntry :=
  match resolvedTracks.find? (fun rt => some rt.itemGuid == item.itemGuid) with
  | some resolvedTrack =>
      { item with
        title := orElseFalsy resolvedTrack.title item.title
        artist := orElseFalsy resolvedTrack.artist item.artist
        feedUrl := orElseFalsy resolvedTrack.feedUrl item.feedUrl
        feedTitle := orElseFalsy resolvedTrack.feedTitle item.feedTitle
        episodeId := orElseFalsyInt resolvedTrack.episodeId item.episodeId
        feedId := orElseFalsyInt (some resolvedTrack.feedId) item.feedId }
  | none => item

/-- The list `updatedData` of resolve-missing-feed.js (lines 167-181). -/
def mergeResolved (resolvedTracks : List MissingTrack) (existingData : List FeedEntry) :
    List FeedEntry :=
  existingData.map (mergeEntry resolvedTracks)

/-- A seed of three entries: one looked-up item GUID with a title of its
own, one looked-up item GUID without title, and an entry of another feed. -/
def missingSeed : List FeedEntry :=
  [{ titledEntry "other-feed" "7c823adf-1e53-4df1-98c0-979da81ec916" "Kept" with
      artist := some "Someone" },
   seedEntry "5a95f9d8-35e3-51f5-a269-ba1df36b4bd8" "822d7113-eab2-4857-82d2-cc0c1a52ce2b",
   titledEntry "f9" "i9" "Other"]

/-- The feed of the example answer of `podcasts/byfeedid`. -/
def missingFeed : RemoteFeed :=
  { id := some 7365153, title := some "The Feed", url := some "http://feed.example/rss",
    author := some "The Band" }

/-- Episodes of the example answer of `episodes/byfeedid`: the second
looked-up item GUID is listed, the others are not. -/
def missingEpisodes : List RemoteEpisode :=
  [{ id := some 11, guid := some "822d7113-eab2-4857-82d2-cc0c1a52ce2b",
     title := some "Found Song", author := none }]

/-! ## create-homegrown-hits-minimal-playlist.js -/

/-- The `channelInfo` object passed to `generateMinimalRSS` of
create-homegrown-hits-minimal-playlist.js (lines 70-77). -/
structure HomegrownChannelInfo where
  title : String
  description : String
  link : String
  language : String
  imageUrl : String
  imageTitle : String

/-- The opening of the document written by `generateMinimalRSS` of
create-homegrown-hits-minimal-playlist.js (lines 178-195). `now` stands for
`new Date().toUTCString()`. -/
def homegrownRSSHeader (now : String) (channelInfo : HomegrownChannelInfo) : String :=
  "<?xml version=\"1.0\" encoding=\"UTF-8\"?>\n" ++
  "<rss version=\"2.0\">\n" ++
  "<channel>\n" ++
  "<title>" ++ channelInfo.title ++ "</title>\n" ++
  "<description>\n" ++
  channelInfo.description ++ "\n" ++
  "</description>\n" ++
  "<link>" ++ channelInfo.link ++ "</link>\n" ++
  "<language>" ++ channelInfo.language ++ "</language>\n" ++
  "<pubDate>" ++ now ++ "</pubDate>\n" ++
  "<lastBuildDate>" ++ now ++ "</lastBuildDate>\n" ++
  "<image>\n" ++
  "<url>\n" ++
  channelInfo.imageUrl ++ "\n" ++
  "</url>\n" ++
  "</image>\n" ++
  "<podcast:medium>musicL</podcast:medium>\n" ++
  "<podcast:guid>homegrown-hits-music-playlist</podcast:guid>"

/-- The function `generateMinimalRSS` of
create-homegrown-hits-minimal-playlist.js (lines 175-209). The text appended
for a track (lines 198-201) is that of create-generic-minimal-playlist.js. -/
def generateHomegrownMinimalRSS (now : String) (tracks : List RemoteItemReference)
    (channelInfo : HomegrownChannelInfo) : String :=
  let xml := homegrownRSSHeader now channelInfo
  let xml := tracks.foldl (fun xml track => xml ++ genericRSSItem track) xml
  xml ++ "\n</channel>\n</rss>"

/-! ### The start tag of the root element -/

/-- The text after the first `?>`. -/
def afterDeclaration : List Char → List Char
  | [] => []
  | c :: rest =>
      if c = '?' ∧ rest.head? = some '>' then rest.tail else afterDeclaration rest

/-- The start tag of the root element of a document that opens with an XML
declaration: after the declaration and the white space that follows it, the
text up to and including the first `>`. -/
def rootStartTag (text : String) : String :=
  let body := (afterDeclaration text.data).dropWhile isXmlSpace
  String.mk (body.takeWhile (fun c => c != '>') ++ (body.dropWhile (fun c => c != '>')).take 1)

/-- Whether a start tag declares the prefix `podcast`. -/
def declaresPodcastNamespace (tag : String) : Bool :=
  decide (" xmlns:podcast=".data <:+: tag.data)

/-- Whether a document holds an element with the prefix `podcast`. -/
def usesPodcastPrefix (text : String) : Bool :=
  decide ("<podcast:".data <:+: text.data)

/-! ## A run of create-lightning-style-playlist.js -/

/-- What a run of a script leaves behind: whether an error was written to
the console with `console.error`, the text written to the playlist file when
one is written, and the exit status of the process. -/
structure ScriptRun where
  reported : Bool
  written : Option String
  exitCode : Nat
deriving DecidableEq, Repr

/-- The expression `x || d` on a string-or-undefined value with a string
default. -/
def orDefault (x : Option String) (d : String) : String :=
  match x with
  | some s => if s ≠ "" then s else d
  | none => d

/-- A run of create-lightning-style-playlist.js: the call
`createLightningStylePlaylist()` of line 188 (lines 10-114), given the answer
to the fetch of the feed, its body parsed. Every error thrown inside the
`try` block (a rejected fetch, a response that is not OK, reading a property
of the missing `channel`) is caught at line 111 and written to the console;
the function then returns, nothing calls `process.exit`, and the process ends
with status 0. Creating the directory and writing the file are taken to
succeed. `now` stands for `new Date().toUTCString()`, `nowMs` for
`Date.now()`. -/
def createLightningStylePlaylist (now : String) (nowMs : Int) (reply : Reply Document) :
    ScriptRun :=
  match reply with
  | .threw => { reported := true, written := none, exitCode := 0 }
  | .notOk => { reported := true, written := none, exitCode := 0 }
  | .ok xmlDoc =>
      match (xmlDoc.getElementsByTagName "channel").head? with
      | none => { reported := true, written := none, exitCode := 0 }
      | some channel =>
          let originalTitle := orDefault (firstText channel "title") "Into The Doerfel-Verse"
          let originalDescription := orDefault (firstText channel "description") ""
          let originalLink := orDefault (firstText channel "link") "https://www.doerfelverse.com/"
          let originalImage := (channel.getElementsByTagName "image").head?
          let originalLanguage := orDefault (firstText channel "language") "en"
          let musicTracks := extractLightningTracks now originalLink xmlDoc
          let rssContent := generateLightningStyleRSS now nowMs originalTitle originalDescription
            originalLink originalImage originalLanguage musicTracks
          { reported := false, written := some rssContent, exitCode := 0 }

/-- A feed whose root holds an episode and no `channel` element. -/
def noChannelFeed : Document :=
  { childNodes := [
      .element "rss" [] [
        .element "item" [] [
          .element "title" [] [.text "A"],
          .element "podcast:remoteItem" [("feedGuid", "f1"), ("itemGuid", "i1")] []]]] }

/-! ## create-generic-minimal-playlist.js: the command line -/

/-- The value of an option of `parseArguments`: `null` (never set),
`undefined` (the option was the last argument, so `args[i + 1]` is
`undefined`), or a string. -/
inductive ArgValue where
  | null
  | undefined
  | string (s : String)
deriving DecidableEq, Repr

/-- The object `options` of `parseArguments` (lines 11-19). -/
structure CliOptions where
  feedUrl : ArgValue
  outputFile : ArgValue
  title : ArgValue
  description : ArgValue
  link : ArgValue
  imageUrl : ArgValue
  guid : ArgValue
deriving DecidableEq, Repr

/-- The initial value of `options`. -/
def CliOptions.initial : CliOptions :=
  { feedUrl := .null, outputFile := .null, title := .null, description := .null,
    link := .null, imageUrl := .null, guid := .null }

/-- JavaScript truthiness of an option value. -/
def ArgValue.truthy : ArgValue → Bool
  | .string s => s != ""
  | _ => false

/-- The value `args[i + 1]` for the arguments after `args[i]`. -/
def nextArgOf (rest : List String) : ArgValue :=
  match rest with
  | next :: _ => .string next
  | [] => .undefined

/-- The loop of `parseArguments` (lines 21-67) from the argument `args[i]`
on: an option with a value takes `args[i + 1]` and skips it; `--help` and
`-h` print the usage text and exit with status 0, here `none`; any other
argument is passed over. -/
def parseArgumentsFrom : List String → CliOptions → Option CliOptions
  | [], options => some options
  | [arg], options =>
      if arg = "--feed" ∨ arg = "-f" then some { options with feedUrl := .undefined }
      else if arg = "--output" ∨ arg = "-o" then some { options with outputFile := .undefined }
      else if arg = "--title" ∨ arg = "-t" then some { options with title := .undefined }
      else if arg = "--description" ∨ arg = "-d" then
        some { options with description := .undefined }
      else if arg = "--link" ∨ arg = "-l" then some { options with link := .undefined }
      else if arg = "--image" ∨ arg = "-i" then some { options with imageUrl := .undefined }
      else if arg = "--guid" ∨ arg = "-g" then some { options with guid := .undefined }
      else if arg = "--help" ∨ arg = "-h" then none
      else some options
  | arg :: nextArg :: rest, options =>
      if arg = "--feed" ∨ arg = "-f" then
        parseArgumentsFrom rest { options with feedUrl := .string nextArg }
      else if arg = "--output" ∨ arg = "-o" then
        parseArgumentsFrom rest { options with outputFile := .string nextArg }
      else if arg = "--title" ∨ arg = "-t" then
        parseArgumentsFrom rest { options with title := .string nextArg }
      else if arg = "--description" ∨ arg = "-d" then
        parseArgumentsFrom rest { options with description := .string nextArg }
      else if arg = "--link" ∨ arg = "-l" then
        parseArgumentsFrom rest { options with link := .string nextArg }
      else if arg = "--image" ∨ arg = "-i" then
        parseArgumentsFrom rest { options with imageUrl := .string nextArg }
      else if arg = "--guid" ∨ arg = "-g" then
        parseArgumentsFrom rest { options with guid := .string nextArg }
      else if arg = "--help" ∨ arg = "-h" then none
      else parseArgumentsFrom (nextArg :: rest) options

/-- The function `parseArguments` (lines 9-70) on `process.argv.slice(2)`;
`none` when it prints the usage text and exits with status 0. -/
def parseArguments (args : List String) : Option CliOptions :=
  parseArgumentsFrom args CliOptions.initial

/-- What the script writes before it ends or goes on to the network. -/
inductive CliMessage where
  | usage
  | error (message : String)
deriving DecidableEq, Repr

/-- How the script goes on after reading its arguments: it ends with a
message and an exit status, or it fetches the feed. -/
inductive CliOutcome where
  | exit (message : CliMessage) (status : Nat)
  | fetches (options : CliOptions)
deriving DecidableEq, Repr

/-- The main script (lines 320-338) up to the first statement after the two
argument checks of `createGenericMinimalPlaylist` (lines 108-118), taken as
the main module. An error thrown by `createGenericMinimalPlaylist` is written
to the console and the process exits with status 1 (lines 205-208 and
334-337). -/
def genericMinimalMain (args : List String) : CliOutcome :=
  match parseArguments args with
  | none => .exit .usage 0
  | some options =>
      if args.length = 0 ∨ options.feedUrl = .null then .exit .usage 1
      else if !options.feedUrl.truthy then
        .exit (.error "Feed URL is required. Use --feed <url> or --help for usage.") 1
      else if !options.outputFile.truthy then
        .exit (.error "Output filename is required. Use --output <filename> or --help for usage.")
          1
      else .fetches options

/-! ### The arguments read as options -/

/-- Whether the argument is an option that takes a value. -/
def takesValue (arg : String) : Bool :=
  ["--feed", "-f", "--output", "-o", "--title", "-t", "--description", "-d", "--link", "-l",
    "--image", "-i", "--guid", "-g"].contains arg

/-- The arguments in option position: those that are not the value of the
option before them. -/
def optionArguments : List String → List String
  | [] => []
  | [arg] => [arg]
  | arg :: value :: rest =>
      if takesValue arg then arg :: optionArguments rest
      else arg :: optionArguments (value :: rest)

/-- The help options. -/
def isHelpOption (arg : String) : Bool :=
  arg == "--help" || arg == "-h"

/-- The options that give the feed URL. -/
def isFeedOption (arg : String) : Bool :=
  arg == "--feed" || arg == "-f"

/-- The options that give the output filename. -/
def isOutputOption (arg : String) : Bool :=
  arg == "--output" || arg == "-o"

/-- The keys that `main` of resolve-remote-feeds.js lets through: each key
that is not in `processed` and has not come before. -/
def freshKeys : List String → List String → List String
  | _, [] => []
  | processed, key :: rest =>
      if processed.contains key then freshKeys processed rest
      else key :: freshKeys (key :: processed) rest

/-- Two unresolved seed entries with different references whose texts
`feedGuid-itemGuid` are the same. -/
def collidingUnresolvedSeed : List FeedEntry :=
  [seedEntry "a-b" "c", seedEntry "a" "b-c"]

/-- Two seed entries with a title: one whose feed GUID is `null`, one whose
feed GUID is the text `null`. -/
def nullSeed : List FeedEntry :=
  [{ titledEntry "" "x" "One" with feedGuid := none }, titledEntry "null" "x" "Two"]

/-! ## The item guids of create-lightning-style-playlist.js -/

/-- The text of the `guid` element written for a track by
`generateLightningStyleRSS` (line 158):
`${track.feedGuid}-${track.itemGuid || 'feed'}-${track.trackNumber}`. -/
def lightningGuid (track : MusicTrack) : String :=
  interpolate track.feedGuid ++ "-" ++
    (if truthy track.itemGuid then interpolate track.itemGuid else "feed") ++ "-" ++
    toString track.trackNumber

/-- The number written by a list of decimal digits. -/
def decimalValue (digits : List Char) : Nat :=
  digits.foldl (fun value c => value * 10 + (c.toNat - 48)) 0

/-- Two tracks that name the same reference, with hyphens in the GUIDs, as
the first and the twelfth track. -/
def repeatedTracks : List MusicTrack :=
  [{ trackNumber := 1, feedGuid := some "a-1", itemGuid := some "b", feedUrl := none,
     episodeTitle := "A", episodePubDate := "now", episodeLink := "l",
     type := "specific_episode", isPodrollItem := false },
   { trackNumber := 12, feedGuid := some "a", itemGuid := some "1-b", feedUrl := none,
     episodeTitle := "A", episodePubDate := "now", episodeLink := "l",
     type := "specific_episode", isPodrollItem := false },
   { trackNumber := 2, feedGuid := some "a-1", itemGuid := some "b", feedUrl := none,
     episodeTitle := "B", episodePubDate := "now", episodeLink := "l",
     type := "specific_episode", isPodrollItem := false }]

/-! ## The title element of a page, in words -/

/-- The text `l` opens with a `title` element whose text is `text`: the tag
name in any letter case, a run without `>`, a `>`, the text, non-empty and
without `<`, and the closing tag in any letter case. -/
def TitleElementAt (l text : List Char) : Prop :=
  ∃ tagName attrs closing after,
    l = tagName ++ (attrs ++ '>' :: (text ++ (closing ++ after)))
    ∧ tagName.map Char.toLower = "<title".data
    ∧ '>' ∉ attrs
    ∧ text ≠ [] ∧ '<' ∉ text
    ∧ closing.map Char.toLower = "</title>".data

/-- The first `title` element of the page has the text `text`: there is one
at some place and none at an earlier place. -/
def FirstTitleElement (html text : List Char) : Prop :=
  ∃ k, TitleElementAt (html.drop k) text ∧ ∀ j < k, ∀ t, ¬ TitleElementAt (html.drop j) t

/-- The page has no `title` element with a text. -/
def NoTitleElement (html : List Char) : Prop :=
  ∀ k t, ¬ TitleElementAt (html.drop k) t

/-- The text starts with `http://` or `https://`, in any letter case. -/
def HttpUrlShaped (s : String) : Prop :=
  (s.data.take 7).map Char.toLower = "http://".data
    ∨ (s.data.take 8).map Char.toLower = "https://".data

/-- The title that the page fallback gives for an answer to the page fetch:
the trimmed text of the first title element of the page; `null` when the
page has none, when the response is not OK and when the fetch fails. -/
def PageTitle (reply : Reply String) (title : Option String) : Prop :=
  match reply with
  | .ok html =>
      (∃ text, FirstTitleElement html.data text ∧ title = some (String.mk (jsTrimChars text)))
        ∨ (NoTitleElement html.data ∧ title = none)
  | _ => title = none

/-- The title element at the head of the text, as `matchTitle` tries it at
one place. -/
def titleAt (l : List Char) : Option (List Char) :=
  if isPrefixIgnoreCase "<title".data l then titleAfterOpen (l.drop 6) else none

/-- A world whose index knows no episode and whose pages hold an empty title
element before a title element with attributes and white space. -/
def titledPageWorld : World :=
  { fallbackWorld "i1" with
    page := fun _ _ =>
      .ok "<html><title></title><TITLE lang=\"en\"> My Song\n</Title><title>Other</title>" }

/-- The state after the episode step for the item GUID `HTTPS://x.example/a`
in `titledPageWorld`, from the initial state. -/
def titledPageState : ResolverState :=
  { ResolverState.init with
    episodeCache := [("HTTPS://x.example/a", { title := some "My Song", enclosureUrl := none })]
    log := [Request.episodesByGuid "HTTPS://x.example/a", Request.page "HTTPS://x.example/a"] }

/-! ## The summary parser against the ancestor-walk extractor -/

/-- The three conditions on one element of a feed tree, given its chain of
ancestors: an `item` has no `item` ancestor, a `podcast:podroll` has no `item`
ancestor, and a `podcast:remoteItem` has an `item` or a `podcast:podroll`
ancestor. -/
def plainlyScoped (p : XmlNode × List XmlNode) : Bool :=
  (!hasTag "item" p.1 || !p.2.any (hasTag "item"))
    && (!hasTag "podcast:podroll" p.1 || !p.2.any (hasTag "item"))
    && (!hasTag "podcast:remoteItem" p.1
          || p.2.any (hasTag "item") || p.2.any (hasTag "podcast:podroll"))

/-- A feed tree in which no `item` is nested inside another `item`, no
`podcast:podroll` lies inside an `item`, and every remote item lies under an
`item` or a `podcast:podroll`. -/
def plainFeedTree (xmlDoc : Document) : Bool :=
  (walkList [] xmlDoc.childNodes).all plainlyScoped

/-- The remote items the ancestor-walk extractor keeps among the elements of
a walk: those whose nearest scope is not a `podcast:podroll`. -/
def keptRemoteItems (elements : List (XmlNode × List XmlNode)) : List XmlNode :=
  ((elements.filter (fun p => hasTag "podcast:remoteItem" p.1)).filter
    (fun p => !podrollScoped p)).map (fun p => p.1)

/-- The remote items the summary parser collects among the elements of a
walk: for each `item`, in order, its `podcast:remoteItem` descendants. -/
def episodeRemoteItems (elements : List (XmlNode × List XmlNode)) : List XmlNode :=
  (elements.filter (fun p => hasTag "item" p.1)).flatMap
    (fun p => p.1.getElementsByTagName "podcast:remoteItem")

/-- The (feedGuid, itemGuid) reference of a remote item of the summary. -/
def SummaryRemoteItem.reference (ri : SummaryRemoteItem) : RemoteItemReference :=
  { feedGuid := ri.feedGuid, itemGuid := ri.itemGuid }

/-- The per-episode `remoteItems` lists of a summary, concatenated in episode
order, as (feedGuid, itemGuid) references. -/
def Summary.references (summary : Summary) : List RemoteItemReference :=
  summary.remoteItems.map SummaryRemoteItem.reference

/-- A reference with `x || null` applied to both values: an empty attribute
value reads as an absent one. -/
def RemoteItemReference.orNull (r : RemoteItemReference) : RemoteItemReference :=
  { feedGuid := Playlist.orNull r.feedGuid, itemGuid := Playlist.orNull r.itemGuid }

/-- The channel of the running example: a podroll beside two episodes. -/
def plainChannel : XmlNode :=
  .element "channel" [] [
    .element "title" [] [.text "Show"],
    .element "podcast:podroll" [] [
      .element "podcast:remoteItem" [("feedGuid", "f0")] []],
    .element "item" [] [
      .element "title" [] [.text "A"],
      .element "podcast:remoteItem" [("feedGuid", "f1"), ("itemGuid", "i1")] []],
    .element "item" [] [
      .element "podcast:remoteItem" [("feedGuid", "f2"), ("itemGuid", "i2")] [],
      .element "podcast:remoteItem" [("feedGuid", "f3")] []]]

/-- A feed whose episodes all lie inside its channel: the running example
for the comparison of the parser with the extractor. -/
def plainFeed : Document :=
  { childNodes := [.element "rss" [] [plainChannel]] }

/-- A feed whose remote item carries an empty `itemGuid` attribute. -/
def emptyGuidFeed : Document :=
  { childNodes := [
      .element "rss" [] [
        .element "channel" [] [
          .element "item" [] [
            .element "podcast:remoteItem" [("feedGuid", "f1"), ("itemGuid", "")] []]]]] }

/-- A feed tree whose episode stands beside the channel, not inside it. -/
def strayItemFeed : Document :=
  { childNodes := [
      .element "rss" [] [
        .element "channel" [] [.element "title" [] [.text "Show"]],
        .element "item" [] [
          .element "podcast:remoteItem" [("feedGuid", "f1"), ("itemGuid", "i1")] []]]] }

/-! ## The MD5 digest -/

/-- The UTF-8 encoding of one character, as byte values. -/
def utf8Bytes (c : Char) : List Nat :=
  let n := c.toNat
  if n < 128 then [n]
  else if n < 2048 then [192 + n / 64, 128 + n % 64]
  else if n < 65536 then [224 + n / 4096, 128 + (n / 64) % 64, 128 + n % 64]
  else [240 + n / 262144, 128 + (n / 4096) % 64, 128 + (n / 64) % 64, 128 + n % 64]

/-- The `count` low bytes of a number, least significant first. -/
def littleEndian : Nat → Nat → List Nat
  | 0, _ => []
  | count + 1, n => n % 256 :: littleEndian count (n / 256)

/-- The padded message of RFC 1321, section 3.1 and 3.2: a one bit, zero bits
up to 56 bytes modulo 64, and the bit length of the message in 8 bytes. -/
def md5Pad (bytes : List Nat) : List Nat :=
  bytes ++ 128 :: (List.replicate ((119 - bytes.length % 64) % 64) 0
    ++ littleEndian 8 (8 * bytes.length))

/-- The 32-bit word stored least significant byte first at a byte offset. -/
def md5Word (bytes : List Nat) (offset : Nat) : Nat :=
  bytes.getD offset 0 + 256 * bytes.getD (offset + 1) 0 + 65536 * bytes.getD (offset + 2) 0
    + 16777216 * bytes.getD (offset + 3) 0

/-- The table T of RFC 1321, section 3.4: entry i is the integer part of
4294967296 times abs(sin(i + 1)). -/
def md5Sines : List Nat :=
  [3614090360, 3905402710, 606105819, 3250441966, 4118548399, 1200080426, 2821735955,
   4249261313, 1770035416, 2336552879, 4294925233, 2304563134, 1804603682, 4254626195,
   2792965006, 1236535329, 4129170786, 3225465664, 643717713, 3921069994, 3593408605,
   38016083, 3634488961, 3889429448, 568446438, 3275163606, 4107603335, 1163531501,
   2850285829, 4243563512, 1735328473, 2368359562, 4294588738, 2272392833, 1839030562,
   4259657740, 2763975236, 1272893353, 4139469664, 3200236656, 681279174, 3936430074,
   3572445317, 76029189, 3654602809, 3873151461, 530742520, 3299628645, 4096336452,
   1126891415, 2878612391, 4237533241, 1700485571, 2399980690, 4293915773, 2240044497,
   1873313359, 4264355552, 2734768916, 1309151649, 4149444226, 3174756917, 718787259,
   3951481745]

/-- The per-step rotation amounts of RFC 1321, section 3.4. -/
def md5Shifts : List Nat :=
  [7, 12, 17, 22, 7, 12, 17, 22, 7, 12, 17, 22, 7, 12, 17, 22,
   5, 9, 14, 20, 5, 9, 14, 20, 5, 9, 14, 20, 5, 9, 14, 20,
   4, 11, 16, 23, 4, 11, 16, 23, 4, 11, 16, 23, 4, 11, 16, 23,
   6, 10, 15, 21, 6, 10, 15, 21, 6, 10, 15, 21, 6, 10, 15, 21]

/-- Rotation of a 32-bit word to the left. -/
def rotateLeft32 (x s : Nat) : Nat :=
  ((x <<< s) % 4294967296) ||| (x >>> (32 - s))

/-- The state of the digest: the four 32-bit registers. -/
structure Md5State where
  a : Nat
  b : Nat
  c : Nat
  d : Nat
deriving DecidableEq, Repr

/-- Step `i` (0 to 63) of the processing of one 16-word block that starts at
byte `offset` of the padded message. -/
def md5Step (bytes : List Nat) (offset : Nat) (s : Md5State) (i : Nat) : Md5State :=
  let notB := s.b ^^^ 4294967295
  let notD := s.d ^^^ 4294967295
  let f :=
    if i < 16 then (s.b &&& s.c) ||| (notB &&& s.d)
    else if i < 32 then (s.d &&& s.b) ||| (notD &&& s.c)
    else if i < 48 then (s.b ^^^ s.c) ^^^ s.d
    else s.c ^^^ (s.b ||| notD)
  let g :=
    if i < 16 then i
    else if i < 32 then (5 * i + 1) % 16
    else if i < 48 then (3 * i + 5) % 16
    else (7 * i) % 16
  let sum := (f + s.a + md5Sines.getD i 0 + md5Word bytes (offset + 4 * g)) % 4294967296
  { a := s.d
    b := (s.b + rotateLeft32 sum (md5Shifts.getD i 0)) % 4294967296
    c := s.b
    d := s.c }

/-- The processing of the block that starts at byte `offset`: 64 steps, then
the registers are added to their values before the block. -/
def md5Block (bytes : List Nat) (s : Md5State) (offset : Nat) : Md5State :=
  let r := (List.range 64).foldl (md5Step bytes offset) s
  { a := (s.a + r.a) % 4294967296
    b := (s.b + r.b) % 4294967296
    c := (s.c + r.c) % 4294967296
    d := (s.d + r.d) % 4294967296 }

/-- The hexadecimal digit of a value below 16, in lower case. -/
def hexDigit (n : Nat) : Char :=
  "0123456789abcdef".data.getD n '0'

/-- The two hexadecimal digits of a byte. -/
def hexByte (n : Nat) : List Char :=
  [hexDigit (n / 16), hexDigit (n % 16)]

/-- The MD5 digest of RFC 1321 of the UTF-8 encoding of a string, in lower
case hexadecimal: the value of
`crypto.createHash('md5').update(s).digest('hex')`. The functions of the
scripts take the digest as a parameter; the examples instantiate it with this
function. -/
def md5Digest (s : String) : String :=
  let bytes := md5Pad (s.data.flatMap utf8Bytes)
  let start : Md5State :=
    { a := 1732584193, b := 4023233417, c := 2562383102, d := 271733878 }
  let r := ((List.range (bytes.length / 64)).map (fun k => 64 * k)).foldl (md5Block bytes) start
  String.mk ((littleEndian 4 r.a ++ littleEndian 4 r.b ++ littleEndian 4 r.c
    ++ littleEndian 4 r.d).flatMap hexByte)

/-! ## Track extraction from episode descriptions
(create-generic-minimal-playlist.js, lines 210-282) -/

/-- The property `length` of a string: its number of UTF-16 code units, two
for a character outside the basic plane. -/
def jsLength (s : String) : Nat :=
  (s.data.map (fun c => if c.toNat < 65536 then 1 else 2)).sum

/-- The call `hash.substring(start, stop)` with `start ≤ stop`, on a string
whose characters are one code unit each, as the characters of a hexadecimal
digest are. -/
def jsSubstring (s : String) (start stop : Nat) : String :=
  String.mk ((s.data.drop start).take (stop - start))

/-- The function `generateGuidFromId` (lines 271-276). `md5Hex` stands for
`crypto.createHash('md5').update(_).digest('hex')`; the id is a captured
string, which `toString` leaves as it is. -/
def generateGuidFromId (md5Hex : String → String) (id : String) : String :=
  let hash := md5Hex id
  jsSubstring hash 0 8 ++ "-" ++ jsSubstring hash 8 12 ++ "-" ++ jsSubstring hash 12 16
    ++ "-" ++ jsSubstring hash 16 20 ++ "-" ++ jsSubstring hash 20 32

/-- The function `generateGuidFromString` (lines 278-282). -/
def generateGuidFromString (md5Hex : String → String) (str : String) : String :=
  let hash := md5Hex str
  jsSubstring hash 0 8 ++ "-" ++ jsSubstring hash 8 12 ++ "-" ++ jsSubstring hash 12 16
    ++ "-" ++ jsSubstring hash 16 20 ++ "-" ++ jsSubstring hash 20 32

/-- The class `['"]` of the anchor pattern. -/
def isQuote (c : Char) : Bool :=
  c == '\'' || c == '"'

/-- The part `href=['"]([^'"]*)['"][^>]*>([^<]+)<\/a>` of the anchor pattern,
matched at the head of the text, letters without regard to case: the two
captures and the text after the match. Each quantifier of this part is
followed by a character outside its class, so it can only take the longest
run. -/
def anchorTail (l : List Char) : Option (List Char × List Char × List Char) :=
  if isPrefixIgnoreCase "href=".data l then
    match l.drop 5 with
    | q :: afterQuote =>
        if isQuote q then
          match afterQuote.dropWhile (fun c => !isQuote c) with
          | _ :: afterHref =>
              match afterHref.dropWhile (fun c => c != '>') with
              | _ :: afterTag =>
                  let text := afterTag.takeWhile (fun c => c != '<')
                  let closing := afterTag.dropWhile (fun c => c != '<')
                  if text != [] && isPrefixIgnoreCase "</a>".data closing then
                    some (afterQuote.takeWhile (fun c => !isQuote c), text, closing.drop 4)
                  else none
              | [] => none
          | [] => none
        else none
    | [] => none
  else none

/-- The part `[^>]*` of the anchor pattern followed by the rest of the
pattern: the quantifier is greedy, so the match is the one with the longest
run of characters other than `>` after which the rest matches. -/
def anchorAttributes : List Char → Option (List Char × List Char × List Char)
  | [] => anchorTail []
  | c :: cs =>
      if c != '>' then
        match anchorAttributes cs with
        | some m => some m
        | none => anchorTail (c :: cs)
      else anchorTail (c :: cs)

/-- A match of `/<a[^>]*href=['"]([^'"]*)['"][^>]*>([^<]+)<\/a>/gi` that
starts at the head of the text: the two captures and the text after the
match. -/
def anchorAt : List Char → Option (List Char × List Char × List Char)
  | lt :: a :: rest =>
      if lt == '<' && a.toLower == 'a' then anchorAttributes rest else none
  | _ => none

/-- The search of `matchAll` through the text: `inside` is the number of
characters of the text ahead that belong to the previous match, after which
the search resumes. At each later position a match is tried; the first
position that has one gives the next match. -/
def anchorScan : Nat → List Char → List (List Char × List Char)
  | _, [] => []
  | inside + 1, _ :: cs => anchorScan inside cs
  | 0, c :: cs =>
      match anchorAt (c :: cs) with
      | some (href, text, rest) =>
          (href, text) :: anchorScan ((c :: cs).length - rest.length - 1) cs
      | none => anchorScan 0 cs

/-- The array `[...description.matchAll(anchorPattern)]`: captures 1 and 2 of
each match. -/
def anchorMatches (description : String) : List (List Char × List Char) :=
  anchorScan 0 description.data

/-- The test
`/^(You can read|Play |Build a|Interested in|Call the|SPECIAL THANKS|Get started)/i`. -/
def isSkippedPhrase (text : List Char) : Bool :=
  ["you can read", "play ", "build a", "interested in", "call the", "special thanks",
    "get started"].any (fun phrase => isPrefixIgnoreCase phrase.data text)

/-- The test `/^(http|www|https)/i`. -/
def isUrlLike (text : List Char) : Bool :=
  ["http", "www", "https"].any (fun phrase => isPrefixIgnoreCase phrase.data text)

/-- A match of `/podcastindex\.org\/podcast\/(\d+)\?episode=(\d+)/` that
starts at the head of the text: the two captures. -/
def podcastIdsAt (l : List Char) : Option (String × String) :=
  if "podcastindex.org/podcast/".data.isPrefixOf l then
    let afterPrefix := l.drop "podcastindex.org/podcast/".length
    let podcastId := afterPrefix.takeWhile Char.isDigit
    let afterId := afterPrefix.dropWhile Char.isDigit
    if podcastId != [] && "?episode=".data.isPrefixOf afterId then
      let episodeId := (afterId.drop "?episode=".length).takeWhile Char.isDigit
      if episodeId != [] then some (String.mk podcastId, String.mk episodeId) else none
    else none
  else none

/-- The call `href.match(/podcastindex\.org\/podcast\/(\d+)\?episode=(\d+)/)`:
the captures of the leftmost match. -/
def podcastIds : List Char → Option (String × String)
  | [] => none
  | c :: cs =>
      match podcastIdsAt (c :: cs) with
      | some ids => some ids
      | none => podcastIds cs

/-- A line terminator, which `.` does not match. -/
def isLineTerminator (c : Char) : Bool :=
  c.toNat == 10 || c.toNat == 13 || c.toNat == 8232 || c.toNat == 8233

/-- The part `\s*(.+)$` of the track pattern after the hyphen: the capture.
The white space is skipped as far as it goes; only when nothing is left after
it does the capture take the last white space character. -/
def songAfterHyphen (r : List Char) : Option (List Char) :=
  match r.dropWhile isJsWhitespace with
  | c :: cs => if (c :: cs).all (fun x => !isLineTerminator x) then some (c :: cs) else none
  | [] =>
      match r.getLast? with
      | some c => if !isLineTerminator c then some [c] else none
      | none => none

/-- The part `\s*-\s*(.+)$` of the track pattern at the head of the text. -/
def hyphenAndSong (l : List Char) : Option (List Char) :=
  match l.dropWhile isJsWhitespace with
  | c :: r => if c == '-' then songAfterHyphen r else none
  | [] => none

/-- The lazy capture `(.+?)` of the track pattern, `artist` being what it has
taken so far: it stops as soon as the rest of the pattern matches, and takes
one more character otherwise. -/
def lazyArtist (artist : List Char) : List Char → Option (List Char × List Char)
  | [] => none
  | c :: cs =>
      match hyphenAndSong (c :: cs) with
      | some song => some (artist, song)
      | none => if isLineTerminator c then none else lazyArtist (artist ++ [c]) cs

/-- The call `trackText.match(/^(.+?)\s*-\s*(.+)$/)`: captures 1 and 2. -/
def trackMatch : List Char → Option (List Char × List Char)
  | [] => none
  | c :: cs => if isLineTerminator c then none else lazyArtist [c] cs

/-- A track as pushed by `extractTracksFromDescription`. -/
structure DescriptionTrack where
  artist : String
  song : String
  full : String
  feedGuid : String
  itemGuid : String
deriving DecidableEq, Repr

/-- The body of the loop of `extractTracksFromDescription` (lines 217-266)
for one anchor match: the track pushed, if one is. `nowMs` stands for the
value of `Date.now()` at this turn of the loop. -/
def descriptionTrack (md5Hex : String → String) (nowMs : Int)
    (anchor : List Char × List Char) : Option DescriptionTrack :=
  let href := jsTrim (String.mk anchor.1)
  let trackText := jsTrim (String.mk anchor.2)
  if trackText != "" && jsLength trackText > 3 then
    if isSkippedPhrase trackText.data then none
    else
      let guids :=
        match podcastIds href.data with
        | some (podcastId, episodeId) =>
            (generateGuidFromId md5Hex podcastId, generateGuidFromId md5Hex episodeId)
        | none =>
            (generateGuidFromString md5Hex trackText,
              generateGuidFromString md5Hex (trackText ++ toString nowMs))
      match trackMatch trackText.data with
      | some (artist, song) =>
          some { artist := jsTrim (String.mk artist), song := jsTrim (String.mk song),
                 full := trackText, feedGuid := guids.1, itemGuid := guids.2 }
      | none =>
          if jsLength trackText > 3 && !isUrlLike trackText.data then
            some { artist := "Unknown Artist", song := trackText, full := trackText,
                   feedGuid := guids.1, itemGuid := guids.2 }
          else none
  else none

/-- The function `extractTracksFromDescription` (lines 210-269). `clock i`
stands for the value of `Date.now()` while the loop handles anchor match
number `i`. -/
def extractTracksFromDescription (md5Hex : String → String) (clock : Nat → Int)
    (description : String) : List DescriptionTrack :=
  (anchorMatches description).enum.filterMap
    (fun p => descriptionTrack md5Hex (clock p.1) p.2)

/-- The track of a description without its `itemGuid`. -/
def DescriptionTrack.withoutItemGuid (t : DescriptionTrack) : DescriptionTrack :=
  { t with itemGuid := "" }

/-- A description with one anchor that links to podcastindex.org and one
whose identifiers come from the anchor text. -/
def exampleDescription : String :=
  "<p><a href=\"https://podcastindex.org/podcast/6736401?episode=17777519512\">Artist - Song</a>"
    ++ " and <a class='x' href='https://example.com/some'>Some Song</a></p>"

/-- A description whose anchor names an artist with a hyphen in the name. -/
def hyphenDescription : String :=
  "<a href=\"https://example.com/jay\">Jay-Z - Song</a>"

/-- An index service that answers as in the example until the episode lookup
of a GUID other than `i1`, which rejects (a network failure). -/
def lateFailureWorld : World :=
  { exampleWorld with
    episodesByGuid := fun _ guid =>
      if guid = "i1" then
        .ok (some [{ guid := some "i1", title := some "Song A", enclosureUrl := none }])
      else .threw }
/-! ## Theorems -/

/-! ### Extraction -/

theorem ancestorWalk_eq_nearestScope (ancestors : List XmlNode) :
    ancestorWalk ancestors = nearestScope ancestors := by
  induction ancestors with
  | nil => rfl
  | cons n rest ih =>
      unfold ancestorWalk nearestScope
      by_cases h1 : n.tagName = some "item"
      · simp [h1, hasTag]
      · by_cases h2 : n.tagName = some "podcast:podroll"
        · simp [h2, hasTag]
        · simp only [ne_eq, h1, not_false_eq_true, h2, and_self, ↓reduceIte, ih, nearestScope,
            List.find?, hasTag]
          have e1 : (n.tagName == some "item") = false := by simpa using h1
          have e2 : (n.tagName == some "podcast:podroll") = false := by simpa using h2
          simp [e1, e2]

theorem minimalLoop_eq (items : List (XmlNode × List XmlNode))
    (acc : List RemoteItemReference) :
    minimalLoop items acc
      = acc ++ (items.filter (fun p => !podrollScoped p)).map (fun p => referenceOf p.1) := by
  induction items generalizing acc with
  | nil => simp [minimalLoop]
  | cons p rest ih =>
      obtain ⟨ri, anc⟩ := p
      unfold minimalLoop
      simp only [ancestorWalk_eq_nearestScope]
      cases hs : nearestScope anc with
      | none =>
          simp [ih, podrollScoped, hs, referenceOf]
      | some node =>
          by_cases hp : node.tagName = some "podcast:podroll"
          · simp [ih, podrollScoped, hs, hp, hasTag]
          · have e : (node.tagName == some "podcast:podroll") = false := by simpa using hp
            simp [ih, podrollScoped, hs, hp, hasTag, e, referenceOf]

theorem lightningLoop_references (now originalLink : String)
    (items : List (XmlNode × List XmlNode)) (k : Nat) (acc : List MusicTrack) :
    (lightningLoop now originalLink items k acc).map MusicTrack.reference
      = acc.map MusicTrack.reference
        ++ (items.filter (fun p => !podrollScoped p)).map (fun p => referenceOf p.1) := by
  induction items generalizing k acc with
  | nil => simp [lightningLoop]
  | cons p rest ih =>
      obtain ⟨ri, anc⟩ := p
      unfold lightningLoop
      simp only [ancestorWalk_eq_nearestScope]
      cases hs : nearestScope anc with
      | none =>
          simp [ih, podrollScoped, hs, referenceOf, MusicTrack.reference]
      | some node =>
          by_cases hp : node.tagName = some "podcast:podroll"
          · simp [ih, podrollScoped, hs, hp, hasTag]
          · have e : (node.tagName == some "podcast:podroll") = false := by simpa using hp
            by_cases hi : node.tagName = some "item"
            · simp [ih, podrollScoped, hs, hi, hasTag, referenceOf, MusicTrack.reference]
            · simp [ih, podrollScoped, hs, hp, hi, hasTag, e, referenceOf, MusicTrack.reference]

theorem not_podrollScoped_of_episodeScoped (p : XmlNode × List XmlNode)
    (h : episodeScoped p = true) : podrollScoped p = false := by
  unfold episodeScoped at h
  unfold podrollScoped
  cases hs : nearestScope p.2 with
  | none => rfl
  | some n =>
      rw [hs] at h
      simp only [hasTag, beq_iff_eq] at h
      simp [hasTag, h]

theorem filter_not_podrollScoped (items : List (XmlNode × List XmlNode))
    (h : ∀ p ∈ items, episodeScoped p = true ∨ podrollScoped p = true) :
    items.filter (fun p => !podrollScoped p) = items.filter episodeScoped := by
  apply List.filter_congr
  intro p hp
  rcases h p hp with h1 | h2
  · simp [h1, not_podrollScoped_of_episodeScoped p h1]
  · have : episodeScoped p = false := by
      cases he : episodeScoped p with
      | false => rfl
      | true => rw [not_podrollScoped_of_episodeScoped p he] at h2; cases h2
    simp [h2, this]

theorem scoped_lengths (items : List (XmlNode × List XmlNode))
    (h : ∀ p ∈ items, episodeScoped p = true ∨ podrollScoped p = true) :
    (items.filter episodeScoped).length + (items.filter podrollScoped).length
      = items.length := by
  induction items with
  | nil => rfl
  | cons p rest ih =>
      have ih := ih (fun q hq => h q (List.mem_cons_of_mem _ hq))
      rcases h p (List.mem_cons_self _ _) with h1 | h2
      · have h2 := not_podrollScoped_of_episodeScoped p h1
        simp [List.filter_cons, h1, h2]
        omega
      · have h1 : episodeScoped p = false := by
          cases he : episodeScoped p with
          | false => rfl
          | true => rw [not_podrollScoped_of_episodeScoped p he] at h2; cases h2
        simp [List.filter_cons, h1, h2]
        omega

/-- Claim C1. When every `podcast:remoteItem` of a feed document has a nearest
`item` / `podcast:podroll` ancestor, the extractors of
create-minimal-remote-items.js and create-lightning-style-playlist.js return,
in document order and without deduplication, exactly the references of the
remote items whose nearest such ancestor is an `item`: N references when N
remote items are episode-scoped and the other M are podroll-scoped. -/
theorem C1_extractor_keeps_episode_scoped (now originalLink : String) (xmlDoc : Document)
    (h : ∀ p ∈ xmlDoc.elementsByTagName "podcast:remoteItem",
      episodeScoped p = true ∨ podrollScoped p = true) :
    extractMinimalRemoteItems xmlDoc
        = ((xmlDoc.elementsByTagName "podcast:remoteItem").filter episodeScoped).map
            (fun p => referenceOf p.1)
    ∧ (extractLightningTracks now originalLink xmlDoc).map MusicTrack.reference
        = ((xmlDoc.elementsByTagName "podcast:remoteItem").filter episodeScoped).map
            (fun p => referenceOf p.1)
    ∧ (extractMinimalRemoteItems xmlDoc).length
        = ((xmlDoc.elementsByTagName "podcast:remoteItem").filter episodeScoped).length
    ∧ (extractLightningTracks now originalLink xmlDoc).length
        = ((xmlDoc.elementsByTagName "podcast:remoteItem").filter episodeScoped).length
    ∧ ((xmlDoc.elementsByTagName "podcast:remoteItem").filter episodeScoped).length
        + ((xmlDoc.elementsByTagName "podcast:remoteItem").filter podrollScoped).length
        = (xmlDoc.getElementsByTagName "podcast:remoteItem").length := by
  have e1 : extractMinimalRemoteItems xmlDoc
      = ((xmlDoc.elementsByTagName "podcast:remoteItem").filter episodeScoped).map
          (fun p => referenceOf p.1) := by
    unfold extractMinimalRemoteItems
    rw [minimalLoop_eq, filter_not_podrollScoped _ h]
    simp
  have e2 : (extractLightningTracks now originalLink xmlDoc).map MusicTrack.reference
      = ((xmlDoc.elementsByTagName "podcast:remoteItem").filter episodeScoped).map
          (fun p => referenceOf p.1) := by
    unfold extractLightningTracks
    rw [lightningLoop_references, filter_not_podrollScoped _ h]
    simp
  refine ⟨e1, e2, ?_, ?_, ?_⟩
  · rw [e1, List.length_map]
  · have := congrArg List.length e2
    simpa using this
  · rw [scoped_lengths _ h]
    simp [Document.getElementsByTagName]

/-! ### escapeXML -/

theorem replaceAll_eq_flatMap (c : Char) (r : List Char) (l : List Char) :
    replaceAll c r l = l.flatMap (fun x => if x = c then r else [x]) := by
  induction l with
  | nil => rfl
  | cons x xs ih =>
      unfold replaceAll
      by_cases h : x = c <;> simp [h, ih]

theorem flatMap_congr_fun {α β : Type} (l : List α) (f g : α → List β) (h : ∀ x, f x = g x) :
    l.flatMap f = l.flatMap g := by
  have : f = g := funext h
  rw [this]

theorem escapeStep (x : Char) :
    ((((([x].flatMap (fun x => if x = '&' then "&amp;".data else [x])).flatMap
        (fun x => if x = '<' then "&lt;".data else [x])).flatMap
        (fun x => if x = '>' then "&gt;".data else [x])).flatMap
        (fun x => if x = dquote then "&quot;".data else [x])).flatMap
        (fun x => if x = squote then "&#39;".data else [x])) = escapeChar x := by
  unfold escapeChar
  by_cases h1 : x = '&'
  · subst h1; decide
  by_cases h2 : x = '<'
  · subst h2; decide
  by_cases h3 : x = '>'
  · subst h3; decide
  by_cases h4 : x = dquote
  · subst h4; decide
  by_cases h5 : x = squote
  · subst h5; decide
  simp [h1, h2, h3, h4, h5]

theorem escapeXMLChars_eq_flatMap (l : List Char) :
    escapeXMLChars l = l.flatMap escapeChar := by
  unfold escapeXMLChars
  simp only [replaceAll_eq_flatMap]
  induction l with
  | nil => rfl
  | cons x xs ih =>
      have hx := escapeStep x
      simp only [List.flatMap_cons, List.flatMap_nil, List.append_nil, List.flatMap_append] at hx ih ⊢
      rw [hx, ih]

theorem escapeXMLChars_cons (c : Char) (l : List Char) :
    escapeXMLChars (c :: l) = escapeChar c ++ escapeXMLChars l := by
  simp [escapeXMLChars_eq_flatMap]

theorem escapeXML_data (s : String) : (escapeXML (some s)).data = escapeXMLChars s.data := by
  unfold escapeXML
  by_cases h : s = ""
  · subst h; decide
  · simp [h]

theorem escapeChar_cases (c : Char) :
    (c = '&' ∧ escapeChar c = "&amp;".data) ∨ (c = '<' ∧ escapeChar c = "&lt;".data)
    ∨ (c = '>' ∧ escapeChar c = "&gt;".data) ∨ (c = dquote ∧ escapeChar c = "&quot;".data)
    ∨ (c = squote ∧ escapeChar c = "&#39;".data)
    ∨ (c ≠ '&' ∧ c ≠ '<' ∧ c ≠ '>' ∧ c ≠ dquote ∧ c ≠ squote ∧ escapeChar c = [c]) := by
  by_cases h1 : c = '&'
  · left; subst h1; exact ⟨rfl, by decide⟩
  by_cases h2 : c = '<'
  · right; left; subst h2; exact ⟨rfl, by decide⟩
  by_cases h3 : c = '>'
  · right; right; left; subst h3; exact ⟨rfl, by decide⟩
  by_cases h4 : c = dquote
  · right; right; right; left; subst h4; exact ⟨rfl, by decide⟩
  by_cases h5 : c = squote
  · right; right; right; right; left; subst h5; exact ⟨rfl, by decide⟩
  · right; right; right; right; right
    exact ⟨h1, h2, h3, h4, h5, by simp [escapeChar, h1, h2, h3, h4, h5]⟩

theorem escapeXMLChars_no_raw (l : List Char) :
    ∀ c ∈ escapeXMLChars l, c ≠ '<' ∧ c ≠ '>' ∧ c ≠ dquote ∧ c ≠ squote := by
  induction l with
  | nil => intro c hc; cases hc
  | cons x xs ih =>
      intro c hc
      rw [escapeXMLChars_cons, List.mem_append] at hc
      rcases hc with hc | hc
      · rcases escapeChar_cases x with ⟨_, e⟩ | ⟨_, e⟩ | ⟨_, e⟩ | ⟨_, e⟩ | ⟨_, e⟩
            | ⟨_, h2, h3, h4, h5, e⟩
        · rw [e] at hc; revert c; decide
        · rw [e] at hc; revert c; decide
        · rw [e] at hc; revert c; decide
        · rw [e] at hc; revert c; decide
        · rw [e] at hc; revert c; decide
        · rw [e] at hc
          simp only [List.mem_singleton] at hc
          subst hc
          exact ⟨h2, h3, h4, h5⟩
      · exact ih c hc

theorem unescapeSteps_escapeXMLChars (l : List Char) :
    ∀ n, (escapeXMLChars l).length ≤ n → unescapeSteps n (escapeXMLChars l) = l := by
  induction l with
  | nil => intro n _; cases n <;> rfl
  | cons x xs ih =>
      intro n hn
      rw [escapeXMLChars_cons] at hn ⊢
      rcases escapeChar_cases x with ⟨hx, e⟩ | ⟨hx, e⟩ | ⟨hx, e⟩ | ⟨hx, e⟩ | ⟨hx, e⟩
          | ⟨h1, _, _, _, _, e⟩
      all_goals
        rw [e] at hn ⊢
        simp only [List.length_append, List.length_cons, List.length_nil] at hn
        obtain ⟨m, rfl⟩ : ∃ m, n = m + 1 := ⟨n - 1, by omega⟩
        have hm : (escapeXMLChars xs).length ≤ m := by omega
      · subst hx; simp [unescapeSteps, decodeEntity, ih m hm]
      · subst hx; simp [unescapeSteps, decodeEntity, ih m hm]
      · subst hx; simp [unescapeSteps, decodeEntity, ih m hm]
      · subst hx; simp [unescapeSteps, decodeEntity, ih m hm, dquote]
      · subst hx; simp [unescapeSteps, decodeEntity, ih m hm, squote]
      · simp [unescapeSteps, h1, ih m hm]

theorem unescape_escapeXMLChars (l : List Char) :
    unescapeXMLChars (escapeXMLChars l) = l :=
  unescapeSteps_escapeXMLChars l _ (Nat.le_refl _)

theorem ampersands_cons_other (c : Char) (rest : List Char) (hc : c ≠ '&')
    (h : AmpersandsBeginEntities rest) : AmpersandsBeginEntities (c :: rest) := by
  intro pre post e
  cases pre with
  | nil =>
      simp only [List.nil_append, List.cons.injEq] at e
      exact absurd e.1 hc
  | cons p pre =>
      simp only [List.cons_append, List.cons.injEq] at e
      exact h pre post e.2

theorem ampersands_cons_entity (body rest : List Char) (hb : body ∈ entityBodies)
    (hp : body <+: rest) (h : AmpersandsBeginEntities rest) :
    AmpersandsBeginEntities ('&' :: rest) := by
  intro pre post e
  cases pre with
  | nil =>
      simp only [List.nil_append, List.cons.injEq, true_and] at e
      subst e
      exact ⟨body, hb, hp⟩
  | cons p pre =>
      simp only [List.cons_append, List.cons.injEq] at e
      exact h pre post e.2

theorem escapeXMLChars_ampersands (l : List Char) :
    AmpersandsBeginEntities (escapeXMLChars l) := by
  induction l with
  | nil =>
      intro pre post e
      cases pre <;> simp [escapeXMLChars, replaceAll] at e
  | cons x xs ih =>
      rw [escapeXMLChars_cons]
      rcases escapeChar_cases x with ⟨_, e⟩ | ⟨_, e⟩ | ⟨_, e⟩ | ⟨_, e⟩ | ⟨_, e⟩
          | ⟨h1, _, _, _, _, e⟩
      · rw [e]
        refine ampersands_cons_entity "amp;".data _ (by decide) ⟨escapeXMLChars xs, rfl⟩ ?_
        exact ampersands_cons_other _ _ (by decide) (ampersands_cons_other _ _ (by decide)
          (ampersands_cons_other _ _ (by decide) (ampersands_cons_other _ _ (by decide) ih)))
      · rw [e]
        refine ampersands_cons_entity "lt;".data _ (by decide) ⟨escapeXMLChars xs, rfl⟩ ?_
        exact ampersands_cons_other _ _ (by decide) (ampersands_cons_other _ _ (by decide)
          (ampersands_cons_other _ _ (by decide) ih))
      · rw [e]
        refine ampersands_cons_entity "gt;".data _ (by decide) ⟨escapeXMLChars xs, rfl⟩ ?_
        exact ampersands_cons_other _ _ (by decide) (ampersands_cons_other _ _ (by decide)
          (ampersands_cons_other _ _ (by decide) ih))
      · rw [e]
        refine ampersands_cons_entity "quot;".data _ (by decide) ⟨escapeXMLChars xs, rfl⟩ ?_
        exact ampersands_cons_other _ _ (by decide) (ampersands_cons_other _ _ (by decide)
          (ampersands_cons_other _ _ (by decide) (ampersands_cons_other _ _ (by decide)
          (ampersands_cons_other _ _ (by decide) ih))))
      · rw [e]
        refine ampersands_cons_entity "#39;".data _ (by decide) ⟨escapeXMLChars xs, rfl⟩ ?_
        exact ampersands_cons_other _ _ (by decide) (ampersands_cons_other _ _ (by decide)
          (ampersands_cons_other _ _ (by decide) (ampersands_cons_other _ _ (by decide) ih)))
      · rw [e]
        exact ampersands_cons_other _ _ h1 ih

/-- Claim C9. For every string `s`, `escapeXML(s)` contains no raw `<`, `>`,
double quote or single quote, every `&` in it begins one of the entities
`&amp;`, `&lt;`, `&gt;`, `&quot;`, `&#39;`, and decoding the five entities in
`escapeXML(s)` gives back exactly `s`. -/
theorem C9_escapeXML_roundtrip (s : String) :
    (∀ c ∈ (escapeXML (some s)).data, c ≠ '<' ∧ c ≠ '>' ∧ c ≠ dquote ∧ c ≠ squote)
    ∧ (∀ pre post, (escapeXML (some s)).data = pre ++ '&' :: post →
        ∃ e ∈ entityBodies, e <+: post)
    ∧ unescapeXML (escapeXML (some s)) = s := by
  refine ⟨?_, ?_, ?_⟩
  · rw [escapeXML_data]; exact escapeXMLChars_no_raw s.data
  · rw [escapeXML_data]; exact escapeXMLChars_ampersands s.data
  · unfold unescapeXML
    rw [escapeXML_data, unescape_escapeXMLChars]

/-! ### Request counts of resolve-itdv-tracks.mjs -/

theorem JsMap.has_set {κ ν : Type} [DecidableEq κ] (m : JsMap κ ν) (k k' : κ) (v : ν) :
    (m.set k v).has k' = (decide (k = k') || m.has k') := by
  simp [JsMap.set, JsMap.has]

theorem JsMap.get_set_self {κ ν : Type} [DecidableEq κ] (m : JsMap κ ν) (k : κ) (v : ν) :
    (m.set k v).get k = some v := by
  simp [JsMap.set, JsMap.get]

theorem JsMap.get_set_ne {κ ν : Type} [DecidableEq κ] (m : JsMap κ ν) (k k' : κ) (v : ν)
    (h : k ≠ k') : (m.set k v).get k' = m.get k' := by
  simp [JsMap.set, JsMap.get, List.find?_cons, h]

theorem JsMap.get_of_has {κ ν : Type} [DecidableEq κ] (m : JsMap κ ν) (k : κ)
    (h : m.has k = true) : ∃ v, m.get k = some v := by
  induction m with
  | nil => simp [JsMap.has] at h
  | cons p rest ih =>
      by_cases hp : p.1 = k
      · exact ⟨p.2, by simp [JsMap.get, List.find?_cons, hp]⟩
      · have : JsMap.has rest k = true := by
          simpa [JsMap.has, hp] using h
        obtain ⟨v, hv⟩ := ih this
        refine ⟨v, ?_⟩
        simp only [JsMap.get, List.find?_cons, hp, decide_False] at hv ⊢
        exact hv

theorem JsMap.get_eq_none_of_not_has {κ ν : Type} [DecidableEq κ] (m : JsMap κ ν) (k : κ)
    (h : m.has k = false) : m.get k = none := by
  induction m with
  | nil => rfl
  | cons p rest ih =>
      have h1 : ¬ p.1 = k := by
        intro e; simp [JsMap.has, e] at h
      have h2 : JsMap.has rest k = false := by
        simpa [JsMap.has, h1] using h
      have := ih h2
      simp only [JsMap.get, List.find?_cons, h1, decide_False] at this ⊢
      exact this

theorem count_le_of_fresh {κ : Type} [DecidableEq κ] (mk : κ → Request)
    (inj : ∀ a b, mk a = mk b → a = b) (log : List Request) (k k' : κ) (b b' : Bool)
    (h : log.count (mk k') ≤ if b' then 1 else 0)
    (hk : log.count (mk k) ≤ if b then 1 else 0) (hb : b = false) :
    (log ++ [mk k]).count (mk k') ≤ if (decide (k = k') || b') then 1 else 0 := by
  rw [List.count_append, List.count_singleton]
  by_cases e : k = k'
  · subst e
    subst hb
    simp at hk
    simp [hk]
  · have : ¬ mk k = mk k' := fun h' => e (inj _ _ h')
    simp [e, this]
    exact h

theorem count_append_other (log : List Request) (r r' : Request) (h : r' ≠ r) :
    (log ++ [r']).count r = log.count r := by
  rw [List.count_append, List.count_singleton]
  simp [h]

theorem ite_le_ite_or (b c : Bool) :
    (if b then 1 else 0 : Nat) ≤ if (c || b) then 1 else 0 := by
  cases b <;> cases c <;> simp

theorem piGet_ok {α : Type} (w : World) (log : List Request) (req : Request) (reply : Reply α)
    (data : Option α) (log' : List Request)
    (h : piGet w log req reply = .ok (data, log')) :
    (log' = log ∧ data = none ∧ hasPiHeaders w = false)
    ∨ (log' = log ++ [req] ∧ hasPiHeaders w = true) := by
  unfold piGet at h
  split at h
  · next hh =>
      right
      split at h
      · cases h
      · cases h; exact ⟨rfl, hh⟩
      · cases h; exact ⟨rfl, hh⟩
  · next hh =>
      left
      cases h
      exact ⟨rfl, rfl, by simpa using hh⟩

theorem piGet_total {α : Type} (w : World) (log : List Request) (req : Request)
    (reply : Reply α) (h : hasPiHeaders w = true → reply ≠ Reply.threw) :
    ∃ data log', piGet w log req reply = .ok (data, log') := by
  unfold piGet
  split
  · next hh =>
      cases reply with
      | threw => exact absurd rfl (h hh)
      | notOk => exact ⟨_, _, rfl⟩
      | ok body => exact ⟨_, _, rfl⟩
  · exact ⟨_, _, rfl⟩

theorem ensureFeed_counted (w : World) (s s' : ResolverState) (g : String)
    (h : Counted s) (e : ensureFeed w s g = .ok s') : Counted s' := by
  unfold ensureFeed at e
  split at e
  · cases e; exact h
  · next hhas =>
      have hhas : s.feedCache.has g = false := by simpa using hhas
      split at e
      · cases e
      · next data log' hp =>
          cases e
          obtain ⟨h1, h2, h3, h4⟩ := h
          rcases piGet_ok _ _ _ _ _ _ hp with ⟨rfl, _, _⟩ | ⟨rfl, _⟩
          · refine ⟨fun k => ?_, h2, h3, h4⟩
            simp only [JsMap.has_set]
            exact le_trans (h1 k) (ite_le_ite_or _ _)
          · refine ⟨fun k => ?_, fun k => ?_, fun k => ?_, fun k => ?_⟩
            · simp only [JsMap.has_set]
              exact count_le_of_fresh Request.podcastsByGuid (fun a b h => by cases h; rfl)
                s.log g k _ _ (h1 k) (h1 g) hhas
            · simp only []
              rw [count_append_other _ _ _ (by simp)]
              exact h2 k
            · simp only []
              rw [count_append_other _ _ _ (by simp)]
              exact h3 k
            · simp only []
              rw [count_append_other _ _ _ (by simp)]
              exact h4 k

theorem fetchPageTitle_log (w : World) (log : List Request) (url : String) :
    (fetchPageTitle w log url).2 = log ++ [Request.page url] := by
  unfold fetchPageTitle
  split
  · rfl
  · rfl
  · split <;> rfl

theorem ensureEpisode_shape (w : World) (s s' : ResolverState) (g : String)
    (e : ensureEpisode w s g = .ok s') :
    s' = s ∨ (s.episodeCache.has g = false ∧ ∃ info pre post,
      s' = { s with episodeCache := s.episodeCache.set g info, log := s.log ++ pre ++ post }
      ∧ (pre = [] ∨ pre = [Request.episodesByGuid g])
      ∧ (post = [] ∨ post = [Request.page g])) := by
  unfold ensureEpisode at e
  split at e
  · cases e; exact Or.inl rfl
  · next hhas =>
      have hhas : s.episodeCache.has g = false := by simpa using hhas
      right
      refine ⟨hhas, ?_⟩
      split at e
      · cases e
      · next item _ log' hp =>
          cases e
          rcases piGet_ok _ _ _ _ _ _ hp with ⟨rfl, hd, _⟩ | ⟨rfl, _⟩
          · cases hd
          · exact ⟨{ title := orNull item.title, enclosureUrl := orNull item.enclosureUrl },
              [Request.episodesByGuid g], [], by simp, Or.inr rfl, Or.inl rfl⟩
      · next data log' _ hp =>
          split at e
          · cases e
            rcases piGet_ok _ _ _ _ _ _ hp with ⟨rfl, _, _⟩ | ⟨rfl, _⟩
            · refine ⟨EpisodeInfo.mk (fetchPageTitle w s.log g).1 none, [],
                [Request.page g], ?_, Or.inl rfl, Or.inr rfl⟩
              simp [fetchPageTitle_log]
            · refine ⟨EpisodeInfo.mk (fetchPageTitle w (s.log ++ [Request.episodesByGuid g]) g).1
                none, [Request.episodesByGuid g], [Request.page g], ?_, Or.inr rfl, Or.inr rfl⟩
              simp [fetchPageTitle_log]
          · cases e
            rcases piGet_ok _ _ _ _ _ _ hp with ⟨rfl, _, _⟩ | ⟨rfl, _⟩
            · exact ⟨{ title := none, enclosureUrl := none }, [], [], by simp, Or.inl rfl,
                Or.inl rfl⟩
            · exact ⟨{ title := none, enclosureUrl := none }, [Request.episodesByGuid g], [],
                by simp, Or.inr rfl, Or.inl rfl⟩

theorem count_append_page (log : List Request) (post : List Request) (g : String) (r : Request)
    (hpost : post = [] ∨ post = [Request.page g]) (hr : r ≠ Request.page g) :
    (log ++ post).count r = log.count r := by
  rcases hpost with rfl | rfl
  · simp
  · exact count_append_other _ _ _ (fun h => hr h.symm)

theorem ensureEpisode_counted (w : World) (s s' : ResolverState) (g : String)
    (h : Counted s) (e : ensureEpisode w s g = .ok s') : Counted s' := by
  rcases ensureEpisode_shape w s s' g e with rfl | ⟨hhas, info, pre, post, rfl, hpre, hpost⟩
  · exact h
  · obtain ⟨h1, h2, h3, h4⟩ := h
    refine ⟨fun k => ?_, fun k => ?_, fun k => ?_, fun k => ?_⟩
    · simp only []
      rw [count_append_page _ _ g _ hpost (by simp)]
      rcases hpre with rfl | rfl
      · simpa using h1 k
      · rw [count_append_other _ _ _ (by simp)]; exact h1 k
    · simp only [JsMap.has_set]
      rw [count_append_page _ _ g _ hpost (by simp)]
      rcases hpre with rfl | rfl
      · rw [List.append_nil]
        exact le_trans (h2 k) (ite_le_ite_or _ _)
      · exact count_le_of_fresh Request.episodesByGuid (fun a b h => by cases h; rfl)
          s.log g k _ _ (h2 k) (h2 g) hhas
    · simp only []
      rw [count_append_page _ _ g _ hpost (by simp)]
      rcases hpre with rfl | rfl
      · simpa using h3 k
      · rw [count_append_other _ _ _ (by simp)]; exact h3 k
    · simp only []
      rw [count_append_page _ _ g _ hpost (by simp)]
      rcases hpre with rfl | rfl
      · simpa using h4 k
      · rw [count_append_other _ _ _ (by simp)]; exact h4 k

theorem ensureRss_shape (w : World) (s : ResolverState) (u : String) :
    ensureRss w s u = s ∨ (s.rssCache.has u = false ∧ ∃ table,
      ensureRss w s u
        = { s with rssCache := s.rssCache.set u table, log := s.log ++ [Request.rss u] }) := by
  unfold ensureRss
  split
  · exact Or.inl rfl
  · next hhas =>
      right
      refine ⟨by simpa using hhas, ?_⟩
      split
      · exact ⟨_, rfl⟩
      · exact ⟨_, rfl⟩

theorem ensureRss_counted (w : World) (s : ResolverState) (u : String)
    (h : Counted s) : Counted (ensureRss w s u) := by
  rcases ensureRss_shape w s u with e | ⟨hhas, table, e⟩
  · rw [e]; exact h
  · rw [e]
    obtain ⟨h1, h2, h3, h4⟩ := h
    refine ⟨fun k => ?_, fun k => ?_, fun k => ?_, fun k => ?_⟩
    · simp only []
      rw [count_append_other _ _ _ (by simp)]; exact h1 k
    · simp only []
      rw [count_append_other _ _ _ (by simp)]; exact h2 k
    · simp only [JsMap.has_set]
      exact count_le_of_fresh Request.rss (fun a b h => by cases h; rfl)
        s.log u k _ _ (h3 k) (h3 u) hhas
    · simp only []
      rw [count_append_other _ _ _ (by simp)]; exact h4 k

theorem ensureListing_shape (w : World) (s s' : ResolverState) (i : Int)
    (e : ensureListing w s i = .ok s') :
    s' = s ∨ (s.episodesByFeedIdCache.has i = false ∧ ∃ table log',
      s' = { s with episodesByFeedIdCache := s.episodesByFeedIdCache.set i table, log := log' }
      ∧ (log' = s.log ∨ log' = s.log ++ [Request.episodesByFeedId i])) := by
  unfold ensureListing at e
  split at e
  · cases e; exact Or.inl rfl
  · next hhas =>
      right
      refine ⟨by simpa using hhas, ?_⟩
      split at e
      · cases e
      · next data log' hp =>
          cases e
          rcases piGet_ok _ _ _ _ _ _ hp with ⟨rfl, _, _⟩ | ⟨rfl, _⟩
          · exact ⟨_, _, rfl, Or.inl rfl⟩
          · exact ⟨_, _, rfl, Or.inr rfl⟩

theorem ensureListing_counted (w : World) (s s' : ResolverState) (i : Int)
    (h : Counted s) (e : ensureListing w s i = .ok s') : Counted s' := by
  rcases ensureListing_shape w s s' i e with rfl | ⟨hhas, table, log', rfl, hl⟩
  · exact h
  · obtain ⟨h1, h2, h3, h4⟩ := h
    rcases hl with rfl | rfl
    · refine ⟨h1, h2, h3, fun k => ?_⟩
      simp only [JsMap.has_set]
      exact le_trans (h4 k) (ite_le_ite_or _ _)
    · refine ⟨fun k => ?_, fun k => ?_, fun k => ?_, fun k => ?_⟩
      · simp only []
        rw [count_append_other _ _ _ (by simp)]; exact h1 k
      · simp only []
        rw [count_append_other _ _ _ (by simp)]; exact h2 k
      · simp only []
        rw [count_append_other _ _ _ (by simp)]; exact h3 k
      · simp only [JsMap.has_set]
        exact count_le_of_fresh Request.episodesByFeedId (fun a b h => by cases h; rfl)
          s.log i k _ _ (h4 k) (h4 i) hhas

theorem rssStrategy_counted (w : World) (s : ResolverState) (feedUrl : Option String)
    (itemGuid : String) (f : Fields) (h : Counted s) :
    Counted (rssStrategy w s feedUrl itemGuid f).1 := by
  unfold rssStrategy
  split
  · split
    · simp only []
      split
      · exact ensureRss_counted _ _ _ h
      · exact ensureRss_counted _ _ _ h
    · exact h
  · exact h

theorem listingStrategy_counted (w : World) (s s' : ResolverState) (feedGuid itemGuid : String)
    (f f' : Fields) (h : Counted s)
    (e : listingStrategy w s feedGuid itemGuid f = .ok (s', f')) : Counted s' := by
  unfold listingStrategy at e
  split at e
  · split at e
    · split at e
      · split at e
        · cases e
        · next s1 he =>
            have hc := ensureListing_counted _ _ _ _ h he
            simp only [] at e
            split at e
            · cases e; exact hc
            · cases e; exact hc
      · cases e; exact h
    · cases e; exact h
  · cases e; exact h

theorem resolveItem_ok (w : World) (s s' : ResolverState) (ri : SummaryRemoteItem)
    (e : resolveItem w s ri = .ok s') :
    ∃ s1 s2 s3 f,
      feedStep w s ((orNull ri.feedGuid).getD "") = .ok s1
      ∧ episodeStep w s1 ((orNull ri.itemGuid).getD "") = .ok s2
      ∧ listingStrategy w
          (rssStrategy w s2 ((cachedFeed s1 ((orNull ri.feedGuid).getD "")).bind fun fc => fc.url)
            ((orNull ri.itemGuid).getD "") (cachedFields s2 ((orNull ri.itemGuid).getD ""))).1
          ((orNull ri.feedGuid).getD "") ((orNull ri.itemGuid).getD "")
          (rssStrategy w s2 ((cachedFeed s1 ((orNull ri.feedGuid).getD "")).bind fun fc => fc.url)
            ((orNull ri.itemGuid).getD "") (cachedFields s2 ((orNull ri.itemGuid).getD ""))).2
          = .ok (s3, f)
      ∧ s' = { s3 with results := s3.results ++ [{
                feedGuid := (orNull ri.feedGuid).getD ""
                itemGuid := (orNull ri.itemGuid).getD ""
                feedTitle := (cachedFeed s1 ((orNull ri.feedGuid).getD "")).bind fun fc => fc.title
                feedUrl := (cachedFeed s1 ((orNull ri.feedGuid).getD "")).bind fun fc => fc.url
                episodeTitle := f.episodeTitle
                episodeEnclosureUrl := f.episodeEnclosureUrl }] } := by
  unfold resolveItem at e
  simp only [] at e
  split at e
  · cases e
  · next s1 h1 =>
      split at e
      · cases e
      · next s2 h2 =>
          split at e
          · cases e
          · next s3 f h3 =>
              cases e
              exact ⟨s1, s2, s3, f, h1, h2, h3, rfl⟩

theorem feedStep_counted (w : World) (s s' : ResolverState) (g : String)
    (h : Counted s) (e : feedStep w s g = .ok s') : Counted s' := by
  unfold feedStep at e
  split at e
  · exact ensureFeed_counted _ _ _ _ h e
  · cases e; exact h

theorem episodeStep_counted (w : World) (s s' : ResolverState) (g : String)
    (h : Counted s) (e : episodeStep w s g = .ok s') : Counted s' := by
  unfold episodeStep at e
  split at e
  · exact ensureEpisode_counted _ _ _ _ h e
  · cases e; exact h

theorem resolveItem_counted (w : World) (s s' : ResolverState) (ri : SummaryRemoteItem)
    (h : Counted s) (e : resolveItem w s ri = .ok s') : Counted s' := by
  obtain ⟨s1, s2, s3, f, h1, h2, h3, rfl⟩ := resolveItem_ok w s s' ri e
  have c1 := feedStep_counted _ _ _ _ h h1
  have c2 := episodeStep_counted _ _ _ _ c1 h2
  have c3 : Counted s3 :=
    listingStrategy_counted _ _ _ _ _ _ _ (rssStrategy_counted w s2 _ _ _ c2) h3
  exact c3

theorem resolveAll_counted (w : World) (items : List SummaryRemoteItem) :
    ∀ (s s' : ResolverState), Counted s → resolveAll w items s = .ok s' → Counted s' := by
  induction items with
  | nil => intro s s' h e; cases e; exact h
  | cons ri rest ih =>
      intro s s' h e
      unfold resolveAll at e
      split at e
      · cases e
      · next s1 h1 => exact ih s1 s' (resolveItem_counted _ _ _ _ h h1) e

theorem counted_init : Counted ResolverState.init := by
  refine ⟨fun _ => ?_, fun _ => ?_, fun _ => ?_, fun _ => ?_⟩ <;> simp [ResolverState.init]

/-! ### Termination without an abort -/

theorem ensureFeed_total (w : World) (hw : hasPiHeaders w = true → w.NoThrow) (s : ResolverState) (g : String) :
    ∃ s', ensureFeed w s g = .ok s' := by
  unfold ensureFeed
  split
  · exact ⟨_, rfl⟩
  · obtain ⟨data, log', hp⟩ := piGet_total w s.log (Request.podcastsByGuid g)
      (w.podcastsByGuid s.log g) (fun hh => (hw hh).1 _ _)
    rw [hp]
    exact ⟨_, rfl⟩

theorem ensureEpisode_total (w : World) (hw : hasPiHeaders w = true → w.NoThrow) (s : ResolverState) (g : String) :
    ∃ s', ensureEpisode w s g = .ok s' := by
  unfold ensureEpisode
  split
  · exact ⟨_, rfl⟩
  · obtain ⟨data, log', hp⟩ := piGet_total w s.log (Request.episodesByGuid g)
      (w.episodesByGuid s.log g) (fun hh => (hw hh).2.1 _ _)
    rw [hp]
    split
    · next h => cases h
    · exact ⟨_, rfl⟩
    · split
      · exact ⟨_, rfl⟩
      · exact ⟨_, rfl⟩

theorem ensureListing_total (w : World) (hw : hasPiHeaders w = true → w.NoThrow) (s : ResolverState) (i : Int) :
    ∃ s', ensureListing w s i = .ok s' := by
  unfold ensureListing
  split
  · exact ⟨_, rfl⟩
  · obtain ⟨data, log', hp⟩ := piGet_total w s.log (Request.episodesByFeedId i)
      (w.episodesByFeedId s.log i) (fun hh => (hw hh).2.2 _ _)
    rw [hp]
    exact ⟨_, rfl⟩

theorem listingStrategy_total (w : World) (hw : hasPiHeaders w = true → w.NoThrow) (s : ResolverState)
    (feedGuid itemGuid : String) (f : Fields) :
    ∃ r, listingStrategy w s feedGuid itemGuid f = .ok r := by
  unfold listingStrategy
  split
  · split
    · split
      · next feedId _ _ =>
          obtain ⟨s1, h1⟩ := ensureListing_total w hw s feedId
          rw [h1]
          simp only []
          split
          · exact ⟨_, rfl⟩
          · exact ⟨_, rfl⟩
      · exact ⟨_, rfl⟩
    · exact ⟨_, rfl⟩
  · exact ⟨_, rfl⟩

theorem resolveItem_total (w : World) (hw : hasPiHeaders w = true → w.NoThrow) (s : ResolverState)
    (ri : SummaryRemoteItem) : ∃ s', resolveItem w s ri = .ok s' := by
  unfold resolveItem
  simp only []
  have h1 : ∃ s1, feedStep w s ((orNull ri.feedGuid).getD "") = .ok s1 := by
    unfold feedStep
    split
    · exact ensureFeed_total w hw s _
    · exact ⟨_, rfl⟩
  obtain ⟨s1, h1⟩ := h1
  rw [h1]
  simp only []
  have h2 : ∃ s2, episodeStep w s1 ((orNull ri.itemGuid).getD "") = .ok s2 := by
    unfold episodeStep
    split
    · exact ensureEpisode_total w hw s1 _
    · exact ⟨_, rfl⟩
  obtain ⟨s2, h2⟩ := h2
  rw [h2]
  simp only []
  obtain ⟨r, h3⟩ := listingStrategy_total w hw
    (rssStrategy w s2 ((cachedFeed s1 ((orNull ri.feedGuid).getD "")).bind fun fc => fc.url)
      ((orNull ri.itemGuid).getD "") (cachedFields s2 ((orNull ri.itemGuid).getD ""))).1
    ((orNull ri.feedGuid).getD "") ((orNull ri.itemGuid).getD "")
    (rssStrategy w s2 ((cachedFeed s1 ((orNull ri.feedGuid).getD "")).bind fun fc => fc.url)
      ((orNull ri.itemGuid).getD "") (cachedFields s2 ((orNull ri.itemGuid).getD ""))).2
  rw [h3]
  exact ⟨_, rfl⟩

theorem resolveAll_total (w : World) (hw : hasPiHeaders w = true → w.NoThrow) (items : List SummaryRemoteItem) :
    ∀ s, ∃ s', resolveAll w items s = .ok s' := by
  induction items with
  | nil => intro s; exact ⟨s, rfl⟩
  | cons ri rest ih =>
      intro s
      obtain ⟨s1, h1⟩ := resolveItem_total w hw s ri
      obtain ⟨s2, h2⟩ := ih s1
      exact ⟨s2, by unfold resolveAll; rw [h1]; exact h2⟩

theorem exampleWorld_noThrow : exampleWorld.NoThrow := by
  refine ⟨fun log guid => ?_, fun log guid => ?_, fun log id => ?_⟩
  · simp only [exampleWorld]
    split
    · simp
    · split <;> simp
  · simp only [exampleWorld]
    split <;> simp
  · simp [exampleWorld]

/-- Claim C2. In a run of `main` of resolve-itdv-tracks.mjs in which no
index request throws, whatever the answers of the outside world, each
external request is issued at most once per distinct key: `podcasts/byguid`
per feedGuid, `episodes/byguid` per itemGuid, the RSS fetch per feedUrl and
`episodes/byfeedid` per feed id, not-found and non-OK answers included. -/
theorem C2_each_key_requested_at_most_once (w : World) (summary : Summary)
    (hw : w.NoThrow) :
    (∀ feedGuid, (main w summary).log.count (Request.podcastsByGuid feedGuid) ≤ 1)
    ∧ (∀ itemGuid, (main w summary).log.count (Request.episodesByGuid itemGuid) ≤ 1)
    ∧ (∀ feedUrl, (main w summary).log.count (Request.rss feedUrl) ≤ 1)
    ∧ (∀ feedId, (main w summary).log.count (Request.episodesByFeedId feedId) ≤ 1) := by
  obtain ⟨s', hs⟩ := resolveAll_total w (fun _ => hw) summary.remoteItems ResolverState.init
  obtain ⟨h1, h2, h3, h4⟩ := resolveAll_counted w _ _ _ counted_init hs
  have hm : (main w summary).log = s'.log := by
    unfold main; rw [hs]
  rw [hm]
  refine ⟨fun k => le_trans (h1 k) ?_, fun k => le_trans (h2 k) ?_,
    fun k => le_trans (h3 k) ?_, fun k => le_trans (h4 k) ?_⟩ <;> split <;> omega

theorem C2_witness :
    exampleWorld.NoThrow
    ∧ (main exampleWorld repeatedSummary).log.count (Request.podcastsByGuid "f9") ≤ 1 :=
  ⟨exampleWorld_noThrow,
    (C2_each_key_requested_at_most_once exampleWorld repeatedSummary exampleWorld_noThrow).1 "f9"⟩

/-! ### Cache contents of resolve-itdv-tracks.mjs -/

theorem JsMap.get_set_cases {κ ν : Type} [DecidableEq κ] (m : JsMap κ ν) (k k' : κ) (v x : ν)
    (h : (m.set k v).get k' = some x) : (k' = k ∧ x = v) ∨ m.get k' = some x := by
  by_cases e : k = k'
  · subst e
    rw [JsMap.get_set_self] at h
    cases h
    exact Or.inl ⟨rfl, rfl⟩
  · rw [JsMap.get_set_ne _ _ _ _ e] at h
    exact Or.inr h

theorem piGet_data {α : Type} (w : World) (log : List Request) (req : Request) (reply : Reply α)
    (data : Option α) (log' : List Request)
    (h : piGet w log req reply = .ok (data, log')) : data = replyData w reply := by
  unfold piGet at h
  unfold replyData
  split at h
  · next hh =>
      rw [if_pos hh]
      split at h
      · cases h
      · cases h; rfl
      · cases h; rfl
  · next hh =>
      rw [if_neg hh]
      cases h
      rfl

theorem ensureFeed_value (w : World) (s s' : ResolverState) (g : String)
    (e : ensureFeed w s g = .ok s') :
    (s' = s ∧ s.feedCache.has g = true) ∨ (s.feedCache.has g = false ∧ ∃ log',
      s' = { s with
        feedCache := s.feedCache.set g (feedInfoOf (replyData w (w.podcastsByGuid s.log g))),
        log := log' }) := by
  unfold ensureFeed at e
  split at e
  · next hhas => cases e; exact Or.inl ⟨rfl, hhas⟩
  · next hhas =>
      right
      refine ⟨by simpa using hhas, ?_⟩
      split at e
      · cases e
      · next data log' hp =>
          cases e
          rw [piGet_data _ _ _ _ _ _ hp]
          exact ⟨log', rfl⟩

theorem ensureEpisode_value (w : World) (s s' : ResolverState) (g : String)
    (e : ensureEpisode w s g = .ok s') :
    (s' = s ∧ s.episodeCache.has g = true) ∨ (s.episodeCache.has g = false ∧ ∃ log' logp,
      s' = { s with
        episodeCache := s.episodeCache.set g
          (episodeInfoFrom (replyData w (w.episodesByGuid s.log g)) (isHttpUrl g)
            (fetchPageTitle w logp g).1),
        log := log' }) := by
  unfold ensureEpisode at e
  split at e
  · next hhas => cases e; exact Or.inl ⟨rfl, hhas⟩
  · next hhas =>
      right
      refine ⟨by simpa using hhas, ?_⟩
      split at e
      · cases e
      · next item tl log' hp =>
          cases e
          have hd := piGet_data _ _ _ _ _ _ hp
          refine ⟨log', [], ?_⟩
          rw [← hd]
          rfl
      · next data log' hne hp =>
          have hd := piGet_data _ _ _ _ _ _ hp
          have hinfo : ∀ t, episodeInfoFrom data (isHttpUrl g) t
              = if isHttpUrl g then { title := t, enclosureUrl := none }
                else { title := none, enclosureUrl := none } := by
            intro t
            unfold episodeInfoFrom
            split
            · next item tl => exact absurd rfl (hne item tl)
            · rfl
          split at e
          · next hu =>
              cases e
              refine ⟨(fetchPageTitle w log' g).2, log', ?_⟩
              rw [← hd, hinfo, if_pos hu]
          · next hu =>
              cases e
              refine ⟨log', [], ?_⟩
              rw [← hd, hinfo, if_neg hu]

theorem ensureRss_value (w : World) (s : ResolverState) (u : String) :
    (ensureRss w s u = s ∧ s.rssCache.has u = true) ∨ (s.rssCache.has u = false ∧
      ensureRss w s u = { s with rssCache := s.rssCache.set u (rssTableOf (w.rss s.log u)),
                                 log := s.log ++ [Request.rss u] }) := by
  unfold ensureRss
  split
  · next hhas => exact Or.inl ⟨rfl, hhas⟩
  · next hhas =>
      right
      refine ⟨by simpa using hhas, ?_⟩
      unfold rssTableOf
      split <;> rfl

theorem ensureListing_value (w : World) (s s' : ResolverState) (i : Int)
    (e : ensureListing w s i = .ok s') :
    (s' = s ∧ s.episodesByFeedIdCache.has i = true)
    ∨ (s.episodesByFeedIdCache.has i = false ∧ ∃ log',
      s' = { s with
        episodesByFeedIdCache := s.episodesByFeedIdCache.set i
          (listingOf (replyData w (w.episodesByFeedId s.log i))),
        log := log' }) := by
  unfold ensureListing at e
  split at e
  · next hhas => cases e; exact Or.inl ⟨rfl, hhas⟩
  · next hhas =>
      right
      refine ⟨by simpa using hhas, ?_⟩
      split at e
      · cases e
      · next data log' hp =>
          cases e
          rw [piGet_data _ _ _ _ _ _ hp]
          exact ⟨log', rfl⟩

theorem ensureFeed_spec (w : World) (s s' : ResolverState) (g : String)
    (hp : Provenance w s) (e : ensureFeed w s g = .ok s') :
    Provenance w s' ∧ s'.results = s.results ∧ s'.episodeCache = s.episodeCache
    ∧ ∃ log, s'.feedCache.get g = some (feedInfoOf (replyData w (w.podcastsByGuid log g))) := by
  obtain ⟨p1, p2, p3, p4⟩ := hp
  rcases ensureFeed_value w s s' g e with ⟨rfl, hhas⟩ | ⟨_, log', rfl⟩
  · obtain ⟨v, hv⟩ := JsMap.get_of_has _ _ hhas
    obtain ⟨log, hl⟩ := p1 g v hv
    exact ⟨⟨p1, p2, p3, p4⟩, rfl, rfl, log, by rw [hv, hl]⟩
  · refine ⟨⟨?_, p2, p3, p4⟩, rfl, rfl, s.log, JsMap.get_set_self _ _ _⟩
    intro k v hv
    rcases JsMap.get_set_cases _ _ _ _ _ hv with ⟨rfl, rfl⟩ | h
    · exact ⟨s.log, rfl⟩
    · exact p1 k v h

theorem feedStep_spec (w : World) (s s' : ResolverState) (g : String)
    (hp : Provenance w s) (e : feedStep w s g = .ok s') :
    Provenance w s' ∧ s'.results = s.results
    ∧ ∃ fc, cachedFeed s' g = fc
      ∧ ((g = "" ∧ fc = none)
        ∨ (g ≠ "" ∧ s'.feedCache.get g = fc
            ∧ ∃ log, fc = some (feedInfoOf (replyData w (w.podcastsByGuid log g))))) := by
  unfold feedStep at e
  unfold cachedFeed
  split at e
  · next hg =>
      obtain ⟨q, hr, _, log, hl⟩ := ensureFeed_spec w s s' g hp e
      refine ⟨q, hr, _, rfl, Or.inr ⟨hg, ?_, log, ?_⟩⟩
      · rw [if_pos hg]
      · rw [if_pos hg, hl]
  · next hg =>
      cases e
      have hg' : g = "" := by simpa using hg
      exact ⟨hp, rfl, _, rfl, Or.inl ⟨hg', by rw [if_neg hg]⟩⟩

theorem ensureEpisode_spec (w : World) (s s' : ResolverState) (g : String)
    (hp : Provenance w s) (e : ensureEpisode w s g = .ok s') :
    Provenance w s' ∧ s'.results = s.results ∧ s'.feedCache = s.feedCache
    ∧ ∃ log logp, s'.episodeCache.get g
        = some (episodeInfoFrom (replyData w (w.episodesByGuid log g)) (isHttpUrl g)
            (fetchPageTitle w logp g).1) := by
  obtain ⟨p1, p2, p3, p4⟩ := hp
  rcases ensureEpisode_value w s s' g e with ⟨rfl, hhas⟩ | ⟨_, log', logp, rfl⟩
  · obtain ⟨v, hv⟩ := JsMap.get_of_has _ _ hhas
    obtain ⟨log, logp, hl⟩ := p2 g v hv
    exact ⟨⟨p1, p2, p3, p4⟩, rfl, rfl, log, logp, by rw [hv, hl]⟩
  · refine ⟨⟨p1, ?_, p3, p4⟩, rfl, rfl, s.log, logp, JsMap.get_set_self _ _ _⟩
    intro k v hv
    rcases JsMap.get_set_cases _ _ _ _ _ hv with ⟨rfl, rfl⟩ | h
    · exact ⟨s.log, logp, rfl⟩
    · exact p2 k v h

theorem episodeStep_spec (w : World) (s s' : ResolverState) (g : String)
    (hp : Provenance w s) (e : episodeStep w s g = .ok s') :
    Provenance w s' ∧ s'.results = s.results ∧ s'.feedCache = s.feedCache
    ∧ ∃ ec, cachedFields s' g
        = { episodeTitle := ec.bind (fun ec => ec.title)
            episodeEnclosureUrl := ec.bind (fun ec => ec.enclosureUrl) }
      ∧ ((g = "" ∧ ec = none)
        ∨ (g ≠ "" ∧ ∃ log logp,
            ec = some (episodeInfoFrom (replyData w (w.episodesByGuid log g)) (isHttpUrl g)
              (fetchPageTitle w logp g).1))) := by
  unfold episodeStep at e
  unfold cachedFields
  split at e
  · next hg =>
      obtain ⟨q, hr, hf, log, logp, hl⟩ := ensureEpisode_spec w s s' g hp e
      refine ⟨q, hr, hf, s'.episodeCache.get g, ?_, Or.inr ⟨hg, log, logp, hl⟩⟩
      simp only [if_pos hg]
  · next hg =>
      cases e
      have hg' : g = "" := by simpa using hg
      refine ⟨hp, rfl, rfl, none, ?_, Or.inl ⟨hg', rfl⟩⟩
      simp only [if_neg hg]

theorem ensureRss_spec (w : World) (s : ResolverState) (u : String) (hp : Provenance w s) :
    Provenance w (ensureRss w s u) ∧ (ensureRss w s u).results = s.results
    ∧ (ensureRss w s u).feedCache = s.feedCache
    ∧ ∃ log, (ensureRss w s u).rssCache.get u = some (rssTableOf (w.rss log u)) := by
  obtain ⟨p1, p2, p3, p4⟩ := hp
  rcases ensureRss_value w s u with ⟨e, hhas⟩ | ⟨_, e⟩
  · rw [e]
    obtain ⟨v, hv⟩ := JsMap.get_of_has _ _ hhas
    obtain ⟨log, hl⟩ := p3 u v hv
    exact ⟨⟨p1, p2, p3, p4⟩, rfl, rfl, log, by rw [hv, hl]⟩
  · rw [e]
    refine ⟨⟨p1, p2, ?_, p4⟩, rfl, rfl, s.log, JsMap.get_set_self _ _ _⟩
    intro k v hv
    rcases JsMap.get_set_cases _ _ _ _ _ hv with ⟨rfl, rfl⟩ | h
    · exact ⟨s.log, rfl⟩
    · exact p3 k v h

theorem rssStrategy_spec (w : World) (s : ResolverState) (feedUrl : Option String)
    (itemGuid : String) (f : Fields) (hp : Provenance w s) :
    Provenance w (rssStrategy w s feedUrl itemGuid f).1
    ∧ (rssStrategy w s feedUrl itemGuid f).1.results = s.results
    ∧ (rssStrategy w s feedUrl itemGuid f).1.feedCache = s.feedCache
    ∧ ∃ rssT, (rssStrategy w s feedUrl itemGuid f).2 = rssFill feedUrl itemGuid f rssT
      ∧ ∀ u, feedUrl = some u → ∃ log, rssT = rssTableOf (w.rss log u) := by
  unfold rssStrategy rssFill
  cases feedUrl with
  | none => exact ⟨hp, rfl, rfl, [], rfl, fun u h => by cases h⟩
  | some url =>
      simp only []
      split
      · obtain ⟨q, hr, hf, log, hl⟩ := ensureRss_spec w s url hp
        refine ⟨?_, ?_, ?_, rssTableOf (w.rss log url), ?_, fun u h => ?_⟩
        · split <;> exact q
        · split <;> exact hr
        · split <;> exact hf
        · rw [hl]
          simp only [Option.getD_some]
          split <;> rfl
        · cases h; exact ⟨log, rfl⟩
      · exact ⟨hp, rfl, rfl, rssTableOf (w.rss [] url), rfl, fun u h => by
          cases h; exact ⟨[], rfl⟩⟩

theorem ensureListing_spec (w : World) (s s' : ResolverState) (i : Int)
    (hp : Provenance w s) (e : ensureListing w s i = .ok s') :
    Provenance w s' ∧ s'.results = s.results
    ∧ ∃ log, s'.episodesByFeedIdCache.get i
        = some (listingOf (replyData w (w.episodesByFeedId log i))) := by
  obtain ⟨p1, p2, p3, p4⟩ := hp
  rcases ensureListing_value w s s' i e with ⟨rfl, hhas⟩ | ⟨_, log', rfl⟩
  · obtain ⟨v, hv⟩ := JsMap.get_of_has _ _ hhas
    obtain ⟨log, hl⟩ := p4 i v hv
    exact ⟨⟨p1, p2, p3, p4⟩, rfl, log, by rw [hv, hl]⟩
  · refine ⟨⟨p1, p2, p3, ?_⟩, rfl, s.log, JsMap.get_set_self _ _ _⟩
    intro k v hv
    rcases JsMap.get_set_cases _ _ _ _ _ hv with ⟨rfl, rfl⟩ | h
    · exact ⟨s.log, rfl⟩
    · exact p4 k v h

theorem listingStrategy_spec (w : World) (s s' : ResolverState) (feedGuid itemGuid : String)
    (f f' : Fields) (hp : Provenance w s)
    (e : listingStrategy w s feedGuid itemGuid f = .ok (s', f')) :
    Provenance w s' ∧ s'.results = s.results
    ∧ ∃ listT,
        f' = listingFill ((s.feedCache.get feedGuid).bind fun fc => fc.id) feedGuid itemGuid f listT
      ∧ ∀ i, ((s.feedCache.get feedGuid).bind fun fc => fc.id) = some i →
          ∃ log, listT = listingOf (replyData w (w.episodesByFeedId log i)) := by
  unfold listingStrategy at e
  unfold listingFill
  split at e
  · next hc =>
      simp only [hc, if_true]
      split at e
      · next feedId hid =>
          rw [hid]
          split at e
          · next hz =>
              simp only [if_pos hz]
              split at e
              · cases e
              · next s1 he =>
                  obtain ⟨q, hr, log, hl⟩ := ensureListing_spec w s s1 feedId hp he
                  rw [hl] at e
                  simp only [Option.getD_some] at e
                  refine ⟨?_, ?_, listingOf (replyData w (w.episodesByFeedId log feedId)), ?_,
                    fun i h => ?_⟩
                  · split at e <;> (cases e; exact q)
                  · split at e <;> (cases e; exact hr)
                  · split at e
                    · cases e; rfl
                    · cases e; rfl
                  · cases h; exact ⟨log, rfl⟩
          · next hz =>
              cases e
              refine ⟨hp, rfl, listingOf (replyData w (w.episodesByFeedId [] feedId)), ?_,
                fun i h => by cases h; exact ⟨[], rfl⟩⟩
              simp only [if_neg hz]
      · next hid =>
          cases e
          rw [hid]
          exact ⟨hp, rfl, [], rfl, fun i h => by cases h⟩
  · next hc =>
      cases e
      refine ⟨hp, rfl, ?_⟩
      simp only [hc]
      cases hid : (s.feedCache.get feedGuid).bind fun fc => fc.id with
      | none => exact ⟨[], by simp, fun i h => by cases h⟩
      | some i =>
          exact ⟨listingOf (replyData w (w.episodesByFeedId [] i)), by simp,
            fun j h => by cases h; exact ⟨[], rfl⟩⟩

theorem listingFill_empty_feedGuid (feedId : Option Int) (itemGuid : String) (f : Fields)
    (table : JsMap String EpisodeData) : listingFill feedId "" itemGuid f table = f := by
  unfold listingFill
  simp

theorem resolveItem_spec (w : World) (s s' : ResolverState) (ri : SummaryRemoteItem)
    (hp : Provenance w s) (e : resolveItem w s ri = .ok s') :
    Provenance w s' ∧ ∃ r, s'.results = s.results ++ [r] ∧ ResultOf w ri r := by
  obtain ⟨s1, s2, s3, f, h1, h2, h3, rfl⟩ := resolveItem_ok w s s' ri e
  obtain ⟨q1, r1, fc, hfc, hfc'⟩ := feedStep_spec w s s1 _ hp h1
  obtain ⟨q2, r2, fc2, ec, hec, hec'⟩ := episodeStep_spec w s1 s2 _ q1 h2
  rw [hfc, hec] at h3
  obtain ⟨q3, r3, fc3, rssT, hrss, hrss'⟩ := rssStrategy_spec w s2 (fc.bind fun fc => fc.url)
    ((orNull ri.itemGuid).getD "")
    { episodeTitle := ec.bind (fun ec => ec.title)
      episodeEnclosureUrl := ec.bind (fun ec => ec.enclosureUrl) } q2
  obtain ⟨q4, r4, listT, hlist, hlist'⟩ := listingStrategy_spec w _ s3 _ _ _ f q3 h3
  rw [hrss, fc3, fc2] at hlist
  rw [fc3, fc2] at hlist'
  refine ⟨q4, ?_⟩
  show ∃ r, s3.results ++ _ = s.results ++ [r] ∧ ResultOf w ri r
  rw [r4, r3, r2, r1]
  refine ⟨_, rfl, ?_⟩
  · rw [hfc]
    rcases hfc' with ⟨hg, hnone⟩ | ⟨hg, hget, log, hsome⟩
    · refine ⟨fc, ec, rssT, [], ?_, Or.inl ⟨hg, hnone⟩, hec', hrss', ?_⟩
      · have hfill : ∀ x y T T' g, listingFill x ((orNull ri.feedGuid).getD "")
            ((orNull ri.itemGuid).getD "") g T
            = listingFill y ((orNull ri.feedGuid).getD "") ((orNull ri.itemGuid).getD "") g T' := by
          intro x y T T' g
          rw [hg, listingFill_empty_feedGuid, listingFill_empty_feedGuid]
        rw [hlist, hfill _ (fc.bind fun fc => fc.id) _ []]
        rfl
      · intro i hi
        rw [hnone] at hi
        cases hi
    · refine ⟨fc, ec, rssT, listT, ?_, Or.inr ⟨hg, log, hsome⟩, hec', hrss', ?_⟩
      · rw [hlist, hget]
        rfl
      · intro i hi
        rw [← hget] at hi
        exact hlist' i hi

theorem resolveAll_spec (w : World) (items : List SummaryRemoteItem) :
    ∀ (s s' : ResolverState), Provenance w s → resolveAll w items s = .ok s' →
      Provenance w s' ∧ ∃ rs, s'.results = s.results ++ rs
        ∧ List.Forall₂ (ResultOf w) items rs := by
  induction items with
  | nil =>
      intro s s' hp e
      cases e
      exact ⟨hp, [], by simp, List.Forall₂.nil⟩
  | cons ri rest ih =>
      intro s s' hp e
      unfold resolveAll at e
      split at e
      · cases e
      · next s1 h1 =>
          obtain ⟨q1, r, hr, hres⟩ := resolveItem_spec w s s1 ri hp h1
          obtain ⟨q2, rs, hrs, hall⟩ := ih s1 s' q1 e
          refine ⟨q2, r :: rs, ?_, List.Forall₂.cons hres hall⟩
          rw [hrs, hr]
          simp

theorem provenance_init (w : World) : Provenance w ResolverState.init := by
  refine ⟨fun _ _ h => ?_, fun _ _ h => ?_, fun _ _ h => ?_, fun _ _ h => ?_⟩ <;>
    simp [ResolverState.init, JsMap.get] at h

theorem main_spec (w : World) (summary : Summary) (hw : hasPiHeaders w = true → w.NoThrow) :
    ∃ rs, (main w summary).results = some rs
      ∧ List.Forall₂ (ResultOf w) summary.remoteItems rs := by
  obtain ⟨s', hs⟩ := resolveAll_total w hw summary.remoteItems ResolverState.init
  obtain ⟨_, rs, hrs, hall⟩ := resolveAll_spec w _ _ _ (provenance_init w) hs
  refine ⟨rs, ?_, hall⟩
  unfold main
  rw [hs]
  simp only [hrs, ResolverState.init, List.nil_append]

theorem resolveWith_keys (fg ig : String) (fc : Option FeedInfo) (ec : Option EpisodeInfo)
    (rssT : JsMap String EpisodeInfo) (listT : JsMap String EpisodeData) :
    (resolveWith fg ig fc ec rssT listT).feedGuid = fg
    ∧ (resolveWith fg ig fc ec rssT listT).itemGuid = ig := ⟨rfl, rfl⟩

theorem episodeInfoFrom_no_episode (data : Option (Option (List EpisodeData))) (isUrl : Bool)
    (t : Option String) (h : ∀ item rest, data ≠ some (some (item :: rest))) :
    episodeInfoFrom data isUrl t
      = if isUrl then { title := t, enclosureUrl := none }
        else { title := none, enclosureUrl := none } := by
  unfold episodeInfoFrom
  split
  · next item tl => exact absurd rfl (h item tl)
  · rfl

theorem resolveWith_yieldsNothing (w : World) (fg ig : String) (fc : Option FeedInfo)
    (ec : Option EpisodeInfo) (rssT : JsMap String EpisodeInfo)
    (listT : JsMap String EpisodeData) (hs : Sourced w fg ig fc ec rssT listT)
    (hy : YieldsNothing w ig) :
    (resolveWith fg ig fc ec rssT listT).episodeTitle = none
    ∧ (resolveWith fg ig fc ec rssT listT).episodeEnclosureUrl = none := by
  obtain ⟨_, hec, hrss, hlist⟩ := hs
  obtain ⟨y1, y2, y3, y4⟩ := hy
  have h0 : (ec.bind fun ec => ec.title) = none ∧ (ec.bind fun ec => ec.enclosureUrl) = none := by
    rcases hec with ⟨_, rfl⟩ | ⟨_, log, logp, rfl⟩
    · exact ⟨rfl, rfl⟩
    · rw [episodeInfoFrom_no_episode _ _ _ (y1 log)]
      by_cases hu : isHttpUrl ig = true
      · simp [hu, y2 hu logp]
      · simp [hu]
  have h1 : rssFill (fc.bind fun fc => fc.url) ig
      { episodeTitle := ec.bind (fun ec => ec.title)
        episodeEnclosureUrl := ec.bind (fun ec => ec.enclosureUrl) } rssT
      = { episodeTitle := none, episodeEnclosureUrl := none } := by
    rw [h0.1, h0.2]
    unfold rssFill
    cases hu : (fc.bind fun fc => fc.url) with
    | none => rfl
    | some u =>
        obtain ⟨log, rfl⟩ := hrss u hu
        simp only [(y3 log u).1, (y3 log u).2, Option.orElse]
        split <;> rfl
  have h2 : listingFill (fc.bind fun fc => fc.id) fg ig
      { episodeTitle := none, episodeEnclosureUrl := none } listT
      = { episodeTitle := none, episodeEnclosureUrl := none } := by
    unfold listingFill
    cases hi : (fc.bind fun fc => fc.id) with
    | none => simp
    | some i =>
        obtain ⟨log, rfl⟩ := hlist i hi
        simp only [y4 log i]
        split
        · split <;> rfl
        · rfl
  unfold resolveWith
  simp only [h1, h2, and_self]

/-- In a run of `main` of resolve-itdv-tracks.mjs in which no index request
throws, `main` emits exactly one result per remote item of the input summary,
in input order, each carrying the reference's feedGuid and itemGuid (the
empty string when absent); a reference on which every strategy yields nothing
is still present, with `episodeTitle` and `episodeEnclosureUrl` null. -/
theorem main_one_result_per_reference (w : World) (summary : Summary) (hw : w.NoThrow) :
    ∃ rs, (main w summary).results = some rs
      ∧ List.Forall₂ (fun ri r =>
          r.feedGuid = (orNull ri.feedGuid).getD ""
          ∧ r.itemGuid = (orNull ri.itemGuid).getD ""
          ∧ (YieldsNothing w r.itemGuid →
              r.episodeTitle = none ∧ r.episodeEnclosureUrl = none))
        summary.remoteItems rs := by
  obtain ⟨rs, hrs, hall⟩ := main_spec w summary (fun _ => hw)
  refine ⟨rs, hrs, List.Forall₂.imp ?_ hall⟩
  rintro ri r ⟨fc, ec, rssT, listT, rfl, hs⟩
  exact ⟨rfl, rfl, fun hy => resolveWith_yieldsNothing w _ _ fc ec rssT listT hs hy⟩

theorem exampleWorld_yieldsNothing : YieldsNothing exampleWorld "i9" := by
  refine ⟨fun log item rest h => ?_, fun h => absurd h (by decide), fun log u => ⟨rfl, rfl⟩,
    fun log i => rfl⟩
  have : replyData exampleWorld (exampleWorld.episodesByGuid log "i9") = some (some []) := rfl
  rw [this] at h
  cases h

/-- The example run, in which no request throws: four references, four
results, the ones for `i9` unresolved. -/
theorem main_one_result_per_reference_example :
    exampleWorld.NoThrow
    ∧ YieldsNothing exampleWorld "i9"
    ∧ ∃ rs, (main exampleWorld repeatedSummary).results = some rs
      ∧ List.Forall₂ (fun ri r =>
          r.feedGuid = (orNull ri.feedGuid).getD ""
          ∧ r.itemGuid = (orNull ri.itemGuid).getD ""
          ∧ (YieldsNothing exampleWorld r.itemGuid →
              r.episodeTitle = none ∧ r.episodeEnclosureUrl = none))
        repeatedSummary.remoteItems rs :=
  ⟨exampleWorld_noThrow, exampleWorld_yieldsNothing,
    main_one_result_per_reference exampleWorld repeatedSummary exampleWorld_noThrow⟩

/-- Claim C7 fails on the code, through the defect of claim C5: `piGet` does
not catch a rejected request. On the summary with four references, the first
reference is resolved and pushed, the `episodes/byguid` request of the second
rejects, `main` rejects and no result is written: not one of the four
references is present in the output. In every run in which no index request
throws, the output is as the claim says: one result per remote item, in input
order, with the reference's feedGuid and itemGuid (the empty string when
absent), and with `episodeTitle` and `episodeEnclosureUrl` null where every
strategy yields nothing. -/
theorem C7_no_result_after_transport_failure :
    ((main lateFailureWorld repeatedSummary).results = none
      ∧ (main lateFailureWorld repeatedSummary).log
          = [Request.podcastsByGuid "f1", Request.episodesByGuid "i1",
             Request.episodesByFeedId 1, Request.podcastsByGuid "f9",
             Request.episodesByGuid "i9"]
      ∧ repeatedSummary.remoteItems.length = 4)
    ∧ ∀ (w : World) (summary : Summary), w.NoThrow →
        ∃ rs, (main w summary).results = some rs
          ∧ List.Forall₂ (fun ri r =>
              r.feedGuid = (orNull ri.feedGuid).getD ""
              ∧ r.itemGuid = (orNull ri.itemGuid).getD ""
              ∧ (YieldsNothing w r.itemGuid →
                  r.episodeTitle = none ∧ r.episodeEnclosureUrl = none))
            summary.remoteItems rs :=
  ⟨by decide, fun w summary hw => main_one_result_per_reference w summary hw⟩

/-! ### The feed RSS strategy -/

theorem orNull_eq_some (x : Option String) (v : String) (h : orNull x = some v) :
    truthy (some v) = true ∧ v ≠ "" := by
  unfold orNull at h
  split at h
  · next ht =>
      subst h
      refine ⟨ht, ?_⟩
      intro hv
      rw [hv] at ht
      revert ht
      decide
  · cases h

theorem feedInfoOf_url_ne (data : Option (Option FeedData)) (u : String)
    (h : (feedInfoOf data).url = some u) : u ≠ "" := by
  unfold feedInfoOf at h
  split at h
  · exact (orNull_eq_some _ _ h).2
  · cases h

theorem rssTableLoop_get (g T : String) (hg : g ≠ "") (items : List XmlNode) :
    ∀ acc : JsMap String EpisodeInfo,
      (∀ it ∈ items, rssGuidOf it = some g → (rssInfoOf it).title = some T) →
      ((∃ it ∈ items, rssGuidOf it = some g) ∨ (∃ e, acc.get g = some e ∧ e.title = some T)) →
      ∃ e, (rssTableLoop items acc).get g = some e ∧ e.title = some T := by
  induction items with
  | nil =>
      intro acc _ h
      rcases h with ⟨it, hit, _⟩ | h
      · cases hit
      · exact h
  | cons it rest ih =>
      intro acc hall h
      have hall' : ∀ it' ∈ rest, rssGuidOf it' = some g → (rssInfoOf it').title = some T :=
        fun it' h' => hall it' (List.mem_cons_of_mem _ h')
      unfold rssTableLoop
      cases hgo : rssGuidOf it with
      | none =>
          simp only []
          apply ih acc hall'
          rcases h with ⟨it0, hit0, hg0⟩ | h
          · rcases List.mem_cons.mp hit0 with rfl | hin
            · rw [hgo] at hg0; cases hg0
            · exact Or.inl ⟨it0, hin, hg0⟩
          · exact Or.inr h
      | some g' =>
          simp only []
          by_cases hg' : g' = ""
          · rw [if_neg (by simpa using hg')]
            apply ih acc hall'
            rcases h with ⟨it0, hit0, hg0⟩ | h
            · rcases List.mem_cons.mp hit0 with rfl | hin
              · rw [hgo] at hg0
                cases hg0
                exact absurd hg' hg
              · exact Or.inl ⟨it0, hin, hg0⟩
            · exact Or.inr h
          · rw [if_pos hg']
            apply ih _ hall'
            by_cases e : g' = g
            · subst e
              right
              exact ⟨rssInfoOf it, JsMap.get_set_self _ _ _,
                hall it (List.mem_cons_self _ _) hgo⟩
            · rcases h with ⟨it0, hit0, hg0⟩ | ⟨e0, he0, ht0⟩
              · rcases List.mem_cons.mp hit0 with rfl | hin
                · rw [hgo] at hg0
                  cases hg0
                  exact absurd rfl e
                · exact Or.inl ⟨it0, hin, hg0⟩
              · right
                exact ⟨e0, by rw [JsMap.get_set_ne _ _ _ _ e]; exact he0, ht0⟩

theorem fillMissing_title_of_truthy (f : Fields) (t e : Option String)
    (h : truthy f.episodeTitle = true) :
    (fillMissing f t e).episodeTitle = f.episodeTitle := by
  unfold fillMissing
  simp [h]

theorem listingFill_title_of_truthy (feedId : Option Int) (fg ig : String) (f : Fields)
    (table : JsMap String EpisodeData) (h : truthy f.episodeTitle = true) :
    (listingFill feedId fg ig f table).episodeTitle = f.episodeTitle := by
  unfold listingFill
  split
  · split
    · split
      · split
        · exact fillMissing_title_of_truthy _ _ _ h
        · rfl
      · rfl
    · rfl
  · rfl

theorem resolveWith_rssFallback (w : World) (fg ig u T : String) (fc : Option FeedInfo)
    (ec : Option EpisodeInfo) (rssT : JsMap String EpisodeInfo)
    (listT : JsMap String EpisodeData) (hs : Sourced w fg ig fc ec rssT listT)
    (hc : RssFallbackCase w fg ig u T) :
    (resolveWith fg ig fc ec rssT listT).episodeTitle = some T := by
  obtain ⟨hfc, hec, hrss, _⟩ := hs
  obtain ⟨c1, c2, c3, c4, c5, c6⟩ := hc
  have hurl : (fc.bind fun fc => fc.url) = some u := by
    rcases hfc with ⟨h, _⟩ | ⟨_, log, rfl⟩
    · exact absurd h c1
    · exact c3 log
  have hune : u ≠ "" := by
    rcases hfc with ⟨h, _⟩ | ⟨_, log, rfl⟩
    · exact absurd h c1
    · exact feedInfoOf_url_ne _ _ (c3 log)
  have h0 : truthy (ec.bind fun ec => ec.title) = false
      ∧ (ec.bind fun ec => ec.enclosureUrl) = none := by
    rcases hec with ⟨h, _⟩ | ⟨_, log, logp, rfl⟩
    · exact absurd h c2
    · rw [episodeInfoFrom_no_episode _ _ _ (c4 log)]
      by_cases hu : isHttpUrl ig = true
      · simp [hu, c5 hu logp]
      · simp [hu, truthy]
  obtain ⟨log, hT⟩ := hrss u hurl
  obtain ⟨doc, hdoc, hex, hall⟩ := c6 log
  obtain ⟨e, he, het⟩ := rssTableLoop_get ig T c2 (doc.getElementsByTagName "item") []
    hall (Or.inl hex)
  have hget : rssT.get ig = some e := by
    rw [hT, hdoc]
    exact he
  have hTtruthy : truthy (some T) = true := by
    obtain ⟨it, hit, hgi⟩ := hex
    have := hall it hit hgi
    unfold rssInfoOf at this
    exact (orNull_eq_some _ _ this).1
  have h1 : (rssFill (fc.bind fun fc => fc.url) ig
      { episodeTitle := ec.bind (fun ec => ec.title)
        episodeEnclosureUrl := ec.bind (fun ec => ec.enclosureUrl) } rssT).episodeTitle
      = some T := by
    rw [hurl]
    unfold rssFill
    have hinc : (Fields.incomplete
        { episodeTitle := ec.bind (fun ec => ec.title)
          episodeEnclosureUrl := ec.bind (fun ec => ec.enclosureUrl) }
        && u != "" && ig != "") = true := by
      simp [Fields.incomplete, h0.1, hune, c2]
    simp only [hinc, if_true, hget, Option.orElse]
    simp [fillMissing, h0.1, het]
  unfold resolveWith
  simp only []
  rw [listingFill_title_of_truthy _ _ _ _ _ (by rw [h1]; exact hTtruthy), h1]

/-- Claim C3, amended. In a run of `main` of resolve-itdv-tracks.mjs in which
no index request throws, for every reference with a non-empty itemGuid whose
direct episode lookup finds no episode, whose page-title fallback supplies no
title (the itemGuid is not an http(s) URL, or its page gives none), whose feed
lookup yields a feed URL, and whose feed RSS contains an item whose trimmed
`guid` equals the itemGuid, the items with that guid having the non-empty
trimmed title `T`: the result's `episodeTitle` is `T`. -/
theorem C3_rss_fallback_title (w : World) (summary : Summary) (hw : w.NoThrow)
    (feedGuid itemGuid feedUrl title : String)
    (hc : RssFallbackCase w feedGuid itemGuid feedUrl title) :
    ∃ rs, (main w summary).results = some rs
      ∧ List.Forall₂ (fun ri r =>
          (orNull ri.feedGuid).getD "" = feedGuid → (orNull ri.itemGuid).getD "" = itemGuid →
            r.episodeTitle = some title)
        summary.remoteItems rs := by
  obtain ⟨rs, hrs, hall⟩ := main_spec w summary (fun _ => hw)
  refine ⟨rs, hrs, List.Forall₂.imp ?_ hall⟩
  rintro ri r ⟨fc, ec, rssT, listT, rfl, hs⟩ hf hi
  rw [hf, hi] at hs ⊢
  exact resolveWith_rssFallback w _ _ feedUrl title fc ec rssT listT hs hc

theorem fallbackWorld_noThrow (guid : String) : (fallbackWorld guid).NoThrow := by
  refine ⟨fun log g => ?_, fun log g => ?_, fun log id => ?_⟩ <;> simp [fallbackWorld]

theorem fallbackWorld_case :
    RssFallbackCase (fallbackWorld "i1") "f1" "i1" "http://feed.example/rss" "Song R" := by
  refine ⟨by decide, by decide, fun log => rfl, fun log item rest => ?_,
    fun h => absurd h (by decide), fun log => ⟨songFeed "i1", rfl, ?_, ?_⟩⟩
  · simp [replyData, fallbackWorld]
  · exact ⟨songItem "i1", by
      have : (songFeed "i1").getElementsByTagName "item" = [songItem "i1"] := rfl
      rw [this]
      exact List.mem_singleton.mpr rfl, by decide⟩
  · intro it hit _
    have : (songFeed "i1").getElementsByTagName "item" = [songItem "i1"] := rfl
    rw [this] at hit
    rw [List.mem_singleton.mp hit]
    decide

theorem C3_witness :
    (fallbackWorld "i1").NoThrow
    ∧ RssFallbackCase (fallbackWorld "i1") "f1" "i1" "http://feed.example/rss" "Song R"
    ∧ ∃ rs, (main (fallbackWorld "i1") (singleSummary (some "f1") (some "i1"))).results = some rs
      ∧ List.Forall₂ (fun ri r =>
          (orNull ri.feedGuid).getD "" = "f1" → (orNull ri.itemGuid).getD "" = "i1" →
            r.episodeTitle = some "Song R")
        (singleSummary (some "f1") (some "i1")).remoteItems rs :=
  ⟨fallbackWorld_noThrow "i1", fallbackWorld_case,
    C3_rss_fallback_title (fallbackWorld "i1") (singleSummary (some "f1") (some "i1"))
      (fallbackWorld_noThrow "i1") "f1" "i1" "http://feed.example/rss" "Song R"
      fallbackWorld_case⟩

/-- Claim C3 as stated fails for an itemGuid that is an http(s) URL: the
direct episode lookup finds no episode, the feed lookup yields a feed URL and
the feed RSS has an item with that guid and the title "Song R", yet the
result's `episodeTitle` is the title of the page at the itemGuid, "Page". -/
theorem C3_counterexample :
    replyData (fallbackWorld "http://x.example/a")
        ((fallbackWorld "http://x.example/a").episodesByGuid [] "http://x.example/a")
      = some (some [])
    ∧ (feedInfoOf (replyData (fallbackWorld "http://x.example/a")
        ((fallbackWorld "http://x.example/a").podcastsByGuid [] "f1"))).url
      = some "http://feed.example/rss"
    ∧ (songFeed "http://x.example/a").getElementsByTagName "item"
      = [songItem "http://x.example/a"]
    ∧ rssGuidOf (songItem "http://x.example/a") = some "http://x.example/a"
    ∧ (rssInfoOf (songItem "http://x.example/a")).title = some "Song R"
    ∧ (main (fallbackWorld "http://x.example/a")
        (singleSummary (some "f1") (some "http://x.example/a"))).results
      = some [{ feedGuid := "f1", itemGuid := "http://x.example/a",
                feedTitle := some "Artist feed", feedUrl := some "http://feed.example/rss",
                episodeTitle := some "Page", episodeEnclosureUrl := none }] := by
  refine ⟨rfl, rfl, rfl, ?_, ?_, ?_⟩ <;> decide

/-! ### Concrete runs -/

theorem C1_witness :
    (∀ p ∈ exampleFeed.elementsByTagName "podcast:remoteItem",
      episodeScoped p = true ∨ podrollScoped p = true)
    ∧ extractMinimalRemoteItems exampleFeed
        = ((exampleFeed.elementsByTagName "podcast:remoteItem").filter episodeScoped).map
            (fun p => referenceOf p.1)
    ∧ ((exampleFeed.elementsByTagName "podcast:remoteItem").filter episodeScoped).length = 2
    ∧ ((exampleFeed.elementsByTagName "podcast:remoteItem").filter podrollScoped).length = 1 :=
  ⟨by decide,
    (C1_extractor_keeps_episode_scoped "now" "link" exampleFeed (by decide)).1,
    by decide, by decide⟩

/-- Claim C5 fails on the code: `piGet` of resolve-itdv-tracks.mjs does not
catch a rejected request. When the `podcasts/byguid` request of the first
reference throws, `main` rejects right after that request and no result is
written, for a summary with one reference. -/
theorem C5_transport_failure_aborts_main :
    (main throwingWorld (singleSummary (some "f1") (some "i1"))).results = none
    ∧ (main throwingWorld (singleSummary (some "f1") (some "i1"))).log
        = [Request.podcastsByGuid "f1"]
    ∧ (singleSummary (some "f1") (some "i1")).remoteItems.length = 1 := by
  decide

/-- Claim C8 fails on the code: on the example feed `parseFeed` also returns
the podroll remote item `f3` of episode B, so `main` produces three results,
the third for `f3`; the ancestor-walk extractor returns the two episode
references only. -/
theorem C8_example_scenario_keeps_podroll_item :
    (match parseFeed exampleFeed with
      | .ok summary => (main exampleWorld summary).results
      | .error _ => none)
      = some [
          { feedGuid := "f1", itemGuid := "i1", feedTitle := some "Feed 1", feedUrl := none,
            episodeTitle := some "Song A", episodeEnclosureUrl := none },
          { feedGuid := "f2", itemGuid := "", feedTitle := some "Feed 2", feedUrl := none,
            episodeTitle := none, episodeEnclosureUrl := none },
          { feedGuid := "f3", itemGuid := "", feedTitle := none, feedUrl := none,
            episodeTitle := none, episodeEnclosureUrl := none }]
    ∧ extractMinimalRemoteItems exampleFeed
      = [{ feedGuid := some "f1", itemGuid := some "i1" },
         { feedGuid := some "f2", itemGuid := none }] := by
  decide

/-- Claim C10 fails on the code: both `generateMinimalRSS` functions write
the values as they are. A feedGuid holding a double quote and an itemGuid
holding an ampersand appear raw in the attribute values, where `escapeXML`
would write `a&quot;b` and `x&amp;y`, and a channel title "Rock & Roll" is
written raw into the `title` element. -/
theorem C10_minimal_renderers_write_raw_values :
    generateMinimalRSS "now" [quotedReference]
      = minimalRSSHeader "now"
        ++ "\n    <item>\n      <podcast:remoteItem feedGuid=\"a\"b\" itemGuid=\"x&y\"/>\n    </item>"
        ++ "\n  </channel>\n</rss>"
    ∧ generateGenericMinimalRSS "now" [quotedReference] ampersandChannel
      = "<?xml version=\"1.0\" encoding=\"UTF-8\"?>\n<rss version=\"2.0\">\n<channel>\n"
        ++ "<title>Rock & Roll</title>\n<description>\na < b\n</description>\n"
        ++ "<link>http://x/?a=1&b=2</link>\n<language>en</language>\n"
        ++ "<pubDate>now</pubDate>\n<lastBuildDate>now</lastBuildDate>\n"
        ++ "<image>\n<url>\n\n</url>\n</image>\n<podcast:medium>musicL</podcast:medium>\n"
        ++ "<podcast:guid>g</podcast:guid>"
        ++ "\n<item>\n<podcast:remoteItem feedGuid=\"a\"b\" itemGuid=\"x&y\"/>\n</item>"
        ++ "\n</channel>\n</rss>"
    ∧ escapeXML quotedReference.feedGuid = "a&quot;b"
    ∧ escapeXML quotedReference.itemGuid = "x&amp;y"
    ∧ escapeXML (some ampersandChannel.title) = "Rock &amp; Roll" := by
  refine ⟨?_, ?_, by decide, by decide, by decide⟩
  · simp [generateMinimalRSS, minimalRSSItem, quotedReference, interpolate]
  · simp [generateGenericMinimalRSS, genericRSSHeader, genericRSSItem, quotedReference,
      ampersandChannel, interpolate]

/-! ### Runs without credentials -/

theorem hasPiHeaders_false_of_empty (w : World) (h : w.apiKey = "" ∨ w.apiSecret = "") :
    hasPiHeaders w = false := by
  unfold hasPiHeaders
  rcases h with h | h <;> simp [h]

theorem replyData_noHeaders {α : Type} (w : World) (reply : Reply α)
    (h : hasPiHeaders w = false) : replyData w reply = none := by
  unfold replyData
  simp [h]

theorem piGet_noHeaders {α : Type} (w : World) (log : List Request) (req : Request)
    (reply : Reply α) (h : hasPiHeaders w = false) : piGet w log req reply = .ok (none, log) := by
  unfold piGet
  simp [h]

theorem ensureFeed_noHeaders (w : World) (s s' : ResolverState) (g : String)
    (h : hasPiHeaders w = false) (e : ensureFeed w s g = .ok s') : s'.log = s.log := by
  unfold ensureFeed at e
  rw [piGet_noHeaders _ _ _ _ h] at e
  split at e
  · cases e; rfl
  · cases e; rfl

theorem ensureEpisode_noHeaders (w : World) (s s' : ResolverState) (g : String)
    (h : hasPiHeaders w = false) (e : ensureEpisode w s g = .ok s') :
    s'.log = s.log ∨ (s'.log = s.log ++ [Request.page g] ∧ isHttpUrl g = true) := by
  unfold ensureEpisode at e
  rw [piGet_noHeaders _ _ _ _ h] at e
  split at e
  · cases e; exact Or.inl rfl
  · simp only [] at e
    split at e
    · next hu =>
        cases e
        exact Or.inr ⟨fetchPageTitle_log _ _ _, hu⟩
    · cases e
      exact Or.inl rfl

theorem feedCache_noHeaders (w : World) (s : ResolverState) (h : hasPiHeaders w = false)
    (hp : Provenance w s) (g : String) :
    ((s.feedCache.get g).bind fun fc => fc.id) = none
    ∧ ((s.feedCache.get g).bind fun fc => fc.url) = none
    ∧ ((s.feedCache.get g).bind fun fc => fc.title) = none := by
  cases hg : s.feedCache.get g with
  | none => exact ⟨rfl, rfl, rfl⟩
  | some v =>
      obtain ⟨log, rfl⟩ := hp.1 g v hg
      rw [replyData_noHeaders _ _ h]
      exact ⟨rfl, rfl, rfl⟩

theorem cachedFeed_noHeaders (w : World) (s : ResolverState) (h : hasPiHeaders w = false)
    (hp : Provenance w s) (g : String) :
    ((cachedFeed s g).bind fun fc => fc.url) = none
    ∧ ((cachedFeed s g).bind fun fc => fc.title) = none := by
  unfold cachedFeed
  split
  · exact ⟨(feedCache_noHeaders w s h hp g).2.1, (feedCache_noHeaders w s h hp g).2.2⟩
  · exact ⟨rfl, rfl⟩

theorem listingStrategy_noHeaders (w : World) (s : ResolverState) (fg ig : String) (f : Fields)
    (h : hasPiHeaders w = false) (hp : Provenance w s) :
    listingStrategy w s fg ig f = .ok (s, f) := by
  unfold listingStrategy
  rw [(feedCache_noHeaders w s h hp fg).1]
  split <;> rfl

theorem resolveItem_noHeaders (w : World) (s s' : ResolverState) (ri : SummaryRemoteItem)
    (h : hasPiHeaders w = false) (hp : Provenance w s) (e : resolveItem w s ri = .ok s') :
    (s'.log = s.log ∨ ∃ url, s'.log = s.log ++ [Request.page url] ∧ isHttpUrl url = true)
    ∧ ∃ r, s'.results = s.results ++ [r]
        ∧ r.feedGuid = (orNull ri.feedGuid).getD "" ∧ r.itemGuid = (orNull ri.itemGuid).getD ""
        ∧ r.feedTitle = none ∧ r.feedUrl = none := by
  obtain ⟨s1, s2, s3, f, h1, h2, h3, rfl⟩ := resolveItem_ok w s s' ri e
  obtain ⟨q1, r1, _⟩ := feedStep_spec w s s1 _ hp h1
  obtain ⟨q2, r2, _⟩ := episodeStep_spec w s1 s2 _ q1 h2
  have hurl := (cachedFeed_noHeaders w s1 h q1 ((orNull ri.feedGuid).getD "")).1
  have htitle := (cachedFeed_noHeaders w s1 h q1 ((orNull ri.feedGuid).getD "")).2
  rw [hurl] at h3
  have hrss : ∀ g, rssStrategy w s2 none ((orNull ri.itemGuid).getD "") g = (s2, g) :=
    fun _ => rfl
  rw [hrss, listingStrategy_noHeaders w s2 _ _ _ h q2] at h3
  cases h3
  have l1 : s1.log = s.log := by
    unfold feedStep at h1
    split at h1
    · exact ensureFeed_noHeaders w s s1 _ h h1
    · cases h1; rfl
  have l2 : s2.log = s1.log
      ∨ ∃ url, s2.log = s1.log ++ [Request.page url] ∧ isHttpUrl url = true := by
    unfold episodeStep at h2
    split at h2
    · rcases ensureEpisode_noHeaders w s1 s2 _ h h2 with h' | h'
      · exact Or.inl h'
      · exact Or.inr ⟨_, h'⟩
    · cases h2; exact Or.inl rfl
  rw [l1] at l2
  refine ⟨l2, ?_⟩
  show ∃ r, s2.results ++ _ = s.results ++ [r] ∧ _
  rw [r2, r1]
  exact ⟨_, rfl, rfl, rfl, htitle, hurl⟩

theorem resolveAll_noHeaders (w : World) (h : hasPiHeaders w = false)
    (items : List SummaryRemoteItem) :
    ∀ (s s' : ResolverState), Provenance w s → PageOnly s.log →
      resolveAll w items s = .ok s' →
      PageOnly s'.log ∧ ∃ rs, s'.results = s.results ++ rs
        ∧ List.Forall₂ (fun ri r =>
            r.feedGuid = (orNull ri.feedGuid).getD "" ∧ r.itemGuid = (orNull ri.itemGuid).getD ""
            ∧ r.feedTitle = none ∧ r.feedUrl = none) items rs := by
  induction items with
  | nil =>
      intro s s' _ hl e
      cases e
      exact ⟨hl, [], by simp, List.Forall₂.nil⟩
  | cons ri rest ih =>
      intro s s' hp hl e
      unfold resolveAll at e
      split at e
      · cases e
      · next s1 h1 =>
          obtain ⟨q1, _⟩ := resolveItem_spec w s s1 ri hp h1
          obtain ⟨hlog, r, hr, hres⟩ := resolveItem_noHeaders w s s1 ri h hp h1
          have hl1 : PageOnly s1.log := by
            rcases hlog with e1 | ⟨url, e1, hu⟩
            · rw [e1]; exact hl
            · rw [e1]
              intro req hreq
              rcases List.mem_append.mp hreq with h' | h'
              · exact hl req h'
              · exact ⟨url, List.mem_singleton.mp h', hu⟩
          obtain ⟨hl2, rs, hrs, hall⟩ := ih s1 s' q1 hl1 e
          refine ⟨hl2, r :: rs, ?_, List.Forall₂.cons hres hall⟩
          rw [hrs, hr]
          simp

/-- Claim C6, amended. When the index API key or the API secret is empty, a
run of `main` of resolve-itdv-tracks.mjs does not abort: it issues no index
lookup and no RSS fetch (its only external requests are fetches of the pages
of itemGuids that are http(s) URLs), completes, and writes one result per
reference, in order, with `feedTitle` and `feedUrl` null. -/
theorem C6_missing_credentials_run (w : World) (summary : Summary)
    (h : w.apiKey = "" ∨ w.apiSecret = "") :
    (∀ req ∈ (main w summary).log, ∃ url, req = Request.page url ∧ isHttpUrl url = true)
    ∧ ∃ rs, (main w summary).results = some rs
        ∧ List.Forall₂ (fun ri r =>
            r.feedGuid = (orNull ri.feedGuid).getD "" ∧ r.itemGuid = (orNull ri.itemGuid).getD ""
            ∧ r.feedTitle = none ∧ r.feedUrl = none) summary.remoteItems rs := by
  have hh := hasPiHeaders_false_of_empty w h
  obtain ⟨s', hs⟩ := resolveAll_total w (fun h' => by rw [hh] at h'; cases h')
    summary.remoteItems ResolverState.init
  obtain ⟨hl, rs, hrs, hall⟩ := resolveAll_noHeaders w hh _ _ _ (provenance_init w)
    (fun req hreq => by simp [ResolverState.init] at hreq) hs
  have hm : main w summary = { log := s'.log, results := some s'.results } := by
    unfold main; rw [hs]
  rw [hm]
  refine ⟨hl, rs, ?_, hall⟩
  simp only [hrs, ResolverState.init, List.nil_append]

theorem C6_witness :
    (noKeyWorld.apiKey = "" ∨ noKeyWorld.apiSecret = "")
    ∧ (∀ req ∈ (main noKeyWorld (singleSummary (some "f1") (some "i1"))).log,
        ∃ url, req = Request.page url ∧ isHttpUrl url = true)
    ∧ ∃ rs, (main noKeyWorld (singleSummary (some "f1") (some "i1"))).results = some rs
        ∧ List.Forall₂ (fun ri r =>
            r.feedGuid = (orNull ri.feedGuid).getD "" ∧ r.itemGuid = (orNull ri.itemGuid).getD ""
            ∧ r.feedTitle = none ∧ r.feedUrl = none)
          (singleSummary (some "f1") (some "i1")).remoteItems rs :=
  ⟨Or.inl rfl,
    C6_missing_credentials_run noKeyWorld (singleSummary (some "f1") (some "i1")) (Or.inl rfl)⟩

/-- Claim C6 as stated fails: with an empty API key, `main` does not abort.
For a reference whose itemGuid is an http(s) URL it fetches the page at that
URL, completes, and writes a result for the reference. -/
theorem C6_counterexample :
    noKeyWorld.apiKey = ""
    ∧ (main noKeyWorld (singleSummary (some "f1") (some "http://x.example/a"))).log
        = [Request.page "http://x.example/a"]
    ∧ (main noKeyWorld (singleSummary (some "f1") (some "http://x.example/a"))).results
        = some [{ feedGuid := "f1", itemGuid := "http://x.example/a", feedTitle := none,
                  feedUrl := none, episodeTitle := some "Page",
                  episodeEnclosureUrl := none }] := by
  decide

/-! ### Request counts of resolve-remote-feeds.js -/

theorem remotePiGet_log {α : Type} (w : RemoteWorld) (log : List RemoteRequest)
    (req : RemoteRequest) (reply : Reply (Option α)) :
    (remotePiGet w log req reply).2 = log ∨ (remotePiGet w log req reply).2 = log ++ [req] := by
  unfold remotePiGet
  split
  · exact Or.inl rfl
  · split
    · exact Or.inr rfl
    · exact Or.inr rfl

theorem resolveRemoteFeed_log (w : RemoteWorld) (log : List RemoteRequest)
    (fg ig : Option String) :
    ∃ extra, (resolveRemoteFeed w log fg ig).2 = log ++ extra
      ∧ ∀ g, extra.count (RemoteRequest.podcastsByGuid g) ≤ if fg = g then 1 else 0 := by
  have key : ∀ (l : List RemoteRequest), (l = log ∨ l = log ++ [RemoteRequest.podcastsByGuid fg]) →
      ∀ (post : List RemoteRequest), (∀ r ∈ post, ∀ g, r ≠ RemoteRequest.podcastsByGuid g) →
      ∃ extra, l ++ post = log ++ extra
        ∧ ∀ g, extra.count (RemoteRequest.podcastsByGuid g) ≤ if fg = g then 1 else 0 := by
    intro l hl post hpost
    have hc : ∀ g, post.count (RemoteRequest.podcastsByGuid g) = 0 := fun g =>
      List.count_eq_zero.mpr (fun hmem => hpost _ hmem g rfl)
    rcases hl with rfl | rfl
    · exact ⟨post, rfl, fun g => by rw [hc g]; exact Nat.zero_le _⟩
    · refine ⟨[RemoteRequest.podcastsByGuid fg] ++ post, by simp, fun g => ?_⟩
      rw [List.count_append, hc g, List.count_singleton]
      by_cases e : fg = g
      · simp [e]
      · have : ¬ RemoteRequest.podcastsByGuid fg = RemoteRequest.podcastsByGuid g :=
          fun h => e (by cases h; rfl)
        simp [e, this]
  unfold resolveRemoteFeed
  simp only []
  have h1 := remotePiGet_log w log (RemoteRequest.podcastsByGuid fg) (w.podcastsByGuid log fg)
  generalize remotePiGet w log (RemoteRequest.podcastsByGuid fg) (w.podcastsByGuid log fg) = p1
    at h1 ⊢
  obtain ⟨d1, l1⟩ := p1
  simp only [] at h1
  cases d1 with
  | none =>
      obtain ⟨extra, he, hcount⟩ := key l1 h1 [] (fun r hr => by cases hr)
      exact ⟨extra, by simpa using he, hcount⟩
  | some feedInfo =>
      simp only []
      have h2 := remotePiGet_log w l1 (RemoteRequest.episodesByGuid ig) (w.episodesByGuid l1 ig)
      generalize remotePiGet w l1 (RemoteRequest.episodesByGuid ig) (w.episodesByGuid l1 ig) = p2
        at h2 ⊢
      obtain ⟨d2, l2⟩ := p2
      simp only [] at h2
      have hl2 : ∃ post, l2 = l1 ++ post
          ∧ ∀ r ∈ post, ∀ g, r ≠ RemoteRequest.podcastsByGuid g := by
        rcases h2 with rfl | rfl
        · exact ⟨[], by simp, fun r hr => by cases hr⟩
        · exact ⟨[RemoteRequest.episodesByGuid ig], rfl, fun r hr g => by
            rw [List.mem_singleton.mp hr]; simp⟩
      obtain ⟨post2, rfl, hpost2⟩ := hl2
      cases d2 with
      | some episode =>
          exact key l1 h1 post2 hpost2
      | none =>
          simp only []
          cases hid : feedInfo.id with
          | none =>
              simp only []
              exact key l1 h1 post2 hpost2
          | some id =>
              simp only []
              by_cases hz : id = 0
              · simp only [hz, ne_eq, not_true_eq_false, if_false]
                exact key l1 h1 post2 hpost2
              · simp only [ne_eq, hz, not_false_eq_true, if_true]
                have h3 := remotePiGet_log w (l1 ++ post2) (RemoteRequest.episodesByFeedId id)
                  (w.episodesByFeedId (l1 ++ post2) id)
                generalize remotePiGet w (l1 ++ post2) (RemoteRequest.episodesByFeedId id)
                  (w.episodesByFeedId (l1 ++ post2) id) = p3 at h3 ⊢
                obtain ⟨d3, l3⟩ := p3
                simp only [] at h3
                have hl3 : ∃ post, l3 = l1 ++ post
                    ∧ ∀ r ∈ post, ∀ g, r ≠ RemoteRequest.podcastsByGuid g := by
                  rcases h3 with rfl | rfl
                  · exact ⟨post2, rfl, hpost2⟩
                  · refine ⟨post2 ++ [RemoteRequest.episodesByFeedId id], by simp, ?_⟩
                    intro r hr g
                    rcases List.mem_append.mp hr with h' | h'
                    · exact hpost2 r h' g
                    · rw [List.mem_singleton.mp h']; simp
                obtain ⟨post3, rfl, hpost3⟩ := hl3
                cases d3 with
                | none => exact key l1 h1 post3 hpost3
                | some items =>
                    simp only []
                    cases findEpisode items ig with
                    | none => exact key l1 h1 post3 hpost3
                    | some episode => exact key l1 h1 post3 hpost3

theorem dedup_length_le_of_subset (l₁ l₂ : List String) (h : l₁ ⊆ l₂) :
    l₁.dedup.length ≤ l₂.dedup.length :=
  (List.subperm_of_subset (List.nodup_dedup l₁)
    (fun _ hx => List.mem_dedup.mpr (h (List.mem_dedup.mp hx)))).length_le

theorem dedup_length_succ_le (k : String) (l₁ l₂ : List String) (hk : k ∉ l₁) (hk2 : k ∈ l₂)
    (h : l₁ ⊆ l₂) : l₁.dedup.length + 1 ≤ l₂.dedup.length := by
  have hn : (k :: l₁.dedup).Nodup :=
    List.nodup_cons.mpr ⟨fun hx => hk (List.mem_dedup.mp hx), List.nodup_dedup l₁⟩
  have hs : (k :: l₁.dedup) ⊆ l₂.dedup := by
    intro x hx
    rcases List.mem_cons.mp hx with rfl | hx
    · exact List.mem_dedup.mpr hk2
    · exact List.mem_dedup.mpr (h (List.mem_dedup.mp hx))
  have := (List.subperm_of_subset hn hs).length_le
  simpa using this

theorem pendingKeys_subset (g : Option String) (processed : List String) (item : FeedEntry)
    (rest : List FeedEntry) :
    pendingKeys g (entryKey item :: processed) rest ⊆ pendingKeys g processed (item :: rest) := by
  intro k hk
  simp only [pendingKeys, List.mem_map, List.mem_filter, Bool.and_eq_true, Bool.not_eq_true',
    decide_eq_true_eq, List.contains_eq_any_beq, List.any_eq_false, beq_iff_eq,
    List.mem_cons] at hk ⊢
  obtain ⟨a, ⟨ha, ⟨hg, hn⟩, hp⟩, rfl⟩ := hk
  refine ⟨a, ⟨Or.inr ha, ⟨hg, hn⟩, fun x hx => hp x (Or.inr hx)⟩, rfl⟩

theorem pendingKeys_not_mem (g : Option String) (processed : List String) (item : FeedEntry)
    (rest : List FeedEntry) : entryKey item ∉ pendingKeys g (entryKey item :: processed) rest := by
  intro hk
  simp only [pendingKeys, List.mem_map, List.mem_filter, Bool.and_eq_true, Bool.not_eq_true',
    decide_eq_true_eq, List.contains_eq_any_beq, List.any_eq_false, beq_iff_eq,
    List.mem_cons] at hk
  obtain ⟨a, ⟨_, _, hp⟩, hkey⟩ := hk
  exact hp (entryKey item) (Or.inl rfl) hkey

theorem remoteLoop_count (w : RemoteWorld) (g : Option String) (seed : List FeedEntry) :
    ∀ (processed : List String) (results : List FeedEntry) (log : List RemoteRequest),
      (remoteLoop w seed processed results log).2.count (RemoteRequest.podcastsByGuid g)
        ≤ log.count (RemoteRequest.podcastsByGuid g)
          + (pendingKeys g processed seed).dedup.length := by
  induction seed with
  | nil => intro processed results log; simp [remoteLoop]
  | cons item rest ih =>
      intro processed results log
      unfold remoteLoop
      simp only []
      by_cases hc : processed.contains (entryKey item) = true
      · rw [if_pos hc]
        have hp : pendingKeys g processed (item :: rest) = pendingKeys g processed rest := by
          unfold pendingKeys
          rw [List.filter_cons, hc]
          simp
        rw [hp]
        exact ih processed results log
      · rw [if_neg hc]
        have hc' : processed.contains (entryKey item) = false := by simpa using hc
        by_cases hn : needsResolving item = true
        · rw [if_pos hn]
          obtain ⟨extra, he, hcount⟩ := resolveRemoteFeed_log w log item.feedGuid item.itemGuid
          have := ih (entryKey item :: processed)
            (results ++ [(resolveRemoteFeed w log item.feedGuid item.itemGuid).1])
            (resolveRemoteFeed w log item.feedGuid item.itemGuid).2
          refine le_trans this ?_
          rw [he, List.count_append]
          by_cases hg : item.feedGuid = g
          · have hmem : entryKey item ∈ pendingKeys g processed (item :: rest) :=
              List.mem_map.mpr ⟨item, List.mem_filter.mpr ⟨List.mem_cons_self _ _, by
                rw [hc', hn, hg]; simp⟩, rfl⟩
            have h1 := dedup_length_succ_le (entryKey item) _ _
              (pendingKeys_not_mem g processed item rest) hmem
              (pendingKeys_subset g processed item rest)
            have h2 := hcount g
            rw [if_pos hg] at h2
            omega
          · have h1 := dedup_length_le_of_subset _ _ (pendingKeys_subset g processed item rest)
            have h2 := hcount g
            rw [if_neg hg] at h2
            omega
        · rw [if_neg hn]
          have := ih (entryKey item :: processed) (results ++ [item]) log
          have h1 := dedup_length_le_of_subset _ _ (pendingKeys_subset g processed item rest)
          omega

theorem pendingKeys_nil (g : Option String) (seed : List FeedEntry) :
    (pendingKeys g [] seed).dedup = unresolvedKeys g seed := by
  simp [pendingKeys, unresolvedKeys]

/-- Claim C4, amended. `main` of resolve-remote-feeds.js keeps no
per-feedGuid cache: in a run, a feedGuid (not found or found) is looked up
(`podcasts/byguid`) at most once for each distinct reference key
`feedGuid-itemGuid` of the unresolved seed entries that name it. -/
theorem C4_lookups_bounded_by_reference_keys (w : RemoteWorld) (existingData : List FeedEntry)
    (g : Option String) :
    (remoteMain w existingData).2.count (RemoteRequest.podcastsByGuid g)
      ≤ (unresolvedKeys g existingData).length := by
  have := remoteLoop_count w g existingData [] [] []
  rw [pendingKeys_nil] at this
  simpa [remoteMain] using this

/-- Claim C4 as stated fails: two unresolved seed entries with different
itemGuids that reference the same feedGuid, reported as not found, cause two
`podcasts/byguid` lookups of that feedGuid. -/
theorem C4_counterexample :
    notFoundWorld.podcastsByGuid [] (some "f") = Reply.ok none
    ∧ (remoteMain notFoundWorld [seedEntry "f" "i1", seedEntry "f" "i2"]).2
      = [RemoteRequest.podcastsByGuid (some "f"), RemoteRequest.podcastsByGuid (some "f")]
    ∧ (remoteMain notFoundWorld [seedEntry "f" "i1", seedEntry "f" "i2"]).2.count
        (RemoteRequest.podcastsByGuid (some "f")) = 2 := by
  refine ⟨rfl, ?_, ?_⟩ <;> decide

/-! ### Remote items without episode context -/

theorem lightningLoop_forall₂ (now originalLink : String)
    (items : List (XmlNode × List XmlNode)) :
    ∀ (k : Nat) (acc : List MusicTrack),
      ∃ new, lightningLoop now originalLink items k acc = acc ++ new
        ∧ List.Forall₂ (fun p t =>
            MusicTrack.reference t = referenceOf p.1
            ∧ (nearestScope p.2 = none →
                t.episodeTitle = "Unknown Episode" ∧ t.episodeLink = originalLink
                ∧ t.episodePubDate = now))
          (items.filter (fun p => !podrollScoped p)) new := by
  induction items with
  | nil => intro k acc; exact ⟨[], by simp [lightningLoop], List.Forall₂.nil⟩
  | cons p rest ih =>
      intro k acc
      obtain ⟨ri, anc⟩ := p
      unfold lightningLoop
      simp only [ancestorWalk_eq_nearestScope]
      cases hs : nearestScope anc with
      | none =>
          simp only []
          obtain ⟨new, hnew, hall⟩ := ih (k + 1) (acc ++ [_])
          refine ⟨_ :: new, by rw [hnew, List.append_assoc]; rfl, ?_⟩
          have hf : podrollScoped (ri, anc) = false := by simp [podrollScoped, hs]
          rw [List.filter_cons]
          simp only [hf, Bool.not_false, if_true]
          exact List.Forall₂.cons ⟨rfl, fun _ => ⟨rfl, rfl, rfl⟩⟩ hall
      | some node =>
          simp only []
          by_cases hp : node.tagName = some "podcast:podroll"
          · rw [if_pos hp]
            obtain ⟨new, hnew, hall⟩ := ih k acc
            refine ⟨new, hnew, ?_⟩
            have hf : podrollScoped (ri, anc) = true := by simp [podrollScoped, hs, hasTag, hp]
            rw [List.filter_cons]
            simp only [hf, Bool.not_true]
            exact hall
          · rw [if_neg hp]
            have hf : podrollScoped (ri, anc) = false := by
              have e : (node.tagName == some "podcast:podroll") = false := by simpa using hp
              simp [podrollScoped, hs, hasTag, e]
            by_cases hi : node.tagName = some "item"
            · rw [if_pos hi]
              obtain ⟨new, hnew, hall⟩ := ih (k + 1) (acc ++ [_])
              refine ⟨_ :: new, by rw [hnew, List.append_assoc]; rfl, ?_⟩
              rw [List.filter_cons]
              simp only [hf, Bool.not_false, if_true]
              exact List.Forall₂.cons ⟨rfl, fun h => by rw [hs] at h; cases h⟩ hall
            · rw [if_neg hi]
              obtain ⟨new, hnew, hall⟩ := ih (k + 1) (acc ++ [_])
              refine ⟨_ :: new, by rw [hnew, List.append_assoc]; rfl, ?_⟩
              rw [List.filter_cons]
              simp only [hf, Bool.not_false, if_true]
              exact List.Forall₂.cons ⟨rfl, fun h => by rw [hs] at h; cases h⟩ hall

/-- Claim C13. The extractor of create-lightning-style-playlist.js returns one
track for every remote item that is not podroll-scoped, in document order; a
remote item with neither an `item` nor a `podcast:podroll` ancestor is among
those kept, and its track has `episodeTitle` "Unknown Episode" and
`episodeLink` equal to the channel link (`originalLink`). -/
theorem C13_item_without_context_is_kept (now : String) (xmlDoc : Document)
    (channel : XmlNode) (h : (xmlDoc.getElementsByTagName "channel").head? = some channel) :
    ∃ tracks, createLightningStyleTracks now xmlDoc = some tracks
      ∧ List.Forall₂ (fun p t =>
          MusicTrack.reference t = referenceOf p.1
          ∧ (nearestScope p.2 = none →
              t.episodeTitle = "Unknown Episode"
              ∧ t.episodeLink = lightningOriginalLink channel
              ∧ t.episodePubDate = now))
        ((xmlDoc.elementsByTagName "podcast:remoteItem").filter (fun p => !podrollScoped p))
        tracks
      ∧ ∀ p ∈ xmlDoc.elementsByTagName "podcast:remoteItem", nearestScope p.2 = none →
          p ∈ (xmlDoc.elementsByTagName "podcast:remoteItem").filter
            (fun p => !podrollScoped p) := by
  obtain ⟨new, hnew, hall⟩ := lightningLoop_forall₂ now (lightningOriginalLink channel)
    (xmlDoc.elementsByTagName "podcast:remoteItem") 1 []
  refine ⟨new, ?_, hall, ?_⟩
  · unfold createLightningStyleTracks
    rw [h]
    simp only [extractLightningTracks, hnew, List.nil_append]
  · intro p hp hn
    exact List.mem_filter.mpr ⟨hp, by simp [podrollScoped, hn]⟩

theorem C13_witness :
    (looseFeed.getElementsByTagName "channel").head?.isSome = true
    ∧ (createLightningStyleTracks "now" looseFeed).map
        (fun ts => ts.map (fun t => (t.feedGuid, t.episodeTitle, t.episodeLink)))
      = some [(some "f0", "Unknown Episode", "https://show.example/"),
              (some "f1", "A", "https://show.example/")]
    ∧ ∃ channel tracks, (looseFeed.getElementsByTagName "channel").head? = some channel
      ∧ createLightningStyleTracks "now" looseFeed = some tracks
      ∧ List.Forall₂ (fun p t =>
          MusicTrack.reference t = referenceOf p.1
          ∧ (nearestScope p.2 = none →
              t.episodeTitle = "Unknown Episode"
              ∧ t.episodeLink = lightningOriginalLink channel
              ∧ t.episodePubDate = "now"))
        ((looseFeed.elementsByTagName "podcast:remoteItem").filter (fun p => !podrollScoped p))
        tracks := by
  refine ⟨by decide, by decide, ?_⟩
  cases hc : (looseFeed.getElementsByTagName "channel").head? with
  | none =>
      have h0 : (looseFeed.getElementsByTagName "channel").head?.isSome = true := by decide
      rw [hc] at h0
      cases h0
  | some channel =>
      obtain ⟨tracks, h1, h2, _⟩ := C13_item_without_context_is_kept "now" looseFeed channel hc
      exact ⟨channel, tracks, rfl, h1, h2⟩

/-! ### Fields already obtained are kept -/

theorem fillMissing_enclosure_of_truthy (f : Fields) (t e : Option String)
    (h : truthy f.episodeEnclosureUrl = true) :
    (fillMissing f t e).episodeEnclosureUrl = f.episodeEnclosureUrl := by
  unfold fillMissing
  simp [h]

theorem rssStrategy_keeps (w : World) (s : ResolverState) (feedUrl : Option String)
    (itemGuid : String) (f : Fields) :
    (truthy f.episodeTitle = true →
      (rssStrategy w s feedUrl itemGuid f).2.episodeTitle = f.episodeTitle)
    ∧ (truthy f.episodeEnclosureUrl = true →
      (rssStrategy w s feedUrl itemGuid f).2.episodeEnclosureUrl = f.episodeEnclosureUrl)
    ∧ (rssStrategy w s feedUrl itemGuid f).1.results = s.results := by
  unfold rssStrategy
  cases feedUrl with
  | none => exact ⟨fun _ => rfl, fun _ => rfl, rfl⟩
  | some url =>
      simp only []
      split
      · have hr : (ensureRss w s url).results = s.results := by
          rcases ensureRss_shape w s url with e | ⟨_, table, e⟩ <;> rw [e]
        split
        · exact ⟨fun h => fillMissing_title_of_truthy _ _ _ h,
            fun h => fillMissing_enclosure_of_truthy _ _ _ h, hr⟩
        · exact ⟨fun _ => rfl, fun _ => rfl, hr⟩
      · exact ⟨fun _ => rfl, fun _ => rfl, rfl⟩

theorem rssStrategy_complete (w : World) (s : ResolverState) (feedUrl : Option String)
    (itemGuid : String) (f : Fields) (h : f.incomplete = false) :
    rssStrategy w s feedUrl itemGuid f = (s, f) := by
  unfold rssStrategy
  split
  · simp [h]
  · rfl

theorem listingStrategy_complete (w : World) (s : ResolverState) (feedGuid itemGuid : String)
    (f : Fields) (h : f.incomplete = false) :
    listingStrategy w s feedGuid itemGuid f = .ok (s, f) := by
  unfold listingStrategy
  simp [h]

theorem listingStrategy_keeps (w : World) (s s' : ResolverState) (feedGuid itemGuid : String)
    (f f' : Fields) (e : listingStrategy w s feedGuid itemGuid f = .ok (s', f')) :
    (truthy f.episodeTitle = true → f'.episodeTitle = f.episodeTitle)
    ∧ (truthy f.episodeEnclosureUrl = true → f'.episodeEnclosureUrl = f.episodeEnclosureUrl)
    ∧ s'.results = s.results := by
  unfold listingStrategy at e
  split at e
  · split at e
    · split at e
      · split at e
        · cases e
        · next s1 he =>
            have hr : s1.results = s.results := by
              rcases ensureListing_shape w s s1 _ he with rfl | ⟨_, table, log', rfl, _⟩ <;> rfl
            simp only [] at e
            split at e
            · cases e
              exact ⟨fun h => fillMissing_title_of_truthy _ _ _ h,
                fun h => fillMissing_enclosure_of_truthy _ _ _ h, hr⟩
            · cases e
              exact ⟨fun _ => rfl, fun _ => rfl, hr⟩
      · cases e; exact ⟨fun _ => rfl, fun _ => rfl, rfl⟩
    · cases e; exact ⟨fun _ => rfl, fun _ => rfl, rfl⟩
  · cases e; exact ⟨fun _ => rfl, fun _ => rfl, rfl⟩

/-- Claim C14. In the loop body of `main` of resolve-itdv-tracks.mjs, for
every reference and every answer of the outside world, a field obtained by an
earlier strategy is kept by the later ones: a non-empty title (likewise a
non-empty enclosure URL) held after the direct episode lookup and page-title
fallback, or after the feed RSS strategy, is the one written to the result,
whatever the RSS table and the episode listing hold; and when both fields are
set after the direct lookup, no request is issued after it: neither the RSS
fetch nor `episodes/byfeedid`. -/
theorem C14_obtained_fields_are_kept (w : World) (s s' : ResolverState)
    (ri : SummaryRemoteItem) (e : resolveItem w s ri = .ok s') :
    ∃ s1 s2 r,
      feedStep w s ((orNull ri.feedGuid).getD "") = .ok s1
      ∧ episodeStep w s1 ((orNull ri.itemGuid).getD "") = .ok s2
      ∧ s'.results = s2.results ++ [r]
      ∧ (truthy (cachedFields s2 ((orNull ri.itemGuid).getD "")).episodeTitle = true →
          r.episodeTitle = (cachedFields s2 ((orNull ri.itemGuid).getD "")).episodeTitle)
      ∧ (truthy (cachedFields s2 ((orNull ri.itemGuid).getD "")).episodeEnclosureUrl = true →
          r.episodeEnclosureUrl
            = (cachedFields s2 ((orNull ri.itemGuid).getD "")).episodeEnclosureUrl)
      ∧ (truthy (rssStrategy w s2
            ((cachedFeed s1 ((orNull ri.feedGuid).getD "")).bind fun fc => fc.url)
            ((orNull ri.itemGuid).getD "")
            (cachedFields s2 ((orNull ri.itemGuid).getD ""))).2.episodeTitle = true →
          r.episodeTitle = (rssStrategy w s2
            ((cachedFeed s1 ((orNull ri.feedGuid).getD "")).bind fun fc => fc.url)
            ((orNull ri.itemGuid).getD "")
            (cachedFields s2 ((orNull ri.itemGuid).getD ""))).2.episodeTitle)
      ∧ (truthy (rssStrategy w s2
            ((cachedFeed s1 ((orNull ri.feedGuid).getD "")).bind fun fc => fc.url)
            ((orNull ri.itemGuid).getD "")
            (cachedFields s2 ((orNull ri.itemGuid).getD ""))).2.episodeEnclosureUrl = true →
          r.episodeEnclosureUrl = (rssStrategy w s2
            ((cachedFeed s1 ((orNull ri.feedGuid).getD "")).bind fun fc => fc.url)
            ((orNull ri.itemGuid).getD "")
            (cachedFields s2 ((orNull ri.itemGuid).getD ""))).2.episodeEnclosureUrl)
      ∧ ((cachedFields s2 ((orNull ri.itemGuid).getD "")).incomplete = false →
          s'.log = s2.log
          ∧ s'.rssCache = s2.rssCache
          ∧ s'.episodesByFeedIdCache = s2.episodesByFeedIdCache) := by
  obtain ⟨s1, s2, s3, f, h1, h2, h3, rfl⟩ := resolveItem_ok w s s' ri e
  obtain ⟨k1, k2, k3⟩ := rssStrategy_keeps w s2
    ((cachedFeed s1 ((orNull ri.feedGuid).getD "")).bind fun fc => fc.url)
    ((orNull ri.itemGuid).getD "") (cachedFields s2 ((orNull ri.itemGuid).getD ""))
  obtain ⟨l1, l2, l3⟩ := listingStrategy_keeps w _ s3 _ _ _ f h3
  refine ⟨s1, s2,
    { feedGuid := (orNull ri.feedGuid).getD ""
      itemGuid := (orNull ri.itemGuid).getD ""
      feedTitle := (cachedFeed s1 ((orNull ri.feedGuid).getD "")).bind fun fc => fc.title
      feedUrl := (cachedFeed s1 ((orNull ri.feedGuid).getD "")).bind fun fc => fc.url
      episodeTitle := f.episodeTitle
      episodeEnclosureUrl := f.episodeEnclosureUrl },
    h1, h2, ?_, ?_, ?_, l1, l2, ?_⟩
  · show s3.results ++ _ = s2.results ++ _
    rw [l3, k3]
  · intro ht
    show f.episodeTitle = _
    rw [l1 (by rw [k1 ht]; exact ht), k1 ht]
  · intro ht
    show f.episodeEnclosureUrl = _
    rw [l2 (by rw [k2 ht]; exact ht), k2 ht]
  · intro hc
    rw [rssStrategy_complete w s2 _ _ _ hc, listingStrategy_complete w s2 _ _ _ hc] at h3
    cases h3
    exact ⟨rfl, rfl, rfl⟩

theorem directWorld_noThrow : directWorld.NoThrow := by
  refine ⟨fun log g => ?_, fun log g => ?_, fun log id => ?_⟩ <;>
    simp [directWorld, fallbackWorld]

theorem C14_witness :
    ∃ s' s2 r,
      resolveItem directWorld ResolverState.init
        { feedGuid := some "f1", itemGuid := some "i1", feedUrl := none } = .ok s'
      ∧ s'.results = s2.results ++ [r]
      ∧ (truthy (cachedFields s2 "i1").episodeTitle = true →
          r.episodeTitle = (cachedFields s2 "i1").episodeTitle)
      ∧ ((cachedFields s2 "i1").incomplete = false → s'.log = s2.log) := by
  obtain ⟨s', hs⟩ := resolveItem_total directWorld (fun _ => directWorld_noThrow)
    ResolverState.init { feedGuid := some "f1", itemGuid := some "i1", feedUrl := none }
  obtain ⟨s1, s2, r, _, _, h3, h4, _, _, _, h8⟩ :=
    C14_obtained_fields_are_kept directWorld ResolverState.init s'
      { feedGuid := some "f1", itemGuid := some "i1", feedUrl := none } hs
  exact ⟨s', s2, r, hs, h3, h4, fun hc => (h8 hc).1⟩

theorem directWorld_run :
    (main directWorld (singleSummary (some "f1") (some "i1"))).log
        = [Request.podcastsByGuid "f1", Request.episodesByGuid "i1"]
    ∧ (main directWorld (singleSummary (some "f1") (some "i1"))).results
        = some [{ feedGuid := "f1", itemGuid := "i1", feedTitle := some "Artist feed",
                  feedUrl := some "http://feed.example/rss", episodeTitle := some "Direct",
                  episodeEnclosureUrl := some "http://cdn.example/a.mp3" }] := by
  decide

/-! ### The episode lookup of resolve-remote-feeds.js -/

theorem remotePiGet_with_credentials {α : Type} (w : RemoteWorld) (log : List RemoteRequest)
    (req : RemoteRequest) (reply : Reply (Option α)) (hk : w.apiKey ≠ "") (hs : w.apiSecret ≠ "") :
    (remotePiGet w log req reply).2 = log ++ [req]
    ∧ ∀ body, reply = Reply.ok (some body) → (remotePiGet w log req reply).1 = some body := by
  unfold remotePiGet
  have : (w.apiKey == "" || w.apiSecret == "") = false := by simp [hk, hs]
  rw [this]
  simp only [Bool.false_eq_true, if_false]
  constructor
  · split <;> rfl
  · intro body hb
    rw [hb]

theorem remotePiGet_none_of_not_found {α : Type} (w : RemoteWorld) (log : List RemoteRequest)
    (req : RemoteRequest) (reply : Reply (Option α)) (h : ∀ body, reply ≠ Reply.ok (some body)) :
    (remotePiGet w log req reply).1 = none := by
  unfold remotePiGet
  split
  · rfl
  · split
    · next body => exact absurd rfl (h body)
    · rfl

/-- Claim C15, amended. `resolveRemoteFeed` of resolve-remote-feeds.js queries
the index by itemGuid (`episodes/byguid`) exactly when the feed lookup found
the feed: with credentials and a feed found, the `episodes/byguid` request
follows the `podcasts/byguid` request; when the feed lookup does not find the
feedGuid, the function returns the unresolved record after that single lookup
and issues no `episodes/byguid` request. -/
theorem C15_episode_lookup_only_after_feed_found (w : RemoteWorld) (log : List RemoteRequest)
    (feedGuid itemGuid : Option String) :
    (∀ feed, w.apiKey ≠ "" → w.apiSecret ≠ "" →
        w.podcastsByGuid log feedGuid = Reply.ok (some feed) →
        ∃ post, (resolveRemoteFeed w log feedGuid itemGuid).2
          = log ++ [RemoteRequest.podcastsByGuid feedGuid,
                    RemoteRequest.episodesByGuid itemGuid] ++ post)
    ∧ ((∀ feed, w.podcastsByGuid log feedGuid ≠ Reply.ok (some feed)) →
        ((resolveRemoteFeed w log feedGuid itemGuid).2 = log
          ∨ (resolveRemoteFeed w log feedGuid itemGuid).2
              = log ++ [RemoteRequest.podcastsByGuid feedGuid])
        ∧ (resolveRemoteFeed w log feedGuid itemGuid).1.title = none
        ∧ (resolveRemoteFeed w log feedGuid itemGuid).1.feedTitle = none) := by
  constructor
  · intro feed hk hs hfeed
    obtain ⟨hl1, hd1'⟩ := remotePiGet_with_credentials w log
      (RemoteRequest.podcastsByGuid feedGuid) (w.podcastsByGuid log feedGuid) hk hs
    have hd1 := hd1' feed hfeed
    clear hd1'
    unfold resolveRemoteFeed
    simp only []
    generalize remotePiGet w log (RemoteRequest.podcastsByGuid feedGuid)
      (w.podcastsByGuid log feedGuid) = p1 at hl1 hd1 ⊢
    obtain ⟨d1, l1⟩ := p1
    simp only [] at hl1 hd1
    subst hl1 hd1
    simp only []
    obtain ⟨hl2, _⟩ := remotePiGet_with_credentials w
      (log ++ [RemoteRequest.podcastsByGuid feedGuid])
      (RemoteRequest.episodesByGuid itemGuid)
      (w.episodesByGuid (log ++ [RemoteRequest.podcastsByGuid feedGuid]) itemGuid) hk hs
    generalize remotePiGet w (log ++ [RemoteRequest.podcastsByGuid feedGuid])
      (RemoteRequest.episodesByGuid itemGuid)
      (w.episodesByGuid (log ++ [RemoteRequest.podcastsByGuid feedGuid]) itemGuid) = p2
      at hl2 ⊢
    obtain ⟨d2, l2⟩ := p2
    simp only [] at hl2
    subst hl2
    cases d2 with
    | some episode => exact ⟨[], by simp⟩
    | none =>
        simp only []
        cases hid : feed.id with
        | none => exact ⟨[], by simp⟩
        | some id =>
            simp only []
            by_cases hz : id = 0
            · simp only [hz, ne_eq, not_true_eq_false, if_false]
              exact ⟨[], by simp⟩
            · simp only [ne_eq, hz, not_false_eq_true, if_true]
              obtain ⟨hl3, _⟩ := remotePiGet_with_credentials w
                (log ++ [RemoteRequest.podcastsByGuid feedGuid]
                  ++ [RemoteRequest.episodesByGuid itemGuid])
                (RemoteRequest.episodesByFeedId id)
                (w.episodesByFeedId (log ++ [RemoteRequest.podcastsByGuid feedGuid]
                  ++ [RemoteRequest.episodesByGuid itemGuid]) id) hk hs
              generalize remotePiGet w (log ++ [RemoteRequest.podcastsByGuid feedGuid]
                  ++ [RemoteRequest.episodesByGuid itemGuid])
                (RemoteRequest.episodesByFeedId id)
                (w.episodesByFeedId (log ++ [RemoteRequest.podcastsByGuid feedGuid]
                  ++ [RemoteRequest.episodesByGuid itemGuid]) id) = p3 at hl3 ⊢
              obtain ⟨d3, l3⟩ := p3
              simp only [] at hl3
              subst hl3
              cases d3 with
              | none => exact ⟨[RemoteRequest.episodesByFeedId id], by simp⟩
              | some items =>
                  simp only []
                  cases findEpisode items itemGuid with
                  | none => exact ⟨[RemoteRequest.episodesByFeedId id], by simp⟩
                  | some episode => exact ⟨[RemoteRequest.episodesByFeedId id], by simp⟩
  · intro hnf
    have hd1 := remotePiGet_none_of_not_found w log (RemoteRequest.podcastsByGuid feedGuid)
      (w.podcastsByGuid log feedGuid) hnf
    have hl1 := remotePiGet_log w log (RemoteRequest.podcastsByGuid feedGuid)
      (w.podcastsByGuid log feedGuid)
    unfold resolveRemoteFeed
    simp only []
    generalize remotePiGet w log (RemoteRequest.podcastsByGuid feedGuid)
      (w.podcastsByGuid log feedGuid) = p1 at hl1 hd1 ⊢
    obtain ⟨d1, l1⟩ := p1
    simp only [] at hl1 hd1
    subst hd1
    exact ⟨hl1, rfl, rfl⟩

theorem C15_witness :
    (∃ post, (resolveRemoteFeed foundWorld [] (some "f") (some "i")).2
        = [] ++ [RemoteRequest.podcastsByGuid (some "f"),
                 RemoteRequest.episodesByGuid (some "i")] ++ post)
    ∧ (resolveRemoteFeed notFoundWorld [] (some "f") (some "i")).2
        = [RemoteRequest.podcastsByGuid (some "f")] :=
  ⟨(C15_episode_lookup_only_after_feed_found foundWorld [] (some "f") (some "i")).1 _
      (by decide) (by decide) rfl,
    by decide⟩

/-- Claim C15 as stated fails: for a reference with an itemGuid whose feedGuid
the index reports as not found, `resolveRemoteFeed` issues the
`podcasts/byguid` request only; the index is not queried by itemGuid. -/
theorem C15_counterexample :
    notFoundWorld.podcastsByGuid [] (some "f") = Reply.ok none
    ∧ (resolveRemoteFeed notFoundWorld [] (some "f") (some "i")).2
        = [RemoteRequest.podcastsByGuid (some "f")]
    ∧ RemoteRequest.episodesByGuid (some "i")
        ∉ (resolveRemoteFeed notFoundWorld [] (some "f") (some "i")).2 := by
  refine ⟨rfl, ?_, ?_⟩ <;> decide

/-! ### Request headers -/

theorem hasPiHeaders_eq_isSome (w : World) (sha1Hex : String → String) (nowMs : Int) :
    hasPiHeaders w
      = (buildPiHeaders sha1Hex "itdv-feed-resolver/1.0" w.apiKey w.apiSecret nowMs).isSome := by
  unfold hasPiHeaders buildPiHeaders
  by_cases h1 : w.apiKey = "" <;> by_cases h2 : w.apiSecret = "" <;> simp [h1, h2]

/-- Claim C16. For a non-empty API key `k`, a non-empty secret `s` and the
clock value `t` in milliseconds, `buildPiHeaders` returns headers with
`X-Auth-Key` equal to `k`, `X-Auth-Date` the decimal text of `floor(t / 1000)`
and `Authorization` the hex SHA-1 digest of `k + s +` that same decimal
timestamp. -/
theorem C16_buildPiHeaders (sha1Hex : String → String) (userAgent k s : String) (t : Int)
    (hk : k ≠ "") (hs : s ≠ "") :
    ∃ headers ts, buildPiHeaders sha1Hex userAgent k s t = some headers
      ∧ 1000 * ts ≤ t ∧ t < 1000 * ts + 1000
      ∧ headers.xAuthKey = k
      ∧ headers.xAuthDate = toString ts
      ∧ headers.authorization = sha1Hex (k ++ s ++ headers.xAuthDate) := by
  refine ⟨{ xAuthDate := toString (Int.fdiv t 1000)
            xAuthKey := k
            authorization := sha1Hex (k ++ s ++ toString (Int.fdiv t 1000))
            userAgent := userAgent
            accept := "application/json" }, Int.fdiv t 1000, ?_, ?_, ?_, rfl, rfl, rfl⟩
  · unfold buildPiHeaders
    simp [hk, hs]
  · rw [Int.fdiv_eq_ediv _ (by decide)]
    omega
  · rw [Int.fdiv_eq_ediv _ (by decide)]
    omega

theorem C16_witness :
    ("key" : String) ≠ "" ∧ ("secret" : String) ≠ ""
    ∧ ∃ headers ts, buildPiHeaders (fun x => x) "itdv-feed-resolver/1.0" "key" "secret" 1700000000999
        = some headers
      ∧ 1000 * ts ≤ 1700000000999 ∧ (1700000000999 : Int) < 1000 * ts + 1000
      ∧ headers.xAuthKey = "key"
      ∧ headers.xAuthDate = toString ts
      ∧ headers.authorization = (fun x => x) ("key" ++ "secret" ++ headers.xAuthDate) :=
  ⟨by decide, by decide,
    C16_buildPiHeaders (fun x => x) "itdv-feed-resolver/1.0" "key" "secret" 1700000000999
      (by decide) (by decide)⟩

/-! ### Renderers that write every attribute unconditionally -/

/-- Claim C12 fails on the code: the three renderers interpolate the
`itemGuid` of a track into the attribute value without testing it. For the
example feed, whose second remote item has `feedGuid="f2"` and no `itemGuid`
attribute, the extraction keeps `itemGuid` as `null`, `generateMinimalRSS`
writes `itemGuid="null"`, and `generateUltraSimpleRSS` and
`generateFuckitCompatibleRSS` write `itemGuid="null"` and the item guid
`f2-null`. -/
theorem C12_absent_itemGuid_is_written_as_null :
    (∀ feedGuid : Option String,
      minimalRSSItem { feedGuid := feedGuid, itemGuid := none }
        = "\n    <item>\n      <podcast:remoteItem feedGuid=\"" ++ interpolate feedGuid
          ++ "\" itemGuid=\"" ++ "null" ++ "\"/>\n    </item>")
    ∧ extractMinimalRemoteItems exampleFeed
        = [{ feedGuid := some "f1", itemGuid := some "i1" },
           { feedGuid := some "f2", itemGuid := none }]
    ∧ generateMinimalRSS "now" (extractMinimalRemoteItems exampleFeed)
        = minimalRSSHeader "now"
          ++ "\n    <item>\n      <podcast:remoteItem feedGuid=\"f1\" itemGuid=\"i1\"/>\n    </item>"
          ++ "\n    <item>\n      <podcast:remoteItem feedGuid=\"f2\" itemGuid=\"null\"/>\n    </item>"
          ++ "\n  </channel>\n</rss>"
    ∧ extractSimpleTracks exampleFeed
        = [{ trackNumber := 1, feedGuid := some "f1", itemGuid := some "i1", guid := "f1-i1" },
           { trackNumber := 2, feedGuid := some "f2", itemGuid := none, guid := "f2-null" }]
    ∧ generateUltraSimpleRSS "now" (extractSimpleTracks exampleFeed)
        = ultraSimpleRSSHeader "now"
          ++ "\n    <item>\n      <description>Music reference from Doerfel-Verse podcast collection</description>\n      <link>https://www.doerfelverse.com/</link>\n      <guid isPermaLink=\"false\">f1-i1</guid>\n      <podcast:remoteItem feedGuid=\"f1\" itemGuid=\"i1\"/>\n    </item>"
          ++ "\n    <item>\n      <description>Music reference from Doerfel-Verse podcast collection</description>\n      <link>https://www.doerfelverse.com/</link>\n      <guid isPermaLink=\"false\">f2-null</guid>\n      <podcast:remoteItem feedGuid=\"f2\" itemGuid=\"null\"/>\n    </item>"
          ++ "\n  </channel>\n</rss>"
    ∧ generateFuckitCompatibleRSS "now" (extractSimpleTracks exampleFeed)
        = fuckitRSSHeader "now"
          ++ "\n<item>\n<guid>f1-i1</guid>\n<title>Music Track 1</title>\n<description>Music reference from Doerfel-Verse podcast</description>\n<pubDate>now</pubDate>\n<podcast:remoteItem feedGuid=\"f1\" itemGuid=\"i1\"/>\n</item>"
          ++ "\n<item>\n<guid>f2-null</guid>\n<title>Music Track 2</title>\n<description>Music reference from Doerfel-Verse podcast</description>\n<pubDate>now</pubDate>\n<podcast:remoteItem feedGuid=\"f2\" itemGuid=\"null\"/>\n</item>"
          ++ "\n</channel>\n</rss>" := by
  have hmin : extractMinimalRemoteItems exampleFeed
        = [{ feedGuid := some "f1", itemGuid := some "i1" },
           { feedGuid := some "f2", itemGuid := none }] := by decide
  have hsim : extractSimpleTracks exampleFeed
        = [{ trackNumber := 1, feedGuid := some "f1", itemGuid := some "i1", guid := "f1-i1" },
           { trackNumber := 2, feedGuid := some "f2", itemGuid := none, guid := "f2-null" }] := by
    decide
  have hf1 : fuckitRSSItem "now"
        { trackNumber := 1, feedGuid := some "f1", itemGuid := some "i1", guid := "f1-i1" }
      = "\n<item>\n<guid>f1-i1</guid>\n<title>Music Track 1</title>\n<description>Music reference from Doerfel-Verse podcast</description>\n<pubDate>now</pubDate>\n<podcast:remoteItem feedGuid=\"f1\" itemGuid=\"i1\"/>\n</item>" := by
    simp [fuckitRSSItem, interpolate, show toString (1 : Nat) = "1" from rfl]
  have hf2 : fuckitRSSItem "now"
        { trackNumber := 2, feedGuid := some "f2", itemGuid := none, guid := "f2-null" }
      = "\n<item>\n<guid>f2-null</guid>\n<title>Music Track 2</title>\n<description>Music reference from Doerfel-Verse podcast</description>\n<pubDate>now</pubDate>\n<podcast:remoteItem feedGuid=\"f2\" itemGuid=\"null\"/>\n</item>" := by
    simp [fuckitRSSItem, interpolate, show toString (2 : Nat) = "2" from rfl]
  refine ⟨fun feedGuid => rfl, hmin, ?_, hsim, ?_, ?_⟩
  · rw [hmin]; simp [generateMinimalRSS, minimalRSSItem, interpolate]
  · rw [hsim]; simp [generateUltraSimpleRSS, ultraSimpleRSSItem, interpolate]
  · rw [hsim]; simp only [generateFuckitCompatibleRSS, List.foldl, hf1, hf2]

/-! ### The CSV of resolve-itdv-tracks.mjs read back -/

theorem joinWith_data_cons_cons (sep x y : String) (rest : List String) :
    (joinWith sep (x :: y :: rest)).data
      = x.data ++ (sep.data ++ (joinWith sep (y :: rest)).data) := by
  simp [joinWith, String.data_append]

theorem csvStep_comma (s : CsvState) (h : s.canClose = true) : csvStep s ',' = s.endField := by
  have hq : (',' : Char) ≠ dquote := by decide
  rcases s with ⟨m, f, row, rows⟩
  cases m <;> simp [CsvState.canClose] at h <;> simp [csvStep, hq]

theorem csvStep_newline (s : CsvState) (h : s.canClose = true) :
    csvStep s '\n' = s.endRecord := by
  have hq : ('\n' : Char) ≠ dquote := by decide
  have hc : ('\n' : Char) ≠ ',' := by decide
  rcases s with ⟨m, f, row, rows⟩
  cases m <;> simp [CsvState.canClose] at h <;> simp [csvStep, hq, hc]

theorem csv_unquoted_run (row : List String) (rows : List (List String)) :
    ∀ (cs f : List Char), needsQuoting cs = false →
      cs.foldl csvStep { mode := .unquoted, field := f, row := row, rows := rows }
        = { mode := .unquoted, field := f ++ cs, row := row, rows := rows } := by
  intro cs
  induction cs with
  | nil => intro f _; simp
  | cons c cs ih =>
      intro f h
      simp only [needsQuoting, List.any_cons, Bool.or_eq_false_iff, beq_eq_false_iff_ne,
        ne_eq] at h
      obtain ⟨⟨⟨h1, h2⟩, h3⟩, h4⟩ := h
      have h4' : needsQuoting cs = false := by simpa [needsQuoting] using h4
      rw [List.foldl_cons]
      have : csvStep { mode := .unquoted, field := f, row := row, rows := rows } c
          = { mode := .unquoted, field := f ++ [c], row := row, rows := rows } := by
        simp [csvStep, h1, h2, h3]
      rw [this, ih _ h4']
      simp

theorem csv_quoted_run (row : List String) (rows : List (List String)) :
    ∀ (cs f : List Char),
      (replaceAll dquote [dquote, dquote] cs).foldl csvStep
          { mode := .quoted, field := f, row := row, rows := rows }
        = { mode := .quoted, field := f ++ cs, row := row, rows := rows } := by
  intro cs
  induction cs with
  | nil => intro f; simp [replaceAll]
  | cons c cs ih =>
      intro f
      by_cases hc : c = dquote
      · subst hc
        simp only [replaceAll, if_true, List.cons_append, List.nil_append, List.foldl_cons]
        have : csvStep (csvStep { mode := .quoted, field := f, row := row, rows := rows } dquote)
            dquote = { mode := .quoted, field := f ++ [dquote], row := row, rows := rows } := by
          simp [csvStep]
        rw [this, ih]
        simp
      · simp only [replaceAll, if_neg hc, List.foldl_cons]
        have : csvStep { mode := .quoted, field := f, row := row, rows := rows } c
            = { mode := .quoted, field := f ++ [c], row := row, rows := rows } := by
          simp [csvStep, hc]
        rw [this, ih]
        simp

/-- Reading the text written for one value leaves the reader with that value
as the field being read, at a place where the field may end. -/
theorem csv_field_read (v : String) (row : List String) (rows : List (List String)) :
    ∃ m, (csvField v).data.foldl csvStep
          { mode := .fieldStart, field := [], row := row, rows := rows }
        = { mode := m, field := v.data, row := row, rows := rows }
      ∧ (m = .fieldStart ∨ m = .unquoted ∨ m = .quoteSeen) := by
  by_cases hq : needsQuoting v.data = true
  · refine ⟨.quoteSeen, ?_, Or.inr (Or.inr rfl)⟩
    simp only [csvField, hq, if_true, List.cons_append, List.nil_append, List.foldl_cons,
      List.foldl_append, List.foldl_nil]
    have h1 : csvStep { mode := .fieldStart, field := [], row := row, rows := rows } dquote
        = { mode := .quoted, field := [], row := row, rows := rows } := by
      simp [csvStep]
    rw [h1, csv_quoted_run]
    simp [csvStep]
  · have hq' : needsQuoting v.data = false := by simpa using hq
    simp only [csvField, hq', Bool.false_eq_true, if_false]
    cases hv : v.data with
    | nil => exact ⟨.fieldStart, by simp, Or.inl rfl⟩
    | cons c cs =>
        refine ⟨.unquoted, ?_, Or.inr (Or.inl rfl)⟩
        rw [hv] at hq'
        simp only [needsQuoting, List.any_cons, Bool.or_eq_false_iff, beq_eq_false_iff_ne,
          ne_eq] at hq'
        obtain ⟨⟨⟨h1, h2⟩, h3⟩, h4⟩ := hq'
        have h4' : needsQuoting cs = false := by simpa [needsQuoting] using h4
        rw [List.foldl_cons]
        have : csvStep { mode := .fieldStart, field := [], row := row, rows := rows } c
            = { mode := .unquoted, field := [c], row := row, rows := rows } := by
          simp [csvStep, h1, h2, h3]
        rw [this, csv_unquoted_run row rows cs [c] h4']
        simp

/-- Reading the text of a record with at least one value, from the start of
a record, when each value is written so that it reads back: the values read
so far and the field being read are the values written. -/
theorem csv_record_read (write : String → String) (rows : List (List String)) :
    ∀ (values row : List String), values ≠ [] →
      (∀ v ∈ values, ∀ row : List String,
        ∃ m, (write v).data.foldl csvStep
              { mode := .fieldStart, field := [], row := row, rows := rows }
            = { mode := m, field := v.data, row := row, rows := rows }
          ∧ (m = .fieldStart ∨ m = .unquoted ∨ m = .quoteSeen)) →
      ∃ s, (joinWith "," (values.map write)).data.foldl csvStep
            { mode := .fieldStart, field := [], row := row, rows := rows } = s
        ∧ s.canClose = true
        ∧ s.row ++ [String.mk s.field] = row ++ values
        ∧ s.rows = rows := by
  intro values
  induction values with
  | nil => intro row h; exact absurd rfl h
  | cons v rest ih =>
      intro row _ hw
      obtain ⟨m, hm, hmode⟩ := hw v (List.mem_cons_self _ _) row
      cases rest with
      | nil =>
          have hm' : (joinWith "," ([v].map write)).data.foldl csvStep
                { mode := .fieldStart, field := [], row := row, rows := rows }
              = { mode := m, field := v.data, row := row, rows := rows } := by
            simpa [joinWith] using hm
          refine ⟨_, hm', ?_, rfl, rfl⟩
          rcases hmode with h | h | h <;> subst h <;> rfl
      | cons v' rest' =>
          obtain ⟨s, hs, hclose, hrow, hrows⟩ := ih (row ++ [v]) (by simp)
            (fun x hx => hw x (List.mem_cons_of_mem _ hx))
          refine ⟨s, ?_, hclose, ?_, hrows⟩
          · simp only [List.map_cons] at hs ⊢
            rw [joinWith_data_cons_cons, List.foldl_append, hm]
            have hc : ({ mode := m, field := v.data, row := row, rows := rows } :
                CsvState).canClose = true := by
              rcases hmode with h | h | h <;> subst h <;> rfl
            show List.foldl csvStep _ (',' :: _) = s
            rw [List.foldl_cons, csvStep_comma _ hc]
            exact hs
          · rw [hrow]; simp

/-- The text of a file: one record per line. -/
theorem csv_file_read (write : String → String) :
    ∀ (records : List (List String)) (rows : List (List String)), records ≠ [] →
      (∀ values ∈ records, 2 ≤ values.length) →
      (∀ values ∈ records, ∀ v ∈ values, ∀ (row : List String) (rows : List (List String)),
        ∃ m, (write v).data.foldl csvStep
              { mode := .fieldStart, field := [], row := row, rows := rows }
            = { mode := m, field := v.data, row := row, rows := rows }
          ∧ (m = .fieldStart ∨ m = .unquoted ∨ m = .quoteSeen)) →
      ∃ s, (joinWith "\n" (records.map (fun values => joinWith "," (values.map write)))).data.foldl
            csvStep { mode := .fieldStart, field := [], row := [], rows := rows } = s
        ∧ s.canClose = true
        ∧ s.row ≠ []
        ∧ s.rows ++ [s.row ++ [String.mk s.field]] = rows ++ records := by
  intro records
  induction records with
  | nil => intro rows h; exact absurd rfl h
  | cons values rest ih =>
      intro rows _ hlen hw
      have hv : 2 ≤ values.length := hlen values (List.mem_cons_self _ _)
      have hne : values ≠ [] := by
        intro h; rw [h] at hv; simp at hv
      obtain ⟨s, hs, hclose, hrow, hrows⟩ := csv_record_read write rows values [] hne
        (fun v hv row => hw values (List.mem_cons_self _ _) v hv row rows)
      cases rest with
      | nil =>
          refine ⟨s, ?_, hclose, ?_, ?_⟩
          · simpa [joinWith] using hs
          · intro h
            rw [h] at hrow
            have := congrArg List.length hrow
            simp at this
            omega
          · rw [hrows, hrow]; simp
      | cons values' rest' =>
          obtain ⟨s', hs', hclose', hrow', hrows'⟩ :=
            ih (rows ++ [values]) (by simp)
              (fun x hx => hlen x (List.mem_cons_of_mem _ hx))
              (fun x hx => hw x (List.mem_cons_of_mem _ hx))
          refine ⟨s', ?_, hclose', hrow', ?_⟩
          · simp only [List.map_cons] at hs' ⊢
            rw [joinWith_data_cons_cons, List.foldl_append, hs]
            show List.foldl csvStep _ ('\n' :: _) = s'
            rw [List.foldl_cons, csvStep_newline _ hclose]
            have : s.endRecord
                = { mode := .fieldStart, field := [], row := [], rows := rows ++ [values] } := by
              simp [CsvState.endRecord, hrows, hrow]
            rw [this]
            exact hs'
          · rw [hrows']; simp

theorem csv_finish (s : CsvState) (hclose : s.canClose = true) (hrow : s.row ≠ []) :
    s.finish = some (s.rows ++ [s.row ++ [String.mk s.field]]) := by
  rcases s with ⟨m, f, row, rows⟩
  cases m <;> simp [CsvState.canClose] at hclose <;>
    simp_all [CsvState.finish, CsvState.endRecord]

/-- A text of records of at least two values each, written with `csvField`
and one line feed between records, reads back as those records. -/
theorem parseCSV_records (records : List (List String)) (hne : records ≠ [])
    (hlen : ∀ values ∈ records, 2 ≤ values.length) :
    parseCSV (joinWith "\n" (records.map csvRecord)) = some records := by
  obtain ⟨s, hs, hclose, hrow, hrows⟩ := csv_file_read csvField records [] hne hlen
    (fun _ _ v _ row rows => csv_field_read v row rows)
  unfold parseCSV CsvState.start
  have hrec : List.map csvRecord records
      = List.map (fun values => joinWith "," (values.map csvField)) records := rfl
  rw [hrec, hs, csv_finish s hclose hrow, hrows]
  simp

theorem csvHeader_eq : csvHeader = csvRecord csvHeaderFields := by decide

theorem csvRow_eq (r : ResolvedTrack) : csvRow r = csvRecord (csvValues r) := rfl

theorem csvText_eq (results : List ResolvedTrack) :
    csvText results
      = joinWith "\n" ((csvHeaderFields :: results.map csvValues).map csvRecord) := by
  have h : List.map csvRow results = List.map (fun x => csvRecord (csvValues x)) results :=
    List.map_congr_left (fun r _ => csvRow_eq r)
  simp [csvText, csvHeader_eq, List.map_map, Function.comp_def, h]

/-- A value is written between double quotes exactly when it holds a comma,
a double quote or a line feed. -/
theorem csvField_head (v : String) :
    (csvField v).data.head? = some dquote ↔ needsQuoting v.data = true := by
  by_cases hq : needsQuoting v.data = true
  · simp [csvField, hq]
  · have hq' : needsQuoting v.data = false := by simpa using hq
    simp only [csvField, hq', Bool.false_eq_true, if_false, iff_false]
    intro h
    cases hv : v.data with
    | nil => rw [hv] at h; simp at h
    | cons c cs =>
        rw [hv] at h hq'
        simp at h
        subst h
        simp [needsQuoting] at hq'

theorem needsQuoting_iff (cs : List Char) :
    needsQuoting cs = true ↔ ∃ c ∈ cs, c = ',' ∨ c = dquote ∨ c = '\n' := by
  simp only [needsQuoting, List.any_eq_true, Bool.or_eq_true, beq_iff_eq]
  constructor
  · rintro ⟨c, hc, h⟩
    exact ⟨c, hc, by tauto⟩
  · rintro ⟨c, hc, h⟩
    exact ⟨c, hc, by tauto⟩

theorem orEmpty_eq_getD (x : Option String) : orEmpty x = x.getD "" := by
  cases x with
  | none => rfl
  | some s =>
      by_cases h : s = ""
      · simp [orEmpty, h]
      · simp [orEmpty, h]

theorem csvValues_eq (r : ResolvedTrack) :
    csvValues r
      = [r.feedGuid, r.itemGuid, r.feedTitle.getD "", r.episodeTitle.getD "",
          r.feedUrl.getD "", r.episodeEnclosureUrl.getD ""] := by
  simp [csvValues, orEmpty_eq_getD]

/-- Claim C17: for every results list, the CSV text written by `main` of
resolve-itdv-tracks.mjs reads back, under RFC 4180 quoting with a line feed
between records, as the header record followed by one record per result
holding exactly the six values feedGuid, itemGuid, feedTitle, episodeTitle,
feedUrl, episodeEnclosureUrl, with `null` read as the empty text. Every row
is the comma-joined list of its six written values; a written value starts
with a double quote exactly when the value holds a comma, a double quote or a
line feed, and it is then the value with every double quote doubled, between
two double quotes. -/
theorem C17_csv_reads_back (results : List ResolvedTrack) :
    parseCSV (csvText results)
      = some (csvHeaderFields :: results.map (fun r =>
          [r.feedGuid, r.itemGuid, r.feedTitle.getD "", r.episodeTitle.getD "",
            r.feedUrl.getD "", r.episodeEnclosureUrl.getD ""]))
    ∧ (∀ r ∈ results, csvRow r
        = joinWith "," ([r.feedGuid, r.itemGuid, r.feedTitle.getD "", r.episodeTitle.getD "",
            r.feedUrl.getD "", r.episodeEnclosureUrl.getD ""].map csvField))
    ∧ (∀ v : String, (csvField v).data.head? = some dquote
        ↔ ∃ c ∈ v.data, c = ',' ∨ c = dquote ∨ c = '\n')
    ∧ (∀ v : String, (∃ c ∈ v.data, c = ',' ∨ c = dquote ∨ c = '\n') →
        (csvField v).data = [dquote] ++ replaceAll dquote [dquote, dquote] v.data ++ [dquote])
    ∧ (∀ v : String, (¬ ∃ c ∈ v.data, c = ',' ∨ c = dquote ∨ c = '\n') → csvField v = v) := by
  refine ⟨?_, ?_, ?_, ?_, ?_⟩
  · rw [csvText_eq, parseCSV_records _ (by simp)]
    · have h : List.map csvValues results = List.map (fun r =>
          [r.feedGuid, r.itemGuid, r.feedTitle.getD "", r.episodeTitle.getD "",
            r.feedUrl.getD "", r.episodeEnclosureUrl.getD ""]) results :=
        List.map_congr_left (fun r _ => csvValues_eq r)
      rw [h]
    · intro values hv
      rcases List.mem_cons.mp hv with h | h
      · subst h; decide
      · obtain ⟨r, _, hr⟩ := List.mem_map.mp h
        subst hr
        simp [csvValues]
  · intro r _
    rw [← csvValues_eq]
    rfl
  · intro v
    rw [csvField_head, needsQuoting_iff]
  · intro v h
    have hq := (needsQuoting_iff v.data).mpr h
    simp [csvField, hq]
  · intro v h
    have hq : needsQuoting v.data = false := by
      cases hn : needsQuoting v.data with
      | false => rfl
      | true => exact absurd ((needsQuoting_iff v.data).mp hn) h
    simp [csvField, hq]

theorem C17_witness :
    parseCSV (csvText [awkwardResult])
      = some [csvHeaderFields, ["f", "i", "Rock, Roll", "Say \"Hi\"\nagain", "", ""]] :=
  (C17_csv_reads_back [awkwardResult]).1

/-! ### The CSV of resolve-remote-feeds.js and resolve-missing-feed.js -/

theorem remoteCsvHeader_read :
    remoteCsvHeader.data.foldl csvStep CsvState.start
      = { mode := .fieldStart, field := [], row := [], rows := [remoteCsvHeaderFields] } := by
  decide

/-- Reading the file of resolve-remote-feeds.js: the header record, then the
rows. -/
theorem parseCSV_remoteCsvText (results : List FeedEntry) :
    parseCSV (remoteCsvText results)
      = ((joinWith "\n" (results.map remoteCsvRow)).data.foldl csvStep
          { mode := .fieldStart, field := [], row := [],
            rows := [remoteCsvHeaderFields] }).finish := by
  simp only [parseCSV, remoteCsvText, String.data_append, List.foldl_append,
    remoteCsvHeader_read]

theorem remoteCsvRow_eq (item : FeedEntry) :
    remoteCsvRow item = joinWith "," ((remoteCsvValues item).map quoteAsIs) := by
  apply String.ext
  simp [remoteCsvRow, remoteCsvValues, joinWith, quoteAsIs, String.data_append]

theorem csv_quoted_plain_run (row : List String) (rows : List (List String)) :
    ∀ (cs f : List Char), dquote ∉ cs →
      cs.foldl csvStep { mode := .quoted, field := f, row := row, rows := rows }
        = { mode := .quoted, field := f ++ cs, row := row, rows := rows } := by
  intro cs
  induction cs with
  | nil => intro f _; simp
  | cons c cs ih =>
      intro f h
      have hc : c ≠ dquote := fun e => h (by simp [e])
      have hcs : dquote ∉ cs := fun e => h (List.mem_cons_of_mem _ e)
      rw [List.foldl_cons]
      have : csvStep { mode := .quoted, field := f, row := row, rows := rows } c
          = { mode := .quoted, field := f ++ [c], row := row, rows := rows } := by
        simp [csvStep, hc]
      rw [this, ih _ hcs]
      simp

theorem quoteAsIs_read (v : String) (hv : dquote ∉ v.data) (row : List String)
    (rows : List (List String)) :
    (quoteAsIs v).data.foldl csvStep
        { mode := .fieldStart, field := [], row := row, rows := rows }
      = { mode := .quoteSeen, field := v.data, row := row, rows := rows } := by
  have hd : (quoteAsIs v).data = dquote :: (v.data ++ [dquote]) := by
    simp [quoteAsIs, String.data_append]; rfl
  rw [hd, List.foldl_cons, List.foldl_append]
  have h1 : csvStep { mode := .fieldStart, field := [], row := row, rows := rows } dquote
      = { mode := .quoted, field := [], row := row, rows := rows } := by
    simp [csvStep]
  rw [h1, csv_quoted_plain_run row rows v.data [] hv]
  simp [csvStep]

/-- The file of resolve-remote-feeds.js reads back as the header record and
the eight values of each entry when no value holds a double quote. -/
theorem remoteCsv_reads_back_without_quotes (results : List FeedEntry)
    (h : ∀ item ∈ results, ∀ v ∈ remoteCsvValues item, dquote ∉ v.data) :
    parseCSV (remoteCsvText results)
      = some (remoteCsvHeaderFields :: results.map remoteCsvValues) := by
  rw [parseCSV_remoteCsvText]
  cases hres : results with
  | nil => rfl
  | cons item rest =>
      rw [← hres]
      have hrows : List.map remoteCsvRow results
          = List.map (fun values => joinWith "," (values.map quoteAsIs))
              (results.map remoteCsvValues) := by
        rw [List.map_map]
        exact List.map_congr_left (fun r _ => remoteCsvRow_eq r)
      obtain ⟨s, hs, hclose, hrow, hrows'⟩ :=
        csv_file_read quoteAsIs (results.map remoteCsvValues) [remoteCsvHeaderFields]
          (by rw [hres]; simp)
          (by
            intro values hv
            obtain ⟨r, _, hr⟩ := List.mem_map.mp hv
            subst hr
            simp [remoteCsvValues])
          (by
            intro values hv v hvv row rows
            obtain ⟨r, hr, hr'⟩ := List.mem_map.mp hv
            subst hr'
            exact ⟨.quoteSeen, quoteAsIs_read v (h r hr v hvv) row rows, Or.inr (Or.inr rfl)⟩)
      rw [hrows, hs, csv_finish s hclose hrow, hrows']
      simp

/-- Claim C18 fails on the code: the row template of resolve-remote-feeds.js
(and of resolve-missing-feed.js) puts every value between double quotes as it
is, without doubling the double quotes inside it. For an entry whose title is
`Say "Hi"` the row holds `"Say "Hi""` and the text does not read back as CSV;
for an entry whose title is `x","y` the row reads back as nine values instead
of eight. The header line is as the claim says, and `csvField` of
resolve-itdv-tracks.mjs writes the first title as `"Say ""Hi"""`. -/
theorem C18_remote_csv_quotes_not_doubled :
    remoteCsvText [quotedTitleEntry]
      = "feedGuid,itemGuid,title,artist,feedUrl,feedTitle,episodeId,feedId\n"
        ++ "\"f\",\"i\",\"Say \"Hi\"\",\"\",\"\",\"\",\"\",\"\""
    ∧ parseCSV (remoteCsvText [quotedTitleEntry]) = none
    ∧ remoteCsvValues splitTitleEntry = ["f", "i", "x\",\"y", "", "", "", "", ""]
    ∧ parseCSV (remoteCsvText [splitTitleEntry])
        = some [remoteCsvHeaderFields, ["f", "i", "x", "y", "", "", "", "", ""]]
    ∧ parseCSV (remoteCsvText []) = some [remoteCsvHeaderFields]
    ∧ csvField "Say \"Hi\"" = "\"Say \"\"Hi\"\"\"" := by
  refine ⟨by decide, ?_, by decide, ?_, by decide, by decide⟩
  · rw [parseCSV_remoteCsvText]; decide
  · rw [parseCSV_remoteCsvText]; decide

/-! ### The lines of the M3U text -/

theorem foldl_append_data {α : Type} (g : α → String) :
    ∀ (xs : List α) (acc : String),
      (xs.foldl (fun acc x => acc ++ g x) acc).data
        = acc.data ++ xs.flatMap (fun x => (g x).data) := by
  intro xs
  induction xs with
  | nil => intro acc; simp
  | cons x xs ih =>
      intro acc
      rw [List.foldl_cons, ih]
      simp [String.data_append]

theorem m3u_item_step (m3u : String) (item : PlaylistItem) :
    (if truthy item.feedUrl then m3u ++ (interpolate item.feedUrl ++ "\n")
      else m3u ++ ("# Feed: " ++ interpolate item.feedGuid ++ ", Item: " ++
        interpolate item.itemGuid ++ "\n"))
      = m3u ++ (m3uItemLine item ++ "\n") := by
  unfold m3uItemLine
  split <;> rfl

theorem m3u_episode_data (m3u : String) (episode : PlaylistEpisode) :
    ((episode.remoteItems.foldl (fun m3u item =>
        if truthy item.feedUrl then m3u ++ (interpolate item.feedUrl ++ "\n")
        else m3u ++ ("# Feed: " ++ interpolate item.feedGuid ++ ", Item: " ++
          interpolate item.itemGuid ++ "\n"))
        (m3u ++ ("# " ++ interpolateUndefined episode.episodeTitle ++ "\n"))) ++ "\n").data
      = m3u.data ++ (m3uEpisodeLines episode).flatMap (fun l => l.data ++ ['\n']) := by
  have hf : (fun (m3u : String) (item : PlaylistItem) =>
        if truthy item.feedUrl then m3u ++ (interpolate item.feedUrl ++ "\n")
        else m3u ++ ("# Feed: " ++ interpolate item.feedGuid ++ ", Item: " ++
          interpolate item.itemGuid ++ "\n"))
      = fun m3u item => m3u ++ (m3uItemLine item ++ "\n") := by
    funext m3u item
    exact m3u_item_step m3u item
  rw [hf, String.data_append, foldl_append_data (fun item => m3uItemLine item ++ "\n")]
  simp [m3uEpisodeLines, String.data_append, List.flatMap_append, List.flatMap_map]

theorem m3u_episodes_data :
    ∀ (episodes : List PlaylistEpisode) (m3u : String),
      (episodes.foldl (fun m3u episode =>
        let m3u := m3u ++ ("# " ++ interpolateUndefined episode.episodeTitle ++ "\n")
        let m3u := episode.remoteItems.foldl (fun m3u item =>
          if truthy item.feedUrl then m3u ++ (interpolate item.feedUrl ++ "\n")
          else m3u ++ ("# Feed: " ++ interpolate item.feedGuid ++ ", Item: " ++
            interpolate item.itemGuid ++ "\n")) m3u
        m3u ++ "\n") m3u).data
      = m3u.data
        ++ (episodes.flatMap m3uEpisodeLines).flatMap (fun l => l.data ++ ['\n']) := by
  intro episodes
  induction episodes with
  | nil => intro m3u; simp
  | cons episode rest ih =>
      intro m3u
      rw [List.foldl_cons, ih]
      simp only [m3u_episode_data, List.flatMap_cons, List.flatMap_append, List.append_assoc]

/-- The text returned by `createM3UPlaylist` is its lines, each followed by
a line feed. -/
theorem createM3UPlaylist_data (playlist : MusicPlaylist) :
    (createM3UPlaylist playlist).data
      = (m3uLines playlist).flatMap (fun l => l.data ++ ['\n']) := by
  unfold createM3UPlaylist
  simp only [m3u_episodes_data]
  simp [m3uLines, String.data_append, List.flatMap_append]

theorem splitLines_ne_nil : ∀ cs : List Char, splitLines cs ≠ [] := by
  intro cs
  induction cs with
  | nil => simp [splitLines]
  | cons c cs ih =>
      unfold splitLines
      split
      · simp
      · split <;> simp

theorem splitLines_line :
    ∀ (line rest : List Char), '\n' ∉ line →
      splitLines (line ++ '\n' :: rest) = line :: splitLines rest := by
  intro line
  induction line with
  | nil => intro rest _; simp [splitLines]
  | cons c cs ih =>
      intro rest h
      have hc : c ≠ '\n' := fun e => h (by simp [e])
      have hcs : '\n' ∉ cs := fun e => h (List.mem_cons_of_mem _ e)
      rw [List.cons_append, splitLines, if_neg hc, ih rest hcs]

theorem splitLines_flatMap :
    ∀ lines : List String, (∀ l ∈ lines, noNewline l = true) →
      splitLines (lines.flatMap (fun l => l.data ++ ['\n']))
        = lines.map String.data ++ [[]] := by
  intro lines
  induction lines with
  | nil => intro _; simp [splitLines]
  | cons l rest ih =>
      intro h
      have hl : '\n' ∉ l.data := by
        have := h l (List.mem_cons_self _ _)
        simpa [noNewline] using this
      have hd : (l :: rest).flatMap (fun l => l.data ++ ['\n'])
          = l.data ++ '\n' :: rest.flatMap (fun l => l.data ++ ['\n']) := by
        simp
      rw [hd, splitLines_line _ _ hl, ih (fun x hx => h x (List.mem_cons_of_mem _ hx))]
      simp

theorem linesOf_createM3UPlaylist (playlist : MusicPlaylist)
    (h : ∀ l ∈ m3uLines playlist, noNewline l = true) :
    linesOf (createM3UPlaylist playlist) = m3uLines playlist ++ [""] := by
  unfold linesOf
  rw [createM3UPlaylist_data, splitLines_flatMap _ h]
  simp [List.map_map, Function.comp_def]

theorem noNewline_append (a b : String) :
    noNewline (a ++ b) = (noNewline a && noNewline b) := by
  simp [noNewline, String.data_append, List.contains_eq_any_beq, List.any_append, Bool.not_or]

theorem noNewline_interpolate (x : Option String) (h : noNewlineOpt x = true) :
    noNewline (interpolate x) = true := by
  cases x with
  | none => decide
  | some v => exact h

theorem noNewline_interpolateUndefined (x : Option String) (h : noNewlineOpt x = true) :
    noNewline (interpolateUndefined x) = true := by
  cases x with
  | none => decide
  | some v => exact h

theorem noNewline_m3uItemLine (item : PlaylistItem) (h1 : noNewlineOpt item.feedGuid = true)
    (h2 : noNewlineOpt item.itemGuid = true) (h3 : noNewlineOpt item.feedUrl = true) :
    noNewline (m3uItemLine item) = true := by
  unfold m3uItemLine
  split
  · exact noNewline_interpolate _ h3
  · simp only [noNewline_append, noNewline_interpolate _ h1, noNewline_interpolate _ h2,
      Bool.and_true]
    decide

theorem comment_head (x : String) : ("# " ++ x).data.head? = some '#' := by
  simp [String.data_append]

theorem isEntryLine_comment (x : String) : isEntryLine ("# " ++ x) = false := by
  simp [isEntryLine, comment_head]

theorem m3uItemLine_cases (item : PlaylistItem) :
    (truthy item.feedUrl = true ∧ item.feedUrl = some (m3uItemLine item))
      ∨ (truthy item.feedUrl = false ∧ (m3uItemLine item).data.head? = some '#') := by
  unfold m3uItemLine
  cases h : truthy item.feedUrl with
  | true =>
      left
      refine ⟨rfl, ?_⟩
      cases hu : item.feedUrl with
      | none => rw [hu] at h; simp [truthy] at h
      | some v => simp [interpolate]
  | false =>
      right
      refine ⟨rfl, ?_⟩
      simp [String.data_append, String.append_assoc]

theorem isEntryLine_m3uItemLine (item : PlaylistItem) (h : notComment item.feedUrl = true) :
    isEntryLine (m3uItemLine item) = truthy item.feedUrl := by
  rcases m3uItemLine_cases item with ⟨ht, hu⟩ | ⟨ht, hh⟩
  · rw [ht]
    rw [hu] at h ht
    simp only [truthy, bne_iff_ne, ne_eq] at ht
    simp only [notComment] at h
    simp [isEntryLine, ht, h]
  · rw [ht]
    simp [isEntryLine, hh]

theorem filter_m3uItemLines :
    ∀ items : List PlaylistItem, (∀ item ∈ items, notComment item.feedUrl = true) →
      (items.map m3uItemLine).filter isEntryLine = items.filterMap PlaylistItem.url := by
  intro items
  induction items with
  | nil => intro _; rfl
  | cons item rest ih =>
      intro h
      have hi := isEntryLine_m3uItemLine item (h item (List.mem_cons_self _ _))
      have ih' := ih (fun x hx => h x (List.mem_cons_of_mem _ hx))
      rw [List.map_cons, List.filter_cons, hi]
      rcases m3uItemLine_cases item with ⟨ht, hu⟩ | ⟨ht, _⟩
      · have : item.url = some (m3uItemLine item) := by simp [PlaylistItem.url, ht, hu.symm]
        rw [List.filterMap_cons_some this, ht, ih']
        simp
      · have : item.url = none := by simp [PlaylistItem.url, ht]
        rw [List.filterMap_cons_none this, ht, ih']
        simp

theorem filter_m3uEpisodeLines :
    ∀ episodes : List PlaylistEpisode,
      (∀ ep ∈ episodes, ∀ item ∈ ep.remoteItems, notComment item.feedUrl = true) →
      (episodes.flatMap m3uEpisodeLines).filter isEntryLine
        = (episodes.flatMap PlaylistEpisode.remoteItems).filterMap PlaylistItem.url := by
  intro episodes
  induction episodes with
  | nil => intro _; rfl
  | cons ep rest ih =>
      intro h
      have ih' := ih (fun x hx => h x (List.mem_cons_of_mem _ hx))
      have hi := filter_m3uItemLines ep.remoteItems (h ep (List.mem_cons_self _ _))
      have he : isEntryLine "" = false := by decide
      rw [List.flatMap_cons, List.flatMap_cons, List.filter_append, List.filterMap_append, ih']
      simp [m3uEpisodeLines, List.filter_cons, isEntryLine_comment, List.filter_append, hi, he]

theorem noNewline_m3uLines (playlist : MusicPlaylist)
    (hp : noNewline playlist.title = true ∧ noNewline playlist.description = true
      ∧ noNewline playlist.created = true)
    (he : ∀ ep ∈ playlist.episodes, noNewlineOpt ep.episodeTitle = true
      ∧ ∀ item ∈ ep.remoteItems, noNewlineOpt item.feedGuid = true
        ∧ noNewlineOpt item.itemGuid = true ∧ noNewlineOpt item.feedUrl = true) :
    ∀ l ∈ m3uLines playlist, noNewline l = true := by
  intro l hl
  have hc : noNewline "# " = true := by decide
  simp only [m3uLines, List.mem_append, List.mem_cons, List.mem_flatMap, m3uEpisodeLines,
    List.mem_map, List.not_mem_nil, or_false] at hl
  rcases hl with (h | h | h | h | h) | ⟨ep, hep, (h | ⟨item, hitem, h⟩) | h⟩
  · subst h; decide
  · subst h; simp [noNewline_append, hp.1, hc]
  · subst h; simp [noNewline_append, hp.2.1, hc]
  · subst h
    have : noNewline "# Created: " = true := by decide
    simp [noNewline_append, hp.2.2, this]
  · subst h; decide
  · subst h
    simp [noNewline_append, hc, noNewline_interpolateUndefined _ (he ep hep).1]
  · subst h
    obtain ⟨h1, h2, h3⟩ := (he ep hep).2 item hitem
    exact noNewline_m3uItemLine item h1 h2 h3
  · subst h; decide

/-- Claim C19: for every playlist whose strings hold no line feed and whose
feed URLs do not start with `#`, the text returned by `createM3UPlaylist`
has `#EXTM3U` as its first line; every later line that is not empty starts
with `#` or is the feedUrl of a remote item of the playlist; and the lines
that are neither empty nor comments are exactly the non-empty feedUrls of the
remote items, one line each, in playlist order. -/
theorem C19_m3u_lines (playlist : MusicPlaylist)
    (hp : noNewline playlist.title = true ∧ noNewline playlist.description = true
      ∧ noNewline playlist.created = true)
    (he : ∀ ep ∈ playlist.episodes, noNewlineOpt ep.episodeTitle = true
      ∧ ∀ item ∈ ep.remoteItems, noNewlineOpt item.feedGuid = true
        ∧ noNewlineOpt item.itemGuid = true ∧ noNewlineOpt item.feedUrl = true
        ∧ notComment item.feedUrl = true) :
    (linesOf (createM3UPlaylist playlist)).head? = some "#EXTM3U"
    ∧ (∀ l ∈ (linesOf (createM3UPlaylist playlist)).tail, l ≠ "" →
        l.data.head? = some '#'
          ∨ ∃ ep ∈ playlist.episodes, ∃ item ∈ ep.remoteItems, item.feedUrl = some l)
    ∧ (linesOf (createM3UPlaylist playlist)).filter isEntryLine
        = (playlist.episodes.flatMap PlaylistEpisode.remoteItems).filterMap
            PlaylistItem.url := by
  have hlines := linesOf_createM3UPlaylist playlist
    (noNewline_m3uLines playlist hp (fun ep hep =>
      ⟨(he ep hep).1, fun item hitem =>
        ⟨((he ep hep).2 item hitem).1, ((he ep hep).2 item hitem).2.1,
          ((he ep hep).2 item hitem).2.2.1⟩⟩))
  rw [hlines]
  refine ⟨rfl, ?_, ?_⟩
  · intro l hl hne
    simp only [m3uLines, List.cons_append, List.tail_cons, List.nil_append, List.mem_cons,
      List.mem_append, List.mem_flatMap, m3uEpisodeLines, List.mem_map, List.not_mem_nil,
      or_false] at hl
    rcases hl with h | h | h | h | ⟨ep, hep, h | ⟨item, hitem, h⟩ | h⟩ | h
    · subst h; left; exact comment_head _
    · subst h; left; exact comment_head _
    · subst h; left; simp [String.data_append]
    · exact absurd h hne
    · subst h; left; exact comment_head _
    · subst h
      rcases m3uItemLine_cases item with ⟨_, hu⟩ | ⟨_, hh⟩
      · right; exact ⟨ep, hep, item, hitem, hu⟩
      · left; exact hh
    · exact absurd h hne
    · exact absurd h hne
  · have h1 : isEntryLine "" = false := by decide
    have h2 : isEntryLine "#EXTM3U" = false := by decide
    have h3 : isEntryLine ("# Created: " ++ playlist.created) = false := by
      simp [isEntryLine, String.data_append]
    rw [List.filter_append, m3uLines, List.filter_append,
      filter_m3uEpisodeLines playlist.episodes
        (fun ep hep item hitem => ((he ep hep).2 item hitem).2.2.2)]
    simp [List.filter_cons, h1, h2, h3, isEntryLine_comment]

theorem C19_witness :
    (linesOf (createM3UPlaylist examplePlaylist)).head? = some "#EXTM3U"
    ∧ (∀ l ∈ (linesOf (createM3UPlaylist examplePlaylist)).tail, l ≠ "" →
        l.data.head? = some '#'
          ∨ ∃ ep ∈ examplePlaylist.episodes, ∃ item ∈ ep.remoteItems, item.feedUrl = some l)
    ∧ (linesOf (createM3UPlaylist examplePlaylist)).filter isEntryLine
        = (examplePlaylist.episodes.flatMap PlaylistEpisode.remoteItems).filterMap
            PlaylistItem.url :=
  C19_m3u_lines examplePlaylist (by decide) (by decide)

/-! ### The remote item element of the renderers that test the item GUID -/

theorem takeWhile_append_stop (p : Char → Bool) (c : Char) (rest : List Char) (hc : p c = false) :
    ∀ a : List Char, (∀ x ∈ a, p x = true) →
      (a ++ c :: rest).takeWhile p = a ∧ (a ++ c :: rest).dropWhile p = c :: rest := by
  intro a
  induction a with
  | nil => intro _; simp [List.takeWhile, List.dropWhile, hc]
  | cons x xs ih =>
      intro h
      have hx : p x = true := h x (List.mem_cons_self _ _)
      obtain ⟨h1, h2⟩ := ih (fun y hy => h y (List.mem_cons_of_mem _ hy))
      simp [List.takeWhile, List.dropWhile, hx, h1, h2]

theorem readAttributes_end (steps : Nat) : readAttributes (steps + 1) ['/', '>'] = some [] := by
  simp [readAttributes, List.dropWhile, isXmlSpace]

theorem readAttributes_space_end (steps : Nat) :
    readAttributes (steps + 1) [' ', '/', '>'] = some [] := by
  simp [readAttributes, List.dropWhile, isXmlSpace]

/-- One attribute `name="value"` after a blank. -/
theorem readAttributes_attr (steps : Nat) (name value tail : List Char) (hne : name ≠ [])
    (hname : ∀ c ∈ name, isNameChar c = true)
    (hvalue : ∀ c ∈ value, c ≠ '<' ∧ c ≠ dquote) :
    readAttributes (steps + 1) (' ' :: (name ++ '=' :: dquote :: (value ++ dquote :: tail)))
      = (readAttributes steps tail).map
          (fun attrs => (String.mk name, String.mk (unescapeXMLChars value)) :: attrs) := by
  obtain ⟨n0, ns, rfl⟩ : ∃ n0 ns, name = n0 :: ns := by
    cases name with
    | nil => exact absurd rfl hne
    | cons a b => exact ⟨a, b, rfl⟩
  have hn0 : isNameChar n0 = true := hname n0 (List.mem_cons_self _ _)
  have hsp : isXmlSpace n0 = false := by
    cases h : isXmlSpace n0 with
    | false => rfl
    | true =>
        simp only [isXmlSpace, Bool.or_eq_true, beq_iff_eq] at h
        rcases h with ((h | h) | h) | h <;> subst h <;> exact absurd hn0 (by decide)
  have hslash : n0 ≠ '/' := by
    intro h; subst h; exact absurd hn0 (by decide)
  have heq : isNameChar '=' = false := by decide
  obtain ⟨ht, hd⟩ := takeWhile_append_stop isNameChar '=' (dquote :: (value ++ dquote :: tail))
    heq (n0 :: ns) hname
  have hq : (fun c : Char => c != dquote) dquote = false := by simp
  obtain ⟨hvt, hvd⟩ := takeWhile_append_stop (fun c => c != dquote) dquote tail hq value
    (fun x hx => by simpa using (hvalue x hx).2)
  have hlt : value.contains '<' = false := by
    cases h : value.contains '<' with
    | false => rfl
    | true =>
        have hm : '<' ∈ value := List.elem_iff.mp h
        exact absurd rfl (hvalue _ hm).1
  have hdrop : (' ' :: (n0 :: ns ++ '=' :: dquote :: (value ++ dquote :: tail))).dropWhile
      isXmlSpace = n0 :: ns ++ '=' :: dquote :: (value ++ dquote :: tail) := by
    have : isXmlSpace ' ' = true := by decide
    simp [List.dropWhile, this, hsp]
  rw [readAttributes]
  simp only [hdrop, ht, hd, hvt, hvd, hlt]
  simp [hslash]

theorem escapeXML_plain (x : Option String) :
    ∀ c ∈ (escapeXML x).data, c ≠ '<' ∧ c ≠ dquote := by
  intro c hc
  cases x with
  | none => simp [escapeXML] at hc
  | some s =>
      rw [escapeXML_data] at hc
      have := escapeXMLChars_no_raw s.data c hc
      exact ⟨this.1, this.2.2.1⟩

theorem unescape_escapeXML (s : String) :
    String.mk (unescapeXMLChars (escapeXML (some s)).data) = s := by
  rw [escapeXML_data, unescape_escapeXMLChars]

/-- The attributes `feedGuid` and, when there is a feed URL, `feedUrl`,
followed by the end of the tag with or without a blank before it. -/
theorem readAttributes_reference (steps : Nat) (feedGuid : String) (feedUrl : Option String)
    (close : List Char) (hclose : close = ['/', '>'] ∨ close = [' ', '/', '>']) :
    readAttributes (steps + 3)
        (' ' :: ("feedGuid".data ++ '=' :: dquote :: ((escapeXML (some feedGuid)).data
          ++ dquote :: ((if truthy feedUrl then
              " feedUrl=\"".data ++ (escapeXML feedUrl).data ++ [dquote]
            else []) ++ close))))
      = some (("feedGuid", feedGuid) :: feedUrlAttribute feedUrl) := by
  have hend : ∀ k, readAttributes (k + 1) close = some [] := by
    intro k
    rcases hclose with h | h <;> subst h
    · exact readAttributes_end k
    · exact readAttributes_space_end k
  rw [readAttributes_attr (steps + 2) "feedGuid".data _ _ (by decide) (by decide)
    (escapeXML_plain _), unescape_escapeXML]
  cases hu : truthy feedUrl with
  | false =>
      have hattr : feedUrlAttribute feedUrl = [] := by
        cases feedUrl with
        | none => rfl
        | some url =>
            have : url = "" := by simpa [truthy] using hu
            simp [feedUrlAttribute, this]
      simp [hend, hattr]
  | true =>
      obtain ⟨url, rfl⟩ : ∃ url, feedUrl = some url := by
        cases feedUrl with
        | none => simp [truthy] at hu
        | some url => exact ⟨url, rfl⟩
      have hne : url ≠ "" := by simpa [truthy] using hu
      have hattr : feedUrlAttribute (some url) = [("feedUrl", url)] := by
        simp [feedUrlAttribute, hne]
      have hshape : (if true = true then
            " feedUrl=\"".data ++ (escapeXML (some url)).data ++ [dquote]
          else []) ++ close
          = ' ' :: ("feedUrl".data ++ '=' :: dquote :: ((escapeXML (some url)).data
              ++ dquote :: close)) := by
        simp
        rfl
      rw [hshape, readAttributes_attr (steps + 1) "feedUrl".data _ _ (by decide) (by decide)
        (escapeXML_plain _), unescape_escapeXML, hend, hattr]
      rfl

/-- An empty-element tag that starts with `<podcast:remoteItem` and a
blank. -/
theorem readEmptyElement_remoteItem (text : String) (rest : List Char)
    (h : text.data = '<' :: ("podcast:remoteItem".data ++ ' ' :: rest)) :
    readEmptyElement text
      = (readAttributes ("podcast:remoteItem".data ++ ' ' :: rest).length (' ' :: rest)).map
          (fun attrs => XmlNode.element "podcast:remoteItem" attrs []) := by
  obtain ⟨ht, hd⟩ := takeWhile_append_stop isNameChar ' ' rest (by decide)
    "podcast:remoteItem".data (by decide)
  unfold readEmptyElement
  rw [h]
  simp only [if_true, ht, hd]
  rfl

/-- The element written by `generateLightningStyleRSS` for a track without
item GUID reads back with the feed GUID and without `itemGuid` attribute. -/
theorem readEmptyElement_lightningRemoteItem (track : MusicTrack) (fg : String)
    (h1 : track.feedGuid = some fg) (h2 : truthy track.itemGuid = false) :
    readEmptyElement (lightningRemoteItem track)
      = some (XmlNode.element "podcast:remoteItem"
          (("feedGuid", fg) :: feedUrlAttribute track.feedUrl) []) := by
  have hdata : (lightningRemoteItem track).data
      = '<' :: ("podcast:remoteItem".data ++ ' ' :: ("feedGuid".data ++ '=' :: dquote ::
          ((escapeXML (some fg)).data ++ dquote :: ((if truthy track.feedUrl then
              " feedUrl=\"".data ++ (escapeXML track.feedUrl).data ++ [dquote]
            else []) ++ ['/', '>'])))) := by
    unfold lightningRemoteItem
    rw [h1, h2]
    cases truthy track.feedUrl <;> simp [String.data_append] <;> rfl
  rw [readEmptyElement_remoteItem _ _ hdata]
  obtain ⟨k, hk⟩ : ∃ k, ("podcast:remoteItem".data ++ ' ' :: ("feedGuid".data ++ '=' :: dquote ::
          ((escapeXML (some fg)).data ++ dquote :: ((if truthy track.feedUrl then
              " feedUrl=\"".data ++ (escapeXML track.feedUrl).data ++ [dquote]
            else []) ++ ['/', '>'])))).length = k + 3 := by
    refine ⟨_, (Nat.sub_add_cancel ?_).symm⟩
    simp
  rw [hk, readAttributes_reference k fg track.feedUrl _ (Or.inl rfl)]
  rfl

/-- The element written by `generateRSSXML` for a remote item without item
GUID reads back with the feed GUID and without `itemGuid` attribute. -/
theorem readEmptyElement_rssRemoteItem (remoteItem : PlaylistItem) (fg : String)
    (h1 : remoteItem.feedGuid = some fg) (h2 : truthy remoteItem.itemGuid = false) :
    readEmptyElement (rssRemoteItem remoteItem)
      = some (XmlNode.element "podcast:remoteItem"
          (("feedGuid", fg) :: feedUrlAttribute remoteItem.feedUrl) []) := by
  have hdata : (rssRemoteItem remoteItem).data
      = '<' :: ("podcast:remoteItem".data ++ ' ' :: ("feedGuid".data ++ '=' :: dquote ::
          ((escapeXML (some fg)).data ++ dquote :: ((if truthy remoteItem.feedUrl then
              " feedUrl=\"".data ++ (escapeXML remoteItem.feedUrl).data ++ [dquote]
            else []) ++ [' ', '/', '>'])))) := by
    unfold rssRemoteItem
    rw [h1, h2]
    cases truthy remoteItem.feedUrl <;> simp [String.data_append] <;> rfl
  rw [readEmptyElement_remoteItem _ _ hdata]
  obtain ⟨k, hk⟩ : ∃ k, ("podcast:remoteItem".data ++ ' ' :: ("feedGuid".data ++ '=' :: dquote ::
          ((escapeXML (some fg)).data ++ dquote :: ((if truthy remoteItem.feedUrl then
              " feedUrl=\"".data ++ (escapeXML remoteItem.feedUrl).data ++ [dquote]
            else []) ++ [' ', '/', '>'])))).length = k + 3 := by
    refine ⟨_, (Nat.sub_add_cancel ?_).symm⟩
    simp
  rw [hk, readAttributes_reference k fg remoteItem.feedUrl _ (Or.inr rfl)]
  rfl

theorem infix_flatMap_of_mem {α : Type} (f : α → List Char) :
    ∀ (xs : List α) (x : α), x ∈ xs → f x <:+: xs.flatMap f := by
  intro xs
  induction xs with
  | nil => intro x hx; cases hx
  | cons y ys ih =>
      intro x hx
      rw [List.flatMap_cons]
      rcases List.mem_cons.mp hx with h | h
      · subst h; exact List.infix_append' [] _ _
      · exact (ih x h).trans (List.suffix_append _ _).isInfix

theorem lightningRemoteItem_written (now : String) (nowMs : Int)
    (title description link : String) (image : Option XmlNode) (language : String)
    (musicTracks : List MusicTrack) (track : MusicTrack) (h : track ∈ musicTracks) :
    (lightningRemoteItem track).data <:+:
      (generateLightningStyleRSS now nowMs title description link image language
        musicTracks).data := by
  have h1 : (lightningRemoteItem track).data <:+: (lightningRSSItem track).data := by
    refine ⟨(lightningRSSItemOpening track).data, "\n    </item>".data, ?_⟩
    simp [lightningRSSItem, String.data_append]
  have h2 := infix_flatMap_of_mem (fun t => (lightningRSSItem t).data) musicTracks track h
  unfold generateLightningStyleRSS
  simp only [String.data_append, foldl_append_data]
  exact (h1.trans h2).trans
    ((List.suffix_append _ _).isInfix.trans (List.prefix_append _ _).isInfix)

theorem rssRemoteItem_written (rssFeed : RssFeed) (originalImage : Option XmlNode)
    (episode : RssEpisode) (he : episode ∈ rssFeed.episodes) (remoteItem : PlaylistItem)
    (h : remoteItem ∈ episode.remoteItems) :
    (rssRemoteItem remoteItem).data <:+: (generateRSSXML rssFeed originalImage).data := by
  have h1 : (rssRemoteItem remoteItem).data
      <:+: ("    " ++ rssRemoteItem remoteItem ++ "\n").data := by
    refine ⟨"    ".data, "\n".data, ?_⟩
    simp [String.data_append]
  have h2 := infix_flatMap_of_mem (fun i => ("    " ++ rssRemoteItem i ++ "\n").data)
    episode.remoteItems remoteItem h
  have h3 : (episode.remoteItems.flatMap (fun i => ("    " ++ rssRemoteItem i ++ "\n").data))
      <:+: (rssEpisodeXml episode).data := by
    unfold rssEpisodeXml
    simp only [String.data_append, foldl_append_data]
    exact (List.suffix_append _ _).isInfix.trans
      ((List.prefix_append _ _).isInfix.trans (List.prefix_append _ _).isInfix)
  have h4 := infix_flatMap_of_mem (fun e => (rssEpisodeXml e).data) rssFeed.episodes episode he
  have h5 : (rssFeed.episodes.flatMap (fun e => (rssEpisodeXml e).data))
      <:+: (generateRSSXML rssFeed originalImage).data := by
    unfold generateRSSXML
    simp only [String.data_append, foldl_append_data]
    exact (List.suffix_append _ _).isInfix.trans
      ((List.prefix_append _ _).isInfix.trans (List.prefix_append _ _).isInfix)
  exact (((h1.trans h2).trans h3).trans h4).trans h5

theorem getAttribute_itemGuid_reference (fg : String) (feedUrl : Option String) :
    (XmlNode.element "podcast:remoteItem" (("feedGuid", fg) :: feedUrlAttribute feedUrl)
        []).getAttribute "itemGuid" = none := by
  unfold feedUrlAttribute
  cases feedUrl with
  | none => simp [XmlNode.getAttribute]
  | some url =>
      by_cases h : url = ""
      · simp [XmlNode.getAttribute, h]
      · simp [XmlNode.getAttribute, h]

theorem extract_itemDocument (attrs : List (String × String)) :
    extractMinimalRemoteItems (itemDocument [XmlNode.element "podcast:remoteItem" attrs []])
      = [referenceOf (XmlNode.element "podcast:remoteItem" attrs [])] := by
  rfl

/-- Claim C11: for every track of `generateLightningStyleRSS` and every
remote item of `generateRSSXML` that has a feed GUID and an absent item GUID
(null or empty), the document written holds a `podcast:remoteItem` element
for it that reads back, by the XML grammar of an empty-element tag, as an
element with the same `feedGuid` attribute and without `itemGuid` attribute;
the extractor applied to an episode holding that element yields the same
feed GUID with the item GUID absent. -/
theorem C11_feed_reference_survives_rendering (now : String) (nowMs : Int)
    (title description link : String) (image : Option XmlNode) (language : String)
    (musicTracks : List MusicTrack) (rssFeed : RssFeed) (originalImage : Option XmlNode) :
    (∀ track ∈ musicTracks, ∀ fg : String, track.feedGuid = some fg →
      truthy track.itemGuid = false →
        (lightningRemoteItem track).data <:+:
          (generateLightningStyleRSS now nowMs title description link image language
            musicTracks).data
        ∧ ∃ node, readEmptyElement (lightningRemoteItem track) = some node
          ∧ node.tagName = some "podcast:remoteItem"
          ∧ node.getAttribute "feedGuid" = some fg
          ∧ node.getAttribute "itemGuid" = none
          ∧ extractMinimalRemoteItems (itemDocument [node])
              = [{ feedGuid := some fg, itemGuid := none }])
    ∧ (∀ episode ∈ rssFeed.episodes, ∀ remoteItem ∈ episode.remoteItems, ∀ fg : String,
      remoteItem.feedGuid = some fg → truthy remoteItem.itemGuid = false →
        (rssRemoteItem remoteItem).data <:+: (generateRSSXML rssFeed originalImage).data
        ∧ ∃ node, readEmptyElement (rssRemoteItem remoteItem) = some node
          ∧ node.tagName = some "podcast:remoteItem"
          ∧ node.getAttribute "feedGuid" = some fg
          ∧ node.getAttribute "itemGuid" = none
          ∧ extractMinimalRemoteItems (itemDocument [node])
              = [{ feedGuid := some fg, itemGuid := none }]) := by
  have hnode : ∀ (fg : String) (feedUrl : Option String),
      (XmlNode.element "podcast:remoteItem" (("feedGuid", fg) :: feedUrlAttribute feedUrl)
          []).tagName = some "podcast:remoteItem"
      ∧ (XmlNode.element "podcast:remoteItem" (("feedGuid", fg) :: feedUrlAttribute feedUrl)
          []).getAttribute "feedGuid" = some fg
      ∧ (XmlNode.element "podcast:remoteItem" (("feedGuid", fg) :: feedUrlAttribute feedUrl)
          []).getAttribute "itemGuid" = none
      ∧ extractMinimalRemoteItems (itemDocument [XmlNode.element "podcast:remoteItem"
          (("feedGuid", fg) :: feedUrlAttribute feedUrl) []])
          = [{ feedGuid := some fg, itemGuid := none }] := by
    intro fg feedUrl
    have hi := getAttribute_itemGuid_reference fg feedUrl
    have hf : (XmlNode.element "podcast:remoteItem"
        (("feedGuid", fg) :: feedUrlAttribute feedUrl) []).getAttribute "feedGuid"
        = some fg := by
      simp [XmlNode.getAttribute]
    refine ⟨rfl, hf, hi, ?_⟩
    rw [extract_itemDocument, referenceOf, hf, hi]
  constructor
  · intro track ht fg h1 h2
    exact ⟨lightningRemoteItem_written now nowMs title description link image language
        musicTracks track ht,
      _, readEmptyElement_lightningRemoteItem track fg h1 h2, hnode fg track.feedUrl⟩
  · intro episode he remoteItem hr fg h1 h2
    exact ⟨rssRemoteItem_written rssFeed originalImage episode he remoteItem hr,
      _, readEmptyElement_rssRemoteItem remoteItem fg h1 h2, hnode fg remoteItem.feedUrl⟩

theorem C11_witness :
    (feedOnlyMusicTrack.feedGuid = some "f<2>" ∧ truthy feedOnlyMusicTrack.itemGuid = false
      ∧ feedOnlyItem.feedGuid = some "f<2>" ∧ truthy feedOnlyItem.itemGuid = false)
    ∧ ((lightningRemoteItem feedOnlyMusicTrack).data <:+:
          (generateLightningStyleRSS "now" 0 "T" "D" "https://show.example/" none "en"
            [feedOnlyMusicTrack]).data
        ∧ ∃ node, readEmptyElement (lightningRemoteItem feedOnlyMusicTrack) = some node
          ∧ node.tagName = some "podcast:remoteItem"
          ∧ node.getAttribute "feedGuid" = some "f<2>"
          ∧ node.getAttribute "itemGuid" = none
          ∧ extractMinimalRemoteItems (itemDocument [node])
              = [{ feedGuid := some "f<2>", itemGuid := none }])
    ∧ ((rssRemoteItem feedOnlyItem).data <:+: (generateRSSXML feedOnlyRssFeed none).data
        ∧ ∃ node, readEmptyElement (rssRemoteItem feedOnlyItem) = some node
          ∧ node.tagName = some "podcast:remoteItem"
          ∧ node.getAttribute "feedGuid" = some "f<2>"
          ∧ node.getAttribute "itemGuid" = none
          ∧ extractMinimalRemoteItems (itemDocument [node])
              = [{ feedGuid := some "f<2>", itemGuid := none }]) :=
  ⟨⟨rfl, rfl, rfl, rfl⟩,
    (C11_feed_reference_survives_rendering "now" 0 "T" "D" "https://show.example/" none "en"
      [feedOnlyMusicTrack] feedOnlyRssFeed none).1 feedOnlyMusicTrack
        (List.mem_singleton.mpr rfl) "f<2>" rfl rfl,
    (C11_feed_reference_survives_rendering "now" 0 "T" "D" "https://show.example/" none "en"
      [feedOnlyMusicTrack] feedOnlyRssFeed none).2 _ (List.mem_singleton.mpr rfl) feedOnlyItem
        (List.mem_singleton.mpr rfl) "f<2>" rfl rfl⟩

/-! ### Resolved seed entries of resolve-remote-feeds.js -/

theorem remoteLoop_eq_foldl (w : RemoteWorld) (seed : List FeedEntry) :
    ∀ (processed : List String) (results : List FeedEntry) (log : List RemoteRequest),
      remoteLoop w seed processed results log
        = ((seed.foldl (remoteStep w)
              { processed := processed, results := results, log := log }).results,
           (seed.foldl (remoteStep w)
              { processed := processed, results := results, log := log }).log) := by
  induction seed with
  | nil => intro processed results log; rfl
  | cons item rest ih =>
      intro processed results log
      rw [remoteLoop, List.foldl_cons]
      simp only [remoteStep]
      split
      · exact ih _ _ _
      · split
        · exact ih _ _ _
        · exact ih _ _ _

theorem remoteStep_processed (w : RemoteWorld) (s : RemoteState) (item : FeedEntry) :
    ∀ k ∈ (remoteStep w s item).processed, k ∈ s.processed ∨ k = entryKey item := by
  intro k hk
  unfold remoteStep at hk
  simp only [] at hk
  split at hk
  · exact Or.inl hk
  · split at hk
    · rcases List.mem_cons.mp hk with h | h
      · exact Or.inr h
      · exact Or.inl h
    · rcases List.mem_cons.mp hk with h | h
      · exact Or.inr h
      · exact Or.inl h

theorem remoteFold_processed (w : RemoteWorld) (seed : List FeedEntry) :
    ∀ (s : RemoteState), ∀ k ∈ (seed.foldl (remoteStep w) s).processed,
      k ∈ s.processed ∨ k ∈ seed.map entryKey := by
  induction seed with
  | nil => intro s k hk; exact Or.inl hk
  | cons item rest ih =>
      intro s k hk
      rw [List.foldl_cons] at hk
      rcases ih _ k hk with h | h
      · rcases remoteStep_processed w s item k h with h' | h'
        · exact Or.inl h'
        · exact Or.inr (by simp [h'])
      · exact Or.inr (by simp [h])

theorem remoteStep_results (w : RemoteWorld) (s : RemoteState) (item : FeedEntry) :
    s.results <+: (remoteStep w s item).results := by
  unfold remoteStep
  simp only []
  split
  · exact List.prefix_refl _
  · split
    · exact List.prefix_append _ _
    · exact List.prefix_append _ _

theorem remoteFold_results (w : RemoteWorld) (seed : List FeedEntry) :
    ∀ (s : RemoteState), s.results <+: (seed.foldl (remoteStep w) s).results := by
  induction seed with
  | nil => intro s; exact List.prefix_refl _
  | cons item rest ih =>
      intro s
      rw [List.foldl_cons]
      exact (remoteStep_results w s item).trans (ih _)

theorem remoteStep_resolved (w : RemoteWorld) (s : RemoteState) (item : FeedEntry)
    (hnot : s.processed.contains (entryKey item) = false)
    (htitle : needsResolving item = false) :
    remoteStep w s item
      = { processed := entryKey item :: s.processed, results := s.results ++ [item],
          log := s.log } := by
  unfold remoteStep
  simp only [hnot, htitle, Bool.false_eq_true, if_false]

/-- A seed entry with a usable title whose text `feedGuid-itemGuid` is not
the text of an earlier entry is appended to the results as it is, the request
log stays as it was before the entry, and the entry is in the output. -/
theorem remoteMain_keeps_first_key (w : RemoteWorld) (before after : List FeedEntry)
    (item : FeedEntry) (hkey : entryKey item ∉ before.map entryKey)
    (htitle : needsResolving item = false) :
    ((before ++ [item]).foldl (remoteStep w) { processed := [], results := [], log := [] }).results
        = (before.foldl (remoteStep w) { processed := [], results := [], log := [] }).results
          ++ [item]
    ∧ ((before ++ [item]).foldl (remoteStep w)
          { processed := [], results := [], log := [] }).log
        = (before.foldl (remoteStep w) { processed := [], results := [], log := [] }).log
    ∧ item ∈ (remoteMain w (before ++ item :: after)).1 := by
  have hnot : (before.foldl (remoteStep w)
      { processed := [], results := [], log := [] }).processed.contains (entryKey item)
      = false := by
    cases h : (before.foldl (remoteStep w)
        { processed := [], results := [], log := [] }).processed.contains (entryKey item) with
    | false => rfl
    | true =>
        have hm := List.elem_iff.mp h
        rcases remoteFold_processed w before _ _ hm with h' | h'
        · cases h'
        · exact absurd h' hkey
  have hstep := remoteStep_resolved w _ item hnot htitle
  refine ⟨?_, ?_, ?_⟩
  · rw [List.foldl_append, List.foldl_cons, List.foldl_nil, hstep]
  · rw [List.foldl_append, List.foldl_cons, List.foldl_nil, hstep]
  · rw [remoteMain, remoteLoop_eq_foldl, List.foldl_append, List.foldl_cons, hstep]
    exact (remoteFold_results w after _).subset (by simp)

/-- Claim C20 fails on the code: `main` of resolve-remote-feeds.js tells
references apart by the text `feedGuid-itemGuid`, which is the same for the
references (`a-b`, `c`) and (`a`, `b-c`). The second seed entry is the first
occurrence of its reference and has the title "Two", and it is not in the
output; no request is issued. -/
theorem C20_colliding_keys_drop_resolved_entry (w : RemoteWorld) :
    collidingSeed = [titledEntry "a-b" "c" "One", titledEntry "a" "b-c" "Two"]
    ∧ ((titledEntry "a" "b-c" "Two").feedGuid, (titledEntry "a" "b-c" "Two").itemGuid)
        ≠ ((titledEntry "a-b" "c" "One").feedGuid, (titledEntry "a-b" "c" "One").itemGuid)
    ∧ needsResolving (titledEntry "a" "b-c" "Two") = false
    ∧ entryKey (titledEntry "a" "b-c" "Two") = entryKey (titledEntry "a-b" "c" "One")
    ∧ remoteMain w collidingSeed = ([titledEntry "a-b" "c" "One"], [])
    ∧ titledEntry "a" "b-c" "Two" ∉ (remoteMain w collidingSeed).1 := by
  have hrun : remoteMain w collidingSeed = ([titledEntry "a-b" "c" "One"], []) := by
    have hk1 : entryKey (titledEntry "a-b" "c" "One") = "a-b-c" := by decide
    have hk2 : entryKey (titledEntry "a" "b-c" "Two") = "a-b-c" := by decide
    have h1 : needsResolving (titledEntry "a-b" "c" "One") = false := by decide
    simp [remoteMain, collidingSeed, remoteLoop, hk1, hk2, h1]
  refine ⟨rfl, by decide, by decide, by decide, hrun, ?_⟩
  rw [hrun]
  decide

/-! ### The merge step of resolve-missing-feed.js -/

theorem orElseFalsy_truthy (a b : Option String) (h : truthy b = true) :
    truthy (orElseFalsy a b) = true := by
  unfold orElseFalsy
  split
  · assumption
  · exact h

theorem find_lookupMissing (feed : RemoteFeed) (items : List RemoteEpisode)
    (guids : List String) (item : FeedEntry) (rt : MissingTrack)
    (h : (guids.map (missingTrackOf feed items)).find?
      (fun rt => some rt.itemGuid == item.itemGuid) = some rt) :
    rt.itemGuid ∈ guids ∧ item.itemGuid = some rt.itemGuid
      ∧ rt = missingTrackOf feed items rt.itemGuid := by
  have hmem := List.mem_of_find?_eq_some h
  have hp := List.find?_some h
  obtain ⟨g, hg, hrt⟩ := List.mem_map.mp hmem
  have hig : rt.itemGuid = g := by
    rw [← hrt]
    unfold missingTrackOf
    split <;> rfl
  refine ⟨hig ▸ hg, ?_, ?_⟩
  · exact (beq_iff_eq.mp hp).symm
  · rw [hig]; exact hrt.symm

theorem mergeEntry_frame (resolvedTracks : List MissingTrack) (item : FeedEntry) :
    (mergeEntry resolvedTracks item).feedGuid = item.feedGuid
    ∧ (mergeEntry resolvedTracks item).itemGuid = item.itemGuid
    ∧ (mergeEntry resolvedTracks item).episodeTitle = item.episodeTitle
    ∧ (mergeEntry resolvedTracks item).episodeEnclosureUrl = item.episodeEnclosureUrl
    ∧ (truthy item.title = true → truthy (mergeEntry resolvedTracks item).title = true)
    ∧ (truthy item.artist = true → truthy (mergeEntry resolvedTracks item).artist = true) := by
  unfold mergeEntry
  split
  · exact ⟨rfl, rfl, rfl, rfl, orElseFalsy_truthy _ _, orElseFalsy_truthy _ _⟩
  · exact ⟨rfl, rfl, rfl, rfl, id, id⟩

/-- Claim C30: the merge step of resolve-missing-feed.js maps the seed
entries one to one, in order. Each updated entry has the feedGuid and the
itemGuid (and the episode fields) of its seed entry; an entry whose itemGuid
is not one of the looked-up item GUIDs is unchanged; a non-empty title or
artist stays non-empty; and when the episode of the entry's itemGuid was not
found among the listed episodes, title and artist are those of the seed
entry. -/
theorem C30_merge_preserves_seed (feed : RemoteFeed) (items : List RemoteEpisode)
    (existingData : List FeedEntry) :
    List.Forall₂ (fun item updated =>
        updated.feedGuid = item.feedGuid
        ∧ updated.itemGuid = item.itemGuid
        ∧ updated.episodeTitle = item.episodeTitle
        ∧ updated.episodeEnclosureUrl = item.episodeEnclosureUrl
        ∧ ((∀ g ∈ missingItemGuids, item.itemGuid ≠ some g) → updated = item)
        ∧ (truthy item.title = true → truthy updated.title = true)
        ∧ (truthy item.artist = true → truthy updated.artist = true)
        ∧ (∀ g, item.itemGuid = some g → findMissingEpisode items g = none →
            updated.title = item.title ∧ updated.artist = item.artist))
      existingData (mergeResolved (lookupMissing feed items) existingData) := by
  unfold mergeResolved
  rw [List.forall₂_map_right_iff]
  refine List.forall₂_same.mpr (fun item _ => ?_)
  obtain ⟨h1, h2, h3, h4, h5, h6⟩ := mergeEntry_frame (lookupMissing feed items) item
  refine ⟨h1, h2, h3, h4, ?_, h5, h6, ?_⟩
  · intro hno
    unfold mergeEntry
    split
    · next rt hf =>
        obtain ⟨hm, hi, _⟩ := find_lookupMissing feed items missingItemGuids item rt hf
        exact absurd hi (hno _ hm)
    · rfl
  · intro g hg hnf
    unfold mergeEntry
    split
    · next rt hf =>
        obtain ⟨_, hi, hrt⟩ := find_lookupMissing feed items missingItemGuids item rt hf
        have hgg : rt.itemGuid = g := by
          rw [hg] at hi
          exact (Option.some.inj hi).symm
        rw [hgg] at hrt
        have ht : rt.title = none ∧ rt.artist = none := by
          rw [hrt]
          unfold missingTrackOf
          rw [hnf]
          exact ⟨rfl, rfl⟩
        simp [ht.1, ht.2, orElseFalsy, truthy]
    · exact ⟨rfl, rfl⟩

theorem C30_witness :
    mergeResolved (lookupMissing missingFeed missingEpisodes) missingSeed
      = [{ titledEntry "other-feed" "7c823adf-1e53-4df1-98c0-979da81ec916" "Kept" with
            artist := some "Someone", feedUrl := some "http://feed.example/rss",
            feedTitle := some "The Feed", feedId := some 7365153 },
         { seedEntry "5a95f9d8-35e3-51f5-a269-ba1df36b4bd8"
              "822d7113-eab2-4857-82d2-cc0c1a52ce2b" with
            title := some "Found Song", artist := some "The Band",
            feedUrl := some "http://feed.example/rss", feedTitle := some "The Feed",
            episodeId := some 11, feedId := some 7365153 },
         titledEntry "f9" "i9" "Other"]
    ∧ List.Forall₂ (fun item updated =>
        updated.feedGuid = item.feedGuid
        ∧ updated.itemGuid = item.itemGuid
        ∧ updated.episodeTitle = item.episodeTitle
        ∧ updated.episodeEnclosureUrl = item.episodeEnclosureUrl
        ∧ ((∀ g ∈ missingItemGuids, item.itemGuid ≠ some g) → updated = item)
        ∧ (truthy item.title = true → truthy updated.title = true)
        ∧ (truthy item.artist = true → truthy updated.artist = true)
        ∧ (∀ g, item.itemGuid = some g → findMissingEpisode missingEpisodes g = none →
            updated.title = item.title ∧ updated.artist = item.artist))
      missingSeed (mergeResolved (lookupMissing missingFeed missingEpisodes) missingSeed) :=
  ⟨by decide, C30_merge_preserves_seed missingFeed missingEpisodes missingSeed⟩

/-! ### The root element of the generic minimal documents -/

theorem rootStartTag_plain_rss (text : String) (rest : List Char)
    (h : text.data = "<?xml version=\"1.0\" encoding=\"UTF-8\"?>\n".data
      ++ ("<rss version=\"2.0\">\n".data ++ rest)) :
    rootStartTag text = "<rss version=\"2.0\">" := by
  have hp : "<?xml version=\"1.0\" encoding=\"UTF-8\"?>\n".data
      = ['<', '?', 'x', 'm', 'l', ' ', 'v', 'e', 'r', 's', 'i', 'o', 'n', '=', '"', '1', '.',
         '0', '"', ' ', 'e', 'n', 'c', 'o', 'd', 'i', 'n', 'g', '=', '"', 'U', 'T', 'F', '-',
         '8', '"', '?', '>', '\n'] := by decide
  have hq : "<rss version=\"2.0\">\n".data
      = ['<', 'r', 's', 's', ' ', 'v', 'e', 'r', 's', 'i', 'o', 'n',
         '=', '"', '2', '.', '0', '"', '>', '\n'] := by decide
  unfold rootStartTag
  rw [h, hp, hq]
  simp [afterDeclaration, isXmlSpace, List.dropWhile, List.takeWhile]

theorem podcast_prefix_infix (a b : List Char) :
    "<podcast:".data <:+: a ++ ("<podcast:medium>musicL</podcast:medium>\n".data ++ b) := by
  have h : "<podcast:medium>musicL</podcast:medium>\n".data
      = "<podcast:".data ++ "medium>musicL</podcast:medium>\n".data := by decide
  rw [h]
  exact ⟨a, "medium>musicL</podcast:medium>\n".data ++ b, by simp⟩

theorem genericMinimalRSS_data (now : String) (tracks : List RemoteItemReference)
    (channelInfo : ChannelInfo) :
    ∃ a b, (generateGenericMinimalRSS now tracks channelInfo).data
        = "<?xml version=\"1.0\" encoding=\"UTF-8\"?>\n".data
          ++ ("<rss version=\"2.0\">\n".data
            ++ (a ++ ("<podcast:medium>musicL</podcast:medium>\n".data ++ b))) := by
  refine ⟨"<channel>\n".data ++ ("<title>".data ++ (channelInfo.title.data ++ ("</title>\n".data
      ++ ("<description>\n".data ++ (channelInfo.description.data ++ ("\n".data
      ++ ("</description>\n".data ++ ("<link>".data ++ (channelInfo.link.data
      ++ ("</link>\n".data ++ ("<language>".data ++ (channelInfo.language.data
      ++ ("</language>\n".data ++ ("<pubDate>".data ++ (now.data ++ ("</pubDate>\n".data
      ++ ("<lastBuildDate>".data ++ (now.data ++ ("</lastBuildDate>\n".data
      ++ ("<image>\n".data ++ ("<url>\n".data ++ (channelInfo.imageUrl.data ++ ("\n".data
      ++ ("</url>\n".data ++ "</image>\n".data)))))))))))))))))))))))),
    "<podcast:guid>".data ++ (channelInfo.guid.data ++ ("</podcast:guid>".data
      ++ (tracks.flatMap (fun track => (genericRSSItem track).data)
        ++ "\n</channel>\n</rss>".data))), ?_⟩
  simp only [generateGenericMinimalRSS, genericRSSHeader, String.data_append,
    foldl_append_data, List.append_assoc]

theorem homegrownMinimalRSS_data (now : String) (tracks : List RemoteItemReference)
    (channelInfo : HomegrownChannelInfo) :
    ∃ a b, (generateHomegrownMinimalRSS now tracks channelInfo).data
        = "<?xml version=\"1.0\" encoding=\"UTF-8\"?>\n".data
          ++ ("<rss version=\"2.0\">\n".data
            ++ (a ++ ("<podcast:medium>musicL</podcast:medium>\n".data ++ b))) := by
  refine ⟨"<channel>\n".data ++ ("<title>".data ++ (channelInfo.title.data ++ ("</title>\n".data
      ++ ("<description>\n".data ++ (channelInfo.description.data ++ ("\n".data
      ++ ("</description>\n".data ++ ("<link>".data ++ (channelInfo.link.data
      ++ ("</link>\n".data ++ ("<language>".data ++ (channelInfo.language.data
      ++ ("</language>\n".data ++ ("<pubDate>".data ++ (now.data ++ ("</pubDate>\n".data
      ++ ("<lastBuildDate>".data ++ (now.data ++ ("</lastBuildDate>\n".data
      ++ ("<image>\n".data ++ ("<url>\n".data ++ (channelInfo.imageUrl.data ++ ("\n".data
      ++ ("</url>\n".data ++ "</image>\n".data)))))))))))))))))))))))),
    "<podcast:guid>homegrown-hits-music-playlist</podcast:guid>".data
      ++ (tracks.flatMap (fun track => (genericRSSItem track).data)
        ++ "\n</channel>\n</rss>".data), ?_⟩
  simp only [generateHomegrownMinimalRSS, homegrownRSSHeader, String.data_append,
    foldl_append_data, List.append_assoc]

/-- Claim C24 fails on the code: for every track list and every channel
metadata, the document written by `generateMinimalRSS` of
create-generic-minimal-playlist.js and of
create-homegrown-hits-minimal-playlist.js has the root start tag
`<rss version="2.0">`, which declares no `xmlns:podcast`, while the document
holds `podcast:` elements. The root start tag written by
create-minimal-remote-items.js declares the prefix. -/
theorem C24_root_element_declares_no_podcast_namespace (now : String)
    (tracks : List RemoteItemReference) (channelInfo : ChannelInfo)
    (homegrownInfo : HomegrownChannelInfo) :
    rootStartTag (generateGenericMinimalRSS now tracks channelInfo) = "<rss version=\"2.0\">"
    ∧ declaresPodcastNamespace (rootStartTag (generateGenericMinimalRSS now tracks channelInfo))
        = false
    ∧ usesPodcastPrefix (generateGenericMinimalRSS now tracks channelInfo) = true
    ∧ rootStartTag (generateHomegrownMinimalRSS now tracks homegrownInfo)
        = "<rss version=\"2.0\">"
    ∧ declaresPodcastNamespace
        (rootStartTag (generateHomegrownMinimalRSS now tracks homegrownInfo)) = false
    ∧ usesPodcastPrefix (generateHomegrownMinimalRSS now tracks homegrownInfo) = true
    ∧ declaresPodcastNamespace (rootStartTag (generateMinimalRSS "now" [])) = true := by
  obtain ⟨a, b, hgd⟩ := genericMinimalRSS_data now tracks channelInfo
  obtain ⟨a', b', hhd⟩ := homegrownMinimalRSS_data now tracks homegrownInfo
  have hg := rootStartTag_plain_rss _ _ hgd
  have hh := rootStartTag_plain_rss _ _ hhd
  refine ⟨hg, by rw [hg]; decide, ?_, hh, by rw [hh]; decide, ?_, by decide⟩
  · simp only [usesPodcastPrefix, decide_eq_true_eq, hgd]
    rw [← List.append_assoc]
    exact podcast_prefix_infix _ _ |>.trans (List.suffix_append _ _).isInfix
  · simp only [usesPodcastPrefix, decide_eq_true_eq, hhd]
    rw [← List.append_assoc]
    exact podcast_prefix_infix _ _ |>.trans (List.suffix_append _ _).isInfix

/-! ### A feed without channel in create-lightning-style-playlist.js -/

/-- Claim C23 fails on the code: for every fetched feed without `channel`
element, the run of create-lightning-style-playlist.js reports the error and
writes no playlist file, as the claim says, but the `catch` block of line 111
only logs: the process ends with exit status 0. -/
theorem C23_missing_channel_exits_zero (now : String) (nowMs : Int) (xmlDoc : Document)
    (h : xmlDoc.getElementsByTagName "channel" = []) :
    createLightningStylePlaylist now nowMs (Reply.ok xmlDoc)
      = { reported := true, written := none, exitCode := 0 }
    ∧ createLightningStyleTracks now xmlDoc = none := by
  simp [createLightningStylePlaylist, createLightningStyleTracks, h]

theorem C23_witness :
    noChannelFeed.getElementsByTagName "channel" = []
    ∧ createLightningStylePlaylist "now" 0 (Reply.ok noChannelFeed)
      = { reported := true, written := none, exitCode := 0 }
    ∧ createLightningStyleTracks "now" noChannelFeed = none :=
  ⟨rfl, C23_missing_channel_exits_zero "now" 0 noChannelFeed rfl⟩

/-! ### The command line of create-generic-minimal-playlist.js -/

theorem takesValue_cases (arg : String) (h : takesValue arg = true) :
    arg = "--feed" ∨ arg = "-f" ∨ arg = "--output" ∨ arg = "-o" ∨ arg = "--title"
      ∨ arg = "-t" ∨ arg = "--description" ∨ arg = "-d" ∨ arg = "--link" ∨ arg = "-l"
      ∨ arg = "--image" ∨ arg = "-i" ∨ arg = "--guid" ∨ arg = "-g" := by
  simp only [takesValue, List.contains_iff_exists_mem_beq] at h
  obtain ⟨x, hx, hxe⟩ := h
  have : arg = x := by simpa using hxe
  subst this
  simpa using hx

theorem not_takesValue (arg : String) (h : takesValue arg = false) :
    ¬ (arg = "--feed" ∨ arg = "-f") ∧ ¬ (arg = "--output" ∨ arg = "-o")
      ∧ ¬ (arg = "--title" ∨ arg = "-t") ∧ ¬ (arg = "--description" ∨ arg = "-d")
      ∧ ¬ (arg = "--link" ∨ arg = "-l") ∧ ¬ (arg = "--image" ∨ arg = "-i")
      ∧ ¬ (arg = "--guid" ∨ arg = "-g") := by
  simp only [takesValue, List.contains_eq_any_beq, List.any_cons, List.any_nil,
    Bool.or_false, Bool.or_eq_false_iff, beq_eq_false_iff_ne, ne_eq] at h
  simp only [not_or]
  tauto

theorem parseArgumentsFrom_none_iff :
    ∀ (n : Nat) (args : List String), args.length ≤ n → ∀ options : CliOptions,
      (parseArgumentsFrom args options = none
        ↔ ∃ a ∈ optionArguments args, isHelpOption a = true) := by
  intro n
  induction n with
  | zero =>
      intro args h options
      have : args = [] := List.length_eq_zero.mp (Nat.le_zero.mp h)
      subst this
      simp [parseArgumentsFrom, optionArguments]
  | succ n ih =>
      intro args h options
      match args, h with
      | [], _ => simp [parseArgumentsFrom, optionArguments]
      | [arg], _ =>
          by_cases ht : takesValue arg = true
          · rcases takesValue_cases arg ht with
              h | h | h | h | h | h | h | h | h | h | h | h | h | h <;>
              (subst h; simp [parseArgumentsFrom, optionArguments, isHelpOption])
          · have ht' : takesValue arg = false := by simpa using ht
            obtain ⟨f1, f2, f3, f4, f5, f6, f7⟩ := not_takesValue arg ht'
            simp only [parseArgumentsFrom, if_neg f1, if_neg f2, if_neg f3, if_neg f4, if_neg f5,
              if_neg f6, if_neg f7, optionArguments, List.mem_singleton, exists_eq_left]
            by_cases hh : arg = "--help" ∨ arg = "-h"
            · have : isHelpOption arg = true := by
                simpa [isHelpOption] using hh
              simp [hh, this]
            · have : isHelpOption arg = false := by
                simp only [isHelpOption, Bool.or_eq_false_iff, beq_eq_false_iff_ne, ne_eq]
                exact not_or.mp hh
              simp [hh, this]
      | arg :: value :: rest, h =>
          have hr : rest.length ≤ n := by simp at h; omega
          have hv : (value :: rest).length ≤ n := by simp at h ⊢; omega
          by_cases ht : takesValue arg = true
          · rcases takesValue_cases arg ht with
              h | h | h | h | h | h | h | h | h | h | h | h | h | h <;>
              (subst h
               simp only [parseArgumentsFrom, optionArguments, takesValue]
               simp [isHelpOption]
               have key := ih rest hr
               simp only [isHelpOption, Bool.or_eq_true, beq_iff_eq] at key
               exact key _)
          · have ht' : takesValue arg = false := by simpa using ht
            have hopt : optionArguments (arg :: value :: rest)
                = arg :: optionArguments (value :: rest) := by
              simp [optionArguments, ht']
            obtain ⟨f1, f2, f3, f4, f5, f6, f7⟩ := not_takesValue arg ht'
            rw [hopt]
            simp only [parseArgumentsFrom, if_neg f1, if_neg f2, if_neg f3, if_neg f4, if_neg f5,
              if_neg f6, if_neg f7, List.mem_cons, exists_eq_or_imp]
            by_cases hh : arg = "--help" ∨ arg = "-h"
            · have : isHelpOption arg = true := by
                simpa [isHelpOption] using hh
              simp [hh, this]
            · have : isHelpOption arg = false := by
                simp only [isHelpOption, Bool.or_eq_false_iff, beq_eq_false_iff_ne, ne_eq]
                exact not_or.mp hh
              simp only [if_neg hh, this, Bool.false_eq_true, false_or]
              exact ih _ hv _

theorem parseArgumentsFrom_some :
    ∀ (n : Nat) (args : List String), args.length ≤ n → ∀ options result : CliOptions,
      parseArgumentsFrom args options = some result →
        (result.feedUrl = .null
          ↔ options.feedUrl = .null ∧ ∀ a ∈ optionArguments args, isFeedOption a = false)
        ∧ ((∀ a ∈ optionArguments args, isOutputOption a = false) →
            result.outputFile = options.outputFile) := by
  intro n
  induction n with
  | zero =>
      intro args h options result e
      have : args = [] := List.length_eq_zero.mp (Nat.le_zero.mp h)
      subst this
      simp only [parseArgumentsFrom, Option.some.injEq] at e
      subst e
      simp [optionArguments]
  | succ n ih =>
      intro args h options result e
      match args, h with
      | [], _ =>
          simp only [parseArgumentsFrom, Option.some.injEq] at e
          subst e
          simp [optionArguments]
      | [arg], _ =>
          by_cases ht : takesValue arg = true
          · rcases takesValue_cases arg ht with
              h | h | h | h | h | h | h | h | h | h | h | h | h | h <;>
              (subst h
               simp [parseArgumentsFrom] at e
               subst e
               simp [optionArguments, isFeedOption, isOutputOption])
          · have ht' : takesValue arg = false := by simpa using ht
            obtain ⟨f1, f2, f3, f4, f5, f6, f7⟩ := not_takesValue arg ht'
            simp only [parseArgumentsFrom, if_neg f1, if_neg f2, if_neg f3, if_neg f4, if_neg f5,
              if_neg f6, if_neg f7] at e
            split at e
            · cases e
            · cases e
              have hf : isFeedOption arg = false := by
                simp only [isFeedOption, Bool.or_eq_false_iff, beq_eq_false_iff_ne, ne_eq]
                exact not_or.mp f1
              simp [optionArguments, hf]
      | arg :: value :: rest, h =>
          have hr : rest.length ≤ n := by simp at h; omega
          have hv : (value :: rest).length ≤ n := by simp at h ⊢; omega
          by_cases ht : takesValue arg = true
          · rcases takesValue_cases arg ht with
              h | h | h | h | h | h | h | h | h | h | h | h | h | h <;>
              (subst h
               simp only [parseArgumentsFrom] at e
               simp at e
               obtain ⟨k1, k2⟩ := ih rest hr _ _ e
               simp [optionArguments, takesValue, isFeedOption, isOutputOption] at k1 k2 ⊢
               first
                 | exact ⟨k1, k2⟩
                 | exact k1)
          · have ht' : takesValue arg = false := by simpa using ht
            have hopt : optionArguments (arg :: value :: rest)
                = arg :: optionArguments (value :: rest) := by
              simp [optionArguments, ht']
            obtain ⟨f1, f2, f3, f4, f5, f6, f7⟩ := not_takesValue arg ht'
            simp only [parseArgumentsFrom, if_neg f1, if_neg f2, if_neg f3, if_neg f4, if_neg f5,
              if_neg f6, if_neg f7] at e
            split at e
            · cases e
            · obtain ⟨k1, k2⟩ := ih _ hv _ _ e
              have hf : isFeedOption arg = false := by
                simp only [isFeedOption, Bool.or_eq_false_iff, beq_eq_false_iff_ne, ne_eq]
                exact not_or.mp f1
              rw [hopt]
              refine ⟨?_, ?_⟩
              · rw [k1]
                simp [hf]
              · intro hall
                exact k2 (fun a ha => hall a (List.mem_cons_of_mem _ ha))

/-- Claim C22, amended. `--help` or `-h` makes the script print the usage
text and exit with status 0 exactly when it stands in option position, that
is, when it is not taken as the value of the option before it. Otherwise:
without `--feed` / `-f` in option position (in particular without arguments)
the script prints the usage text and exits with status 1; with it but without
`--output` / `-o` in option position, the script writes an error message
that names the missing option and `--help`, and exits with status 1. -/
theorem C22_command_line (args : List String) :
    (genericMinimalMain args = .exit .usage 0
      ↔ ∃ a ∈ optionArguments args, isHelpOption a = true)
    ∧ ((∀ a ∈ optionArguments args, isHelpOption a = false) →
        (∀ a ∈ optionArguments args, isFeedOption a = false) →
        genericMinimalMain args = .exit .usage 1)
    ∧ ((∀ a ∈ optionArguments args, isHelpOption a = false) →
        (∃ a ∈ optionArguments args, isFeedOption a = true) →
        (∀ a ∈ optionArguments args, isOutputOption a = false) →
        genericMinimalMain args
            = .exit (.error "Feed URL is required. Use --feed <url> or --help for usage.") 1
          ∨ genericMinimalMain args
            = .exit (.error
                "Output filename is required. Use --output <filename> or --help for usage.") 1)
    := by
  have hnone := parseArgumentsFrom_none_iff args.length args (Nat.le_refl _) CliOptions.initial
  have hnohelp : (∀ a ∈ optionArguments args, isHelpOption a = false) →
      ∃ options, parseArguments args = some options := by
    intro h
    cases hp : parseArguments args with
    | some o => exact ⟨o, rfl⟩
    | none =>
        obtain ⟨a, ha, hh⟩ := hnone.mp hp
        rw [h a ha] at hh
        cases hh
  refine ⟨?_, ?_, ?_⟩
  · constructor
    · intro h
      cases hp : parseArguments args with
      | none => exact hnone.mp hp
      | some o =>
          unfold genericMinimalMain at h
          rw [hp] at h
          simp only [] at h
          split at h
          · cases h
          · split at h
            · cases h
            · split at h <;> cases h
    · intro h
      have hp : parseArguments args = none := hnone.mpr h
      unfold genericMinimalMain
      rw [hp]
  · intro hh hf
    obtain ⟨o, ho⟩ := hnohelp hh
    obtain ⟨k1, _⟩ := parseArgumentsFrom_some args.length args (Nat.le_refl _) _ _ ho
    have hnull : o.feedUrl = .null := k1.mpr ⟨rfl, hf⟩
    unfold genericMinimalMain
    rw [ho]
    simp [hnull]
  · intro hh hf ho'
    obtain ⟨o, ho⟩ := hnohelp hh
    obtain ⟨k1, k2⟩ := parseArgumentsFrom_some args.length args (Nat.le_refl _) _ _ ho
    have hnn : o.feedUrl ≠ .null := by
      intro hnull
      obtain ⟨a, ha, hfa⟩ := hf
      have := (k1.mp hnull).2 a ha
      rw [this] at hfa
      cases hfa
    have hout : o.outputFile = .null := k2 ho'
    have hlen : args.length ≠ 0 := by
      intro h0
      have : args = [] := List.length_eq_zero.mp h0
      subst this
      obtain ⟨a, ha, _⟩ := hf
      simp [optionArguments] at ha
    unfold genericMinimalMain
    rw [ho]
    simp only [hlen, hnn, false_or, if_false]
    by_cases ht : o.feedUrl.truthy = true
    · right
      have hot : o.outputFile.truthy = false := by rw [hout]; rfl
      simp [ht, hot]
    · left
      simp [ht]

theorem C22_witness :
    genericMinimalMain ["-f", "http://x.example/feed.xml", "-h"] = .exit .usage 0
    ∧ genericMinimalMain ["--output", "a.xml"] = .exit .usage 1
    ∧ genericMinimalMain ["--feed", "http://x.example/feed.xml"]
        = .exit (.error
            "Output filename is required. Use --output <filename> or --help for usage.") 1 :=
  ⟨(C22_command_line ["-f", "http://x.example/feed.xml", "-h"]).1.mpr ⟨"-h", by decide⟩,
    (C22_command_line ["--output", "a.xml"]).2.1 (by decide) (by decide),
    by decide⟩

/-- Claim C22 as stated fails: `-h` occurs among the arguments, as the value
of `--output`, and the script goes on to fetch the feed; `--help` occurs as
the value of `--feed`, and the script exits with status 1 after an error
message, without the usage text. -/
theorem C22_counterexample :
    "-h" ∈ ["--feed", "http://x.example/feed.xml", "--output", "-h"]
    ∧ genericMinimalMain ["--feed", "http://x.example/feed.xml", "--output", "-h"]
        = .fetches { CliOptions.initial with
            feedUrl := .string "http://x.example/feed.xml", outputFile := .string "-h" }
    ∧ "--help" ∈ ["--feed", "--help"]
    ∧ genericMinimalMain ["--feed", "--help"]
        = .exit (.error
            "Output filename is required. Use --output <filename> or --help for usage.") 1 := by
  decide

/-! ### The entries kept by resolve-remote-feeds.js -/

theorem resolveRemoteFeed_key (w : RemoteWorld) (log : List RemoteRequest)
    (fg ig : Option String) :
    (resolveRemoteFeed w log fg ig).1.feedGuid = fg
    ∧ (resolveRemoteFeed w log fg ig).1.itemGuid = ig := by
  unfold resolveRemoteFeed
  simp only []
  split
  · exact ⟨rfl, rfl⟩
  · split <;> exact ⟨rfl, rfl⟩

theorem remoteLoop_keys (w : RemoteWorld) (seed : List FeedEntry) :
    ∀ (processed : List String) (results : List FeedEntry) (log : List RemoteRequest),
      (remoteLoop w seed processed results log).1.map entryKey
        = results.map entryKey ++ freshKeys processed (seed.map entryKey) := by
  induction seed with
  | nil => intro processed results log; simp [remoteLoop, freshKeys]
  | cons item rest ih =>
      intro processed results log
      rw [remoteLoop]
      simp only [List.map_cons, freshKeys]
      split
      · exact ih _ _ _
      · split
        · rw [ih]
          have hk := resolveRemoteFeed_key w log item.feedGuid item.itemGuid
          simp [entryKey, hk.1, hk.2]
        · rw [ih]
          simp

theorem freshKeys_mem :
    ∀ (keys processed : List String) (k : String),
      k ∈ freshKeys processed keys ↔ k ∈ keys ∧ k ∉ processed := by
  intro keys
  induction keys with
  | nil => intro processed k; simp [freshKeys]
  | cons key rest ih =>
      intro processed k
      unfold freshKeys
      by_cases hc : processed.contains key = true
      · have hm : key ∈ processed := List.elem_iff.mp hc
        rw [if_pos hc, ih]
        constructor
        · rintro ⟨h1, h2⟩; exact ⟨List.mem_cons_of_mem _ h1, h2⟩
        · rintro ⟨h1, h2⟩
          rcases List.mem_cons.mp h1 with h | h
          · subst h; exact absurd hm h2
          · exact ⟨h, h2⟩
      · have hm : key ∉ processed := fun h => hc (List.elem_iff.mpr h)
        rw [if_neg hc, List.mem_cons, ih]
        constructor
        · rintro (h | ⟨h1, h2⟩)
          · subst h; exact ⟨List.mem_cons_self _ _, hm⟩
          · exact ⟨List.mem_cons_of_mem _ h1, fun h => h2 (List.mem_cons_of_mem _ h)⟩
        · rintro ⟨h1, h2⟩
          by_cases hk : k = key
          · exact Or.inl hk
          · right
            rcases List.mem_cons.mp h1 with h | h
            · exact absurd h hk
            · exact ⟨h, fun h' => by
                rcases List.mem_cons.mp h' with h'' | h''
                · exact hk h''
                · exact h2 h''⟩

theorem freshKeys_nodup :
    ∀ (keys processed : List String), (freshKeys processed keys).Nodup := by
  intro keys
  induction keys with
  | nil => intro processed; simp [freshKeys]
  | cons key rest ih =>
      intro processed
      unfold freshKeys
      split
      · exact ih _
      · refine List.nodup_cons.mpr ⟨?_, ih _⟩
        intro h
        exact ((freshKeys_mem rest (key :: processed) key).mp h).2 (List.mem_cons_self _ _)

/-- What `main` of resolve-remote-feeds.js keeps: the texts `feedGuid-itemGuid`
of the output are those of the seed, each once, in the order of their first
occurrence. -/
theorem remoteMain_keys (w : RemoteWorld) (existingData : List FeedEntry) :
    (remoteMain w existingData).1.map entryKey = freshKeys [] (existingData.map entryKey)
    ∧ ((remoteMain w existingData).1.map entryKey).Nodup
    ∧ ∀ k, k ∈ (remoteMain w existingData).1.map entryKey ↔ k ∈ existingData.map entryKey := by
  have h : (remoteMain w existingData).1.map entryKey
      = freshKeys [] (existingData.map entryKey) := by
    simpa [remoteMain] using remoteLoop_keys w existingData [] [] []
  refine ⟨h, by rw [h]; exact freshKeys_nodup _ _, fun k => ?_⟩
  rw [h, freshKeys_mem]
  simp

/-- Claim C28 fails on the code: `main` of resolve-remote-feeds.js drops a
seed entry when an earlier entry has the same text `feedGuid-itemGuid`, also
when the two references differ. Of the unresolved entries (`a-b`, `c`) and
(`a`, `b-c`) only the first is in the output and only its feed is looked up;
of an entry whose feed GUID is `null` and an entry whose feed GUID is the
text `null`, both with item GUID `x`, only the first is in the output. -/
theorem C28_distinct_references_with_one_key :
    (collidingUnresolvedSeed.map (fun item => (item.feedGuid, item.itemGuid))).Nodup
    ∧ remoteMain notFoundWorld collidingUnresolvedSeed
        = ([seedEntry "a-b" "c"], [RemoteRequest.podcastsByGuid (some "a-b")])
    ∧ (nullSeed.map (fun item => (item.feedGuid, item.itemGuid))).Nodup
    ∧ remoteMain notFoundWorld nullSeed
        = ([{ titledEntry "" "x" "One" with feedGuid := none }], []) := by
  decide

/-! ### The item guids of the lightning playlist -/

theorem digitChar_value : ∀ k < 10, (Nat.digitChar k).toNat - 48 = k := by decide

theorem digitChar_not_hyphen : ∀ k < 10, Nat.digitChar k ≠ '-' := by decide

theorem toDigitsCore_value :
    ∀ (fuel n : Nat) (ds : List Char), n < fuel →
      (Nat.toDigitsCore 10 fuel n ds).foldl (fun value c => value * 10 + (c.toNat - 48)) 0
        = ds.foldl (fun value c => value * 10 + (c.toNat - 48)) n := by
  intro fuel
  induction fuel with
  | zero => intro n ds h; omega
  | succ fuel ih =>
      intro n ds h
      have hd := digitChar_value (n % 10) (Nat.mod_lt _ (by decide))
      unfold Nat.toDigitsCore
      simp only []
      split
      · next h0 =>
          simp only [List.foldl_cons, Nat.zero_mul, Nat.zero_add, hd]
          have : n % 10 = n := by omega
          rw [this]
      · next h0 =>
          have hlt : n / 10 < fuel := by omega
          rw [ih (n / 10) _ hlt, List.foldl_cons, hd]
          have : n / 10 * 10 + n % 10 = n := by omega
          rw [this]

theorem toDigitsCore_no_hyphen :
    ∀ (fuel n : Nat) (ds : List Char), '-' ∉ ds → '-' ∉ Nat.toDigitsCore 10 fuel n ds := by
  intro fuel
  induction fuel with
  | zero => intro n ds h; simpa [Nat.toDigitsCore] using h
  | succ fuel ih =>
      intro n ds h
      have hd := digitChar_not_hyphen (n % 10) (Nat.mod_lt _ (by decide))
      have h' : '-' ∉ Nat.digitChar (n % 10) :: ds := by
        intro hm
        rcases List.mem_cons.mp hm with e | e
        · exact hd e.symm
        · exact h e
      unfold Nat.toDigitsCore
      simp only []
      split
      · exact h'
      · exact ih _ _ h'

theorem decimalValue_toString (n : Nat) : decimalValue (toString n).data = n := by
  show decimalValue (Nat.toDigits 10 n) = n
  unfold decimalValue Nat.toDigits
  rw [toDigitsCore_value (n + 1) n [] (Nat.lt_succ_self n)]
  rfl

theorem toString_no_hyphen (n : Nat) : '-' ∉ (toString n).data :=
  toDigitsCore_no_hyphen (n + 1) n [] (by simp)

/-- The text after the last hyphen. -/
theorem after_last_hyphen (p q d e : List Char) (hd : '-' ∉ d) (he : '-' ∉ e)
    (h : p ++ '-' :: d = q ++ '-' :: e) : d = e := by
  have hr := congrArg List.reverse h
  simp only [List.reverse_append, List.reverse_cons, List.append_assoc, List.singleton_append]
    at hr
  have hp : (fun c : Char => c != '-') '-' = false := by simp
  have hne : ∀ (l : List Char), '-' ∉ l → ∀ x ∈ l.reverse, (x != '-') = true := by
    intro l hl x hx
    have hx' : x ∈ l := List.mem_reverse.mp hx
    have : x ≠ '-' := fun e => hl (e ▸ hx')
    simpa using this
  have h1 := (takeWhile_append_stop (fun c => c != '-') '-' p.reverse hp d.reverse
    (hne d hd)).1
  have h2 := (takeWhile_append_stop (fun c => c != '-') '-' q.reverse hp e.reverse
    (hne e he)).1
  rw [hr, h2] at h1
  exact List.reverse_injective h1.symm

theorem lightningGuid_trackNumber (a b : MusicTrack) (h : lightningGuid a = lightningGuid b) :
    a.trackNumber = b.trackNumber := by
  have hd := congrArg String.data h
  simp only [lightningGuid, String.data_append] at hd
  simp only [List.append_assoc, List.singleton_append] at hd
  rw [← List.append_assoc, ← List.append_assoc] at hd
  have := after_last_hyphen _ _ _ _ (toString_no_hyphen a.trackNumber)
    (toString_no_hyphen b.trackNumber) hd
  have hv := congrArg decimalValue this
  rwa [decimalValue_toString, decimalValue_toString] at hv

theorem lightningLoop_numbers (now originalLink : String)
    (items : List (XmlNode × List XmlNode)) :
    ∀ (k : Nat) (acc : List MusicTrack),
      ∃ m, (lightningLoop now originalLink items k acc).map MusicTrack.trackNumber
        = acc.map MusicTrack.trackNumber ++ List.range' k m := by
  induction items with
  | nil => intro k acc; exact ⟨0, by simp [lightningLoop]⟩
  | cons p rest ih =>
      intro k acc
      obtain ⟨ri, anc⟩ := p
      unfold lightningLoop
      simp only []
      have step : ∀ t : MusicTrack, t.trackNumber = k →
          ∃ m, (lightningLoop now originalLink rest (k + 1) (acc ++ [t])).map
              MusicTrack.trackNumber
            = acc.map MusicTrack.trackNumber ++ List.range' k m := by
        intro t ht
        obtain ⟨m, hm⟩ := ih (k + 1) (acc ++ [t])
        refine ⟨m + 1, ?_⟩
        rw [hm, List.map_append, List.map_singleton, ht, List.append_assoc]
        rfl
      split
      · split
        · exact ih k acc
        · split
          · exact step _ rfl
          · exact step _ rfl
      · exact step _ rfl

/-- The extractor numbers the tracks 1, 2, ..., n. -/
theorem extractLightningTracks_numbers (now originalLink : String) (xmlDoc : Document) :
    (extractLightningTracks now originalLink xmlDoc).map MusicTrack.trackNumber
      = List.range' 1 (extractLightningTracks now originalLink xmlDoc).length := by
  obtain ⟨m, hm⟩ := lightningLoop_numbers now originalLink
    (xmlDoc.elementsByTagName "podcast:remoteItem") 1 []
  have hlen := congrArg List.length hm
  simp only [List.length_map, List.map_nil, List.nil_append, List.length_range'] at hlen
  unfold extractLightningTracks
  rw [hm, hlen]
  rfl

theorem lightningGuid_written (track : MusicTrack) :
    ∃ before after, lightningRSSItem track
      = before ++ "      <guid isPermaLink=\"false\">" ++ lightningGuid track ++ "</guid>\n"
        ++ after := by
  refine ⟨"\n    <item>\n" ++
      "      <title>" ++ escapeXML (some ("Track " ++ toString track.trackNumber ++
        ": Music Reference (Episode: " ++ track.episodeTitle ++ ")")) ++ "</title>\n" ++
      "      <description>" ++ escapeXML (some ("Music track referenced in episode \"" ++
        track.episodeTitle ++ "\". Feed GUID: " ++ interpolate track.feedGuid ++
        ", Item GUID: " ++ interpolate track.itemGuid)) ++ "</description>\n" ++
      "      <link>" ++ escapeXML (some track.episodeLink) ++ "</link>\n",
    "      <pubDate>" ++ track.episodePubDate ++ "</pubDate>\n" ++
      "      <itunes:duration>00:00:00</itunes:duration>\n" ++
      "      <itunes:episodeType>full</itunes:episodeType>\n" ++
      "      " ++ lightningRemoteItem track ++ "\n    </item>", ?_⟩
  apply String.ext
  simp only [lightningRSSItem, lightningRSSItemOpening, lightningGuid, String.data_append,
    List.append_assoc]

/-- Claim C29: for every track list whose track numbers are pairwise
distinct, the texts `feedGuid-(itemGuid or 'feed')-trackNumber` of the guid
elements written by `generateLightningStyleRSS` are pairwise distinct,
whatever the feed GUIDs and item GUIDs are; each item written holds the guid
element with that text. -/
theorem C29_item_guids_distinct (musicTracks : List MusicTrack)
    (h : (musicTracks.map MusicTrack.trackNumber).Nodup) :
    (musicTracks.map lightningGuid).Nodup
    ∧ ∀ track ∈ musicTracks, ∃ before after, lightningRSSItem track
        = before ++ "      <guid isPermaLink=\"false\">" ++ lightningGuid track ++ "</guid>\n"
          ++ after := by
  refine ⟨?_, fun track _ => lightningGuid_written track⟩
  have hnd : musicTracks.Nodup := List.Nodup.of_map _ h
  refine List.Nodup.map_on ?_ hnd
  intro a ha b hb hab
  exact List.inj_on_of_nodup_map h ha hb (lightningGuid_trackNumber a b hab)

theorem C29_witness :
    (repeatedTracks.map MusicTrack.trackNumber).Nodup
    ∧ repeatedTracks.map lightningGuid = ["a-1-b-1", "a-1-b-12", "a-1-b-2"]
    ∧ (repeatedTracks.map lightningGuid).Nodup :=
  ⟨by decide, by decide, (C29_item_guids_distinct repeatedTracks (by decide)).1⟩

/-- The guids written for the tracks that the extractor returns are pairwise
distinct. -/
theorem extracted_guids_distinct (now originalLink : String) (xmlDoc : Document) :
    ((extractLightningTracks now originalLink xmlDoc).map lightningGuid).Nodup := by
  have hn := extractLightningTracks_numbers now originalLink xmlDoc
  have hnd : ((extractLightningTracks now originalLink xmlDoc).map
      MusicTrack.trackNumber).Nodup := by
    rw [hn]; exact List.nodup_range' _ _
  have hnd' := List.Nodup.of_map _ hnd
  refine List.Nodup.map_on ?_ hnd'
  intro a ha b hb hab
  exact List.inj_on_of_nodup_map hnd ha hb (lightningGuid_trackNumber a b hab)

/-! ### The title pattern of `fetchPageTitle`, in words -/

theorem isPrefixIgnoreCase_iff (p l : List Char) :
    isPrefixIgnoreCase p l = true ↔ ∃ a b, l = a ++ b ∧ a.map Char.toLower = p := by
  unfold isPrefixIgnoreCase
  rw [List.isPrefixOf_iff_prefix]
  constructor
  · intro h
    refine ⟨l.take p.length, l.drop p.length, (List.take_append_drop _ _).symm, ?_⟩
    have hlen : ((l.take p.length).map Char.toLower).length ≤ p.length := by
      simp [List.length_take]
    exact (List.IsPrefix.eq_of_length_le h hlen).symm
  · rintro ⟨a, b, rfl, rfl⟩
    simp

theorem isPrefixIgnoreCase_take (p l : List Char) :
    isPrefixIgnoreCase p l = true ↔ (l.take p.length).map Char.toLower = p := by
  rw [isPrefixIgnoreCase_iff]
  constructor
  · rintro ⟨a, b, rfl, rfl⟩
    simp
  · intro h
    exact ⟨l.take p.length, l.drop p.length, (List.take_append_drop _ _).symm, h⟩

theorem isHttpUrl_iff (s : String) : isHttpUrl s = true ↔ HttpUrlShaped s := by
  unfold isHttpUrl HttpUrlShaped
  rw [Bool.or_eq_true, isPrefixIgnoreCase_take, isPrefixIgnoreCase_take]
  rfl

theorem takeWhile_dropWhile_split (p : Char → Bool) (l : List Char) (c : Char)
    (rest : List Char) (h : l.dropWhile p = c :: rest) :
    l = l.takeWhile p ++ c :: rest ∧ p c = false ∧ ∀ x ∈ l.takeWhile p, p x = true := by
  refine ⟨?_, ?_, fun x hx => List.mem_takeWhile_imp hx⟩
  · rw [← h]; exact (List.takeWhile_append_dropWhile p l).symm
  · have := List.head_dropWhile_not p l (by rw [h]; simp)
    simpa [h] using this

theorem toLower_eq_lt (c : Char) (h : c.toLower = '<') : c = '<' := by
  have key : ∀ n < 91, 65 ≤ n → Char.ofNat (n + 32) ≠ '<' := by decide
  unfold Char.toLower at h
  simp only [] at h
  split at h
  · next hr => exact absurd h (key c.toNat (by omega) hr.1)
  · exact h

theorem titleAfterOpen_iff (l text : List Char) :
    titleAfterOpen l = some text
      ↔ ∃ attrs closing after, l = attrs ++ '>' :: (text ++ (closing ++ after))
          ∧ '>' ∉ attrs ∧ text ≠ [] ∧ '<' ∉ text
          ∧ closing.map Char.toLower = "</title>".data := by
  constructor
  · intro h
    unfold titleAfterOpen at h
    split at h
    · cases h
    · next c afterGt hd =>
        simp only [] at h
        split at h
        · next hcond =>
            cases h
            obtain ⟨hne, hclose⟩ := hcond
            obtain ⟨hl, hc, hattrs⟩ := takeWhile_dropWhile_split _ l c afterGt hd
            have hc' : c = '>' := by simpa using hc
            subst hc'
            obtain ⟨closing, after, hrest, hcl⟩ := (isPrefixIgnoreCase_iff _ _).mp hclose
            refine ⟨l.takeWhile (fun c => c != '>'), closing, after, ?_, ?_, hne, ?_, hcl⟩
            · rw [← hrest, List.takeWhile_append_dropWhile]
              exact hl
            · intro hm
              have := hattrs _ hm
              simp at this
            · intro hm
              have := List.mem_takeWhile_imp hm
              simp at this
        · cases h
  · rintro ⟨attrs, closing, after, rfl, hattrs, hne, htext, hcl⟩
    have hgt : (fun c : Char => c != '>') '>' = false := by simp
    obtain ⟨_, hd⟩ := takeWhile_append_stop (fun c => c != '>') '>'
      (text ++ (closing ++ after)) hgt attrs
      (fun x hx => by
        have : x ≠ '>' := fun e => hattrs (e ▸ hx)
        simpa using this)
    obtain ⟨c0, crest, hc0⟩ : ∃ c0 crest, closing = c0 :: crest := by
      cases closing with
      | nil => simp at hcl
      | cons a b => exact ⟨a, b, rfl⟩
    have hc0lt : c0 = '<' := by
      rw [hc0] at hcl
      have h0 : Char.toLower c0 = '<' := by
        have := congrArg List.head? hcl
        simpa using this
      exact toLower_eq_lt c0 h0
    subst hc0lt
    have hlt : (fun c : Char => c != '<') '<' = false := by simp
    obtain ⟨ht, hdr⟩ := takeWhile_append_stop (fun c => c != '<') '<' (crest ++ after) hlt text
      (fun x hx => by
        have : x ≠ '<' := fun e => htext (e ▸ hx)
        simpa using this)
    have hshape : text ++ (closing ++ after) = text ++ '<' :: (crest ++ after) := by
      rw [hc0]; rfl
    unfold titleAfterOpen
    rw [hd]
    simp only []
    rw [hshape, ht, hdr]
    have hclose : isPrefixIgnoreCase "</title>".data ('<' :: (crest ++ after)) = true :=
      (isPrefixIgnoreCase_iff _ _).mpr ⟨closing, after, by rw [hc0]; rfl, hcl⟩
    simp [hne, hclose]

theorem titleAt_iff (l text : List Char) :
    titleAt l = some text ↔ TitleElementAt l text := by
  unfold titleAt TitleElementAt
  constructor
  · intro h
    split at h
    · next hp =>
        obtain ⟨tagName, b, hl, htag⟩ := (isPrefixIgnoreCase_iff _ _).mp hp
        have hlen : tagName.length = 6 := by
          have := congrArg List.length htag
          simpa using this
        have hdrop : l.drop 6 = b := by
          rw [hl, ← hlen]; simp
        rw [hdrop] at h
        obtain ⟨attrs, closing, after, hb, h1, h2, h3, h4⟩ := (titleAfterOpen_iff _ _).mp h
        exact ⟨tagName, attrs, closing, after, by rw [hl, hb], htag, h1, h2, h3, h4⟩
    · cases h
  · rintro ⟨tagName, attrs, closing, after, hl, htag, h1, h2, h3, h4⟩
    have hp : isPrefixIgnoreCase "<title".data l = true :=
      (isPrefixIgnoreCase_iff _ _).mpr ⟨tagName, _, hl, htag⟩
    have hlen : tagName.length = 6 := by
      have := congrArg List.length htag
      simpa using this
    have hdrop : l.drop 6 = attrs ++ '>' :: (text ++ (closing ++ after)) := by
      rw [hl, ← hlen]; simp
    rw [if_pos hp, hdrop]
    exact (titleAfterOpen_iff _ _).mpr ⟨attrs, closing, after, rfl, h1, h2, h3, h4⟩

theorem titleAt_nil : titleAt [] = none := by decide

theorem matchTitle_cons (c : Char) (rest : List Char) :
    matchTitle (c :: rest)
      = match titleAt (c :: rest) with
        | some captured => some captured
        | none => matchTitle rest := by
  rw [matchTitle]
  unfold titleAt
  split
  · rfl
  · rfl

/-- The call `html.match(...)` of `fetchPageTitle` captures the text of the
first title element of the page, and gives no match exactly when the page has
no title element with a text. -/
theorem matchTitle_spec (html : List Char) :
    (∀ text, matchTitle html = some text ↔ FirstTitleElement html text)
    ∧ (matchTitle html = none ↔ NoTitleElement html) := by
  induction html with
  | nil =>
      have hno : ∀ k t, ¬ TitleElementAt (([] : List Char).drop k) t := by
        intro k t h
        have := (titleAt_iff _ _).mpr h
        simp [titleAt_nil] at this
      refine ⟨fun text => ?_, ?_⟩
      · simp only [matchTitle]
        constructor
        · intro h; cases h
        · rintro ⟨k, hk, _⟩
          exact absurd hk (hno k text)
      · simp only [matchTitle, true_iff]
        exact hno
  | cons c rest ih =>
      obtain ⟨ih1, ih2⟩ := ih
      rw [matchTitle_cons]
      cases hta : titleAt (c :: rest) with
      | some t =>
          have hat : TitleElementAt (c :: rest) t := (titleAt_iff _ _).mp hta
          refine ⟨fun text => ?_, ?_⟩
          · simp only [Option.some.injEq]
            constructor
            · intro h
              subst h
              exact ⟨0, hat, fun j hj => absurd hj (Nat.not_lt_zero _)⟩
            · rintro ⟨k, hk, hfirst⟩
              cases k with
              | zero =>
                  have := (titleAt_iff _ _).mpr hk
                  rw [List.drop_zero, hta] at this
                  exact Option.some.inj this
              | succ k => exact absurd hat (hfirst 0 (Nat.succ_pos _) t)
          · constructor
            · intro h; cases h
            · intro hno
              exact absurd hat (hno 0 t)
      | none =>
          have hnot : ∀ t, ¬ TitleElementAt (c :: rest) t := by
            intro t h
            have := (titleAt_iff _ _).mpr h
            rw [hta] at this
            cases this
          refine ⟨fun text => ?_, ?_⟩
          · simp only []
            rw [ih1]
            constructor
            · rintro ⟨k, hk, hfirst⟩
              refine ⟨k + 1, hk, fun j hj t => ?_⟩
              cases j with
              | zero => exact hnot t
              | succ j => exact hfirst j (Nat.lt_of_succ_lt_succ hj) t
            · rintro ⟨k, hk, hfirst⟩
              cases k with
              | zero => exact absurd hk (hnot text)
              | succ k =>
                  exact ⟨k, hk, fun j hj t => hfirst (j + 1) (Nat.succ_lt_succ hj) t⟩
          · simp only []
            rw [ih2]
            constructor
            · intro hno k t
              cases k with
              | zero => exact hnot t
              | succ k => exact hno k t
            · intro hno k t
              exact hno (k + 1) t

/-- The title returned by `fetchPageTitle`, in words. -/
theorem fetchPageTitle_spec (w : World) (log : List Request) (url : String) :
    PageTitle (w.page log url) (fetchPageTitle w log url).1 := by
  unfold PageTitle fetchPageTitle
  cases hr : w.page log url with
  | threw => rfl
  | notOk => rfl
  | ok html =>
      obtain ⟨h1, h2⟩ := matchTitle_spec html.data
      simp only []
      cases hm : matchTitle html.data with
      | some captured => exact Or.inl ⟨captured, (h1 captured).mp hm, rfl⟩
      | none => exact Or.inr ⟨h2.mp hm, rfl⟩

/-- Claim C21: in the step of `main` of resolve-itdv-tracks.mjs that fills
the episode cache for an item GUID, the only page fetched is the page at the
item GUID, and it is fetched exactly when the item GUID has no cache entry
yet, the direct episode lookup returned no episode, and the item GUID starts
with `http://` or `https://` in any letter case. The title stored is then the
trimmed text of the first title element of the page whose text is non-empty
and holds no `<`, and `null` when the page has no such element, when the
response is not OK and when the fetch fails; the enclosure URL stored is
`null`. -/
theorem C21_page_title_fallback (w : World) (s s' : ResolverState) (itemGuid : String)
    (e : ensureEpisode w s itemGuid = .ok s') :
    ∃ extra, s'.log = s.log ++ extra
      ∧ (∀ url, Request.page url ∈ extra → url = itemGuid)
      ∧ (Request.page itemGuid ∈ extra
          ↔ s.episodeCache.has itemGuid = false
            ∧ (∀ item rest,
                replyData w (w.episodesByGuid s.log itemGuid) ≠ some (some (item :: rest)))
            ∧ HttpUrlShaped itemGuid)
      ∧ (Request.page itemGuid ∈ extra →
          ∃ before title, extra = before ++ [Request.page itemGuid]
            ∧ PageTitle (w.page (s.log ++ before) itemGuid) title
            ∧ s'.episodeCache.get itemGuid = some { title := title, enclosureUrl := none }) := by
  unfold ensureEpisode at e
  split at e
  · next hhas =>
      cases e
      refine ⟨[], by simp, by simp, ?_, by simp⟩
      simp [hhas]
  · next hhas =>
      have hhas' : s.episodeCache.has itemGuid = false := by simpa using hhas
      split at e
      · cases e
      · next item tl log' hp =>
          cases e
          have hd := piGet_data _ _ _ _ _ _ hp
          rcases piGet_ok _ _ _ _ _ _ hp with ⟨_, hnone, _⟩ | ⟨hl, _⟩
          · cases hnone
          · refine ⟨[Request.episodesByGuid itemGuid], by simp [hl], by simp, ?_, by simp⟩
            simp only [List.mem_singleton, false_iff, not_and]
            constructor
            · intro h; cases h
            · rintro ⟨_, hno, _⟩
              exact absurd hd.symm (hno item tl)
      · next data log' hne hp =>
          have hd := piGet_data _ _ _ _ _ _ hp
          have hno : ∀ item rest,
              replyData w (w.episodesByGuid s.log itemGuid) ≠ some (some (item :: rest)) := by
            intro item rest h
            rw [← hd] at h
            exact hne item rest h
          obtain ⟨before, hbefore, hpre⟩ : ∃ before, log' = s.log ++ before
              ∧ (before = [] ∨ before = [Request.episodesByGuid itemGuid]) := by
            rcases piGet_ok _ _ _ _ _ _ hp with ⟨hl, _, _⟩ | ⟨hl, _⟩
            · exact ⟨[], by simp [hl], Or.inl rfl⟩
            · exact ⟨_, hl, Or.inr rfl⟩
          have hnp : ∀ url, Request.page url ∉ before := by
            intro url hm
            rcases hpre with h | h <;> rw [h] at hm <;> simp at hm
          split at e
          · next hurl =>
              cases e
              refine ⟨before ++ [Request.page itemGuid], ?_, ?_, ?_, ?_⟩
              · simp only [fetchPageTitle_log, hbefore, List.append_assoc]
              · intro url hm
                rcases List.mem_append.mp hm with h | h
                · exact absurd h (hnp url)
                · simpa using h
              · constructor
                · intro _
                  exact ⟨hhas', hno, (isHttpUrl_iff _).mp hurl⟩
                · intro _
                  simp
              · intro _
                refine ⟨before, (fetchPageTitle w log' itemGuid).1, rfl, ?_, ?_⟩
                · rw [← hbefore]
                  exact fetchPageTitle_spec w log' itemGuid
                · exact JsMap.get_set_self _ _ _
          · next hurl =>
              cases e
              refine ⟨before, hbefore, fun url hm => absurd hm (hnp url), ?_,
                fun hm => absurd hm (hnp _)⟩
              constructor
              · intro hm; exact absurd hm (hnp _)
              · rintro ⟨_, _, hshape⟩
                exact absurd ((isHttpUrl_iff _).mpr hshape) hurl

theorem C21_witness :
    ensureEpisode titledPageWorld ResolverState.init "HTTPS://x.example/a" = .ok titledPageState
    ∧ ∃ extra, titledPageState.log = ResolverState.init.log ++ extra
      ∧ (∀ url, Request.page url ∈ extra → url = "HTTPS://x.example/a")
      ∧ (Request.page "HTTPS://x.example/a" ∈ extra
          ↔ ResolverState.init.episodeCache.has "HTTPS://x.example/a" = false
            ∧ (∀ item rest,
                replyData titledPageWorld
                    (titledPageWorld.episodesByGuid ResolverState.init.log "HTTPS://x.example/a")
                  ≠ some (some (item :: rest)))
            ∧ HttpUrlShaped "HTTPS://x.example/a")
      ∧ (Request.page "HTTPS://x.example/a" ∈ extra →
          ∃ before title, extra = before ++ [Request.page "HTTPS://x.example/a"]
            ∧ PageTitle
                (titledPageWorld.page (ResolverState.init.log ++ before) "HTTPS://x.example/a")
                title
            ∧ titledPageState.episodeCache.get "HTTPS://x.example/a"
                = some { title := title, enclosureUrl := none }) :=
  ⟨rfl, C21_page_title_fallback titledPageWorld ResolverState.init titledPageState
    "HTTPS://x.example/a" rfl⟩

/-! ## C27: the summary parser against the ancestor-walk extractor -/

mutual
/-- The elements of a walk do not depend on the ancestor chain it starts
with. -/
theorem walk_nodes (a b : List XmlNode) :
    (n : XmlNode) → (n.walk a).map (fun p => p.1) = (n.walk b).map (fun p => p.1)
  | .text _ => by simp [XmlNode.walk]
  | .element t attrs cs => by
      simp only [XmlNode.walk, List.map_cons, List.cons.injEq, true_and]
      exact walkList_nodes _ _ cs
/-- The elements of a walk over siblings do not depend on the ancestor chain
it starts with. -/
theorem walkList_nodes (a b : List XmlNode) :
    (cs : List XmlNode) →
      (walkList a cs).map (fun p => p.1) = (walkList b cs).map (fun p => p.1)
  | [] => by simp [walkList]
  | c :: cs => by
      simp only [walkList, List.map_append]
      rw [walk_nodes a b c, walkList_nodes a b cs]
end

theorem keptRemoteItems_append (a b : List (XmlNode × List XmlNode)) :
    keptRemoteItems (a ++ b) = keptRemoteItems a ++ keptRemoteItems b := by
  simp [keptRemoteItems]

theorem episodeRemoteItems_append (a b : List (XmlNode × List XmlNode)) :
    episodeRemoteItems (a ++ b) = episodeRemoteItems a ++ episodeRemoteItems b := by
  simp [episodeRemoteItems]

theorem hasTag_item_not_podroll (n : XmlNode) (h : hasTag "item" n = true) :
    hasTag "podcast:podroll" n = false := by
  simp only [hasTag, beq_iff_eq] at h
  simp [hasTag, h]

theorem hasTag_item_not_remoteItem (n : XmlNode) (h : hasTag "item" n = true) :
    hasTag "podcast:remoteItem" n = false := by
  simp only [hasTag, beq_iff_eq] at h
  simp [hasTag, h]

theorem any_item_of_nearestScope (ancestors : List XmlNode) (i : XmlNode)
    (hs : nearestScope ancestors = some i) (hi : hasTag "item" i = true) :
    ancestors.any (hasTag "item") = true :=
  List.any_eq_true.mpr ⟨i, List.mem_of_find?_eq_some hs, hi⟩

mutual
/-- Below an `item` of a plain feed tree there is no further `item`, and the
extractor keeps every remote item. -/
theorem walk_inside_item (ancestors : List XmlNode) (i : XmlNode)
    (hs : nearestScope ancestors = some i) (hi : hasTag "item" i = true) :
    (n : XmlNode) → (∀ p ∈ n.walk ancestors, plainlyScoped p = true) →
      keptRemoteItems (n.walk ancestors)
          = ((n.walk ancestors).filter (fun p => hasTag "podcast:remoteItem" p.1)).map
              (fun p => p.1)
        ∧ (n.walk ancestors).filter (fun p => hasTag "item" p.1) = []
  | .text _, _ => by simp [XmlNode.walk, keptRemoteItems]
  | .element t attrs cs, h => by
      have hany := any_item_of_nearestScope ancestors i hs hi
      simp only [XmlNode.walk] at h ⊢
      have h0 := h _ (List.mem_cons_self _ _)
      simp only [plainlyScoped, hany, Bool.not_true, Bool.or_false, Bool.and_eq_true,
        Bool.not_eq_true', Bool.or_true, Bool.true_or, and_true] at h0
      obtain ⟨h1, h2⟩ := h0
      have hs' : nearestScope (XmlNode.element t attrs cs :: ancestors) = some i := by
        simp only [nearestScope, List.find?_cons, h1, h2, Bool.or_self]
        exact hs
      obtain ⟨ih1, ih2⟩ := walkList_inside_item (XmlNode.element t attrs cs :: ancestors) i
        hs' hi cs (fun p hp => h p (List.mem_cons_of_mem _ hp))
      have hp : podrollScoped (XmlNode.element t attrs cs, ancestors) = false := by
        simp [podrollScoped, hs, hasTag_item_not_podroll i hi]
      refine ⟨?_, ?_⟩
      · simp only [keptRemoteItems] at ih1 ⊢
        by_cases hr : hasTag "podcast:remoteItem" (XmlNode.element t attrs cs) = true
        · simpa [List.filter_cons, hr, hp] using ih1
        · simpa [List.filter_cons, hr] using ih1
      · simp [List.filter_cons, h1, ih2]
/-- Below an `item` of a plain feed tree there is no further `item`, and the
extractor keeps every remote item: the statement for a list of siblings. -/
theorem walkList_inside_item (ancestors : List XmlNode) (i : XmlNode)
    (hs : nearestScope ancestors = some i) (hi : hasTag "item" i = true) :
    (cs : List XmlNode) → (∀ p ∈ walkList ancestors cs, plainlyScoped p = true) →
      keptRemoteItems (walkList ancestors cs)
          = ((walkList ancestors cs).filter (fun p => hasTag "podcast:remoteItem" p.1)).map
              (fun p => p.1)
        ∧ (walkList ancestors cs).filter (fun p => hasTag "item" p.1) = []
  | [], _ => by simp [walkList, keptRemoteItems]
  | c :: cs, h => by
      simp only [walkList] at h ⊢
      obtain ⟨a1, a2⟩ := walk_inside_item ancestors i hs hi c
        (fun p hp => h p (List.mem_append_left _ hp))
      obtain ⟨b1, b2⟩ := walkList_inside_item ancestors i hs hi cs
        (fun p hp => h p (List.mem_append_right _ hp))
      refine ⟨?_, ?_⟩
      · rw [keptRemoteItems_append, a1, b1]; simp
      · simp [a2, b2]
end

theorem getElementsByTagName_walk (t : String) (attrs : List (String × String))
    (cs ancestors : List XmlNode) (tag : String) :
    (XmlNode.element t attrs cs).getElementsByTagName tag
      = ((walkList (XmlNode.element t attrs cs :: ancestors) cs).filter
          (fun p => hasTag tag p.1)).map (fun p => p.1) := by
  have e : ∀ W : List (XmlNode × List XmlNode),
      (W.filter (fun p => hasTag tag p.1)).map (fun p => p.1)
        = (W.map (fun p => p.1)).filter (hasTag tag) := by
    intro W
    rw [List.filter_map]
    rfl
  simp only [XmlNode.getElementsByTagName]
  rw [e, e, walkList_nodes [XmlNode.element t attrs cs] (XmlNode.element t attrs cs :: ancestors)]

theorem podrollScoped_of_no_item (n : XmlNode) (ancestors : List XmlNode)
    (hno : ancestors.any (hasTag "item") = false)
    (hp : ancestors.any (hasTag "podcast:podroll") = true) :
    podrollScoped (n, ancestors) = true := by
  unfold podrollScoped nearestScope
  cases hf : ancestors.find? (fun n => hasTag "item" n || hasTag "podcast:podroll" n) with
  | none =>
      obtain ⟨x, hx, hxp⟩ := List.any_eq_true.mp hp
      have := List.find?_eq_none.mp hf x hx
      simp [hxp] at this
  | some x =>
      have hx := List.mem_of_find?_eq_some hf
      have hpx := List.find?_some hf
      have hxi : hasTag "item" x = false := by
        cases hh : hasTag "item" x with
        | false => rfl
        | true =>
            have : ancestors.any (hasTag "item") = true := List.any_eq_true.mpr ⟨x, hx, hh⟩
            rw [hno] at this
            cases this
      simpa [hxi] using hpx

mutual
/-- Outside every `item` of a plain feed tree, the remote items the extractor
keeps are the remote items the parser collects episode by episode. -/
theorem walk_outside_item (ancestors : List XmlNode)
    (hno : ancestors.any (hasTag "item") = false) :
    (n : XmlNode) → (∀ p ∈ n.walk ancestors, plainlyScoped p = true) →
      keptRemoteItems (n.walk ancestors) = episodeRemoteItems (n.walk ancestors)
  | .text _, _ => by simp [XmlNode.walk, keptRemoteItems, episodeRemoteItems]
  | .element t attrs cs, h => by
      simp only [XmlNode.walk] at h ⊢
      have h0 := h _ (List.mem_cons_self _ _)
      have hrest : ∀ p ∈ walkList (XmlNode.element t attrs cs :: ancestors) cs,
          plainlyScoped p = true := fun p hp => h p (List.mem_cons_of_mem _ hp)
      by_cases hit : hasTag "item" (XmlNode.element t attrs cs) = true
      · have hs' : nearestScope (XmlNode.element t attrs cs :: ancestors)
            = some (XmlNode.element t attrs cs) := by
          simp [nearestScope, List.find?_cons, hit]
        obtain ⟨a1, a2⟩ := walkList_inside_item (XmlNode.element t attrs cs :: ancestors)
          (XmlNode.element t attrs cs) hs' hit cs hrest
        have hr := hasTag_item_not_remoteItem _ hit
        have e1 : keptRemoteItems ((XmlNode.element t attrs cs, ancestors)
              :: walkList (XmlNode.element t attrs cs :: ancestors) cs)
            = keptRemoteItems (walkList (XmlNode.element t attrs cs :: ancestors) cs) := by
          simp [keptRemoteItems, List.filter_cons, hr]
        have e2 : episodeRemoteItems ((XmlNode.element t attrs cs, ancestors)
              :: walkList (XmlNode.element t attrs cs :: ancestors) cs)
            = (XmlNode.element t attrs cs).getElementsByTagName "podcast:remoteItem" := by
          simp [episodeRemoteItems, List.filter_cons, hit, a2]
        rw [e1, e2, a1, getElementsByTagName_walk t attrs cs ancestors]
      · have hit' : hasTag "item" (XmlNode.element t attrs cs) = false := by
          simpa using hit
        have hno' : (XmlNode.element t attrs cs :: ancestors).any (hasTag "item") = false := by
          simp only [List.any_cons, hit', hno, Bool.or_self]
        have ih := walkList_outside_item (XmlNode.element t attrs cs :: ancestors) hno' cs hrest
        have e2 : episodeRemoteItems ((XmlNode.element t attrs cs, ancestors)
              :: walkList (XmlNode.element t attrs cs :: ancestors) cs)
            = episodeRemoteItems (walkList (XmlNode.element t attrs cs :: ancestors) cs) := by
          simp [episodeRemoteItems, List.filter_cons, hit']
        rw [e2, ← ih]
        by_cases hr : hasTag "podcast:remoteItem" (XmlNode.element t attrs cs) = true
        · have hpod : ancestors.any (hasTag "podcast:podroll") = true := by
            simpa [plainlyScoped, hit', hr, hno] using h0
          have hp := podrollScoped_of_no_item (XmlNode.element t attrs cs) ancestors hno hpod
          simp [keptRemoteItems, List.filter_cons, hr, hp]
        · simp [keptRemoteItems, List.filter_cons, hr]
/-- Outside every `item` of a plain feed tree, the remote items the extractor
keeps are the remote items the parser collects: the statement for a list of
siblings. -/
theorem walkList_outside_item (ancestors : List XmlNode)
    (hno : ancestors.any (hasTag "item") = false) :
    (cs : List XmlNode) → (∀ p ∈ walkList ancestors cs, plainlyScoped p = true) →
      keptRemoteItems (walkList ancestors cs) = episodeRemoteItems (walkList ancestors cs)
  | [], _ => by simp [walkList, keptRemoteItems, episodeRemoteItems]
  | c :: cs, h => by
      simp only [walkList] at h ⊢
      rw [keptRemoteItems_append, episodeRemoteItems_append,
        walk_outside_item ancestors hno c (fun p hp => h p (List.mem_append_left _ hp)),
        walkList_outside_item ancestors hno cs (fun p hp => h p (List.mem_append_right _ hp))]
end

theorem extractMinimalRemoteItems_kept (xmlDoc : Document) :
    extractMinimalRemoteItems xmlDoc
      = (keptRemoteItems (walkList [] xmlDoc.childNodes)).map referenceOf := by
  simp [extractMinimalRemoteItems, minimalLoop_eq, keptRemoteItems, Document.elementsByTagName]

theorem reference_summaryRemoteItemOf (ri : XmlNode) :
    (summaryRemoteItemOf ri).reference = (referenceOf ri).orNull := rfl

theorem orNull_of_not_empty (x : Option String) (h : x ≠ some "") : orNull x = x := by
  cases x with
  | none => rfl
  | some v =>
      have : v ≠ "" := fun e => h (by rw [e])
      simp [orNull, truthy, this]

theorem map_orNull_of_not_empty (l : List RemoteItemReference)
    (h : ∀ r ∈ l, r.feedGuid ≠ some "" ∧ r.itemGuid ≠ some "") :
    l.map RemoteItemReference.orNull = l := by
  induction l with
  | nil => rfl
  | cons r rest ih =>
      have hr := h r (List.mem_cons_self _ _)
      rw [List.map_cons, ih (fun q hq => h q (List.mem_cons_of_mem _ hq))]
      simp [RemoteItemReference.orNull, orNull_of_not_empty _ hr.1, orNull_of_not_empty _ hr.2]

/-- Claim C27, amended: for a feed tree in which no `item` is nested inside
another `item`, no `podcast:podroll` lies inside an `item` and every remote
item lies under an `item` or a `podcast:podroll`, and which moreover parses
without a `parsererror` element and has all its `item` elements inside its
first `channel` element, `parseFeed` returns a summary, and its per-episode
remoteItems lists concatenated in episode order are the references of the
ancestor-walk extractor with `x || null` applied to both values (an empty
attribute value read as absent). When no kept reference has an empty value,
the two sequences are equal. -/
theorem C27_parser_agrees_with_extractor (xmlDoc : Document) (channel : XmlNode)
    (htree : plainFeedTree xmlDoc = true)
    (hparsed : xmlDoc.getElementsByTagName "parsererror" = [])
    (hchannel : (xmlDoc.getElementsByTagName "channel").head? = some channel)
    (hitems : channel.getElementsByTagName "item" = xmlDoc.getElementsByTagName "item") :
    ∃ summary, parseFeed xmlDoc = .ok summary
      ∧ summary.references
          = (extractMinimalRemoteItems xmlDoc).map RemoteItemReference.orNull
      ∧ ((∀ r ∈ extractMinimalRemoteItems xmlDoc, r.feedGuid ≠ some "" ∧ r.itemGuid ≠ some "") →
          summary.references = extractMinimalRemoteItems xmlDoc) := by
  have hall : ∀ p ∈ walkList [] xmlDoc.childNodes, plainlyScoped p = true := by
    simpa [plainFeedTree, List.all_eq_true] using htree
  have hkey := walkList_outside_item [] (by rfl) xmlDoc.childNodes hall
  have hrefs : ((((channel.getElementsByTagName "item").map summaryEpisodeOf).flatMap
        (fun ep => ep.remoteItems.getD [])).map SummaryRemoteItem.reference)
      = (extractMinimalRemoteItems xmlDoc).map RemoteItemReference.orNull := by
    rw [extractMinimalRemoteItems_kept, hkey, hitems]
    simp only [episodeRemoteItems, Document.getElementsByTagName, Document.elementsByTagName,
      List.flatMap_map, List.map_flatMap, List.map_map]
    congr 1
    funext a
    simp only [Function.comp, summaryEpisodeOf, Option.getD_some, List.map_map]
    rfl
  have hok : ∃ c, parseFeed xmlDoc
      = .ok { channel := c,
              episodes := (channel.getElementsByTagName "item").map summaryEpisodeOf } := by
    simp only [parseFeed, hparsed, List.length_nil, gt_iff_lt, lt_self_iff_false, ↓reduceIte,
      hchannel]
    exact ⟨_, rfl⟩
  obtain ⟨c, hok⟩ := hok
  refine ⟨_, hok, hrefs, ?_⟩
  intro hne
  have := hrefs
  rw [map_orNull_of_not_empty _ hne] at this
  exact this

/-- The amended C27 applies to the running example, whose three episode
references the parser and the extractor both return. -/
theorem C27_witness :
    extractMinimalRemoteItems plainFeed
        = [{ feedGuid := some "f1", itemGuid := some "i1" },
           { feedGuid := some "f2", itemGuid := some "i2" },
           { feedGuid := some "f3", itemGuid := none }]
      ∧ ∃ summary, parseFeed plainFeed = .ok summary
        ∧ summary.references
            = (extractMinimalRemoteItems plainFeed).map RemoteItemReference.orNull
        ∧ ((∀ r ∈ extractMinimalRemoteItems plainFeed,
              r.feedGuid ≠ some "" ∧ r.itemGuid ≠ some "") →
            summary.references = extractMinimalRemoteItems plainFeed) :=
  ⟨by decide,
    C27_parser_agrees_with_extractor plainFeed plainChannel (by decide) rfl rfl rfl⟩

/-- Claim C27 fails as stated. Both feeds below satisfy the three conditions
of the claim. In the first the remote item has an empty `itemGuid` attribute:
the parser records null where the extractor records the empty string. In the
second the episode stands beside the channel: the parser, which reads the
`item` elements of the first channel only, returns no reference, the
extractor returns one. -/
theorem C27_counterexample :
    plainFeedTree emptyGuidFeed = true
      ∧ (match parseFeed emptyGuidFeed with
          | .ok summary => some summary.references
          | .error _ => none)
        = some [{ feedGuid := some "f1", itemGuid := none }]
      ∧ extractMinimalRemoteItems emptyGuidFeed
        = [{ feedGuid := some "f1", itemGuid := some "" }]
      ∧ plainFeedTree strayItemFeed = true
      ∧ (match parseFeed strayItemFeed with
          | .ok summary => some summary.references
          | .error _ => none)
        = some []
      ∧ extractMinimalRemoteItems strayItemFeed
        = [{ feedGuid := some "f1", itemGuid := some "i1" }] := by
  decide

/-! ## C25, C26: tracks extracted from an episode description -/

set_option maxRecDepth 100000 in
/-- The digest function passes the test suite of RFC 1321, appendix A.5. -/
theorem md5Digest_test_suite :
    md5Digest "" = "d41d8cd98f00b204e9800998ecf8427e"
      ∧ md5Digest "a" = "0cc175b9c0f1b6a831c399e269772661"
      ∧ md5Digest "abc" = "900150983cd24fb0d6963f7d28e17f72"
      ∧ md5Digest "message digest" = "f96b697d7cb7938d525a2f31aaf161d0"
      ∧ md5Digest "abcdefghijklmnopqrstuvwxyz" = "c3fcd3d76192e4007dfb496cca67e13b" := by
  decide

theorem descriptionTrack_withoutItemGuid (md5Hex : String → String) (nowMs1 nowMs2 : Int)
    (anchor : List Char × List Char) :
    (descriptionTrack md5Hex nowMs1 anchor).map DescriptionTrack.withoutItemGuid
      = (descriptionTrack md5Hex nowMs2 anchor).map DescriptionTrack.withoutItemGuid := by
  unfold descriptionTrack
  simp only
  split
  · split
    · rfl
    · cases podcastIds (jsTrim (String.mk anchor.1)).data with
      | some ids => rfl
      | none =>
          simp only
          split
          · rfl
          · split <;> rfl
  · rfl

theorem descriptionTrack_podcast (md5Hex : String → String) (nowMs1 nowMs2 : Int)
    (anchor : List Char × List Char)
    (h : (podcastIds (jsTrim (String.mk anchor.1)).data).isSome = true) :
    descriptionTrack md5Hex nowMs1 anchor = descriptionTrack md5Hex nowMs2 anchor := by
  cases hp : podcastIds (jsTrim (String.mk anchor.1)).data with
  | some ids => simp only [descriptionTrack, hp]
  | none => rw [hp] at h; cases h

theorem descriptionTrack_itemGuid (md5Hex : String → String) (nowMs : Int)
    (anchor : List Char × List Char) (t : DescriptionTrack)
    (h : descriptionTrack md5Hex nowMs anchor = some t)
    (hp : podcastIds (jsTrim (String.mk anchor.1)).data = none) :
    t.feedGuid = generateGuidFromString md5Hex (jsTrim (String.mk anchor.2))
      ∧ t.itemGuid
        = generateGuidFromString md5Hex (jsTrim (String.mk anchor.2) ++ toString nowMs) := by
  simp only [descriptionTrack, hp] at h
  split at h
  · split at h
    · cases h
    · split at h
      · cases h; exact ⟨rfl, rfl⟩
      · split at h
        · cases h; exact ⟨rfl, rfl⟩
        · cases h
  · cases h

/-- Claim C25, amended: for every description, digest function and pair of
clocks, two runs of `extractTracksFromDescription` return the same tracks with
the same artist, song, text and feedGuid. They return the same itemGuid as
well when every anchor links to a podcastindex.org episode. For an anchor
without such a link the itemGuid is the digest of the anchor text followed by
the reading of the clock, so it changes with the clock. -/
theorem C25_item_guid_of_text_depends_on_clock (md5Hex : String → String)
    (clock1 clock2 : Nat → Int) (description : String) :
    (extractTracksFromDescription md5Hex clock1 description).map
        DescriptionTrack.withoutItemGuid
      = (extractTracksFromDescription md5Hex clock2 description).map
        DescriptionTrack.withoutItemGuid
    ∧ ((∀ anchor ∈ anchorMatches description,
          (podcastIds (jsTrim (String.mk anchor.1)).data).isSome = true) →
        extractTracksFromDescription md5Hex clock1 description
          = extractTracksFromDescription md5Hex clock2 description)
    ∧ (∀ i anchor t, (i, anchor) ∈ (anchorMatches description).enum →
        descriptionTrack md5Hex (clock1 i) anchor = some t →
        podcastIds (jsTrim (String.mk anchor.1)).data = none →
        t ∈ extractTracksFromDescription md5Hex clock1 description
          ∧ t.itemGuid = generateGuidFromString md5Hex
              (jsTrim (String.mk anchor.2) ++ toString (clock1 i))) := by
  refine ⟨?_, ?_, ?_⟩
  · simp only [extractTracksFromDescription, List.map_filterMap]
    apply List.filterMap_congr
    intro p _
    exact descriptionTrack_withoutItemGuid md5Hex _ _ p.2
  · intro h
    simp only [extractTracksFromDescription]
    apply List.filterMap_congr
    intro p hp
    apply descriptionTrack_podcast
    exact h p.2 (List.snd_mem_of_mem_enum hp)
  · intro i anchor t hmem ht hp
    refine ⟨?_, (descriptionTrack_itemGuid md5Hex _ anchor t ht hp).2⟩
    simp only [extractTracksFromDescription, List.mem_filterMap]
    exact ⟨(i, anchor), hmem, ht⟩

set_option maxRecDepth 100000 in
/-- Claim C25 fails as stated: the example description has one anchor with a
podcastindex.org link and one without. Run at clock reading 1000 and at clock
reading 2000, with MD5 as the digest, the extraction returns the same
itemGuid for the first track and two different itemGuids for the second. -/
theorem C25_counterexample :
    (extractTracksFromDescription md5Digest (fun _ => 1000) exampleDescription).map
        (fun t => (t.full, t.itemGuid))
      = [("Artist - Song", "c0ac555d-962d-4203-73a9-00dcee35c4c1"),
         ("Some Song", "4bfcc68a-9e6d-381c-2451-6163baa42ea4")]
    ∧ (extractTracksFromDescription md5Digest (fun _ => 2000) exampleDescription).map
        (fun t => (t.full, t.itemGuid))
      = [("Artist - Song", "c0ac555d-962d-4203-73a9-00dcee35c4c1"),
         ("Some Song", "43eadeb7-7326-e0e9-9bc6-696124d9c7cb")] := by
  decide

theorem descriptionTrack_split (md5Hex : String → String) (nowMs : Int)
    (anchor artistAndSong : List Char × List Char)
    (hlength : (jsTrim (String.mk anchor.2) != "" && jsLength (jsTrim (String.mk anchor.2)) > 3)
      = true)
    (hskip : isSkippedPhrase (jsTrim (String.mk anchor.2)).data = false)
    (hmatch : trackMatch (jsTrim (String.mk anchor.2)).data = some artistAndSong) :
    (descriptionTrack md5Hex nowMs anchor).map (fun t => (t.artist, t.song, t.full))
      = some (jsTrim (String.mk artistAndSong.1), jsTrim (String.mk artistAndSong.2),
          jsTrim (String.mk anchor.2)) := by
  simp only [descriptionTrack, hlength, hskip, hmatch, if_true, Bool.false_eq_true, if_false,
    Option.map_some']

theorem extractTracksFromDescription_single (md5Hex : String → String) (clock : Nat → Int)
    (description : String) (anchor : List Char × List Char)
    (h : anchorMatches description = [anchor]) :
    extractTracksFromDescription md5Hex clock description
      = (descriptionTrack md5Hex (clock 0) anchor).toList := by
  simp only [extractTracksFromDescription, h, List.enum, List.enumFrom, List.filterMap_cons,
    List.filterMap_nil]
  cases descriptionTrack md5Hex (clock 0) anchor <;> rfl

/-- Claim C26 fails on the code: for the anchor text `Jay-Z - Song` the lazy
capture of `/^(.+?)\s*-\s*(.+)$/` stops before the first hyphen, so the track
has artist `Jay` and song `Z - Song`, whatever the digest function and the
clock. -/
theorem C26_hyphenated_artist_is_cut (md5Hex : String → String) (clock : Nat → Int) :
    (extractTracksFromDescription md5Hex clock hyphenDescription).map
        (fun t => (t.artist, t.song, t.full))
      = [("Jay", "Z - Song", "Jay-Z - Song")] := by
  have ha : anchorMatches hyphenDescription
      = [("https://example.com/jay".data, "Jay-Z - Song".data)] := by decide
  have ht := descriptionTrack_split md5Hex (clock 0)
    ("https://example.com/jay".data, "Jay-Z - Song".data) ("Jay".data, "Z - Song".data)
    (by decide) (by decide) (by decide)
  have e1 : jsTrim (String.mk "Jay".data) = "Jay" := by decide
  have e2 : jsTrim (String.mk "Z - Song".data) = "Z - Song" := by decide
  have e3 : jsTrim (String.mk "Jay-Z - Song".data) = "Jay-Z - Song" := by decide
  rw [e1, e2, e3] at ht
  rw [extractTracksFromDescription_single md5Hex clock _ _ ha]
  cases hd : descriptionTrack md5Hex (clock 0)
      ("https://example.com/jay".data, "Jay-Z - Song".data) with
  | none => rw [hd] at ht; cases ht
  | some t =>
      rw [hd] at ht
      simp only [Option.map_some', Option.some.injEq] at ht
      simp only [Option.toList, List.map_cons, List.map_nil, ht]

theorem dropWhile_append_of_stop {α : Type} (p : α → Bool) (l r : List α)
    (h : ∃ x ∈ l, p x = false) :
    ∃ c rest, (l ++ r).dropWhile p = c :: rest ∧ c ∈ l ∧ p c = false := by
  induction l with
  | nil => obtain ⟨x, hx, _⟩ := h; cases hx
  | cons a l ih =>
      cases hpa : p a with
      | false =>
          exact ⟨a, l ++ r, by simp [List.dropWhile_cons, hpa], List.mem_cons_self _ _, hpa⟩
      | true =>
          obtain ⟨x, hx, hpx⟩ := h
          have hx' : x ∈ l := by
            rcases List.mem_cons.mp hx with e | e
            · rw [e, hpa] at hpx; cases hpx
            · exact e
          obtain ⟨c, rest, e, hc, hpc⟩ := ih ⟨x, hx', hpx⟩
          exact ⟨c, rest, by simp [List.dropWhile_cons, hpa, e], List.mem_cons_of_mem _ hc, hpc⟩

theorem songAfterHyphen_plain (c : Char) (cs : List Char)
    (hc : isJsWhitespace c = false)
    (hline : ∀ x ∈ c :: cs, isLineTerminator x = false) :
    songAfterHyphen (' ' :: c :: cs) = some (c :: cs) := by
  have hsp : isJsWhitespace ' ' = true := by decide
  have hall : (c :: cs).all (fun x => !isLineTerminator x) = true := by
    rw [List.all_eq_true]
    intro x hx
    simp [hline x hx]
  simp only [songAfterHyphen, List.dropWhile_cons, hsp, hc, if_true, Bool.false_eq_true,
    if_false, hall]

theorem hyphenAndSong_separator (c : Char) (cs : List Char)
    (hc : isJsWhitespace c = false)
    (hline : ∀ x ∈ c :: cs, isLineTerminator x = false) :
    hyphenAndSong (' ' :: '-' :: ' ' :: c :: cs) = some (c :: cs) := by
  have hsp : isJsWhitespace ' ' = true := by decide
  have hhy : isJsWhitespace '-' = false := by decide
  have e : (' ' :: '-' :: ' ' :: c :: cs).dropWhile isJsWhitespace = '-' :: ' ' :: c :: cs := by
    rw [List.dropWhile_cons, hsp, if_pos rfl, List.dropWhile_cons, hhy]
    rfl
  unfold hyphenAndSong
  rw [e]
  exact songAfterHyphen_plain c cs hc hline

theorem lazyArtist_cons (artist : List Char) (c : Char) (cs : List Char) :
    lazyArtist artist (c :: cs)
      = match hyphenAndSong (c :: cs) with
        | some song => some (artist, song)
        | none => if isLineTerminator c then none else lazyArtist (artist ++ [c]) cs :=
  rfl

/-- The lazy capture runs over an artist name without hyphen up to the
separator ` - `. -/
theorem lazyArtist_plain (c : Char) (cs : List Char)
    (hc : isJsWhitespace c = false)
    (hline : ∀ x ∈ c :: cs, isLineTerminator x = false) :
    ∀ (name taken : List Char),
      (∀ x ∈ name, x ≠ '-' ∧ isLineTerminator x = false) →
      (∀ h : name ≠ [], isJsWhitespace (name.getLast h) = false) →
      lazyArtist taken (name ++ ' ' :: '-' :: ' ' :: c :: cs) = some (taken ++ name, c :: cs) := by
  intro name
  induction name with
  | nil =>
      intro taken _ _
      rw [List.nil_append, lazyArtist_cons, hyphenAndSong_separator c cs hc hline,
        List.append_nil]
  | cons a name ih =>
      intro taken hname hlast
      have ha := hname a (List.mem_cons_self _ _)
      have hstop : ∃ x ∈ a :: name, isJsWhitespace x = false :=
        ⟨_, List.getLast_mem (List.cons_ne_nil a name), hlast (List.cons_ne_nil a name)⟩
      obtain ⟨d, rest, e, hd, _⟩ :=
        dropWhile_append_of_stop isJsWhitespace (a :: name) (' ' :: '-' :: ' ' :: c :: cs) hstop
      have hdne : (d == '-') = false := by
        simpa using (hname d hd).1
      have hnone : hyphenAndSong (a :: (name ++ ' ' :: '-' :: ' ' :: c :: cs)) = none := by
        rw [List.cons_append] at e
        simp only [hyphenAndSong, e, hdne, Bool.false_eq_true, if_false]
      have hlast' : ∀ h : name ≠ [], isJsWhitespace (name.getLast h) = false := by
        intro h
        have := hlast (List.cons_ne_nil a name)
        rwa [List.getLast_cons h] at this
      rw [List.cons_append, lazyArtist_cons, hnone]
      simp only [ha.2, Bool.false_eq_true, if_false]
      rw [ih (taken ++ [a]) (fun x hx => hname x (List.mem_cons_of_mem _ hx)) hlast']
      simp

/-- An anchor text `A - S` whose artist name has no hyphen after its first
character is split as written: capture 1 is the artist name, capture 2 the
song. -/
theorem trackMatch_plain_artist (a c : Char) (name cs : List Char)
    (ha : isLineTerminator a = false)
    (hname : ∀ x ∈ name, x ≠ '-' ∧ isLineTerminator x = false)
    (hlast : ∀ h : name ≠ [], isJsWhitespace (name.getLast h) = false)
    (hc : isJsWhitespace c = false)
    (hline : ∀ x ∈ c :: cs, isLineTerminator x = false) :
    trackMatch (a :: name ++ ' ' :: '-' :: ' ' :: c :: cs) = some (a :: name, c :: cs) := by
  rw [List.cons_append, trackMatch]
  simp only [ha, Bool.false_eq_true, if_false]
  rw [lazyArtist_plain c cs hc hline name [a] hname hlast]
  rfl

end Playlist
